import Mathlib

/-! # Distributed file list (`src/mpiwalk/bayer_flist.cpp`)

A shallow embedding of the file-list subsystem and proofs about it.

Conventions of the embedding.

* A byte is a natural number; a byte buffer is a `List Nat`.  A C string
  argument is given by the bytes found at its address: the string itself
  ends at the first `0` byte.
* Unsigned fixed-width fields (`uint32_t`, `uint64_t`) are naturals, and
  every cast of the source reduces modulo `2^32` or `2^64`.  `int` values
  are integers.  Path lengths and record counts are far below `2^31`
  (paths are bounded by `CIRCLE_MAX_STRING_LEN`), so arithmetic on them
  is not reduced.
* Storage obtained from `bayer_malloc` is uninitialised: the functions
  that allocate take the previous contents of the storage as a `raw`
  argument and overwrite the fields the source assigns.
* List elements live in a per-list heap (`flist_t.heap`); an `elem_t*` is
  an `Option Nat`, the position of the element in the heap, `none` being
  `NULL`.
* A collective operation is a function of the values contributed by all
  participants, listed by rank.
-/

namespace BayerFlist

/-! ## Types -/

/-- The element of the linked list of records, `elem_t` (lines 33-46). -/
structure elem_t where
  file : List Nat
  depth : Int
  type : Nat
  detail : Int
  mode : Nat
  uid : Nat
  gid : Nat
  atime : Nat
  mtime : Nat
  ctime : Nat
  size : Nat
  next : Option Nat
deriving DecidableEq, Repr

/-- An MPI datatype built by `DTCMP_Type_create_series`: the byte sizes of
its consecutive fields.  `none` in a `buf_t` stands for `MPI_DATATYPE_NULL`. -/
abbrev MPI_Datatype := List Nat

/-- The array holder `buf_t` (lines 49-54); `buf = none` is `NULL`. -/
structure buf_t where
  buf : Option (List Nat)
  count : Nat
  chars : Nat
  dt : Option MPI_Datatype
deriving DecidableEq, Repr

/-- The distributed file list `flist_t` (lines 57-79), with the heap that
holds its elements.  Maps are association lists, newest binding first. -/
structure flist_t where
  detail : Int
  total_files : Nat
  max_file_name : Nat
  min_depth : Int
  max_depth : Int
  list_count : Nat
  list_head : Option Nat
  list_tail : Option Nat
  list_index : Option (List Nat)
  heap : List elem_t
  users : buf_t
  groups : buf_t
  user_name2id : List (List Nat × Nat)
  user_id2name : List (Nat × List Nat)
  group_name2id : List (List Nat × Nat)
  group_id2name : List (Nat × List Nat)
deriving DecidableEq, Repr

/-- The fields of `struct stat` that the source reads. -/
structure stat_t where
  st_mode : Nat
  st_uid : Nat
  st_gid : Nat
  st_atime : Int
  st_mtime : Int
  st_ctime : Int
  st_size : Int
deriving DecidableEq, Repr

/-! ## File types and depth -/

/-- Modelled from the spec: the enumerators of `bayer_filetype` (declared
in `bayer.h`, which is not in the source tree), by their integer values. -/
def TYPE_NULL : Nat := 0

/-- Modelled from the spec: enumerator of `bayer_filetype`, see `TYPE_NULL`. -/
def TYPE_UNKNOWN : Nat := 1

/-- Modelled from the spec: enumerator of `bayer_filetype`, see `TYPE_NULL`. -/
def TYPE_FILE : Nat := 2

/-- Modelled from the spec: enumerator of `bayer_filetype`, see `TYPE_NULL`. -/
def TYPE_DIR : Nat := 3

/-- Modelled from the spec: enumerator of `bayer_filetype`, see `TYPE_NULL`. -/
def TYPE_LINK : Nat := 4

/-- Modelled from the spec: POSIX mode bits; the `S_ISDIR` test of
`sys/stat.h` (file-type mask `0170000`, directory `0040000`). -/
def S_ISDIR (mode : Nat) : Bool := mode &&& 61440 == 16384

/-- Modelled from the spec: POSIX mode bits; `S_ISREG` (regular `0100000`). -/
def S_ISREG (mode : Nat) : Bool := mode &&& 61440 == 32768

/-- Modelled from the spec: POSIX mode bits; `S_ISLNK` (link `0120000`). -/
def S_ISLNK (mode : Nat) : Bool := mode &&& 61440 == 40960

/-- The function `get_bayer_filetype` (lines 116-131). -/
def get_bayer_filetype (mode : Nat) : Nat :=
  if S_ISDIR mode then TYPE_DIR
  else if S_ISREG mode then TYPE_FILE
  else if S_ISLNK mode then TYPE_LINK
  else TYPE_UNKNOWN

/-- The function `get_depth` (lines 134-144): scan up to the terminating
NUL, counting the bytes equal to `'/'` (47). -/
def get_depth : List Nat → Int
  | [] => 0
  | c :: cs => if c = 0 then 0 else (if c = 47 then 1 else 0) + get_depth cs

/-- Modelled from the spec: the allocator wrapper `bayer_malloc` (not in
the source tree) returns `NULL` for a request of zero bytes and storage
of arbitrary contents otherwise; this is the test for the `NULL` result. -/
def bayer_malloc_null (size : Nat) : Prop := size = 0

instance (size : Nat) : Decidable (bayer_malloc_null size) := by
  unfold bayer_malloc_null; infer_instance

/-- Modelled from the spec: the copy made by the wrapper `bayer_strdup`
(not in the source tree): the bytes before the first NUL. -/
def bayer_strdup : List Nat → List Nat
  | [] => []
  | c :: cs => if c = 0 then [] else c :: bayer_strdup cs

/-- The C function `strlen`. -/
def strlen (s : List Nat) : Nat := (bayer_strdup s).length

/-! ## The linked list of a shard -/

/-- The function `list_insert_elem` (lines 177-201).  `elem` is the
element just allocated; its address is the next free heap position. -/
def list_insert_elem (flist : flist_t) (elem : elem_t) : flist_t :=
  let addr := flist.heap.length
  let head := if flist.list_head = none then some addr else flist.list_head
  let heap1 := match flist.list_tail with
    | some t => List.modify (fun e => { e with next := some addr }) t flist.heap
    | none => flist.heap
  { flist with
    list_head := head
    list_tail := some addr
    heap := heap1 ++ [{ elem with next := none }]
    list_count := flist.list_count + 1
    list_index := none }

/-- The function `list_insert_stat` (lines 204-238); `raw` is the
uninitialised element returned by `bayer_malloc`. -/
def list_insert_stat (flist : flist_t) (raw : elem_t) (fpath : List Nat) (mode : Nat)
    (sb : Option stat_t) : flist_t :=
  let elem := { raw with
    file := bayer_strdup fpath
    depth := get_depth fpath
    type := get_bayer_filetype mode }
  let elem := match sb with
    | some st => { elem with
        detail := 1
        mode := st.st_mode % 2 ^ 32
        uid := st.st_uid % 2 ^ 32
        gid := st.st_gid % 2 ^ 32
        atime := (st.st_atime % 2 ^ 32).toNat
        mtime := (st.st_mtime % 2 ^ 32).toNat
        ctime := (st.st_ctime % 2 ^ 32).toNat
        size := (st.st_size % 2 ^ 64).toNat }
    | none => { elem with detail := 0 }
  list_insert_elem flist elem

/-- The function `list_insert_lite` (lines 241-262). -/
def list_insert_lite (flist : flist_t) (raw : elem_t) (fpath : List Nat) (type : Nat) :
    flist_t :=
  list_insert_elem flist { raw with
    file := bayer_strdup fpath
    depth := get_depth fpath
    type := type
    detail := 0 }

/-- One byte of a buffer; a read outside the buffer yields 0. -/
def peek (buf : List Nat) (p : Nat) : Nat := buf[p]?.getD 0 % 256

/-- A host-order (little-endian) `uint32_t` load, `*(uint32_t*)ptr`. -/
def load_u32 (buf : List Nat) (p : Nat) : Nat :=
  peek buf p + 256 * peek buf (p + 1) + 65536 * peek buf (p + 2) + 16777216 * peek buf (p + 3)

/-- A host-order `uint64_t` load, `*(uint64_t*)ptr`. -/
def load_u64 (buf : List Nat) (p : Nat) : Nat :=
  load_u32 buf p + 4294967296 * load_u32 buf (p + 4)

/-- The function `list_insert_ptr` (lines 265-311): decode the packed
record found at `ptr` in `buf`, whose path field is `chars` bytes wide. -/
def list_insert_ptr (flist : flist_t) (buf : List Nat) (ptr : Nat) (chars : Nat) : flist_t :=
  let file := buf.drop ptr
  let ptr := ptr + chars
  let mode := load_u32 buf ptr
  list_insert_elem flist
    { file := bayer_strdup file
      depth := get_depth file
      detail := 1
      mode := mode
      type := get_bayer_filetype mode
      uid := load_u32 buf (ptr + 4)
      gid := load_u32 buf (ptr + 8)
      atime := load_u32 buf (ptr + 12)
      mtime := load_u32 buf (ptr + 16)
      ctime := load_u32 buf (ptr + 20)
      size := load_u64 buf (ptr + 24)
      next := none }

/-- The traversal `while (current != NULL) { ...; current = current->next; }`
from `start`, giving the elements visited.  `fuel` bounds the number of
steps; `list_elems_of_ok` shows that the heap size is enough. -/
def list_walk (heap : List elem_t) : Nat → Option Nat → List elem_t
  | 0, _ => []
  | _ + 1, none => []
  | fuel + 1, some a =>
    match heap[a]? with
    | none => []
    | some e => e :: list_walk heap fuel e.next

/-- The records of a shard in list order, as every traversal from
`list_head` sees them. -/
def list_elems (flist : flist_t) : List elem_t :=
  list_walk flist.heap flist.heap.length flist.list_head

/-- The loop of `list_get_elem` that fills the index (lines 346-352): at
most `max` element addresses, following `next` from `current`. -/
def index_fill (heap : List elem_t) : Nat → Option Nat → List Nat
  | 0, _ => []
  | _ + 1, none => []
  | n + 1, some a => a :: index_fill heap n (heap[a]?.bind fun e => e.next)

/-- The function `list_get_elem` (lines 335-361), with 8-byte pointers:
no index is kept for an empty list, for which `bayer_malloc` gives `NULL`.
An index entry that the fill loop did not reach reads as `NULL`. -/
def list_get_elem (flist : flist_t) (index : Int) : flist_t × Option Nat :=
  let max := flist.list_count
  let flist1 :=
    if flist.list_index = none then
      let index_size := max * 8
      { flist with
        list_index := if bayer_malloc_null index_size then none
                      else some (index_fill flist.heap max flist.list_head) }
    else flist
  if 0 ≤ index ∧ index < (max : Int) then
    (flist1, (flist1.list_index.getD [])[index.toNat]?)
  else (flist1, none)

/-- The function `bayer_flist_new` (lines 619-645); `raw` is the
uninitialised storage of the new list. -/
def bayer_flist_new (raw : flist_t) : flist_t :=
  { raw with
    detail := 0
    total_files := 0
    list_count := 0
    list_head := none
    list_tail := none
    list_index := none
    heap := []
    users := { buf := none, count := 0, chars := 0, dt := none }
    groups := { buf := none, count := 0, chars := 0, dt := none }
    user_name2id := []
    user_id2name := []
    group_name2id := []
    group_id2name := [] }

/-- The function `bayer_flist_global_size` (lines 673-678). -/
def bayer_flist_global_size (flist : flist_t) : Nat := flist.total_files

/-- The function `bayer_flist_size` (lines 681-686). -/
def bayer_flist_size (flist : flist_t) : Nat := flist.list_count

/-- The function `bayer_flist_file_name` (lines 739-748): the list after
the call, the return code and the value stored through `name`, if any. -/
def bayer_flist_file_name (flist : flist_t) (index : Int) :
    flist_t × Int × Option (List Nat) :=
  let r := list_get_elem flist index
  match r.2.bind fun a => r.1.heap[a]? with
  | some elem => (r.1, 0, some elem.file)
  | none => (r.1, -1, none)

/-- The function `bayer_flist_file_depth` (lines 750-759): the list after
the call, the return code and the value stored through `depth`, if any. -/
def bayer_flist_file_depth (flist : flist_t) (index : Int) : flist_t × Int × Option Int :=
  let r := list_get_elem flist index
  match r.2.bind fun a => r.1.heap[a]? with
  | some elem => (r.1, 0, some elem.depth)
  | none => (r.1, -1, none)

/-- An operation on the linked list of a shard. -/
inductive list_op where
  | insert_stat (raw : elem_t) (fpath : List Nat) (mode : Nat) (sb : Option stat_t)
  | insert_lite (raw : elem_t) (fpath : List Nat) (type : Nat)
  | insert_ptr (buf : List Nat) (ptr : Nat) (chars : Nat)
  | get_elem (index : Int)

/-- The effect of one operation. -/
def list_step (flist : flist_t) : list_op → flist_t
  | .insert_stat raw fpath mode sb => list_insert_stat flist raw fpath mode sb
  | .insert_lite raw fpath type => list_insert_lite flist raw fpath type
  | .insert_ptr buf ptr chars => list_insert_ptr flist buf ptr chars
  | .get_elem index => (list_get_elem flist index).1

/-- The shard reached from a new list by a sequence of operations. -/
def list_run (raw : flist_t) (ops : List list_op) : flist_t :=
  ops.foldl list_step (bayer_flist_new raw)

/-- The path string handed to an insertion, if the operation is one. -/
def op_path : list_op → Option (List Nat)
  | .insert_stat _ fpath _ _ => some (bayer_strdup fpath)
  | .insert_lite _ fpath _ => some (bayer_strdup fpath)
  | .insert_ptr buf ptr _ => some (bayer_strdup (buf.drop ptr))
  | .get_elem _ => none

/-- The paths inserted by a sequence of operations, in order. -/
def inserted_paths (ops : List list_op) : List (List Nat) := ops.filterMap op_path

/-- The structural invariant of a shard: elements are chained in
allocation order, the count is their number, and a cached index lists
every element. -/
def list_ok (f : flist_t) : Prop :=
  f.list_count = f.heap.length ∧
  f.list_head = (if f.heap.length = 0 then none else some 0) ∧
  f.list_tail = (if f.heap.length = 0 then none else some (f.heap.length - 1)) ∧
  (∀ i, i < f.heap.length →
    f.heap[i]?.map (fun e => e.next) =
      some (if i + 1 < f.heap.length then some (i + 1) else none)) ∧
  (f.list_index = none ∨ f.list_index = some (List.range f.heap.length))

instance (f : flist_t) : Decidable (list_ok f) := by
  unfold list_ok; infer_instance

/-- An element with its link cleared: the data of the record. -/
def unlink (e : elem_t) : elem_t := { e with next := none }

/-- The path and depth of a record. -/
def path_depth (e : elem_t) : List Nat × Int := (e.file, e.depth)

/-- The element that `list_insert_stat` fills in (lines 207-232) before it
appends it. -/
def elem_of_stat (raw : elem_t) (fpath : List Nat) (mode : Nat) (sb : Option stat_t) :
    elem_t :=
  let elem := { raw with
    file := bayer_strdup fpath
    depth := get_depth fpath
    type := get_bayer_filetype mode }
  match sb with
  | some st => { elem with
      detail := 1
      mode := st.st_mode % 2 ^ 32
      uid := st.st_uid % 2 ^ 32
      gid := st.st_gid % 2 ^ 32
      atime := (st.st_atime % 2 ^ 32).toNat
      mtime := (st.st_mtime % 2 ^ 32).toNat
      ctime := (st.st_ctime % 2 ^ 32).toNat
      size := (st.st_size % 2 ^ 64).toNat }
  | none => { elem with detail := 0 }

/-- The element that `list_insert_lite` fills in (lines 244-256). -/
def elem_of_lite (raw : elem_t) (fpath : List Nat) (type : Nat) : elem_t :=
  { raw with
    file := bayer_strdup fpath
    depth := get_depth fpath
    type := type
    detail := 0 }

/-- The element that `list_insert_ptr` decodes (lines 268-305). -/
def elem_of_ptr (buf : List Nat) (ptr chars : Nat) : elem_t :=
  { file := bayer_strdup (buf.drop ptr)
    depth := get_depth (buf.drop ptr)
    detail := 1
    mode := load_u32 buf (ptr + chars)
    type := get_bayer_filetype (load_u32 buf (ptr + chars))
    uid := load_u32 buf (ptr + chars + 4)
    gid := load_u32 buf (ptr + chars + 8)
    atime := load_u32 buf (ptr + chars + 12)
    mtime := load_u32 buf (ptr + chars + 16)
    ctime := load_u32 buf (ptr + chars + 20)
    size := load_u64 buf (ptr + chars + 24)
    next := none }

/-- The record that an operation inserts, link cleared, if it is an
insertion. -/
def op_elem : list_op → Option elem_t
  | .insert_stat raw fpath mode sb => some (unlink (elem_of_stat raw fpath mode sb))
  | .insert_lite raw fpath type => some (unlink (elem_of_lite raw fpath type))
  | .insert_ptr buf ptr chars => some (unlink (elem_of_ptr buf ptr chars))
  | .get_elem _ => none

/-- The records inserted by a sequence of operations, in order of
insertion. -/
def inserted_elems (ops : List list_op) : List elem_t := ops.filterMap op_elem

/-- An insertion with a stat record passes the mode of that record as its
mode argument, as every call of `list_insert_stat` does (lines 921, 961
and 1054). -/
def op_mode_of_stat : list_op → Prop
  | .insert_stat _ _ mode (some st) => mode = st.st_mode
  | _ => True

instance (op : list_op) : Decidable (op_mode_of_stat op) := by
  cases op with
  | insert_stat raw fpath mode sb =>
    cases sb with
    | none => exact isTrue trivial
    | some st => unfold op_mode_of_stat; infer_instance
  | insert_lite raw fpath type => exact isTrue trivial
  | insert_ptr buf ptr chars => exact isTrue trivial
  | get_elem index => exact isTrue trivial

/-! ## Collectives and datatypes -/

/-- Modelled from the spec: all-reduce with MAX over the non-negative
values contributed by the participants (the messaging layer is not in the
source tree). -/
def MPI_Allreduce_max (contrib : List Nat) : Nat := contrib.foldl max 0

/-- Modelled from the spec: all-reduce with SUM over the values
contributed by the participants. -/
def MPI_Allreduce_sum (contrib : List Nat) : Nat := contrib.sum

/-- Modelled from the spec: exclusive prefix-sum scan.  Participant `rank`
receives the sum of the values of the lower ranks; on rank 0 the receive
buffer keeps its previous contents `raw`. -/
def MPI_Exscan_sum (contrib : List Nat) (rank : Nat) (raw : Nat) : Nat :=
  if rank = 0 then raw else (contrib.take rank).sum

/-- Modelled from the spec: the extent of a type made by
`DTCMP_Type_create_series`, whose fields follow one another without
padding: the sum of the field sizes. -/
def MPI_Type_get_extent (dt : MPI_Datatype) : Nat := dt.sum

/-- The function `create_stattype` (lines 146-174): a path of `chars`
bytes followed by mode, uid, gid, atime, mtime, ctime (`uint32_t`) and
size (`uint64_t`), or by the file type alone. -/
def create_stattype (detail : Int) (chars : Nat) : MPI_Datatype :=
  if detail ≠ 0 then [chars, 4, 4, 4, 4, 4, 4, 8] else [chars, 4]

/-- The function `create_stridtype` (lines 1071-1085). -/
def create_stridtype (chars : Nat) : MPI_Datatype := [chars, 4]

/-! ## Packing records -/

/-- Store the bytes `bs` at `p`, `p + 1`, ...; a store outside the buffer
is dropped. -/
def poke_bytes : List Nat → Nat → List Nat → List Nat
  | buf, _, [] => buf
  | buf, p, b :: bs => poke_bytes (buf.set p b) (p + 1) bs

/-- The C function `strcpy`: the string at `src` with its terminating NUL. -/
def strcpy (buf : List Nat) (dst : Nat) (src : List Nat) : List Nat :=
  poke_bytes buf dst (bayer_strdup src ++ [0])

/-- A host-order (little-endian) `uint32_t` store, `*(uint32_t*)ptr = v`. -/
def store_u32 (buf : List Nat) (p : Nat) (v : Nat) : List Nat :=
  poke_bytes buf p [v % 256, v / 256 % 256, v / 65536 % 256, v / 16777216 % 256]

/-- A host-order `uint64_t` store, `*(uint64_t*)ptr = v`. -/
def store_u64 (buf : List Nat) (p : Nat) (v : Nat) : List Nat :=
  store_u32 (store_u32 buf p (v % 4294967296)) (p + 4) (v / 4294967296 % 4294967296)

/-- The first loop of `list_convert_to_dt` (lines 445-457): the largest
`strlen(file) + 1`; the count it also keeps is the number of elements. -/
def list_max_len (elems : List elem_t) : Nat :=
  elems.foldl (fun max current =>
    let len := strlen current.file + 1
    if len > max then len else max) 0

/-- Lines 459-465 of `list_convert_to_dt`: the smallest multiple of 8 that
fits `max`. -/
def round_up8 (max : Nat) : Nat :=
  let max8 := max / 8
  let max8 := if max8 * 8 < max then max8 + 1 else max8
  max8 * 8

/-- The value a participant contributes to the all-reduce of
`list_convert_to_dt` (line 469). -/
def list_local_max8 (flist : flist_t) : Nat := round_up8 (list_max_len (list_elems flist))

/-- The body of the copy loop of `list_convert_to_dt` (lines 491-546) for
one element: buffer and write pointer before, buffer and pointer after. -/
def convert_elem (detail : Int) (chars : Nat) (st : List Nat × Nat) (current : elem_t) :
    List Nat × Nat :=
  let buf := strcpy st.1 st.2 current.file
  let ptr := st.2 + chars
  if detail ≠ 0 then
    let buf := store_u32 buf ptr current.mode
    let ptr := ptr + 4
    let buf := store_u32 buf ptr current.uid
    let ptr := ptr + 4
    let buf := store_u32 buf ptr current.gid
    let ptr := ptr + 4
    let buf := store_u32 buf ptr current.atime
    let ptr := ptr + 4
    let buf := store_u32 buf ptr current.mtime
    let ptr := ptr + 4
    let buf := store_u32 buf ptr current.ctime
    let ptr := ptr + 4
    let buf := store_u64 buf ptr current.size
    let ptr := ptr + 8
    (buf, ptr)
  else
    let buf := store_u32 buf ptr current.type
    let ptr := ptr + 4
    (buf, ptr)

/-- The function `list_convert_to_dt` (lines 429-555) on the participant
holding `flist`, where `world` lists the file lists of all participants
and `raw` gives the contents of the buffer as allocated. -/
def list_convert_to_dt (world : List flist_t) (flist : flist_t) (raw : Nat → Nat) : buf_t :=
  let detail := flist.detail
  let elems := list_elems flist
  let count := elems.length
  let chars := MPI_Allreduce_max (world.map list_local_max8)
  if chars ≤ 0 then { buf := none, count := 0, chars := 0, dt := none }
  else
    let dt := create_stattype detail chars
    let extent := MPI_Type_get_extent dt
    let bufsize := extent * count
    let buf := (List.range bufsize).map raw
    let buf := (elems.foldl (convert_elem detail chars) (buf, 0)).1
    { buf := if bayer_malloc_null bufsize then none else some buf
      count := count
      chars := chars
      dt := some dt }

/-- The length of the longest path held by any participant. -/
def longest_path (world : List flist_t) : Nat :=
  ((world.flatMap list_elems).map fun e => strlen e.file).foldr max 0

/-! ## Decoding records -/

/-- The insertion loop of `read_cache_v3` (lines 1671-1678): `count`
records decoded with `list_insert_ptr`, the read pointer advancing by the
extent of the file datatype. -/
def read_v3_insert (buf : List Nat) (chars extent : Nat) : Nat → Nat → flist_t → flist_t
  | 0, _, flist => flist
  | count + 1, ptr, flist =>
    read_v3_insert buf chars extent count (ptr + extent) (list_insert_ptr flist buf ptr chars)

/-- The insertion loop of `read_cache_v2` (lines 1510-1523) from record
number `i` on: the path at the stride, then a `uint32_t` type, inserted
with `list_insert_lite`; `raw i` is the storage allocated for record `i`. -/
def read_v2_insert (buf : List Nat) (chars : Nat) (raw : Nat → elem_t) :
    Nat → Nat → Nat → flist_t → flist_t
  | 0, _, _, flist => flist
  | count + 1, i, ptr, flist =>
    let name := buf.drop ptr
    let ptr := ptr + chars
    let type := load_u32 buf ptr
    let ptr := ptr + 4
    read_v2_insert buf chars raw count (i + 1) ptr (list_insert_lite flist (raw i) name type)

/-- The fields of a detailed record that the cache stores. -/
def detail_of (e : elem_t) : List Nat × Nat × Nat × Nat × Nat × Nat × Nat × Nat :=
  (e.file, e.mode, e.uid, e.gid, e.atime, e.mtime, e.ctime, e.size)

/-- The fields of a lite record that the cache stores. -/
def lite_of (e : elem_t) : List Nat × Nat := (e.file, e.type)

/-- The stat fields of a record are within the range of their C types
(`uint32_t`, and `uint64_t` for the size). -/
def fields_in_range (e : elem_t) : Prop :=
  e.mode < 2 ^ 32 ∧ e.uid < 2 ^ 32 ∧ e.gid < 2 ^ 32 ∧ e.atime < 2 ^ 32 ∧
  e.mtime < 2 ^ 32 ∧ e.ctime < 2 ^ 32 ∧ e.size < 2 ^ 64

instance (e : elem_t) : Decidable (fields_in_range e) := by
  unfold fields_in_range; infer_instance

/-- The record that `list_insert_ptr` decodes at `ptr`. -/
def decode_detail (buf : List Nat) (ptr chars : Nat) :
    List Nat × Nat × Nat × Nat × Nat × Nat × Nat × Nat :=
  (bayer_strdup (buf.drop ptr), load_u32 buf (ptr + chars), load_u32 buf (ptr + chars + 4),
    load_u32 buf (ptr + chars + 8), load_u32 buf (ptr + chars + 12),
    load_u32 buf (ptr + chars + 16), load_u32 buf (ptr + chars + 20),
    load_u64 buf (ptr + chars + 24))

/-- The record that the loop of `read_cache_v2` decodes at `ptr`. -/
def decode_lite (buf : List Nat) (ptr chars : Nat) : List Nat × Nat :=
  (bayer_strdup (buf.drop ptr), load_u32 buf (ptr + chars))

/-- Pack a shard with `list_convert_to_dt`, then decode the packed buffer
into a new list with the loop of `read_cache_v3`, at the stride of the
buffer and the extent of the detailed file datatype. -/
def pack_unpack_detail (world : List flist_t) (flist : flist_t) (raw : Nat → Nat)
    (raw_list : flist_t) : flist_t :=
  let files := list_convert_to_dt world flist raw
  read_v3_insert (files.buf.getD []) files.chars
    (MPI_Type_get_extent (create_stattype 1 files.chars)) files.count 0
    (bayer_flist_new raw_list)

/-- Pack a shard with `list_convert_to_dt`, then decode the packed buffer
into a new list with the loop of `read_cache_v2`. -/
def pack_unpack_lite (world : List flist_t) (flist : flist_t) (raw : Nat → Nat)
    (raw_list : flist_t) (raw_elems : Nat → elem_t) : flist_t :=
  let files := list_convert_to_dt world flist raw
  read_v2_insert (files.buf.getD []) files.chars raw_elems files.count 0 0
    (bayer_flist_new raw_list)

/-! ## Reading a cache: partition of the records -/

/-- The count of records a participant reads (lines 1475-1481 of
`read_cache_v2`, lines 1593-1599 of `read_cache_v3`). -/
def read_count (all_count : Nat) (ranks : Nat) (rank : Nat) : Nat :=
  let count := all_count / ranks
  let remainder := all_count - count * ranks
  if rank < remainder then count + 1 else count

/-- The record offset of a reading participant (lines 1483-1488 and
1601-1606): exclusive scan of the counts, 0 on rank 0. -/
def read_offset_records (all_count : Nat) (ranks : Nat) (rank : Nat) (raw : Nat) : Nat :=
  let offset := MPI_Exscan_sum ((List.range ranks).map (read_count all_count ranks)) rank raw
  if rank = 0 then 0 else offset

/-! ## The cache file and the parallel I/O substrate -/

/-- Modelled from the spec: the cache file behind the I/O substrate
("typed read/write at explicit offsets", with "displacement arithmetic"
in bytes).  The file holds `uint64_t` header words and items of a
datatype (the memory image of one instance, the external representation
being applied on write and undone on read), each found at the byte
displacement where it was written. -/
structure cache_file where
  words : Nat → Nat
  items : Nat → Option (List Nat)

/-- Modelled from the spec: the file after `MPI_File_open` with
`MPI_MODE_CREATE` and `MPI_File_set_size(fh, 0)`. -/
def cache_file_empty : cache_file := { words := fun _ => 0, items := fun _ => none }

/-- Modelled from the spec: `MPI_File_write_at` of consecutive `uint64_t`
values at the byte displacement `pos`. -/
def MPI_File_write_u64 : cache_file → Nat → List Nat → cache_file
  | fh, _, [] => fh
  | fh, pos, v :: vs =>
    MPI_File_write_u64 { fh with words := fun a => if a = pos then v else fh.words a }
      (pos + 8) vs

/-- Modelled from the spec: `MPI_File_read_at` of `count` consecutive
`uint64_t` values at the byte displacement `pos`. -/
def MPI_File_read_u64 (fh : cache_file) (pos count : Nat) : List Nat :=
  (List.range count).map fun i => fh.words (pos + 8 * i)

/-- Modelled from the spec: `MPI_File_write_at` / `MPI_File_write_at_all`
of `count` items of a datatype of the given extent, taken from `buf`, at
the byte displacement `pos`: item `i` lands at `pos + i * extent`.  The
explicit offset of the call is the byte displacement, as the spec states
the accesses (`base_disp + offset * extent`); the view set before the
call is not modelled apart from it. -/
def MPI_File_write_at (fh : cache_file) (pos extent : Nat) (buf : List Nat) (count : Nat) :
    cache_file :=
  (List.range count).foldl
    (fun f i =>
      { f with
        items := fun a =>
          if a = pos + i * extent then some ((buf.drop (i * extent)).take extent)
          else f.items a })
    fh

/-- Modelled from the spec: `MPI_File_read_at` / `MPI_File_read_at_all` of
`count` items at the byte displacement `pos`, giving the bytes delivered
to the buffer; a place never written reads as zero bytes. -/
def MPI_File_read_at (fh : cache_file) (pos extent count : Nat) : List Nat :=
  ((List.range count).map fun i =>
    (fh.items (pos + i * extent)).getD (List.replicate extent 0)).flatten

/-- The record offset of a writing participant (lines 1872-1877 of
`write_cache_stat`, 1793-1798 of `write_cache_readdir`): exclusive scan of
the record counts, 0 on rank 0. -/
def write_offset_records (counts : List Nat) (rank : Nat) (raw : Nat) : Nat :=
  let offset := MPI_Exscan_sum counts rank raw
  if rank = 0 then 0 else offset

/-- The collective write of the file records (lines 1936-1947 of
`write_cache_stat`, 1827-1838 of `write_cache_readdir`) by one
participant. -/
def write_files (fh : cache_file) (disp extent_file offset : Nat) (buf : List Nat)
    (count : Nat) : cache_file :=
  let write_offset := disp + offset * extent_file
  MPI_File_write_at fh write_offset extent_file buf count

/-- The collective read of the file records (lines 1665-1668 of
`read_cache_v3`, 1503-1506 of `read_cache_v2`) by one participant. -/
def read_files (fh : cache_file) (disp extent_file offset count : Nat) : List Nat :=
  let read_offset := disp + offset * extent_file
  MPI_File_read_at fh read_offset extent_file count

/-- The file records written by all participants: participant `r` holds
the packed items `shards[r]`, its buffer is their concatenation. -/
def write_files_all (fh : cache_file) (disp extent_file : Nat) (shards : List (List (List Nat)))
    (raw : Nat) : cache_file :=
  (List.range shards.length).foldl
    (fun f r =>
      write_files f disp extent_file
        (write_offset_records (shards.map List.length) r raw)
        (shards.getD r []).flatten (shards.getD r []).length)
    fh

/-- The buffers read by `ranks` participants from a cache of `all_count`
records, by rank. -/
def read_files_all (fh : cache_file) (disp extent_file all_count ranks : Nat) (raw : Nat) :
    List (List Nat) :=
  (List.range ranks).map fun r =>
    read_files fh disp extent_file (read_offset_records all_count ranks r raw)
      (read_count all_count ranks r)

/-! ## Name tables -/

/-- The name/id list under construction in `get_users` and `get_groups`:
the pairs chained from `head` to `tail`, with `count` and `maxchars`. -/
structure strid_list where
  elems : List (List Nat × Nat)
  count : Int
  maxchars : Int
deriving DecidableEq, Repr

/-- The empty list of `get_users` (lines 1186-1189): `head = tail = NULL`,
`count = 0`, `chars = 0`. -/
def strid_empty : strid_list := { elems := [], count := 0, maxchars := 0 }

/-- The function `strid_insert` (lines 1096-1132). -/
def strid_insert (name : List Nat) (id : Nat) (l : strid_list) : strid_list :=
  let len := strlen name + 1
  { elems := l.elems ++ [(bayer_strdup name, id)]
    count := l.count + 1
    maxchars :=
      if l.maxchars < (len : Int) then
        let len4 := len / 4
        let len4 := if len4 * 4 < len then len4 + 1 else len4
        let len4 := len4 * 4
        (len4 : Int)
      else l.maxchars }

/-- Successive calls of `strid_insert` on an empty list. -/
def strid_insert_all (pairs : List (List Nat × Nat)) : strid_list :=
  pairs.foldl (fun l p => strid_insert p.1 p.2 l) strid_empty

/-- The length of the longest of the given names (0 when there is none). -/
def longest_name (pairs : List (List Nat × Nat)) : Nat :=
  (pairs.map fun p => strlen p.1).foldr max 0

/-- Assignment `m[k] = v` on a `std::map`: the binding of `k` is added, or
replaces the one present. -/
def map_set {κ ν : Type} [DecidableEq κ] (m : List (κ × ν)) (k : κ) (v : ν) : List (κ × ν) :=
  (k, v) :: m.filter (fun p => p.1 ≠ k)

/-- The loop of `create_maps` (lines 563-574): `count` name/id pairs read
from `ptr` on, the name at a stride of `chars` bytes, then the id. -/
def create_maps_loop (buf : List Nat) (chars : Nat) :
    Nat → Nat → List (List Nat × Nat) × List (Nat × List Nat) →
      List (List Nat × Nat) × List (Nat × List Nat)
  | 0, _, maps => maps
  | count + 1, ptr, maps =>
    let name := bayer_strdup (buf.drop ptr)
    let ptr := ptr + chars
    let id := load_u32 buf ptr
    let ptr := ptr + 4
    create_maps_loop buf chars count ptr (map_set maps.1 name id, map_set maps.2 id name)

/-- The function `create_maps` (lines 558-576); a `NULL` buffer is read as
an empty one. -/
def create_maps (items : buf_t) (name2id : List (List Nat × Nat))
    (id2name : List (Nat × List Nat)) : List (List Nat × Nat) × List (Nat × List Nat) :=
  create_maps_loop (items.buf.getD []) items.chars items.count 0 (name2id, id2name)

/-! ## Reading a cache -/

/-- The function `read_cache_v2` (lines 1435-1530) on participant `rank` of
`ranks`: the list, the displacement after the records, and the two walk
times of the header.  When no record is read `files.buf` stays `NULL`; it
is modelled as an empty buffer. -/
def read_cache_v2 (fh : cache_file) (disp : Nat) (rank ranks : Nat) (raw_offset : Nat)
    (raw_elems : Nat → elem_t) (flist : flist_t) : flist_t × Nat × Nat × Nat :=
  let flist := { flist with detail := 0 }
  let header := MPI_File_read_u64 fh disp 4
  let disp := disp + 4 * 8
  let outstart := header.getD 0 0
  let outend := header.getD 1 0
  let all_count := header.getD 2 0
  let chars := header.getD 3 0
  let count := read_count all_count ranks rank
  let offset := read_offset_records all_count ranks rank raw_offset
  let extent_file := MPI_Type_get_extent (create_stattype flist.detail chars)
  let buf := if all_count > 0 ∧ chars > 0 then read_files fh disp extent_file offset count
             else []
  let disp := if all_count > 0 ∧ chars > 0 then disp + all_count * extent_file else disp
  (read_v2_insert buf chars raw_elems count 0 0 flist, disp, outstart, outend)

/-- The reading of a replicated name table in `read_cache_v3` (lines
1608-1628 for users, 1630-1650 for groups): the table and the
displacement after it. -/
def read_names (fh : cache_file) (disp : Nat) (items : buf_t) : buf_t × Nat :=
  if items.count > 0 ∧ items.chars > 0 then
    let dt := create_stridtype items.chars
    let extent := MPI_Type_get_extent dt
    let bufsize := items.count * extent
    ({ items with dt := some dt, buf := some (MPI_File_read_at fh disp extent items.count) },
      disp + bufsize)
  else (items, disp)

/-- The function `read_cache_v3` (lines 1545-1690) on participant `rank` of
`ranks`. -/
def read_cache_v3 (fh : cache_file) (disp : Nat) (rank ranks : Nat) (raw_offset : Nat)
    (flist : flist_t) : flist_t × Nat × Nat × Nat :=
  let flist := { flist with detail := 1 }
  let header := MPI_File_read_u64 fh disp 8
  let disp := disp + 8 * 8
  let outstart := header.getD 0 0
  let outend := header.getD 1 0
  let users := { flist.users with count := header.getD 2 0, chars := header.getD 3 0 }
  let groups := { flist.groups with count := header.getD 4 0, chars := header.getD 5 0 }
  let all_count := header.getD 6 0
  let chars := header.getD 7 0
  let count := read_count all_count ranks rank
  let offset := read_offset_records all_count ranks rank raw_offset
  let users_disp := read_names fh disp users
  let groups_disp := read_names fh users_disp.2 groups
  let disp := groups_disp.2
  let flist := { flist with users := users_disp.1, groups := groups_disp.1 }
  let extent_file := MPI_Type_get_extent (create_stattype flist.detail chars)
  let flist :=
    if all_count > 0 ∧ chars > 0 then
      read_v3_insert (read_files fh disp extent_file offset count) chars extent_file count 0 flist
    else flist
  let disp := if all_count > 0 ∧ chars > 0 then disp + all_count * extent_file else disp
  let umaps := create_maps flist.users flist.user_name2id flist.user_id2name
  let gmaps := create_maps flist.groups flist.group_name2id flist.group_id2name
  ({ flist with
      user_name2id := umaps.1
      user_id2name := umaps.2
      group_name2id := gmaps.1
      group_id2name := gmaps.2 },
    disp, outstart, outend)

/-- A list handle, `bayer_flist`; `none` is the sentinel. -/
abbrev bayer_flist := Option flist_t

/-- The sentinel handle `BAYER_FLIST_NULL` (lines 615-616). -/
def BAYER_FLIST_NULL : bayer_flist := none

/-- The reader that `bayer_flist_read_cache` runs. -/
inductive cache_reader where
  | v2
  | v3
  | unknown
deriving DecidableEq, Repr

/-- The dispatch of `bayer_flist_read_cache` on the version (lines
1741-1747). -/
def read_cache_select (version : Nat) : cache_reader :=
  if version = 2 then .v2
  else if version = 3 then .v3
  else .unknown

/-- The version word that rank 0 reads at displacement 0 and broadcasts
(lines 1727-1733). -/
def cache_version (fh : cache_file) : Nat := (MPI_File_read_u64 fh 0 1).getD 0 0

/-- The function `bayer_flist_read_cache` (lines 1692-1753) on participant
`rank` of `ranks`: the handle left in `*pbflist`.  `file = none` stands
for a file that cannot be opened. -/
def bayer_flist_read_cache (file : Option cache_file) (rank ranks : Nat) (raw_list : flist_t)
    (raw_offset : Nat) (raw_elems : Nat → elem_t) : bayer_flist :=
  let flist := bayer_flist_new raw_list
  match file with
  | none => some flist
  | some fh =>
    let disp := 0
    let version := cache_version fh
    let disp := disp + 1 * 8
    match read_cache_select version with
    | .v2 => some (read_cache_v2 fh disp rank ranks raw_offset raw_elems flist).1
    | .v3 => some (read_cache_v3 fh disp rank ranks raw_offset flist).1
    | .unknown => some flist

/-- The end of `bayer_flist_walk_path` (lines 1416-1420) on the participant
holding `flist`, `world` being the lists of all participants when the
traversal has ended. -/
def walk_path_finish (world : List flist_t) (flist : flist_t) : flist_t :=
  { flist with total_files := MPI_Allreduce_sum (world.map fun f => f.list_count) }

/-! ## Writing a cache -/

/-- The function `write_cache_readdir` (lines 1773-1847) on participant
`rank`, which holds `flist`: the file after its writes. -/
def write_cache_readdir (walk_start walk_end : Nat) (world : List flist_t) (rank : Nat)
    (flist : flist_t) (raw : Nat → Nat) (raw_offset : Nat) (fh : cache_file) : cache_file :=
  let files := list_convert_to_dt world flist raw
  let count := files.count
  let all_count := flist.total_files
  let offset := write_offset_records
    (world.map fun f => (list_convert_to_dt world f raw).count) rank raw_offset
  let header := [2, walk_start, walk_end, all_count, files.chars]
  let disp := 0
  let fh := if rank = 0 then MPI_File_write_u64 fh disp header else fh
  let disp := disp + 5 * 8
  match files.dt with
  | some dt => write_files fh disp (MPI_Type_get_extent dt) offset (files.buf.getD []) count
  | none => fh

/-- The writing of a replicated name table in `write_cache_stat` (lines
1910-1921 for users, 1923-1934 for groups): the file and the displacement
after the table. -/
def write_names (fh : cache_file) (disp : Nat) (rank : Nat) (items : buf_t) :
    cache_file × Nat :=
  match items.dt with
  | some dt =>
    let extent := MPI_Type_get_extent dt
    (if rank = 0 then MPI_File_write_at fh disp extent (items.buf.getD []) items.count else fh,
      disp + items.count * extent)
  | none => (fh, disp)

/-- The function `write_cache_stat` (lines 1849-1956) on participant
`rank`, which holds `flist`: the file after its writes. -/
def write_cache_stat (walk_start walk_end : Nat) (world : List flist_t) (rank : Nat)
    (flist : flist_t) (raw : Nat → Nat) (raw_offset : Nat) (fh : cache_file) : cache_file :=
  let users := flist.users
  let groups := flist.groups
  let files := list_convert_to_dt world flist raw
  let count := files.count
  let all_count := flist.total_files
  let offset := write_offset_records
    (world.map fun f => (list_convert_to_dt world f raw).count) rank raw_offset
  let header := [3, walk_start, walk_end, users.count, users.chars, groups.count,
    groups.chars, all_count, files.chars]
  let disp := 0
  let fh := if rank = 0 then MPI_File_write_u64 fh disp header else fh
  let disp := disp + 9 * 8
  let fh_disp := write_names fh disp rank users
  let fh_disp := write_names fh_disp.1 fh_disp.2 rank groups
  match files.dt with
  | some dt =>
    write_files fh_disp.1 fh_disp.2 (MPI_Type_get_extent dt) offset (files.buf.getD []) count
  | none => fh_disp.1

/-- The function `bayer_flist_write_cache` (lines 1958-1972) on participant
`rank`, which holds `flist`. -/
def bayer_flist_write_cache (world : List flist_t) (rank : Nat) (flist : flist_t)
    (raw : Nat → Nat) (raw_offset : Nat) (fh : cache_file) : cache_file :=
  if flist.detail ≠ 0 then write_cache_stat 0 0 world rank flist raw raw_offset fh
  else write_cache_readdir 0 0 world rank flist raw raw_offset fh

/-- The cache file after every participant has run
`bayer_flist_write_cache`, starting from the truncated file. -/
def write_cache_world (world : List flist_t) (raw : Nat → Nat) (raw_offset : Nat) :
    cache_file :=
  (List.range world.length).foldl
    (fun fh r =>
      match world[r]? with
      | some flist => bayer_flist_write_cache world r flist raw raw_offset fh
      | none => fh)
    cache_file_empty

/-! ## Per-index accessors -/

/-- The function `bayer_flist_have_detail` (lines 732-737). -/
def bayer_flist_have_detail (flist : flist_t) : Int := flist.detail

/-- The function `bayer_flist_file_type` (lines 761-770): the list after
the call, the return code and the value stored through `type`, if any. -/
def bayer_flist_file_type (flist : flist_t) (index : Int) : flist_t × Int × Option Nat :=
  let r := list_get_elem flist index
  match r.2.bind fun a => r.1.heap[a]? with
  | some elem => (r.1, 0, some elem.type)
  | none => (r.1, -1, none)

/-- The function `bayer_flist_file_mode` (lines 772-783): the list after
the call, the return code and the value stored through `mode`, if any. -/
def bayer_flist_file_mode (flist : flist_t) (index : Int) : flist_t × Int × Option Nat :=
  if flist.detail > 0 then
    let r := list_get_elem flist index
    match r.2.bind fun a => r.1.heap[a]? with
    | some elem => (r.1, 0, some elem.mode)
    | none => (r.1, -1, none)
  else (flist, -1, none)

/-- The function `bayer_flist_file_get_uid` (lines 785-794): the list after
the call and the value returned; `(uint32_t) -1` is `2^32 - 1`. -/
def bayer_flist_file_get_uid (flist : flist_t) (index : Int) : flist_t × Nat :=
  let ret := 2 ^ 32 - 1
  let r := list_get_elem flist index
  match r.2.bind fun a => r.1.heap[a]? with
  | some elem => if r.1.detail ≠ 0 then (r.1, elem.uid) else (r.1, ret)
  | none => (r.1, ret)

/-- The function `bayer_flist_file_get_gid` (lines 796-805). -/
def bayer_flist_file_get_gid (flist : flist_t) (index : Int) : flist_t × Nat :=
  let ret := 2 ^ 32 - 1
  let r := list_get_elem flist index
  match r.2.bind fun a => r.1.heap[a]? with
  | some elem => if r.1.detail ≠ 0 then (r.1, elem.gid) else (r.1, ret)
  | none => (r.1, ret)

/-- The function `bayer_flist_file_get_atime` (lines 807-816). -/
def bayer_flist_file_get_atime (flist : flist_t) (index : Int) : flist_t × Nat :=
  let ret := 2 ^ 32 - 1
  let r := list_get_elem flist index
  match r.2.bind fun a => r.1.heap[a]? with
  | some elem => if r.1.detail ≠ 0 then (r.1, elem.atime) else (r.1, ret)
  | none => (r.1, ret)

/-- The function `bayer_flist_file_get_mtime` (lines 818-827). -/
def bayer_flist_file_get_mtime (flist : flist_t) (index : Int) : flist_t × Nat :=
  let ret := 2 ^ 32 - 1
  let r := list_get_elem flist index
  match r.2.bind fun a => r.1.heap[a]? with
  | some elem => if r.1.detail ≠ 0 then (r.1, elem.mtime) else (r.1, ret)
  | none => (r.1, ret)

/-- The function `bayer_flist_file_get_ctime` (lines 829-838). -/
def bayer_flist_file_get_ctime (flist : flist_t) (index : Int) : flist_t × Nat :=
  let ret := 2 ^ 32 - 1
  let r := list_get_elem flist index
  match r.2.bind fun a => r.1.heap[a]? with
  | some elem => if r.1.detail ≠ 0 then (r.1, elem.ctime) else (r.1, ret)
  | none => (r.1, ret)

/-- The function `bayer_flist_file_get_size` (lines 840-849); `(uint64_t) -1`
is `2^64 - 1`. -/
def bayer_flist_file_get_size (flist : flist_t) (index : Int) : flist_t × Nat :=
  let ret := 2 ^ 64 - 1
  let r := list_get_elem flist index
  match r.2.bind fun a => r.1.heap[a]? with
  | some elem => if r.1.detail ≠ 0 then (r.1, elem.size) else (r.1, ret)
  | none => (r.1, ret)

/-! ## Name lookup -/

/-- The value of a 32-bit pattern read as an `int`: what a conversion to
`int`, or `%d` given a `uint32_t`, sees. -/
def to_int32 (n : Nat) : Int :=
  if n % 2 ^ 32 < 2 ^ 31 then ((n % 2 ^ 32 : Nat) : Int) else ((n % 2 ^ 32 : Nat) : Int) - 2 ^ 32

/-- The decimal digits of a natural number, as ASCII bytes. -/
def render_nat (n : Nat) : List Nat := (Nat.toDigits 10 n).map Char.toNat

/-- The characters that `printf`-style `%d` produces for an `int`. -/
def render_int (v : Int) : List Nat :=
  if v < 0 then 45 :: render_nat v.natAbs else render_nat v.natAbs

/-- Lookup `m.find(k)` on a `std::map`. -/
def map_find {κ ν : Type} [DecidableEq κ] (m : List (κ × ν)) (k : κ) : Option ν :=
  (m.find? fun p => p.1 = k).map fun p => p.2

/-- The function `get_name_from_id` (lines 580-608): the map after the
call, the name returned (`none` for `NULL`) and the number of `ERROR!!!`
lines printed.  `temp` holds 11 characters and the NUL; `len` is the
length `snprintf` reports; `chars - 1` is converted to `size_t` for the
comparison with `len`. -/
def get_name_from_id (id : Nat) (chars : Int) (id2name : List (Nat × List Nat)) :
    List (Nat × List Nat) × Option (List Nat) × Nat :=
  match map_find id2name id with
  | some name => (id2name, some name, 0)
  | none =>
    let rendered := render_int (to_int32 id)
    let temp := rendered.take 11
    let len := rendered.length
    let errors := if len > 12 - 1 ∨ (len : Int) > (chars - 1) % 2 ^ 64 then 1 else 0
    let newname := temp
    let id2name := map_set id2name id newname
    match map_find id2name id with
    | some name => (id2name, some name, errors)
    | none => (id2name, none, errors + 1)

/-- The function `bayer_flist_file_get_username` (lines 851-860): the list
after the call, the name returned (`none` for `NULL`) and the number of
`ERROR!!!` lines printed. -/
def bayer_flist_file_get_username (flist : flist_t) (index : Int) :
    flist_t × Option (List Nat) × Nat :=
  if flist.detail ≠ 0 then
    let r := bayer_flist_file_get_uid flist index
    let g := get_name_from_id r.2 (to_int32 r.1.users.chars) r.1.user_id2name
    ({ r.1 with user_id2name := g.1 }, g.2.1, g.2.2)
  else (flist, none, 0)

/-- The function `bayer_flist_file_get_groupname` (lines 862-871). -/
def bayer_flist_file_get_groupname (flist : flist_t) (index : Int) :
    flist_t × Option (List Nat) × Nat :=
  if flist.detail ≠ 0 then
    let r := bayer_flist_file_get_gid flist index
    let g := get_name_from_id r.2 (to_int32 r.1.groups.chars) r.1.group_id2name
    ({ r.1 with group_id2name := g.1 }, g.2.1, g.2.2)
  else (flist, none, 0)

/-! ## Summary of a list -/

/-- Modelled from the spec: all-reduce with MAX over the signed values
contributed by the participants (the messaging layer is not in the source
tree). -/
def MPI_Allreduce_max_int (contrib : List Int) : Int := contrib.foldl max (contrib.headD 0)

/-- Modelled from the spec: all-reduce with MIN over the signed values
contributed by the participants. -/
def MPI_Allreduce_min_int (contrib : List Int) : Int := contrib.foldl min (contrib.headD 0)

/-- One pass of the loop of `list_compute_summary` (lines 387-403) over the
element `current`; the state is `(min_depth, max_depth, max_name)`. -/
def summary_step (acc : Int × Int × Nat) (current : elem_t) : Int × Int × Nat :=
  let min_depth := acc.1
  let max_depth := acc.2.1
  let max_name := acc.2.2
  let len := strlen current.file + 1
  let max_name := if len > max_name then len else max_name
  let depth := current.depth
  let min_depth := if depth < min_depth ∨ min_depth = -1 then depth else min_depth
  let max_depth := if depth > max_depth ∨ max_depth = -1 then depth else max_depth
  (min_depth, max_depth, max_name)

/-- The local minimum and maximum depth and longest name of a list
(lines 381-403), as `(min_depth, max_depth, max_name)`. -/
def summary_local (flist : flist_t) : Int × Int × Nat :=
  (list_elems flist).foldl summary_step (-1, -1, 0)

/-- The function `list_compute_summary` (lines 363-427) on the participant
holding `flist`, where `world` lists the file lists of all participants. -/
def list_compute_summary (world : List flist_t) (flist : flist_t) : flist_t :=
  let flist := { flist with max_file_name := 0, min_depth := 0, max_depth := 0, total_files := 0 }
  let total := MPI_Allreduce_sum (world.map fun f => f.list_count)
  let flist := { flist with total_files := total }
  if total ≤ 0 then flist
  else
    let global_max_depth := MPI_Allreduce_max_int (world.map fun f => (summary_local f).2.1)
    let global_max_name := MPI_Allreduce_max (world.map fun f => (summary_local f).2.2)
    let global_min_depth := MPI_Allreduce_min_int
      (world.map fun f => if f.list_count = 0 then global_max_depth else (summary_local f).1)
    { flist with
      max_file_name := global_max_name
      min_depth := global_min_depth
      max_depth := global_max_depth }

/-- What the loop of `list_compute_summary` holds after the elements
`seen`: the start values if there were none, else the least and largest
depth and the longest name length plus one, each attained. -/
def summary_inv (seen : List elem_t) (acc : Int × Int × Nat) : Prop :=
  (seen = [] → acc = (-1, -1, 0)) ∧
  (seen ≠ [] →
    (∃ e ∈ seen, acc.1 = e.depth) ∧ (∃ e ∈ seen, acc.2.1 = e.depth) ∧
    (∃ e ∈ seen, acc.2.2 = strlen e.file + 1)) ∧
  (∀ e ∈ seen, acc.1 ≤ e.depth ∧ e.depth ≤ acc.2.1 ∧ strlen e.file + 1 ≤ acc.2.2)

/-! ## Walking a directory tree -/

/-- A directory entry, `struct dirent`: the name array and the type byte. -/
structure dirent where
  d_name : List Nat
  d_type : Nat
deriving DecidableEq, Repr

/-- The file system as the walk observes it: the no-follow stat of a path,
if it succeeds, and the entries that reading a directory returns, in the
order read, if it can be opened. Paths are strings without their NUL. -/
structure fs_t where
  lstat : List Nat → Option stat_t
  opendir : List Nat → Option (List dirent)

/-- Modelled from the spec: the wrapper `bayer_lstat` (not in the source
tree), the no-follow metadata call; `none` is a non-zero status. -/
def bayer_lstat (fs : fs_t) (path : List Nat) : Option stat_t := fs.lstat (bayer_strdup path)

/-- Modelled from the spec: the wrapper `bayer_opendir` (not in the source
tree) with the entries that `bayer_readdir` then returns until it returns
`NULL`; `none` is a `NULL` directory stream. -/
def bayer_opendir (fs : fs_t) (dir : List Nat) : Option (List dirent) :=
  fs.opendir (bayer_strdup dir)

/-- Modelled from the spec: the longest string the work queue takes,
terminator included (`libcircle.h`, not in the source tree). -/
def CIRCLE_MAX_STRING_LEN : Nat := 4096

/-- Modelled from the spec: the constant `PATH_MAX` of `limits.h`. -/
def PATH_MAX : Nat := 4096

/-- Modelled from the spec: the entry type `DT_UNKNOWN` of `dirent.h`. -/
def DT_UNKNOWN : Nat := 0

/-- Modelled from the spec: the conversion `DTTOIF` of `dirent.h` from an
entry type to mode bits, a shift by 12. -/
def DTTOIF (d_type : Nat) : Nat := d_type * 4096

/-- The C function `strncmp`: at most `n` bytes are compared, none after a
NUL; the end of a list reads as NUL. -/
def strncmp : List Nat → List Nat → Nat → Int
  | _, _, 0 => 0
  | s1, s2, n + 1 =>
    if s1.headD 0 ≠ s2.headD 0 then (s1.headD 0 : Int) - (s2.headD 0 : Int)
    else if s1.headD 0 = 0 then 0
    else strncmp s1.tail s2.tail n

/-- The C function `strcat`: the string held by `dst` after the call. -/
def strcat (dst src : List Nat) : List Nat := bayer_strdup dst ++ bayer_strdup src

/-- The C function `strncpy` into an array of `n` bytes: the bytes before
the first NUL of the array after the call. -/
def strncpy (src : List Nat) (n : Nat) : List Nat := (bayer_strdup src).take n

/-- One pass of the loop of `walk_readdir_process_dir` (lines 886-937) for
the entry `entry`, with `_DIRENT_HAVE_D_TYPE` defined; the state is the
current list and the queue of the handle. -/
def walk_readdir_process_entry (fs : fs_t) (raw : elem_t) (dir : List Nat)
    (state : flist_t × List (List Nat)) (entry : dirent) : flist_t × List (List Nat) :=
  let name := entry.d_name
  if strncmp name [46] 2 ≠ 0 ∧ strncmp name [46, 46] 3 ≠ 0 then
    let len := strlen dir + 1 + strlen name + 1
    if len < CIRCLE_MAX_STRING_LEN then
      let newpath := strcat (strcat (bayer_strdup dir) [47]) name
      if entry.d_type ≠ DT_UNKNOWN then
        let mode := DTTOIF entry.d_type
        let flist := list_insert_stat state.1 raw newpath mode none
        if S_ISDIR mode then (flist, state.2 ++ [newpath]) else (flist, state.2)
      else
        match bayer_lstat fs newpath with
        | some st =>
          let mode := st.st_mode
          let flist := list_insert_stat state.1 raw newpath mode (some st)
          if S_ISDIR mode then (flist, state.2 ++ [newpath]) else (flist, state.2)
        | none => state
    else state
  else state

/-- The function `walk_readdir_process_dir` (lines 877-945). -/
def walk_readdir_process_dir (fs : fs_t) (raw : elem_t) (dir : List Nat)
    (state : flist_t × List (List Nat)) : flist_t × List (List Nat) :=
  match bayer_opendir fs dir with
  | none => state
  | some entries => entries.foldl (walk_readdir_process_entry fs raw dir) state

/-- The function `walk_readdir_create` (lines 948-969); `current_dir` is
the global `CURRENT_DIR`, the list is `CURRENT_LIST`. -/
def walk_readdir_create (fs : fs_t) (raw : elem_t) (current_dir : List Nat)
    (flist : flist_t) (queue : List (List Nat)) : flist_t × List (List Nat) :=
  let path := current_dir
  match bayer_lstat fs path with
  | none => (flist, queue)
  | some st =>
    let flist := list_insert_stat flist raw path st.st_mode (some st)
    if S_ISDIR st.st_mode then walk_readdir_process_dir fs raw path (flist, queue)
    else (flist, queue)

/-- The function `walk_readdir_process` (lines 972-979): the path at the
front of the queue of the handle is taken off and read as a directory. -/
def walk_readdir_process (fs : fs_t) (raw : elem_t) (flist : flist_t)
    (queue : List (List Nat)) : flist_t × List (List Nat) :=
  match queue with
  | [] => (flist, [])
  | path :: queue => walk_readdir_process_dir fs raw path (flist, queue)

/-- One pass of the loop of `walk_stat_process_dir` (lines 993-1019) for
the entry `entry`; the state is the queue of the handle. -/
def walk_stat_process_entry (dir : List Nat) (queue : List (List Nat)) (entry : dirent) :
    List (List Nat) :=
  let name := entry.d_name
  if strncmp name [46] 2 ≠ 0 ∧ strncmp name [46, 46] 3 ≠ 0 then
    let len := strlen dir + 1 + strlen name + 1
    if len < CIRCLE_MAX_STRING_LEN then
      let newpath := strcat (strcat (bayer_strdup dir) [47]) name
      queue ++ [newpath]
    else queue
  else queue

/-- The function `walk_stat_process_dir` (lines 985-1027). -/
def walk_stat_process_dir (fs : fs_t) (dir : List Nat) (queue : List (List Nat)) :
    List (List Nat) :=
  match bayer_opendir fs dir with
  | none => queue
  | some entries => entries.foldl (walk_stat_process_entry dir) queue

/-- The function `walk_stat_create` (lines 1030-1034). -/
def walk_stat_create (current_dir : List Nat) (flist : flist_t) (queue : List (List Nat)) :
    flist_t × List (List Nat) :=
  (flist, queue ++ [current_dir])

/-- The function `walk_stat_process` (lines 1037-1063): the path at the
front of the queue of the handle is taken off, recorded with its stat
data and, when a directory, read. -/
def walk_stat_process (fs : fs_t) (raw : elem_t) (flist : flist_t)
    (queue : List (List Nat)) : flist_t × List (List Nat) :=
  match queue with
  | [] => (flist, [])
  | path :: queue =>
    match bayer_lstat fs path with
    | none => (flist, queue)
    | some st =>
      let flist := list_insert_stat flist raw path st.st_mode (some st)
      if S_ISDIR st.st_mode then (flist, walk_stat_process_dir fs path queue)
      else (flist, queue)

/-- The state of a traversal: the current list of every participant and
the paths queued on any of them. -/
structure walk_state where
  lists : List flist_t
  queue : List (List Nat)

/-- Modelled from the spec: one step of the work queue (the library is
not in the source tree). Any queued path may reach any participant: the
step hands the path numbered `choice.2` (taken modulo the queue length) to
the participant numbered `choice.1` (modulo their number), whose `process`
callback takes it off and may queue further paths. Nothing happens when
the queue is empty. -/
def CIRCLE_step (process : flist_t → List (List Nat) → flist_t × List (List Nat))
    (s : walk_state) (choice : Nat × Nat) : walk_state :=
  match s.queue[choice.2 % s.queue.length]?, s.lists[choice.1 % s.lists.length]? with
  | some path, some flist =>
    let r := process flist (path :: s.queue.eraseIdx (choice.2 % s.queue.length))
    { lists := s.lists.set (choice.1 % s.lists.length) r.1, queue := r.2 }
  | _, _ => s

/-- Modelled from the spec: `CIRCLE_begin` (the library is not in the
source tree): the `create` callback is called once, on participant 0,
then `process` is called per queued path as the list `schedule` of
choices directs; the call returns when no path is queued any more, and
`none` stands for a schedule that ends before that. -/
def CIRCLE_begin (create process : flist_t → List (List Nat) → flist_t × List (List Nat))
    (lists : List flist_t) (schedule : List (Nat × Nat)) : Option walk_state :=
  let start : walk_state :=
    match lists with
    | [] => { lists := [], queue := [] }
    | flist :: rest => { lists := (create flist []).1 :: rest, queue := (create flist []).2 }
  let final := schedule.foldl (CIRCLE_step process) start
  if final.queue = [] then some final else none

/-- The start of `bayer_flist_walk_path` (lines 1373-1400): the new list
of a participant before the traversal. The tables that `get_users` and
`get_groups` fill are given as `users` and `groups`; `raw` is the content
of fresh storage. -/
def walk_path_setup (raw : flist_t) (users groups : buf_t) (use_stat : Int) : flist_t :=
  let flist := bayer_flist_new raw
  let flist := { flist with detail := 0 }
  if use_stat ≠ 0 then
    let flist := { flist with detail := 1, users := users, groups := groups }
    let um := create_maps flist.users flist.user_name2id flist.user_id2name
    let flist := { flist with user_name2id := um.1, user_id2name := um.2 }
    let gm := create_maps flist.groups flist.group_name2id flist.group_id2name
    { flist with group_name2id := gm.1, group_id2name := gm.2 }
  else flist

/-- The function `bayer_flist_walk_path` (lines 1367-1423) called by all
`ranks` participants: the list of every participant on return; `raw` and
`raw_elem` are the contents of fresh storage. -/
def bayer_flist_walk_path (fs : fs_t) (raw : flist_t) (raw_elem : elem_t) (users groups : buf_t)
    (dirpath : List Nat) (use_stat : Int) (ranks : Nat) (schedule : List (Nat × Nat)) :
    Option (List flist_t) :=
  let flist := walk_path_setup raw users groups use_stat
  let current_dir := strncpy dirpath PATH_MAX
  let lists := List.replicate ranks flist
  let final :=
    if use_stat ≠ 0 then
      CIRCLE_begin (walk_stat_create current_dir) (walk_stat_process fs raw_elem) lists schedule
    else
      CIRCLE_begin (walk_readdir_create fs raw_elem current_dir)
        (walk_readdir_process fs raw_elem) lists schedule
  final.map fun s => s.lists.map (walk_path_finish s.lists)

/-! ## The tree below a path -/

/-- The last component of a path: the bytes after its last `'/'`. -/
def last_component (path : List Nat) : List Nat :=
  (path.reverse.takeWhile fun c => c ≠ 47).reverse

/-- Whether a name is exactly `.` or exactly `..`. -/
def is_dot_name (name : List Nat) : Bool := name = [46] ∨ name = [46, 46]

/-- The objects directly below `p`: none unless the no-follow stat of
`p` says it is a directory; else one per entry of its listing other than
`.` and `..`, named `p`, `'/'`, entry name. -/
def tree_children (fs : fs_t) (p : List Nat) : List (List Nat) :=
  match fs.lstat p with
  | none => []
  | some st =>
    if S_ISDIR st.st_mode then
      ((fs.opendir p).getD []).filterMap fun entry =>
        if is_dot_name (bayer_strdup entry.d_name) then none
        else some (p ++ [47] ++ bayer_strdup entry.d_name)
    else []

/-- The objects reachable from `p` by descending through directories, down
to `n - 1` levels below `p`, parents before children. -/
def tree_objects (fs : fs_t) : Nat → List Nat → List (List Nat)
  | 0, _ => []
  | n + 1, p => p :: (tree_children fs p).flatMap (tree_objects fs n)

/-- The tree below `p` is finite, of height below `n`, every no-follow
stat in it succeeds, every directory in it can be opened, and every path
below `p` passes the length test of the walk: with its NUL it takes fewer
than `CIRCLE_MAX_STRING_LEN` bytes. -/
def tree_ok (fs : fs_t) : Nat → List Nat → Bool
  | 0, _ => false
  | n + 1, p =>
    match fs.lstat p with
    | none => false
    | some st =>
      !S_ISDIR st.st_mode ||
        ((fs.opendir p).isSome &&
          (tree_children fs p).all fun c =>
            decide (c.length + 1 < CIRCLE_MAX_STRING_LEN) && tree_ok fs n c)

/-- The path of the entry `entry` of the directory `dir`: the directory,
`'/'`, the entry name. -/
def entry_path (dir : List Nat) (entry : dirent) : List Nat :=
  bayer_strdup dir ++ [47] ++ bayer_strdup entry.d_name

/-- The path `p` is that of an entry of the listing `entries` of `dir`
whose name is neither `.` nor `..`. -/
def built_from_entry (dir : List Nat) (entries : List dirent) (p : List Nat) : Prop :=
  ∃ entry ∈ entries, is_dot_name (bayer_strdup entry.d_name) = false ∧ p = entry_path dir entry

/-- The paths recorded so far by all participants of a traversal. -/
def walk_files (s : walk_state) : List (List Nat) :=
  s.lists.flatMap fun f => f.heap.map fun e => e.file

/-- The record `e` is detailed and holds what the no-follow stat of its
path gives. -/
def stat_record (fs : fs_t) (raw : elem_t) (e : elem_t) : Prop :=
  e.detail = 1 ∧
  ∃ st, fs.lstat e.file = some st ∧
    unlink e = unlink (elem_of_stat raw e.file st.st_mode (some st))

/-- What holds of a stat-mode traversal of the tree below `root` at every
step: the queued paths head well-behaved subtrees, the paths recorded and
the objects below the queued paths make up the objects of the tree, and
every list is well formed, flagged as detailed and holds stat records. -/
def walk_stat_inv (fs : fs_t) (raw : elem_t) (n : Nat) (root : List Nat) (s : walk_state) :
    Prop :=
  (∀ q ∈ s.queue, tree_ok fs n q = true ∧ ∀ c ∈ q, c ≠ 0) ∧
  List.Perm (walk_files s ++ s.queue.flatMap (tree_objects fs n)) (tree_objects fs n root) ∧
  (∀ f ∈ s.lists, list_ok f ∧ f.detail = 1 ∧ ∀ e ∈ f.heap, stat_record fs raw e)

/-! ## Deleting the list of a shard -/

/-- The function `list_delete` (lines 314-331): the elements chained from
the head are freed, count, head and tail are reset and the cached index
is freed, which leaves its pointer `NULL`. -/
def list_delete (flist : flist_t) : flist_t :=
  { flist with
    heap := []
    list_count := 0
    list_head := none
    list_tail := none
    list_index := none }

/-- An operation on a shard: one of the list operations, or `list_delete`. -/
inductive shard_op where
  | list (op : list_op)
  | delete

/-- The effect of one shard operation. -/
def shard_step (flist : flist_t) : shard_op → flist_t
  | .list op => list_step flist op
  | .delete => list_delete flist

/-- The shard reached from a new list by a sequence of shard operations. -/
def shard_run (raw : flist_t) (ops : List shard_op) : flist_t :=
  ops.foldl shard_step (bayer_flist_new raw)

/-- The addresses of the records reachable from `p` by `next` links, in
order; `fuel` bounds their number. -/
def list_addrs (heap : List elem_t) : Nat → Option Nat → List Nat
  | 0, _ => []
  | _ + 1, none => []
  | fuel + 1, some a => a :: list_addrs heap fuel (heap[a]?.bind fun e => e.next)

/-! ## Enumerating users and groups -/

/-- Modelled from the spec: the value of `errno` for an I/O error
(`errno.h`). -/
def EIO : Nat := 5

/-- Modelled from the spec: the value of `errno` for an interrupted
system call (`errno.h`). -/
def EINTR : Nat := 4

/-- One result of `getpwent` or `getgrent`: an entry with its name and
id, or `NULL` together with the value that `errno` holds after the call. -/
inductive getent_result where
  | entry (name : List Nat) (id : Nat)
  | null (errno : Nat)
deriving DecidableEq, Repr

/-- The enumeration loop of `get_users` (lines 1191-1226) over the
results that successive calls of `getpwent` give; when the script is used
up the call returns `NULL` with `errno` 0. `retries` is the local of that
name, 3 at the start of every pass; the state is the name/id list and the
number of calls made. -/
def get_users_loop : List getent_result → Int → strid_list × Nat → strid_list × Nat
  | [], _, st => (st.1, st.2 + 1)
  | .entry name id :: rest, _, st =>
    get_users_loop rest 3 (strid_insert name (id % 2 ^ 32) st.1, st.2 + 1)
  | .null errno :: rest, retries, st =>
    let retries := if errno = EIO then retries - 1 else 0
    if retries > 0 then get_users_loop rest retries (st.1, st.2 + 1)
    else (st.1, st.2 + 1)

/-- The enumeration loop of `get_groups` (lines 1288-1320) over the
results that successive calls of `getgrent` give; see `get_users_loop`. -/
def get_groups_loop : List getent_result → Int → strid_list × Nat → strid_list × Nat
  | [], _, st => (st.1, st.2 + 1)
  | .entry name id :: rest, _, st =>
    get_groups_loop rest 3 (strid_insert name (id % 2 ^ 32) st.1, st.2 + 1)
  | .null errno :: rest, retries, st =>
    let retries := if errno = EIO ∨ errno = EINTR then retries - 1 else 0
    if retries > 0 then get_groups_loop rest retries (st.1, st.2 + 1)
    else (st.1, st.2 + 1)

/-- The function `strid_serialize` (lines 1135-1153): every name is copied
to the write position with `strcpy`, the id stored `chars` bytes further. -/
def strid_serialize (elems : List (List Nat × Nat)) (chars : Nat) (buf : List Nat) : List Nat :=
  (elems.foldl
    (fun (st : List Nat × Nat) current =>
      let buf := strcpy st.1 st.2 current.1
      let ptr := st.2 + chars
      let buf := store_u32 buf ptr current.2
      let ptr := ptr + 4
      (buf, ptr))
    (buf, 0)).1

/-- The second half of `get_users` and `get_groups` (lines 1229-1262 and
1325-1358): the list built on rank 0 is packed and broadcast, so that
every participant holds the same table; `raw` gives the contents of the
buffer as allocated on rank 0. -/
def strid_table (l : strid_list) (raw : Nat → Nat) : buf_t :=
  let count := l.count.toNat
  let chars := l.maxchars.toNat
  let dt := create_stridtype chars
  let extent := MPI_Type_get_extent dt
  let bufsize := count * extent
  { buf := if bufsize > 0 then some (strid_serialize l.elems chars ((List.range bufsize).map raw))
           else none
    count := count
    chars := chars
    dt := some dt }

/-- The function `get_users` (lines 1176-1264) on every participant. -/
def get_users (script : List getent_result) (raw : Nat → Nat) : buf_t :=
  strid_table (get_users_loop script 3 (strid_empty, 0)).1 raw

/-- The function `get_groups` (lines 1267-1364) on every participant. -/
def get_groups (script : List getent_result) (raw : Nat → Nat) : buf_t :=
  strid_table (get_groups_loop script 3 (strid_empty, 0)).1 raw

/-- The retry rule in the words of the specification: an error is
transient when it is an I/O error or an interrupted system call. -/
def transient_error (errno : Nat) : Bool := errno = EIO || errno = EINTR

/-- The enumeration in the words of the specification: the entries
returned before enumeration ends, in order, and the number of lookups
made. A lookup that fails with a transient error is attempted up to 3
times for its position (`attempts` are left); any other failure, and the
third transient one, ends the enumeration. -/
def enum_spec : List getent_result → Nat → List (List Nat × Nat) × Nat
  | [], _ => ([], 1)
  | .entry name id :: rest, _ =>
    ((name, id) :: (enum_spec rest 3).1, (enum_spec rest 3).2 + 1)
  | .null errno :: rest, attempts =>
    if transient_error errno ∧ 1 < attempts then
      ((enum_spec rest (attempts - 1)).1, (enum_spec rest (attempts - 1)).2 + 1)
    else ([], 1)

/-- A name/id pair seen as a record without detail, which
`list_convert_to_dt` packs the way `strid_serialize` packs the pair: the
string, then a `uint32_t` at the stride. -/
def strid_elem (p : List Nat × Nat) : elem_t :=
  { file := p.1, depth := 0, type := p.2, detail := 0, mode := 0, uid := 0, gid := 0,
    atime := 0, mtime := 0, ctime := 0, size := 0, next := none }

/-- The maps rebuilt from a sequence of name/id pairs: the pairs are
inserted with `strid_insert`, the list is packed with `strid_serialize` at
the stride reached (`strid_table`), and `create_maps` reads the table into
empty maps. -/
def strid_rebuild (pairs : List (List Nat × Nat)) (raw : Nat → Nat) :
    List (List Nat × Nat) × List (Nat × List Nat) :=
  create_maps (strid_table (strid_insert_all pairs) raw) [] []

/-! ## Where the file records start -/

/-- The displacement that `bayer_flist_read_cache` hands to the reader
(lines 1724-1733): that after the version word. -/
def read_cache_start : Nat := 0 + 1 * 8

/-- The displacement of `read_cache_v2` when it comes to the file records
(line 1471), entered with `disp`. -/
def read_cache_v2_files_disp (disp : Nat) : Nat := disp + 4 * 8

/-- The displacement of `read_cache_v3` when it comes to the file records
(lines 1584-1650), entered with `disp`: after the eight header words, the
users and the groups. -/
def read_cache_v3_files_disp (fh : cache_file) (disp : Nat) (flist : flist_t) : Nat :=
  let header := MPI_File_read_u64 fh disp 8
  let disp := disp + 8 * 8
  let users := { flist.users with count := header.getD 2 0, chars := header.getD 3 0 }
  let groups := { flist.groups with count := header.getD 4 0, chars := header.getD 5 0 }
  let users_disp := read_names fh disp users
  let groups_disp := read_names fh users_disp.2 groups
  groups_disp.2

/-- The displacement of `write_cache_readdir` when it comes to the file
records (lines 1819-1825). -/
def write_cache_readdir_files_disp : Nat := 0 + 5 * 8

/-- The displacement of `write_cache_stat` when it comes to the file
records (lines 1902-1934), on participant `rank` holding `flist`. -/
def write_cache_stat_files_disp (rank : Nat) (flist : flist_t) (fh : cache_file) : Nat :=
  let disp := 0
  let disp := disp + 9 * 8
  let fh_disp := write_names fh disp rank flist.users
  let fh_disp := write_names fh_disp.1 fh_disp.2 rank flist.groups
  fh_disp.2

/-- A name table as `get_users` and `get_groups` make them, empty or
not: with a positive count the stride is positive and the datatype is the
one made for that stride. -/
def table_ok (items : buf_t) : Prop :=
  items.count > 0 → items.chars > 0 ∧ items.dt = some (create_stridtype items.chars)

instance (items : buf_t) : Decidable (table_ok items) := by
  unfold table_ok; infer_instance

/-- The path of a record and its stat fields in the order of the packed
item: mode, uid, gid, atime, mtime, ctime, size. -/
def record_fields (e : elem_t) : List Nat × List Nat :=
  (e.file, [e.mode, e.uid, e.gid, e.atime, e.mtime, e.ctime, e.size])

/-- The items of the buffer that `list_convert_to_dt` packs on a
participant, one list of bytes per record. -/
def packed_items (world : List flist_t) (flist : flist_t) (raw : Nat → Nat) : List (List Nat) :=
  let files := list_convert_to_dt world flist raw
  let extent := MPI_Type_get_extent (create_stattype flist.detail files.chars)
  (List.range files.count).map fun i => ((files.buf.getD []).drop (i * extent)).take extent

/-! ## Sample data -/

/-- Sample contents of freshly allocated element storage. -/
def sample_raw_elem : elem_t :=
  { file := [120], depth := 7, type := 9, detail := 5, mode := 77, uid := 78, gid := 79,
    atime := 80, mtime := 81, ctime := 82, size := 83, next := some 3 }

/-- Sample contents of freshly allocated list storage. -/
def sample_raw_list : flist_t :=
  { detail := 6, total_files := 11, max_file_name := 12, min_depth := 13, max_depth := 14,
    list_count := 15, list_head := some 1, list_tail := some 2, list_index := some [4],
    heap := [],
    users := { buf := none, count := 3, chars := 5, dt := none },
    groups := { buf := none, count := 4, chars := 6, dt := none },
    user_name2id := [], user_id2name := [], group_name2id := [], group_id2name := [] }

/-- The stat record of a directory (mode `040755`). -/
def sample_stat_dir : stat_t :=
  { st_mode := 16877, st_uid := 1000, st_gid := 100, st_atime := 1400000000,
    st_mtime := 1400000001, st_ctime := 1400000002, st_size := 4096 }

/-- The stat record of a regular file of 100 bytes (mode `0100644`). -/
def sample_stat_file : stat_t :=
  { st_mode := 33188, st_uid := 1000, st_gid := 100, st_atime := 1400000003,
    st_mtime := 1400000004, st_ctime := 1400000005, st_size := 100 }

/-- The path `/t`. -/
def path_t : List Nat := [47, 116]

/-- The path `/t/a`. -/
def path_t_a : List Nat := [47, 116, 47, 97]

/-- The path `/t/b`. -/
def path_t_b : List Nat := [47, 116, 47, 98]

/-- The path `/t/b/c`. -/
def path_t_b_c : List Nat := [47, 116, 47, 98, 47, 99]

/-- Insertions of the tiny tree with stat data, an index access in between. -/
def sample_ops_stat : List list_op :=
  [ .insert_stat sample_raw_elem path_t 16877 (some sample_stat_dir),
    .insert_stat sample_raw_elem path_t_a 33188 (some sample_stat_file),
    .get_elem 1,
    .insert_stat sample_raw_elem path_t_b 16877 (some sample_stat_dir),
    .insert_stat sample_raw_elem path_t_b_c 33188 (some sample_stat_file) ]

/-- The root and `/t/a`, as held by one participant after a stat walk. -/
def sample_shard0 : flist_t :=
  { list_run sample_raw_list
      [ .insert_stat sample_raw_elem path_t 16877 (some sample_stat_dir),
        .insert_stat sample_raw_elem path_t_a 33188 (some sample_stat_file) ] with
    detail := 1, total_files := 4 }

/-- The entries `/t/b` and `/t/b/c`, as held by another participant. -/
def sample_shard1 : flist_t :=
  { list_run sample_raw_list
      [ .insert_stat sample_raw_elem path_t_b 16877 (some sample_stat_dir),
        .insert_stat sample_raw_elem path_t_b_c 33188 (some sample_stat_file) ] with
    detail := 1, total_files := 4 }

/-- A detail-less shard as a readdir walk builds it: the root inserted
with its stat record, `/t/a` from the type of its directory entry. -/
def sample_lite0 : flist_t :=
  { list_run sample_raw_list
      [ .insert_stat sample_raw_elem path_t 16877 (some sample_stat_dir),
        .insert_stat { sample_raw_elem with mode := 4000000000 } path_t_a 32768 none ] with
    total_files := 4 }

/-- The rest of the tree on another participant, inserted without stat. -/
def sample_lite1 : flist_t :=
  { list_run sample_raw_list
      [ .insert_lite sample_raw_elem path_t_b TYPE_DIR,
        .insert_lite sample_raw_elem path_t_b_c TYPE_FILE ] with
    total_files := 4 }

/-- The tiny tree without detail spread over two participants. -/
def sample_lite_world : List flist_t := [sample_lite0, sample_lite1]

/-- The tiny tree spread over two participants. -/
def sample_world : List flist_t := [sample_shard0, sample_shard1]

/-- Packed items of three bytes held by three writing participants. -/
def sample_frames : List (List (List Nat)) :=
  [[[1, 2, 3], [4, 5, 6]], [], [[7, 8, 9], [10, 11, 12], [13, 14, 15]]]

/-- A cache file whose version word is 7. -/
def sample_cache_v7 : cache_file := MPI_File_write_u64 cache_file_empty 0 [7, 0, 0, 4, 8]

/-- Sample contents of a freshly allocated byte buffer. -/
def sample_raw_bytes : Nat → Nat := fun i => 170 + i % 3

/-- The version-2 cache written by the two participants of
`sample_lite_world`. -/
def sample_cache_v2 : cache_file := write_cache_world sample_lite_world sample_raw_bytes 99

/-- A packed detailed record: the path `/t/b` at a stride of 8 bytes, then
mode `040755`, uid 1000, gid 100, three times and the size 4096. -/
def sample_packed : List Nat :=
  [47, 116, 47, 98, 0, 172, 170, 171, 237, 65, 0, 0, 232, 3, 0, 0, 100, 0, 0, 0, 0, 78, 114,
    83, 1, 78, 114, 83, 2, 78, 114, 83, 0, 16, 0, 0, 0, 0, 0, 0]

/-- Insertions of every kind with index accesses in between. -/
def sample_ops_mixed : List list_op :=
  [ .insert_stat sample_raw_elem path_t 16877 (some sample_stat_dir),
    .get_elem 0,
    .insert_stat sample_raw_elem path_t_a 32768 none,
    .insert_ptr sample_packed 0 8,
    .get_elem 5,
    .insert_lite sample_raw_elem path_t_b_c TYPE_FILE ]

/-- The shard `sample_shard0` with a user table of one name `bob` (id 7,
stride 4) and a group table of one name `hr` (id 8, stride 3). -/
def sample_shard_stride4 : flist_t :=
  { sample_shard0 with
    users := { buf := some [98, 111, 98, 0, 7, 0, 0, 0], count := 1, chars := 4, dt := some [4, 4] },
    groups := { buf := some [104, 114, 0, 8, 0, 0, 0], count := 1, chars := 3, dt := some [3, 4] },
    user_name2id := [([98, 111, 98], 7)],
    user_id2name := [(7, [98, 111, 98])],
    group_name2id := [([104, 114], 8)],
    group_id2name := [(8, [104, 114])] }

/-- Three participants, the middle one holding no record. -/
def sample_world_gap : List flist_t :=
  [sample_shard0, bayer_flist_new sample_raw_list, sample_shard1]

/-- The tiny tree: directory `/t` holding the file `a` and the directory
`b`, which holds the file `c`; every directory also lists `.` and `..`. -/
def sample_fs : fs_t :=
  { lstat := fun p =>
      if p = path_t ∨ p = path_t_b then some sample_stat_dir
      else if p = path_t_a ∨ p = path_t_b_c then some sample_stat_file
      else none
    opendir := fun p =>
      if p = path_t then
        some [⟨[46], 4⟩, ⟨[46, 46], 4⟩, ⟨[97], 8⟩, ⟨[98], 4⟩]
      else if p = path_t_b then some [⟨[46], 4⟩, ⟨[46, 46], 4⟩, ⟨[99], 8⟩]
      else none }

/-- The stat record of a symbolic link (mode `0120777`). -/
def sample_stat_link : stat_t :=
  { st_mode := 41471, st_uid := 1000, st_gid := 100, st_atime := 1400000006,
    st_mtime := 1400000007, st_ctime := 1400000008, st_size := 4 }

/-- The path `/t/l`. -/
def path_t_l : List Nat := [47, 116, 47, 108]

/-- The directory `/t` holding the file `a` and the symbolic link `l`
that points to a directory: `/t/l` can be opened and lists a file `c`. -/
def sample_fs_link : fs_t :=
  { lstat := fun p =>
      if p = path_t then some sample_stat_dir
      else if p = path_t_a then some sample_stat_file
      else if p = path_t_l then some sample_stat_link
      else if p = path_t_l ++ [47, 99] then some sample_stat_file
      else none
    opendir := fun p =>
      if p = path_t then some [⟨[46], 4⟩, ⟨[46, 46], 4⟩, ⟨[97], 8⟩, ⟨[108], 10⟩]
      else if p = path_t_l then some [⟨[46], 4⟩, ⟨[46, 46], 4⟩, ⟨[99], 8⟩]
      else none }

/-- A schedule on two participants: the paths go to them in turn. -/
def sample_schedule : List (Nat × Nat) := [(0, 0), (1, 0), (0, 1), (1, 0)]

/-- A name of 4092 bytes `a`. -/
def long_name : List Nat := List.replicate 4092 97

/-- The directory `/t` holding one regular file whose name is `long_name`:
the path of the file takes 4095 bytes and, with its NUL, exactly
`CIRCLE_MAX_STRING_LEN`. Every no-follow stat succeeds. -/
def sample_fs_long : fs_t :=
  { lstat := fun p => if p = path_t then some sample_stat_dir else some sample_stat_file
    opendir := fun p => if p = path_t then some [⟨long_name, 8⟩] else none }

/-- Insertions, an index access, a deletion, then insertions and an index
access again. -/
def sample_shard_ops : List shard_op :=
  [ .list (.insert_stat sample_raw_elem path_t 16877 (some sample_stat_dir)),
    .list (.insert_lite sample_raw_elem path_t_a 2),
    .list (.get_elem 1),
    .delete,
    .list (.insert_lite sample_raw_elem path_t_b 3),
    .list (.insert_stat sample_raw_elem path_t_b_c 33188 none),
    .list (.get_elem 0) ]

/-- The path `/t/x`. -/
def path_t_x : List Nat := [47, 116, 47, 120]

/-- The directory `/t` listing an entry `x` of unknown type, whose
no-follow stat fails, and then the regular file `a`. -/
def sample_fs_unknown : fs_t :=
  { lstat := fun p =>
      if p = path_t then some sample_stat_dir
      else if p = path_t_a then some sample_stat_file
      else none
    opendir := fun p =>
      if p = path_t then some [⟨[46], 4⟩, ⟨[120], 0⟩, ⟨[97], 8⟩] else none }

/-- A directory `dir` that holds one regular file `name`; every no-follow
stat succeeds. -/
def boundary_fs (dir name : List Nat) : fs_t :=
  { lstat := fun p => if p = dir then some sample_stat_dir else some sample_stat_file
    opendir := fun p => if p = dir then some [⟨name, 8⟩] else none }

/-- A directory path of 3839 bytes: fourteen components of 255 bytes `d`
and one of 254, each after a `'/'`. -/
def deep_dir : List Nat :=
  (List.replicate 14 (47 :: List.replicate 255 100)).flatten ++ 47 :: List.replicate 254 100

/-- A name of 255 bytes `a`, the longest that common file systems hold. -/
def full_name : List Nat := List.replicate 255 97

/-- The directory `deep_dir` holding the regular file `full_name`: the
path of the file takes 4095 bytes and, with its NUL, exactly
`CIRCLE_MAX_STRING_LEN`. -/
def sample_fs_deep : fs_t := boundary_fs deep_dir full_name

/-- An enumeration whose first lookup is interrupted and whose second
returns the entry `bob` with id 7. -/
def sample_script_eintr : List getent_result := [.null EINTR, .entry [98, 111, 98] 7]

/-- An enumeration that returns `bob` (7), fails twice with an I/O error,
returns `hr` (8), then fails three times with an I/O error; the entry
`al` (9) after that is never asked for. -/
def sample_script_eio : List getent_result :=
  [.entry [98, 111, 98] 7, .null EIO, .null EIO, .entry [104, 114] 8,
    .null EIO, .null EIO, .null EIO, .entry [97, 108] 9]

/-- Name/id pairs with a repeated id (7) and a repeated name (`bob`). -/
def sample_pairs : List (List Nat × Nat) :=
  [([98, 111, 98], 7), ([104, 114], 8), ([97, 108], 7), ([98, 111, 98], 9)]

/-- The version-3 cache written by the two participants of `sample_world`,
whose lists carry the total of 4 records that a walk leaves. -/
def sample_cache_v3 : cache_file := write_cache_world sample_world sample_raw_bytes 99

/-- The lists that three participants hold after `bayer_flist_read_cache`
of `sample_cache_v3`. -/
def sample_world_read : List flist_t :=
  (List.range 3).filterMap fun r =>
    bayer_flist_read_cache (some sample_cache_v3) r 3 sample_raw_list 99
      (fun _ => sample_raw_elem)

/-- The cache that the three participants of `sample_world_read` write
with `bayer_flist_write_cache`. -/
def sample_cache_rewritten : cache_file :=
  write_cache_world sample_world_read sample_raw_bytes 99

/-- The shard `sample_shard1` with the name tables of
`sample_shard_stride4`, which every participant holds alike. -/
def sample_shard1_stride4 : flist_t :=
  { sample_shard1 with
    users := sample_shard_stride4.users,
    groups := sample_shard_stride4.groups,
    user_name2id := sample_shard_stride4.user_name2id,
    user_id2name := sample_shard_stride4.user_id2name,
    group_name2id := sample_shard_stride4.group_name2id,
    group_id2name := sample_shard_stride4.group_id2name }

/-! # Proofs -/

/-! ## Basic facts about strings and the linked list -/

theorem get_depth_eq_count (s : List Nat) :
    get_depth s = ((bayer_strdup s).count 47 : Nat) := by
  induction s with
  | nil => simp [get_depth, bayer_strdup]
  | cons c cs ih =>
    by_cases h0 : c = 0
    · simp [get_depth, bayer_strdup, h0]
    · by_cases h47 : c = 47
      · simp [get_depth, bayer_strdup, h47, ih, List.count_cons]
        omega
      · simp [get_depth, bayer_strdup, h0, h47, ih, List.count_cons]

theorem bayer_strdup_no_nul (s : List Nat) : ∀ c ∈ bayer_strdup s, c ≠ 0 := by
  induction s with
  | nil => simp [bayer_strdup]
  | cons c cs ih =>
    by_cases h0 : c = 0
    · simp [bayer_strdup, h0]
    · simp only [bayer_strdup, h0, if_false, List.mem_cons]
      rintro x (rfl | hx)
      · exact h0
      · exact ih x hx

theorem bayer_strdup_of_no_nul (s : List Nat) (h : ∀ c ∈ s, c ≠ 0) : bayer_strdup s = s := by
  induction s with
  | nil => rfl
  | cons c cs ih =>
    have h0 : c ≠ 0 := h c (by simp)
    simp only [bayer_strdup, h0, if_false]
    rw [ih (fun x hx => h x (by simp [hx]))]

theorem list_ok_new (raw : flist_t) : list_ok (bayer_flist_new raw) := by
  simp [list_ok, bayer_flist_new]

theorem list_insert_elem_heap_length (f : flist_t) (e : elem_t) :
    (list_insert_elem f e).heap.length = f.heap.length + 1 := by
  unfold list_insert_elem
  cases f.list_tail <;> simp

theorem list_insert_elem_unlink (f : flist_t) (e : elem_t) :
    (list_insert_elem f e).heap.map unlink = f.heap.map unlink ++ [unlink e] := by
  unfold list_insert_elem
  cases ht : f.list_tail with
  | none => simp [unlink]
  | some t =>
    simp only [List.map_append, List.map_cons, List.map_nil]
    congr 1
    apply List.ext_getElem?
    intro i
    simp only [List.getElem?_map, List.getElem?_modify]
    cases f.heap[i]? with
    | none => rfl
    | some x => by_cases hti : t = i <;> simp [hti, unlink]

theorem list_ok_insert (f : flist_t) (e : elem_t) (h : list_ok f) :
    list_ok (list_insert_elem f e) := by
  obtain ⟨hc, hh, ht, hn, _⟩ := h
  have hlen := list_insert_elem_heap_length f e
  refine ⟨?_, ?_, ?_, ?_, ?_⟩
  · rw [hlen]; simp [list_insert_elem, hc]
  · rw [hlen]
    by_cases h0 : f.heap.length = 0
    · simp [list_insert_elem, hh, h0]
    · simp [list_insert_elem, hh, h0]
  · rw [hlen]; simp [list_insert_elem]
  · rw [hlen]
    intro i hi
    by_cases h0 : f.heap.length = 0
    · have hi0 : i = 0 := by omega
      have hnil : f.heap = [] := List.length_eq_zero.mp h0
      simp [list_insert_elem, ht, h0, hi0, hnil]
    · simp only [list_insert_elem, ht, h0, if_false]
      by_cases hin : i < f.heap.length
      · rw [List.getElem?_append_left (by simpa using hin)]
        have hold := hn i hin
        simp only [List.getElem?_modify]
        cases hx : f.heap[i]? with
        | none => simp [hx] at hold
        | some x =>
          simp only [hx, Option.map_some', Option.some.injEq] at hold
          by_cases hti : f.heap.length - 1 = i
          · simp [hti]; omega
          · have h1 : i + 1 < f.heap.length := by omega
            simp [hti, hold, h1]
            omega
      · have hie : i = f.heap.length := by omega
        subst hie
        rw [List.getElem?_append_right (by simp)]
        simp
  · left; simp [list_insert_elem]

theorem index_fill_of_chain (heap : List elem_t)
    (hn : ∀ i, i < heap.length →
      heap[i]?.map (fun e => e.next) = some (if i + 1 < heap.length then some (i + 1) else none))
    (k : Nat) : ∀ a, a + k ≤ heap.length → 0 < k →
      index_fill heap k (some a) = (List.range k).map (fun i => a + i) := by
  induction k with
  | zero => intro a _ h; omega
  | succ k ih =>
    intro a ha _
    have hstep := hn a (by omega)
    cases hx : heap[a]? with
    | none => simp [hx] at hstep
    | some x =>
      simp only [hx, Option.map_some', Option.some.injEq] at hstep
      simp only [index_fill, hx, Option.some_bind, hstep]
      by_cases hk : k = 0
      · subst hk; simp [index_fill, List.range_succ]
      · have h1 : a + 1 < heap.length := by omega
        simp only [h1, if_true]
        rw [ih (a + 1) (by omega) (by omega)]
        rw [List.range_succ_eq_map]
        simp only [List.map_cons, List.map_map, Nat.add_zero, List.cons.injEq, true_and]
        apply List.map_congr_left
        intro i _
        simp only [Function.comp_apply]
        omega

theorem list_walk_of_chain (heap : List elem_t)
    (hn : ∀ i, i < heap.length →
      heap[i]?.map (fun e => e.next) = some (if i + 1 < heap.length then some (i + 1) else none))
    (k : Nat) : ∀ a, a + k = heap.length → 0 < k →
      list_walk heap k (some a) = heap.drop a := by
  induction k with
  | zero => intro a _ h; omega
  | succ k ih =>
    intro a ha _
    have hlt : a < heap.length := by omega
    have hstep := hn a hlt
    have hx : heap[a]? = some heap[a] := List.getElem?_eq_getElem hlt
    rw [hx] at hstep
    simp only [Option.map_some', Option.some.injEq] at hstep
    simp only [list_walk, hx, hstep]
    rw [List.drop_eq_getElem_cons hlt]
    congr 1
    by_cases hk : k = 0
    · subst hk
      have : heap.length ≤ a + 1 := by omega
      simp [list_walk, List.drop_eq_nil_of_le this]
    · have h1 : a + 1 < heap.length := by omega
      simp only [h1, if_true]
      exact ih (a + 1) (by omega) (by omega)

/-- On a well-formed shard the traversal from the head visits exactly the
allocated elements, in allocation order: the fuel is enough. -/
theorem list_elems_of_ok (f : flist_t) (h : list_ok f) : list_elems f = f.heap := by
  obtain ⟨_, hh, _, hn, _⟩ := h
  unfold list_elems
  by_cases h0 : f.heap.length = 0
  · have hnil : f.heap = [] := List.length_eq_zero.mp h0
    simp [hnil, list_walk]
  · rw [hh]; simp only [h0, if_false]
    rw [list_walk_of_chain f.heap hn f.heap.length 0 (by omega) (by omega)]
    simp

theorem list_get_elem_heap (f : flist_t) (i : Int) : (list_get_elem f i).1.heap = f.heap := by
  simp only [list_get_elem]
  split_ifs <;> rfl

theorem list_ok_get_elem (f : flist_t) (i : Int) (h : list_ok f) :
    list_ok (list_get_elem f i).1 := by
  have hheap := list_get_elem_heap f i
  obtain ⟨hc, hh, ht, hn, hi⟩ := h
  have key : (list_get_elem f i).1 = f ∨
      (list_get_elem f i).1 =
        { f with
          list_index := (if bayer_malloc_null (f.list_count * 8) then none
                         else some (index_fill f.heap f.list_count f.list_head)) } := by
    simp only [list_get_elem]
    split_ifs <;> simp
  rcases key with hk | hk
  · rw [hk]; exact ⟨hc, hh, ht, hn, hi⟩
  · rw [hk]
    refine ⟨hc, hh, ht, hn, ?_⟩
    by_cases h0 : f.heap.length = 0
    · left; simp [hc, h0, bayer_malloc_null]
    · right
      have hnn : ¬ bayer_malloc_null (f.heap.length * 8) := by
        unfold bayer_malloc_null; omega
      simp only [hc, hnn, h0, if_false, hh]
      rw [index_fill_of_chain f.heap hn f.heap.length 0 (by omega) (by omega)]
      simp

/-- On a well-formed shard `list_get_elem` returns the address `i` for
every index `i` below the count. -/
theorem list_get_elem_of_ok (f : flist_t) (h : list_ok f) (i : Nat) (hi : i < f.list_count) :
    (list_get_elem f (i : Int)).2 = some i := by
  have hok := list_ok_get_elem f i h
  obtain ⟨hc, _, _, _, _⟩ := h
  obtain ⟨_, _, _, _, hidx⟩ := hok
  rw [list_get_elem_heap] at hidx
  have hne : (list_get_elem f (i : Int)).1.list_index ≠ none := by
    have : ¬ bayer_malloc_null (f.list_count * 8) := by
      unfold bayer_malloc_null; omega
    simp only [list_get_elem]
    split_ifs <;> simp_all
  have hidx2 : (list_get_elem f (i : Int)).1.list_index = some (List.range f.heap.length) := by
    rcases hidx with h1 | h1
    · exact absurd h1 hne
    · exact h1
  have hres : (list_get_elem f (i : Int)).2 =
      ((list_get_elem f (i : Int)).1.list_index.getD [])[i]? := by
    have hcond : (0 : Int) ≤ (i : Int) ∧ (i : Int) < (f.list_count : Int) := by
      constructor <;> omega
    simp only [list_get_elem, hcond, and_self, if_true, Int.toNat_ofNat]
  rw [hres, hidx2]
  simp only [Option.getD_some]
  exact List.getElem?_range (by omega)

theorem list_step_ok (f : flist_t) (op : list_op) (h : list_ok f) : list_ok (list_step f op) := by
  cases op with
  | insert_stat raw fpath mode sb =>
    cases sb <;> exact list_ok_insert _ _ h
  | insert_lite raw fpath type => exact list_ok_insert _ _ h
  | insert_ptr buf ptr chars => exact list_ok_insert _ _ h
  | get_elem index => exact list_ok_get_elem _ _ h

/-- Every shard reached from a new list is well formed. -/
theorem list_ok_run (raw : flist_t) (ops : List list_op) : list_ok (list_run raw ops) := by
  unfold list_run
  generalize hf : bayer_flist_new raw = f
  have h0 : list_ok f := hf ▸ list_ok_new raw
  clear hf
  induction ops generalizing f with
  | nil => exact h0
  | cons op ops ih => exact ih _ (list_step_ok f op h0)

theorem list_insert_elem_map {β : Type} (g : elem_t → β) (hg : ∀ e, g (unlink e) = g e)
    (f : flist_t) (e : elem_t) :
    (list_insert_elem f e).heap.map g = f.heap.map g ++ [g e] := by
  have h := congrArg (List.map g) (list_insert_elem_unlink f e)
  simp only [List.map_map, List.map_append, List.map_cons, List.map_nil] at h
  have hcomp : g ∘ unlink = g := funext hg
  rw [hcomp, hg] at h
  exact h

theorem list_step_path_depth (f : flist_t) (op : list_op) :
    (list_step f op).heap.map path_depth =
      f.heap.map path_depth ++
        (op_path op).toList.map (fun p => (p, ((p.count 47 : Nat) : Int))) := by
  have hg : ∀ e, path_depth (unlink e) = path_depth e := fun _ => rfl
  cases op with
  | insert_stat raw fpath mode sb =>
    cases sb <;>
      simp [list_step, list_insert_stat, list_insert_elem_map path_depth hg, op_path,
        path_depth, get_depth_eq_count]
  | insert_lite raw fpath type =>
    simp [list_step, list_insert_lite, list_insert_elem_map path_depth hg, op_path,
      path_depth, get_depth_eq_count]
  | insert_ptr buf ptr chars =>
    simp [list_step, list_insert_ptr, list_insert_elem_map path_depth hg, op_path,
      path_depth, get_depth_eq_count]
  | get_elem index =>
    simp [list_step, list_get_elem_heap, op_path]

theorem list_run_path_depth (raw : flist_t) (ops : List list_op) :
    (list_run raw ops).heap.map path_depth =
      (inserted_paths ops).map (fun p => (p, ((p.count 47 : Nat) : Int))) := by
  unfold list_run inserted_paths
  have hgen : ∀ (f : flist_t),
      (ops.foldl list_step f).heap.map path_depth =
        f.heap.map path_depth ++
          (ops.filterMap op_path).map (fun p => (p, ((p.count 47 : Nat) : Int))) := by
    induction ops with
    | nil => intro f; simp
    | cons op ops ih =>
      intro f
      rw [List.foldl_cons, ih, list_step_path_depth]
      cases hp : op_path op <;> simp [List.filterMap_cons, hp]
  rw [hgen]
  simp [bayer_flist_new]

/-- On a well-formed shard the depth accessor succeeds for every index
below the count and stores the depth field of that element. -/
theorem bayer_flist_file_depth_of_ok (f : flist_t) (h : list_ok f) (i : Nat)
    (hi : i < f.list_count) (e : elem_t) (he : f.heap[i]? = some e) :
    (bayer_flist_file_depth f (i : Int)).2 = (0, some e.depth) := by
  have h1 := list_get_elem_of_ok f h i hi
  have h2 := list_get_elem_heap f (i : Int)
  simp only [bayer_flist_file_depth, h1, h2, Option.some_bind, he]

/-! ## Depth of records (C10) -/

/-- C10: in every shard built from a new list by insertions with
`list_insert_stat`, `list_insert_lite` and `list_insert_ptr` (index
accesses interleaved at will), the record at index `i` carries the `i`-th
inserted path, its depth field is the number of `'/'` bytes of that path,
and `bayer_flist_file_depth` returns 0 and stores that number. -/
theorem depth_correct (raw : flist_t) (ops : List list_op) (i : Nat)
    (hi : i < bayer_flist_size (list_run raw ops)) :
    ∃ path, (inserted_paths ops)[i]? = some path ∧
      (list_elems (list_run raw ops))[i]?.map path_depth =
        some (path, ((path.count 47 : Nat) : Int)) ∧
      (bayer_flist_file_depth (list_run raw ops) (i : Int)).2 =
        (0, some ((path.count 47 : Nat) : Int)) := by
  have hok := list_ok_run raw ops
  have hpd := list_run_path_depth raw ops
  have hlen : (list_run raw ops).heap.length = (inserted_paths ops).length := by
    have := congrArg List.length hpd
    simpa using this
  have hcount : (list_run raw ops).list_count = (list_run raw ops).heap.length := hok.1
  have hi2 : i < (list_run raw ops).heap.length := by
    unfold bayer_flist_size at hi; omega
  have hip : i < (inserted_paths ops).length := by omega
  refine ⟨(inserted_paths ops)[i], List.getElem?_eq_getElem hip, ?_, ?_⟩
  · rw [list_elems_of_ok _ hok, ← List.getElem?_map, hpd, List.getElem?_map,
      List.getElem?_eq_getElem hip]
    rfl
  · have he : (list_run raw ops).heap[i]? = some (list_run raw ops).heap[i] :=
      List.getElem?_eq_getElem hi2
    rw [bayer_flist_file_depth_of_ok _ hok i (by unfold bayer_flist_size at hi; exact hi) _ he]
    have hx := congrArg (fun l => l[i]?) hpd
    simp only [List.getElem?_map, he, List.getElem?_eq_getElem hip, Option.map_some',
      Option.some.injEq, path_depth, Prod.mk.injEq] at hx
    rw [hx.2]

/-- The statement of `depth_correct` at a concrete input. -/
theorem depth_correct_witness :
    3 < bayer_flist_size (list_run sample_raw_list sample_ops_stat) ∧
    ∃ path, (inserted_paths sample_ops_stat)[3]? = some path ∧
      (list_elems (list_run sample_raw_list sample_ops_stat))[3]?.map path_depth =
        some (path, ((path.count 47 : Nat) : Int)) ∧
      (bayer_flist_file_depth (list_run sample_raw_list sample_ops_stat) ((3 : Nat) : Int)).2 =
        (0, some ((path.count 47 : Nat) : Int)) :=
  ⟨by decide, depth_correct sample_raw_list sample_ops_stat 3 (by decide)⟩

/-! ## Name stride (C9) -/

theorem strid_insert_maxchars (name : List Nat) (id : Nat) (l : strid_list) (L : Nat)
    (h : (l.maxchars = 0 ∧ L = 0) ∨
      (l.maxchars % 4 = 0 ∧ ((L : Int) + 1 ≤ l.maxchars) ∧ l.maxchars < (L : Int) + 5)) :
    (strid_insert name id l).maxchars % 4 = 0 ∧
      (((max L (strlen name) : Nat) : Int) + 1 ≤ (strid_insert name id l).maxchars) ∧
      (strid_insert name id l).maxchars < ((max L (strlen name) : Nat) : Int) + 5 := by
  simp only [strid_insert]
  generalize strlen name = s
  have hmax : max L s = if L ≤ s then s else L := by
    by_cases hle : L ≤ s <;> simp [hle]; omega
  rw [hmax]
  split_ifs <;> push_cast <;> omega

theorem strid_foldl_maxchars (pairs : List (List Nat × Nat)) :
    ∀ (l : strid_list) (L : Nat),
      l.maxchars % 4 = 0 ∧ ((L : Int) + 1 ≤ l.maxchars) ∧ l.maxchars < (L : Int) + 5 →
      (pairs.foldl (fun l p => strid_insert p.1 p.2 l) l).maxchars % 4 = 0 ∧
      ((((pairs.map fun p => strlen p.1).foldl max L : Nat) : Int) + 1 ≤
        (pairs.foldl (fun l p => strid_insert p.1 p.2 l) l).maxchars) ∧
      (pairs.foldl (fun l p => strid_insert p.1 p.2 l) l).maxchars <
        (((pairs.map fun p => strlen p.1).foldl max L : Nat) : Int) + 5 := by
  induction pairs with
  | nil => intro l L h; simpa using h
  | cons p ps ih =>
    intro l L h
    simp only [List.foldl_cons, List.map_cons]
    exact ih _ _ (strid_insert_maxchars p.1 p.2 l L (Or.inr h))

theorem foldl_max_eq_foldr (xs : List Nat) (a : Nat) :
    xs.foldl max a = max a (xs.foldr max 0) := by
  induction xs generalizing a with
  | nil => simp
  | cons x xs ih => simp only [List.foldl_cons, List.foldr_cons, ih]; omega

/-- C9: starting from `maxchars = 0`, inserting no name leaves the stride
at 0; inserting a non-empty sequence of names with `strid_insert` leaves a
stride that is a multiple of 4, is at least the length of the longest name
plus one, and is at most any other multiple of 4 with that property. -/
theorem name_stride_rule :
    (strid_insert_all []).maxchars = 0 ∧
    ∀ (p : List Nat × Nat) (ps : List (List Nat × Nat)),
      (strid_insert_all (p :: ps)).maxchars % 4 = 0 ∧
      ((longest_name (p :: ps) : Int) + 1 ≤ (strid_insert_all (p :: ps)).maxchars) ∧
      ∀ m : Int, m % 4 = 0 → (longest_name (p :: ps) : Int) + 1 ≤ m →
        (strid_insert_all (p :: ps)).maxchars ≤ m := by
  refine ⟨rfl, ?_⟩
  intro p ps
  have h1 := strid_insert_maxchars p.1 p.2 strid_empty 0 (Or.inl ⟨rfl, rfl⟩)
  have h2 := strid_foldl_maxchars ps _ _ h1
  have hL : (List.map (fun p => strlen p.1) ps).foldl max (max 0 (strlen p.1)) =
      longest_name (p :: ps) := by
    rw [foldl_max_eq_foldr]
    simp [longest_name]
  rw [hL] at h2
  have hrun : strid_insert_all (p :: ps) =
      ps.foldl (fun l p => strid_insert p.1 p.2 l) (strid_insert p.1 p.2 strid_empty) := rfl
  rw [hrun]
  obtain ⟨ha, hb, hc⟩ := h2
  refine ⟨ha, hb, ?_⟩
  intro m hm hle
  omega

/-! ## Maxima -/

theorem le_foldr_max (xs : List Nat) (x : Nat) (h : x ∈ xs) : x ≤ xs.foldr max 0 := by
  induction xs with
  | nil => simp at h
  | cons y ys ih =>
    simp only [List.foldr_cons]
    rcases List.mem_cons.mp h with rfl | h
    · omega
    · have := ih h; omega

theorem foldr_max_mem (xs : List Nat) : xs.foldr max 0 = 0 ∨ xs.foldr max 0 ∈ xs := by
  induction xs with
  | nil => left; rfl
  | cons y ys ih =>
    simp only [List.foldr_cons, List.mem_cons]
    by_cases hy : ys.foldr max 0 ≤ y
    · right; left; omega
    · rcases ih with h0 | hm
      · omega
      · right; right
        have : max y (ys.foldr max 0) = ys.foldr max 0 := by omega
        rw [this]; exact hm

theorem MPI_Allreduce_max_eq (xs : List Nat) : MPI_Allreduce_max xs = xs.foldr max 0 := by
  unfold MPI_Allreduce_max
  rw [foldl_max_eq_foldr]; omega

theorem list_max_len_eq (elems : List elem_t) :
    list_max_len elems = (elems.map fun e => strlen e.file + 1).foldr max 0 := by
  unfold list_max_len
  have hgen : ∀ a : Nat,
      elems.foldl (fun max current =>
        let len := strlen current.file + 1
        if len > max then len else max) a =
      max a ((elems.map fun e => strlen e.file + 1).foldr max 0) := by
    induction elems with
    | nil => intro a; simp
    | cons e es ih =>
      intro a
      simp only [List.foldl_cons, List.map_cons, List.foldr_cons, ih]
      split_ifs <;> omega
  rw [hgen]; omega

theorem round_up8_spec (n : Nat) : round_up8 n % 8 = 0 ∧ n ≤ round_up8 n ∧ round_up8 n < n + 8 := by
  unfold round_up8
  simp only
  split_ifs <;> omega

/-! ## Path stride (C8) -/

theorem stride_mod8 (world : List flist_t) :
    MPI_Allreduce_max (world.map list_local_max8) % 8 = 0 := by
  rw [MPI_Allreduce_max_eq]
  rcases foldr_max_mem (world.map list_local_max8) with h | h
  · rw [h]
  · obtain ⟨f, _, hf⟩ := List.mem_map.mp h
    rw [← hf]
    exact (round_up8_spec _).1

theorem stride_fits (world : List flist_t) (f : flist_t) (hf : f ∈ world) (e : elem_t)
    (he : e ∈ list_elems f) :
    strlen e.file + 1 ≤ MPI_Allreduce_max (world.map list_local_max8) := by
  rw [MPI_Allreduce_max_eq]
  have h1 : list_local_max8 f ≤ (world.map list_local_max8).foldr max 0 :=
    le_foldr_max _ _ (List.mem_map.mpr ⟨f, hf, rfl⟩)
  have h2 : strlen e.file + 1 ≤ list_max_len (list_elems f) := by
    rw [list_max_len_eq]
    exact le_foldr_max _ _ (List.mem_map.mpr ⟨e, he, rfl⟩)
  have h3 := (round_up8_spec (list_max_len (list_elems f))).2.1
  have h4 : list_local_max8 f = round_up8 (list_max_len (list_elems f)) := rfl
  omega

theorem stride_tight (world : List flist_t) :
    MPI_Allreduce_max (world.map list_local_max8) < longest_path world + 9 := by
  rw [MPI_Allreduce_max_eq]
  rcases foldr_max_mem (world.map list_local_max8) with h | h
  · omega
  · obtain ⟨f, hf, hfe⟩ := List.mem_map.mp h
    rw [← hfe]
    have h3 := (round_up8_spec (list_max_len (list_elems f))).2.2
    have h4 : list_max_len (list_elems f) ≤ longest_path world + 1 := by
      rw [list_max_len_eq]
      rcases foldr_max_mem ((list_elems f).map fun e => strlen e.file + 1) with h0 | hm
      · omega
      · obtain ⟨e, he, hee⟩ := List.mem_map.mp hm
        rw [← hee]
        have : strlen e.file ≤ longest_path world := by
          unfold longest_path
          apply le_foldr_max
          exact List.mem_map.mpr ⟨e, List.mem_flatMap.mpr ⟨f, hf, he⟩, rfl⟩
        omega
    unfold list_local_max8
    omega

theorem stride_lower (world : List flist_t) (hne : ∃ f ∈ world, list_elems f ≠ []) :
    longest_path world + 1 ≤ MPI_Allreduce_max (world.map list_local_max8) := by
  obtain ⟨f0, hf0, hne0⟩ := hne
  obtain ⟨e0, he0⟩ := List.exists_mem_of_ne_nil _ hne0
  have hfit0 := stride_fits world f0 hf0 e0 he0
  rcases foldr_max_mem ((world.flatMap list_elems).map fun e => strlen e.file) with h | h
  · unfold longest_path; omega
  · obtain ⟨e, he, hee⟩ := List.mem_map.mp h
    obtain ⟨f, hf, hef⟩ := List.mem_flatMap.mp he
    have := stride_fits world f hf e hef
    unfold longest_path
    omega

theorem list_convert_to_dt_chars (world : List flist_t) (f : flist_t) (raw : Nat → Nat) :
    (list_convert_to_dt world f raw).chars = MPI_Allreduce_max (world.map list_local_max8) := by
  unfold list_convert_to_dt
  simp only
  by_cases h : MPI_Allreduce_max (world.map list_local_max8) ≤ 0
  · rw [if_pos h]; simp only; omega
  · rw [if_neg h]

/-- C8: when some participant holds a record, the path stride computed by
`list_convert_to_dt` is one value on all participants, a multiple of 8, at
least the length of the longest path plus one and no larger than any other
multiple of 8 with that property; every path of every shard is strictly
shorter than it; and when the longest path has length `8 * k` the stride
is `8 * k + 8`. -/
theorem path_stride_rule (world : List flist_t) (hne : ∃ f ∈ world, list_elems f ≠ []) :
    ∃ stride : Nat,
      (∀ f ∈ world, ∀ raw : Nat → Nat, (list_convert_to_dt world f raw).chars = stride) ∧
      stride % 8 = 0 ∧
      longest_path world + 1 ≤ stride ∧
      (∀ m : Nat, m % 8 = 0 → longest_path world + 1 ≤ m → stride ≤ m) ∧
      (∀ f ∈ world, ∀ e ∈ list_elems f, strlen e.file < stride) ∧
      (∀ k : Nat, longest_path world = 8 * k → stride = 8 * k + 8) := by
  have h8 := stride_mod8 world
  have hlo := stride_lower world hne
  have hhi := stride_tight world
  refine ⟨MPI_Allreduce_max (world.map list_local_max8), ?_, h8, hlo, ?_, ?_, ?_⟩
  · intro f _ raw
    exact list_convert_to_dt_chars world f raw
  · intro m hm hle; omega
  · intro f hf e he
    have := stride_fits world f hf e he
    omega
  · intro k hk; omega

/-- The statement of `path_stride_rule` at a concrete input. -/
theorem path_stride_rule_witness :
    (∃ f ∈ sample_world, list_elems f ≠ []) ∧
    ∃ stride : Nat,
      (∀ f ∈ sample_world, ∀ raw : Nat → Nat,
        (list_convert_to_dt sample_world f raw).chars = stride) ∧
      stride % 8 = 0 ∧
      longest_path sample_world + 1 ≤ stride ∧
      (∀ m : Nat, m % 8 = 0 → longest_path sample_world + 1 ≤ m → stride ≤ m) ∧
      (∀ f ∈ sample_world, ∀ e ∈ list_elems f, strlen e.file < stride) ∧
      (∀ k : Nat, longest_path sample_world = 8 * k → stride = 8 * k + 8) :=
  ⟨⟨sample_shard0, by decide, by decide⟩,
    path_stride_rule sample_world ⟨sample_shard0, by decide, by decide⟩⟩

/-! ## Even redistribution on read (C4) -/

theorem read_count_eq (N R r : Nat) :
    read_count N R r = N / R + if r < N % R then 1 else 0 := by
  unfold read_count
  have h : N - N / R * R = N % R := by
    have := Nat.div_add_mod N R
    have hc : N / R * R = R * (N / R) := Nat.mul_comm _ _
    omega
  simp only [h]
  split_ifs <;> rfl

theorem sum_range_indicator (q k : Nat) (n : Nat) :
    ((List.range n).map fun r => q + if r < k then 1 else 0).sum = n * q + min n k := by
  induction n with
  | zero => simp
  | succ n ih =>
    rw [List.sum_range_succ, ih]
    have hq : (n + 1) * q = n * q + q := Nat.succ_mul n q
    split_ifs <;> omega

theorem read_count_sum (N R : Nat) (hR : 1 ≤ R) :
    ((List.range R).map (read_count N R)).sum = N := by
  have hfun : read_count N R = fun r => N / R + if r < N % R then 1 else 0 :=
    funext (read_count_eq N R)
  rw [hfun, sum_range_indicator]
  have hlt : N % R < R := Nat.mod_lt N (by omega)
  have := Nat.div_add_mod N R
  have hmin : min R (N % R) = N % R := by omega
  rw [hmin]
  exact this

/-- C4: with `N` records in the cache and `R ≥ 1` reading participants,
`read_cache_v2` and `read_cache_v3` give participant `r` exactly
`N / R + (1 if r < N mod R else 0)` records; two participants differ by at
most one record and the counts add up to `N`. -/
theorem read_count_even (N R : Nat) (hR : 1 ≤ R) :
    (∀ r, r < R → read_count N R r = N / R + if r < N % R then 1 else 0) ∧
    (∀ r1 r2, r1 < R → r2 < R → read_count N R r1 ≤ read_count N R r2 + 1) ∧
    ((List.range R).map (read_count N R)).sum = N := by
  refine ⟨fun r _ => read_count_eq N R r, ?_, ?_⟩
  · intro r1 r2 _ _
    rw [read_count_eq, read_count_eq]
    split_ifs <;> omega
  · exact read_count_sum N R hR

/-- The statement of `read_count_even` at a concrete input. -/
theorem read_count_even_witness :
    1 ≤ 3 ∧
    ((∀ r, r < 3 → read_count 4 3 r = 4 / 3 + if r < 4 % 3 then 1 else 0) ∧
    (∀ r1 r2, r1 < 3 → r2 < 3 → read_count 4 3 r1 ≤ read_count 4 3 r2 + 1) ∧
    ((List.range 3).map (read_count 4 3)).sum = 4) :=
  ⟨by decide, read_count_even 4 3 (by decide)⟩

/-! ## Byte stores and loads -/

theorem poke_bytes_length (bs : List Nat) :
    ∀ (buf : List Nat) (p : Nat), (poke_bytes buf p bs).length = buf.length := by
  induction bs with
  | nil => intro buf p; rfl
  | cons b bs ih => intro buf p; simp [poke_bytes, ih]

theorem poke_bytes_get (bs : List Nat) : ∀ (buf : List Nat) (p a : Nat),
    (poke_bytes buf p bs)[a]? =
      if p ≤ a ∧ a < p + bs.length ∧ a < buf.length then bs[a - p]? else buf[a]? := by
  induction bs with
  | nil =>
    intro buf p a
    have : ¬(p ≤ a ∧ a < p + ([] : List Nat).length ∧ a < buf.length) := by
      simp only [List.length_nil]; omega
    rw [if_neg this]; rfl
  | cons b bs ih =>
    intro buf p a
    simp only [poke_bytes, ih, List.length_set, List.length_cons, List.getElem?_set]
    by_cases h1 : p + 1 ≤ a ∧ a < p + 1 + bs.length ∧ a < buf.length
    · rw [if_pos h1, if_pos (by omega)]
      have : a - p = (a - (p + 1)) + 1 := by omega
      rw [this, List.getElem?_cons_succ]
    · rw [if_neg h1]
      by_cases h2 : p = a
      · subst h2
        by_cases h3 : p < buf.length
        · rw [if_pos rfl, if_pos h3, if_pos (by omega)]; simp
        · rw [if_pos rfl, if_neg h3, if_neg (by omega)]
          exact (List.getElem?_eq_none (by omega)).symm
      · rw [if_neg h2, if_neg (by omega)]

theorem poke_bytes_get_out (bs buf : List Nat) (p a : Nat) (h : a < p ∨ p + bs.length ≤ a) :
    (poke_bytes buf p bs)[a]? = buf[a]? := by
  rw [poke_bytes_get, if_neg (by omega)]

theorem poke_bytes_get_in (bs buf : List Nat) (p t : Nat) (ht : t < bs.length)
    (hfit : p + bs.length ≤ buf.length) :
    (poke_bytes buf p bs)[p + t]? = bs[t]? := by
  rw [poke_bytes_get, if_pos (by omega)]
  congr 1; omega

theorem store_u32_length (buf : List Nat) (p v : Nat) :
    (store_u32 buf p v).length = buf.length := poke_bytes_length _ _ _

theorem store_u64_length (buf : List Nat) (p v : Nat) :
    (store_u64 buf p v).length = buf.length := by
  unfold store_u64; rw [store_u32_length, store_u32_length]

theorem strcpy_length (buf : List Nat) (p : Nat) (s : List Nat) :
    (strcpy buf p s).length = buf.length := poke_bytes_length _ _ _

theorem store_u32_get_out (buf : List Nat) (p v a : Nat) (h : a < p ∨ p + 4 ≤ a) :
    (store_u32 buf p v)[a]? = buf[a]? :=
  poke_bytes_get_out _ _ _ _ (by simpa using h)

theorem store_u64_get_out (buf : List Nat) (p v a : Nat) (h : a < p ∨ p + 8 ≤ a) :
    (store_u64 buf p v)[a]? = buf[a]? := by
  unfold store_u64
  rw [store_u32_get_out _ _ _ _ (by omega), store_u32_get_out _ _ _ _ (by omega)]

theorem strcpy_get_out (buf : List Nat) (p : Nat) (s : List Nat) (a : Nat)
    (h : a < p ∨ p + strlen s + 1 ≤ a) : (strcpy buf p s)[a]? = buf[a]? :=
  poke_bytes_get_out _ _ _ _ (by simp only [List.length_append, List.length_singleton]; exact h)

theorem peek_congr (b1 b2 : List Nat) (a : Nat) (h : b1[a]? = b2[a]?) : peek b1 a = peek b2 a := by
  unfold peek; rw [h]

theorem load_u32_congr (b1 b2 : List Nat) (p : Nat)
    (h : ∀ a, p ≤ a → a < p + 4 → b1[a]? = b2[a]?) : load_u32 b1 p = load_u32 b2 p := by
  unfold load_u32
  rw [peek_congr b1 b2 p (h _ (by omega) (by omega)),
    peek_congr b1 b2 (p + 1) (h _ (by omega) (by omega)),
    peek_congr b1 b2 (p + 2) (h _ (by omega) (by omega)),
    peek_congr b1 b2 (p + 3) (h _ (by omega) (by omega))]

theorem load_u64_congr (b1 b2 : List Nat) (p : Nat)
    (h : ∀ a, p ≤ a → a < p + 8 → b1[a]? = b2[a]?) : load_u64 b1 p = load_u64 b2 p := by
  unfold load_u64
  rw [load_u32_congr b1 b2 p (fun a h1 h2 => h a h1 (by omega)),
    load_u32_congr b1 b2 (p + 4) (fun a h1 h2 => h a (by omega) (by omega))]

theorem load_store_u32 (buf : List Nat) (p v : Nat) (hfit : p + 4 ≤ buf.length) :
    load_u32 (store_u32 buf p v) p = v % 4294967296 := by
  have h0 := poke_bytes_get_in [v % 256, v / 256 % 256, v / 65536 % 256, v / 16777216 % 256]
    buf p 0 (by simp) (by simpa using hfit)
  have h1 := poke_bytes_get_in [v % 256, v / 256 % 256, v / 65536 % 256, v / 16777216 % 256]
    buf p 1 (by simp) (by simpa using hfit)
  have h2 := poke_bytes_get_in [v % 256, v / 256 % 256, v / 65536 % 256, v / 16777216 % 256]
    buf p 2 (by simp) (by simpa using hfit)
  have h3 := poke_bytes_get_in [v % 256, v / 256 % 256, v / 65536 % 256, v / 16777216 % 256]
    buf p 3 (by simp) (by simpa using hfit)
  simp only [Nat.add_zero] at h0
  unfold load_u32 peek
  unfold store_u32
  rw [h0, h1, h2, h3]
  simp only [List.getElem?_cons_zero, List.getElem?_cons_succ, Option.getD_some]
  omega

theorem load_store_u64 (buf : List Nat) (p v : Nat) (hfit : p + 8 ≤ buf.length) :
    load_u64 (store_u64 buf p v) p = v % 18446744073709551616 := by
  unfold load_u64 store_u64
  rw [load_store_u32 _ _ _ (by rw [store_u32_length]; omega)]
  rw [load_u32_congr _ (store_u32 buf p (v % 4294967296)) p
    (fun a h1 h2 => store_u32_get_out _ _ _ _ (by omega))]
  rw [load_store_u32 _ _ _ (by omega)]
  omega

/-- The string read back at `p` is `s` when the bytes of `s` and a NUL
are stored there. -/
theorem bayer_strdup_drop (s : List Nat) (hs : ∀ c ∈ s, c ≠ 0) :
    ∀ (buf : List Nat) (p : Nat), (∀ t, t ≤ s.length → buf[p + t]? = (s ++ [0])[t]?) →
      bayer_strdup (buf.drop p) = s := by
  induction s with
  | nil =>
    intro buf p h
    have h0 := h 0 (by simp)
    simp only [Nat.add_zero, List.nil_append, List.getElem?_cons_zero] at h0
    have hlt : p < buf.length := by
      by_contra hc
      rw [List.getElem?_eq_none (by omega)] at h0
      exact absurd h0 (by simp)
    rw [List.drop_eq_getElem_cons hlt]
    rw [List.getElem?_eq_getElem hlt] at h0
    simp only [Option.some.injEq] at h0
    simp [bayer_strdup, h0]
  | cons c cs ih =>
    intro buf p h
    have h0 := h 0 (by simp)
    simp only [Nat.add_zero, List.cons_append, List.getElem?_cons_zero] at h0
    have hlt : p < buf.length := by
      by_contra hc
      rw [List.getElem?_eq_none (by omega)] at h0
      exact absurd h0 (by simp)
    rw [List.drop_eq_getElem_cons hlt]
    rw [List.getElem?_eq_getElem hlt] at h0
    simp only [Option.some.injEq] at h0
    have hc0 : c ≠ 0 := hs c (by simp)
    simp only [bayer_strdup, h0, hc0, if_false, List.cons.injEq, true_and]
    apply ih (fun x hx => hs x (by simp [hx]))
    intro t ht
    have := h (t + 1) (by simp only [List.length_cons]; omega)
    simp only [List.cons_append, List.getElem?_cons_succ] at this
    rw [← this]
    congr 1; omega

/-! ## Packing one record -/

theorem strcpy_get_in (buf : List Nat) (p : Nat) (s : List Nat) (hs : ∀ c ∈ s, c ≠ 0)
    (hfit : p + s.length + 1 ≤ buf.length) (t : Nat) (ht : t ≤ s.length) :
    (strcpy buf p s)[p + t]? = (s ++ [0])[t]? := by
  unfold strcpy
  rw [bayer_strdup_of_no_nul s hs]
  exact poke_bytes_get_in _ _ _ _ (by simp; omega) (by simp; omega)

theorem strlen_of_no_nul (s : List Nat) (hs : ∀ c ∈ s, c ≠ 0) : strlen s = s.length := by
  unfold strlen; rw [bayer_strdup_of_no_nul s hs]

theorem stattype_extent_detail (detail : Int) (hd : detail ≠ 0) (chars : Nat) :
    MPI_Type_get_extent (create_stattype detail chars) = chars + 32 := by
  simp [MPI_Type_get_extent, create_stattype, hd]

theorem stattype_extent_lite (chars : Nat) :
    MPI_Type_get_extent (create_stattype 0 chars) = chars + 4 := by
  simp [MPI_Type_get_extent, create_stattype]

theorem pack_detail_bytes (chars : Nat) (b : List Nat) (p : Nat) (e : elem_t)
    (b0 b1 b2 b3 b4 b5 b6 b7 : List Nat)
    (h0 : b0 = strcpy b p e.file)
    (h1 : b1 = store_u32 b0 (p + chars) e.mode)
    (h2 : b2 = store_u32 b1 (p + chars + 4) e.uid)
    (h3 : b3 = store_u32 b2 (p + chars + 8) e.gid)
    (h4 : b4 = store_u32 b3 (p + chars + 12) e.atime)
    (h5 : b5 = store_u32 b4 (p + chars + 16) e.mtime)
    (h6 : b6 = store_u32 b5 (p + chars + 20) e.ctime)
    (h7 : b7 = store_u64 b6 (p + chars + 24) e.size)
    (hfit : p + (chars + 32) ≤ b.length)
    (hgood : (e.file.length + 1 ≤ chars ∧ ∀ c ∈ e.file, c ≠ 0) ∧ fields_in_range e) :
    b7.length = b.length ∧
    (∀ a, a < p → b7[a]? = b[a]?) ∧
    (∀ b' : List Nat, (∀ a, p ≤ a → a < p + (chars + 32) → b'[a]? = b7[a]?) →
      decode_detail b' p chars = detail_of e) := by
  obtain ⟨⟨hlen, hnul⟩, hmode, huid, hgid, hatime, hmtime, hctime, hsize⟩ := hgood
  have hsl := strlen_of_no_nul e.file hnul
  have l0 : b0.length = b.length := by rw [h0, strcpy_length]
  have l1 : b1.length = b.length := by rw [h1, store_u32_length, l0]
  have l2 : b2.length = b.length := by rw [h2, store_u32_length, l1]
  have l3 : b3.length = b.length := by rw [h3, store_u32_length, l2]
  have l4 : b4.length = b.length := by rw [h4, store_u32_length, l3]
  have l5 : b5.length = b.length := by rw [h5, store_u32_length, l4]
  have l6 : b6.length = b.length := by rw [h6, store_u32_length, l5]
  have l7 : b7.length = b.length := by rw [h7, store_u64_length, l6]
  have g0 : ∀ a, a < p ∨ p + e.file.length + 1 ≤ a → b0[a]? = b[a]? := fun a ha => by
    rw [h0, strcpy_get_out _ _ _ _ (by omega)]
  have g1 : ∀ a, a < p + chars ∨ p + chars + 4 ≤ a → b1[a]? = b0[a]? := fun a ha => by
    rw [h1, store_u32_get_out _ _ _ _ ha]
  have g2 : ∀ a, a < p + chars + 4 ∨ p + chars + 8 ≤ a → b2[a]? = b1[a]? := fun a ha => by
    rw [h2, store_u32_get_out _ _ _ _ (by omega)]
  have g3 : ∀ a, a < p + chars + 8 ∨ p + chars + 12 ≤ a → b3[a]? = b2[a]? := fun a ha => by
    rw [h3, store_u32_get_out _ _ _ _ (by omega)]
  have g4 : ∀ a, a < p + chars + 12 ∨ p + chars + 16 ≤ a → b4[a]? = b3[a]? := fun a ha => by
    rw [h4, store_u32_get_out _ _ _ _ (by omega)]
  have g5 : ∀ a, a < p + chars + 16 ∨ p + chars + 20 ≤ a → b5[a]? = b4[a]? := fun a ha => by
    rw [h5, store_u32_get_out _ _ _ _ (by omega)]
  have g6 : ∀ a, a < p + chars + 20 ∨ p + chars + 24 ≤ a → b6[a]? = b5[a]? := fun a ha => by
    rw [h6, store_u32_get_out _ _ _ _ (by omega)]
  have g7 : ∀ a, a < p + chars + 24 ∨ p + chars + 32 ≤ a → b7[a]? = b6[a]? := fun a ha => by
    rw [h7, store_u64_get_out _ _ _ _ (by omega)]
  refine ⟨l7, ?_, ?_⟩
  · intro a ha
    rw [g7 a (by omega), g6 a (by omega), g5 a (by omega), g4 a (by omega), g3 a (by omega),
      g2 a (by omega), g1 a (by omega), g0 a (by omega)]
  · intro b' hb'
    unfold decode_detail detail_of
    refine Prod.ext ?_ (Prod.ext ?_ (Prod.ext ?_ (Prod.ext ?_ (Prod.ext ?_ (Prod.ext ?_
      (Prod.ext ?_ ?_))))))
    · apply bayer_strdup_drop e.file hnul
      intro t ht
      rw [hb' _ (by omega) (by omega), g7 _ (by omega), g6 _ (by omega), g5 _ (by omega),
        g4 _ (by omega), g3 _ (by omega), g2 _ (by omega), g1 _ (by omega), h0]
      exact strcpy_get_in b p e.file hnul (by omega) t ht
    · show load_u32 b' (p + chars) = e.mode
      rw [load_u32_congr b' b1 _ (fun a _ _ => by
        rw [hb' a (by omega) (by omega), g7 a (by omega), g6 a (by omega), g5 a (by omega),
          g4 a (by omega), g3 a (by omega), g2 a (by omega)])]
      rw [h1, load_store_u32 _ _ _ (by omega)]
      omega
    · show load_u32 b' (p + chars + 4) = e.uid
      rw [load_u32_congr b' b2 _ (fun a _ _ => by
        rw [hb' a (by omega) (by omega), g7 a (by omega), g6 a (by omega), g5 a (by omega),
          g4 a (by omega), g3 a (by omega)])]
      rw [h2, load_store_u32 _ _ _ (by omega)]
      omega
    · show load_u32 b' (p + chars + 8) = e.gid
      rw [load_u32_congr b' b3 _ (fun a _ _ => by
        rw [hb' a (by omega) (by omega), g7 a (by omega), g6 a (by omega), g5 a (by omega),
          g4 a (by omega)])]
      rw [h3, load_store_u32 _ _ _ (by omega)]
      omega
    · show load_u32 b' (p + chars + 12) = e.atime
      rw [load_u32_congr b' b4 _ (fun a _ _ => by
        rw [hb' a (by omega) (by omega), g7 a (by omega), g6 a (by omega), g5 a (by omega)])]
      rw [h4, load_store_u32 _ _ _ (by omega)]
      omega
    · show load_u32 b' (p + chars + 16) = e.mtime
      rw [load_u32_congr b' b5 _ (fun a _ _ => by
        rw [hb' a (by omega) (by omega), g7 a (by omega), g6 a (by omega)])]
      rw [h5, load_store_u32 _ _ _ (by omega)]
      omega
    · show load_u32 b' (p + chars + 20) = e.ctime
      rw [load_u32_congr b' b6 _ (fun a _ _ => by
        rw [hb' a (by omega) (by omega), g7 a (by omega)])]
      rw [h6, load_store_u32 _ _ _ (by omega)]
      omega
    · show load_u64 b' (p + chars + 24) = e.size
      rw [load_u64_congr b' b7 _ (fun a _ _ => hb' a (by omega) (by omega))]
      rw [h7, load_store_u64 _ _ _ (by omega)]
      omega

theorem convert_elem_detail (detail : Int) (hd : detail ≠ 0) (chars : Nat) (b : List Nat)
    (p : Nat) (e : elem_t) (hfit : p + (chars + 32) ≤ b.length)
    (hgood : (e.file.length + 1 ≤ chars ∧ ∀ c ∈ e.file, c ≠ 0) ∧ fields_in_range e) :
    (convert_elem detail chars (b, p) e).2 = p + (chars + 32) ∧
    (convert_elem detail chars (b, p) e).1.length = b.length ∧
    (∀ a, a < p → (convert_elem detail chars (b, p) e).1[a]? = b[a]?) ∧
    (∀ b' : List Nat,
      (∀ a, p ≤ a → a < p + (chars + 32) →
        b'[a]? = (convert_elem detail chars (b, p) e).1[a]?) →
      decode_detail b' p chars = detail_of e) := by
  simp only [convert_elem, hd, ne_eq, not_false_eq_true, if_true]
  refine ⟨by omega, ?_⟩
  exact pack_detail_bytes chars b p e _ _ _ _ _ _ _ _ rfl rfl rfl rfl rfl rfl rfl rfl hfit hgood

theorem pack_lite_bytes (chars : Nat) (b : List Nat) (p : Nat) (e : elem_t)
    (b0 b1 : List Nat)
    (h0 : b0 = strcpy b p e.file)
    (h1 : b1 = store_u32 b0 (p + chars) e.type)
    (hfit : p + (chars + 4) ≤ b.length)
    (hgood : (e.file.length + 1 ≤ chars ∧ ∀ c ∈ e.file, c ≠ 0) ∧ e.type < 2 ^ 32) :
    b1.length = b.length ∧
    (∀ a, a < p → b1[a]? = b[a]?) ∧
    (∀ b' : List Nat, (∀ a, p ≤ a → a < p + (chars + 4) → b'[a]? = b1[a]?) →
      decode_lite b' p chars = lite_of e) := by
  obtain ⟨⟨hlen, hnul⟩, htype⟩ := hgood
  have hsl := strlen_of_no_nul e.file hnul
  have l0 : b0.length = b.length := by rw [h0, strcpy_length]
  have l1 : b1.length = b.length := by rw [h1, store_u32_length, l0]
  have g0 : ∀ a, a < p ∨ p + e.file.length + 1 ≤ a → b0[a]? = b[a]? := fun a ha => by
    rw [h0, strcpy_get_out _ _ _ _ (by omega)]
  have g1 : ∀ a, a < p + chars ∨ p + chars + 4 ≤ a → b1[a]? = b0[a]? := fun a ha => by
    rw [h1, store_u32_get_out _ _ _ _ ha]
  refine ⟨l1, ?_, ?_⟩
  · intro a ha
    rw [g1 a (by omega), g0 a (by omega)]
  · intro b' hb'
    unfold decode_lite lite_of
    refine Prod.ext ?_ ?_
    · apply bayer_strdup_drop e.file hnul
      intro t ht
      rw [hb' _ (by omega) (by omega), g1 _ (by omega), h0]
      exact strcpy_get_in b p e.file hnul (by omega) t ht
    · show load_u32 b' (p + chars) = e.type
      rw [load_u32_congr b' b1 _ (fun a _ _ => hb' a (by omega) (by omega))]
      rw [h1, load_store_u32 _ _ _ (by omega)]
      omega

theorem convert_elem_lite (chars : Nat) (b : List Nat)
    (p : Nat) (e : elem_t) (hfit : p + (chars + 4) ≤ b.length)
    (hgood : (e.file.length + 1 ≤ chars ∧ ∀ c ∈ e.file, c ≠ 0) ∧ e.type < 2 ^ 32) :
    (convert_elem 0 chars (b, p) e).2 = p + (chars + 4) ∧
    (convert_elem 0 chars (b, p) e).1.length = b.length ∧
    (∀ a, a < p → (convert_elem 0 chars (b, p) e).1[a]? = b[a]?) ∧
    (∀ b' : List Nat,
      (∀ a, p ≤ a → a < p + (chars + 4) →
        b'[a]? = (convert_elem 0 chars (b, p) e).1[a]?) →
      decode_lite b' p chars = lite_of e) := by
  simp only [convert_elem, ne_eq, not_true_eq_false, if_false]
  refine ⟨by omega, ?_⟩
  exact pack_lite_bytes chars b p e _ _ rfl rfl hfit hgood

/-! ## Packing a shard -/

theorem convert_foldl (detail : Int) (chars ext : Nat) {β : Type}
    (dec : List Nat → Nat → β) (tgt : elem_t → β) (good : elem_t → Prop)
    (hstep : ∀ (b : List Nat) (p : Nat) (e : elem_t), p + ext ≤ b.length → good e →
      (convert_elem detail chars (b, p) e).2 = p + ext ∧
      (convert_elem detail chars (b, p) e).1.length = b.length ∧
      (∀ a, a < p → (convert_elem detail chars (b, p) e).1[a]? = b[a]?) ∧
      (∀ b' : List Nat,
        (∀ a, p ≤ a → a < p + ext → b'[a]? = (convert_elem detail chars (b, p) e).1[a]?) →
        dec b' p = tgt e))
    (elems : List elem_t) :
    ∀ (b : List Nat) (p : Nat), p + ext * elems.length ≤ b.length → (∀ e ∈ elems, good e) →
      (elems.foldl (convert_elem detail chars) (b, p)).1.length = b.length ∧
      (∀ a, a < p → (elems.foldl (convert_elem detail chars) (b, p)).1[a]? = b[a]?) ∧
      (List.range elems.length).map
        (fun i => dec (elems.foldl (convert_elem detail chars) (b, p)).1 (p + i * ext)) =
        elems.map tgt := by
  induction elems with
  | nil => intro b p _ _; simp
  | cons e es ih =>
    intro b p hfit hgood
    have hmul : ext * (e :: es).length = ext + ext * es.length := by
      simp only [List.length_cons, Nat.mul_succ]; omega
    obtain ⟨h2, hl, hf, hd⟩ := hstep b p e (by omega) (hgood e (by simp))
    have hpair : convert_elem detail chars (b, p) e =
        ((convert_elem detail chars (b, p) e).1, p + ext) := by
      rw [← h2]
    simp only [List.foldl_cons]
    rw [hpair]
    obtain ⟨il, iframe, idec⟩ := ih (convert_elem detail chars (b, p) e).1 (p + ext)
      (by rw [hl]; omega) (fun x hx => hgood x (by simp [hx]))
    refine ⟨by rw [il, hl], ?_, ?_⟩
    · intro a ha
      rw [iframe a (by omega), hf a ha]
    · rw [List.length_cons, List.range_succ_eq_map, List.map_cons, List.map_map, List.map_cons]
      congr 1
      · simp only [Nat.zero_mul, Nat.add_zero]
        apply hd
        intro a h1 h2
        exact iframe a h2
      · rw [← idec]
        apply List.map_congr_left
        intro i _
        simp only [Function.comp_apply]
        have : p + (i + 1) * ext = p + ext + i * ext := by rw [Nat.succ_mul]; omega
        rw [this]

/-! ## Decoding a shard -/

theorem list_insert_ptr_detail (f : flist_t) (buf : List Nat) (ptr chars : Nat) :
    (list_insert_ptr f buf ptr chars).heap.map detail_of =
      f.heap.map detail_of ++ [decode_detail buf ptr chars] := by
  unfold list_insert_ptr
  rw [list_insert_elem_map detail_of (fun _ => rfl)]
  rfl

theorem read_v3_insert_spec (buf : List Nat) (chars ext : Nat) :
    ∀ (count ptr : Nat) (f : flist_t), list_ok f →
      list_ok (read_v3_insert buf chars ext count ptr f) ∧
      (read_v3_insert buf chars ext count ptr f).heap.map detail_of =
        f.heap.map detail_of ++
          (List.range count).map (fun i => decode_detail buf (ptr + i * ext) chars) := by
  intro count
  induction count with
  | zero => intro ptr f h; simp [read_v3_insert, h]
  | succ n ih =>
    intro ptr f h
    obtain ⟨hok, hmap⟩ := ih (ptr + ext) (list_insert_ptr f buf ptr chars)
      (list_ok_insert _ _ h)
    refine ⟨hok, ?_⟩
    simp only [read_v3_insert]
    rw [hmap, list_insert_ptr_detail, List.range_succ_eq_map, List.map_cons, List.map_map,
      List.append_assoc]
    congr 1
    simp only [Nat.zero_mul, Nat.add_zero, List.singleton_append, List.cons.injEq, true_and]
    apply List.map_congr_left
    intro i _
    simp only [Function.comp_apply]
    have : ptr + (i + 1) * ext = ptr + ext + i * ext := by rw [Nat.succ_mul]; omega
    rw [this]

theorem list_insert_lite_lite (f : flist_t) (raw : elem_t) (fpath : List Nat) (type : Nat) :
    (list_insert_lite f raw fpath type).heap.map lite_of =
      f.heap.map lite_of ++ [(bayer_strdup fpath, type)] := by
  unfold list_insert_lite
  rw [list_insert_elem_map lite_of (fun _ => rfl)]
  rfl

theorem read_v2_insert_spec (buf : List Nat) (chars : Nat) (raw : Nat → elem_t) :
    ∀ (count i ptr : Nat) (f : flist_t), list_ok f →
      list_ok (read_v2_insert buf chars raw count i ptr f) ∧
      (read_v2_insert buf chars raw count i ptr f).heap.map lite_of =
        f.heap.map lite_of ++
          (List.range count).map (fun k => decode_lite buf (ptr + k * (chars + 4)) chars) := by
  intro count
  induction count with
  | zero => intro i ptr f h; simp [read_v2_insert, h]
  | succ n ih =>
    intro i ptr f h
    obtain ⟨hok, hmap⟩ := ih (i + 1) (ptr + chars + 4)
      (list_insert_lite f (raw i) (buf.drop ptr) (load_u32 buf (ptr + chars)))
      (list_ok_insert _ _ h)
    refine ⟨hok, ?_⟩
    simp only [read_v2_insert]
    rw [hmap, list_insert_lite_lite, List.range_succ_eq_map, List.map_cons, List.map_map,
      List.append_assoc]
    congr 1
    simp only [Nat.zero_mul, Nat.add_zero, List.singleton_append, List.cons.injEq]
    refine ⟨rfl, ?_⟩
    apply List.map_congr_left
    intro k _
    simp only [Function.comp_apply]
    have : ptr + (k + 1) * (chars + 4) = ptr + chars + 4 + k * (chars + 4) := by
      rw [Nat.succ_mul]; omega
    rw [this]

/-! ## Codec round trips (C1, C2) -/

theorem list_elems_new (raw : flist_t) : list_elems (bayer_flist_new raw) = [] := by
  rw [list_elems_of_ok _ (list_ok_new raw)]; rfl

theorem shard_fits (world : List flist_t) (flist : flist_t) (hmem : flist ∈ world)
    (good : elem_t → Prop)
    (hnul : ∀ e ∈ list_elems flist, ∀ c ∈ e.file, c ≠ 0)
    (hrange : ∀ e ∈ list_elems flist, good e) :
    ∀ e ∈ list_elems flist,
      (e.file.length + 1 ≤ MPI_Allreduce_max (world.map list_local_max8) ∧
        ∀ c ∈ e.file, c ≠ 0) ∧ good e := by
  intro e he
  have h := stride_fits world flist hmem e he
  rw [strlen_of_no_nul e.file (hnul e he)] at h
  exact ⟨⟨h, hnul e he⟩, hrange e he⟩

theorem round_trip_detail_map (world : List flist_t) (flist : flist_t) (raw : Nat → Nat)
    (raw_list : flist_t) (hmem : flist ∈ world) (hdetail : flist.detail ≠ 0)
    (hnul : ∀ e ∈ list_elems flist, ∀ c ∈ e.file, c ≠ 0)
    (hrange : ∀ e ∈ list_elems flist, fields_in_range e) :
    (list_elems (pack_unpack_detail world flist raw raw_list)).map detail_of =
      (list_elems flist).map detail_of := by
  have hgood := shard_fits world flist hmem _ hnul hrange
  have hspec := fun (buf : List Nat) (chars ext count : Nat) =>
    read_v3_insert_spec buf chars ext count 0 (bayer_flist_new raw_list) (list_ok_new raw_list)
  unfold pack_unpack_detail
  simp only
  rw [stattype_extent_detail 1 (by decide)]
  unfold list_convert_to_dt
  simp only
  generalize MPI_Allreduce_max (world.map list_local_max8) = A at hgood ⊢
  by_cases hA : A ≤ 0
  · rw [if_pos hA]
    have hnil : list_elems flist = [] := by
      cases hl : list_elems flist with
      | nil => rfl
      | cons e es =>
        have := (hgood e (by rw [hl]; simp)).1.1
        omega
    simp only [read_v3_insert, hnil, list_elems_new, List.map_nil]
  · rw [if_neg hA]
    simp only
    rw [stattype_extent_detail flist.detail hdetail]
    by_cases h0 : bayer_malloc_null ((A + 32) * (list_elems flist).length)
    · have hnil : list_elems flist = [] := by
        have : (list_elems flist).length = 0 := by
          rcases Nat.mul_eq_zero.mp (show _ = 0 from h0) with h | h
          · omega
          · exact h
        exact List.length_eq_zero.mp this
      simp only [read_v3_insert, hnil, list_elems_new, List.map_nil, List.length_nil]
    · rw [if_neg h0]
      simp only [Option.getD_some]
      obtain ⟨hok, hmap⟩ := hspec
        (List.foldl (convert_elem flist.detail A)
          (List.map raw (List.range ((A + 32) * (list_elems flist).length)), 0)
          (list_elems flist)).1 A (A + 32) (list_elems flist).length
      rw [list_elems_of_ok _ hok, hmap]
      have hfold := convert_foldl flist.detail A (A + 32)
        (fun b p => decode_detail b p A) detail_of
        (fun e => (e.file.length + 1 ≤ A ∧ ∀ c ∈ e.file, c ≠ 0) ∧ fields_in_range e)
        (fun b p e hfit hg => convert_elem_detail flist.detail hdetail A b p e hfit hg)
        (list_elems flist)
        (List.map raw (List.range ((A + 32) * (list_elems flist).length))) 0
        (by simp) hgood
      simp only [Nat.zero_add] at hfold ⊢
      rw [hfold.2.2]
      simp [bayer_flist_new]

theorem round_trip_lite_map (world : List flist_t) (flist : flist_t) (raw : Nat → Nat)
    (raw_list : flist_t) (raw_elems : Nat → elem_t) (hmem : flist ∈ world)
    (hdetail : flist.detail = 0)
    (hnul : ∀ e ∈ list_elems flist, ∀ c ∈ e.file, c ≠ 0)
    (hrange : ∀ e ∈ list_elems flist, e.type < 2 ^ 32) :
    (list_elems (pack_unpack_lite world flist raw raw_list raw_elems)).map lite_of =
      (list_elems flist).map lite_of := by
  have hgood := shard_fits world flist hmem _ hnul hrange
  have hspec := fun (buf : List Nat) (chars count : Nat) =>
    read_v2_insert_spec buf chars raw_elems count 0 0 (bayer_flist_new raw_list)
      (list_ok_new raw_list)
  unfold pack_unpack_lite
  simp only
  unfold list_convert_to_dt
  simp only
  rw [hdetail]
  generalize MPI_Allreduce_max (world.map list_local_max8) = A at hgood ⊢
  by_cases hA : A ≤ 0
  · rw [if_pos hA]
    have hnil : list_elems flist = [] := by
      cases hl : list_elems flist with
      | nil => rfl
      | cons e es =>
        have := (hgood e (by rw [hl]; simp)).1.1
        omega
    simp only [read_v2_insert, hnil, list_elems_new, List.map_nil]
  · rw [if_neg hA]
    simp only
    rw [stattype_extent_lite]
    by_cases h0 : bayer_malloc_null ((A + 4) * (list_elems flist).length)
    · have hnil : list_elems flist = [] := by
        have : (list_elems flist).length = 0 := by
          rcases Nat.mul_eq_zero.mp (show _ = 0 from h0) with h | h
          · omega
          · exact h
        exact List.length_eq_zero.mp this
      simp only [read_v2_insert, hnil, list_elems_new, List.map_nil, List.length_nil]
    · rw [if_neg h0]
      simp only [Option.getD_some]
      obtain ⟨hok, hmap⟩ := hspec
        (List.foldl (convert_elem 0 A)
          (List.map raw (List.range ((A + 4) * (list_elems flist).length)), 0)
          (list_elems flist)).1 A (list_elems flist).length
      rw [list_elems_of_ok _ hok, hmap]
      have hfold := convert_foldl 0 A (A + 4)
        (fun b p => decode_lite b p A) lite_of
        (fun e => (e.file.length + 1 ≤ A ∧ ∀ c ∈ e.file, c ≠ 0) ∧ e.type < 2 ^ 32)
        (fun b p e hfit hg => convert_elem_lite A b p e hfit hg)
        (list_elems flist)
        (List.map raw (List.range ((A + 4) * (list_elems flist).length))) 0
        (by simp) hgood
      simp only [Nat.zero_add] at hfold ⊢
      rw [hfold.2.2]
      simp [bayer_flist_new]

/-- C1: for every shard of a detailed list whose paths contain no NUL byte
(and whose fields are within their C types), packing it with
`list_convert_to_dt` and decoding the buffer with `list_insert_ptr` record
by record, as the loop of `read_cache_v3` does at the stride and extent of
the packed buffer, gives a shard of the same length whose `i`-th record has
the path, mode, uid, gid, atime, mtime, ctime and size of the `i`-th
original record. -/
theorem detailed_round_trip (world : List flist_t) (flist : flist_t) (raw : Nat → Nat)
    (raw_list : flist_t) (hmem : flist ∈ world) (hdetail : flist.detail ≠ 0)
    (hnul : ∀ e ∈ list_elems flist, e.file ≠ [] ∧ ∀ c ∈ e.file, c ≠ 0)
    (hrange : ∀ e ∈ list_elems flist, fields_in_range e) :
    (list_elems (pack_unpack_detail world flist raw raw_list)).length =
      (list_elems flist).length ∧
    ∀ i, i < (list_elems flist).length →
      (list_elems (pack_unpack_detail world flist raw raw_list))[i]?.map detail_of =
        (list_elems flist)[i]?.map detail_of := by
  have h := round_trip_detail_map world flist raw raw_list hmem hdetail
    (fun e he => (hnul e he).2) hrange
  refine ⟨?_, ?_⟩
  · have := congrArg List.length h
    simpa using this
  · intro i _
    rw [← List.getElem?_map, ← List.getElem?_map, h]

/-- The statement of `detailed_round_trip` at a concrete input. -/
theorem detailed_round_trip_witness :
    (sample_shard0 ∈ sample_world ∧ sample_shard0.detail ≠ 0 ∧
      (∀ e ∈ list_elems sample_shard0, e.file ≠ [] ∧ ∀ c ∈ e.file, c ≠ 0) ∧
      (∀ e ∈ list_elems sample_shard0, fields_in_range e)) ∧
    ((list_elems (pack_unpack_detail sample_world sample_shard0 sample_raw_bytes
        sample_raw_list)).length = (list_elems sample_shard0).length ∧
      ∀ i, i < (list_elems sample_shard0).length →
        (list_elems (pack_unpack_detail sample_world sample_shard0 sample_raw_bytes
          sample_raw_list))[i]?.map detail_of =
        (list_elems sample_shard0)[i]?.map detail_of) :=
  ⟨⟨by decide, by decide, by decide, by decide⟩,
    detailed_round_trip sample_world sample_shard0 sample_raw_bytes sample_raw_list
      (by decide) (by decide) (by decide) (by decide)⟩

/-- C2: for every shard of a detail-less list whose paths contain no NUL
byte (and whose file types are within the `int`-sized enum), packing it with
`list_convert_to_dt` and decoding the buffer with the loop of
`read_cache_v2` (path at the stride, then a `uint32_t` type, inserted with
`list_insert_lite`) gives a shard of the same length whose `i`-th record
has the path and the type of the `i`-th original record. -/
theorem lite_round_trip (world : List flist_t) (flist : flist_t) (raw : Nat → Nat)
    (raw_list : flist_t) (raw_elems : Nat → elem_t) (hmem : flist ∈ world)
    (hdetail : flist.detail = 0)
    (hnul : ∀ e ∈ list_elems flist, e.file ≠ [] ∧ ∀ c ∈ e.file, c ≠ 0)
    (hrange : ∀ e ∈ list_elems flist, e.type < 2 ^ 32) :
    (list_elems (pack_unpack_lite world flist raw raw_list raw_elems)).length =
      (list_elems flist).length ∧
    ∀ i, i < (list_elems flist).length →
      (list_elems (pack_unpack_lite world flist raw raw_list raw_elems))[i]?.map lite_of =
        (list_elems flist)[i]?.map lite_of := by
  have h := round_trip_lite_map world flist raw raw_list raw_elems hmem hdetail
    (fun e he => (hnul e he).2) hrange
  refine ⟨?_, ?_⟩
  · have := congrArg List.length h
    simpa using this
  · intro i _
    rw [← List.getElem?_map, ← List.getElem?_map, h]

/-- The statement of `lite_round_trip` at a concrete input. -/
theorem lite_round_trip_witness :
    (sample_lite0 ∈ sample_lite_world ∧ sample_lite0.detail = 0 ∧
      (∀ e ∈ list_elems sample_lite0, e.file ≠ [] ∧ ∀ c ∈ e.file, c ≠ 0) ∧
      (∀ e ∈ list_elems sample_lite0, e.type < 2 ^ 32)) ∧
    ((list_elems (pack_unpack_lite sample_lite_world sample_lite0 sample_raw_bytes
        sample_raw_list (fun _ => sample_raw_elem))).length =
        (list_elems sample_lite0).length ∧
      ∀ i, i < (list_elems sample_lite0).length →
        (list_elems (pack_unpack_lite sample_lite_world sample_lite0 sample_raw_bytes
          sample_raw_list (fun _ => sample_raw_elem)))[i]?.map lite_of =
        (list_elems sample_lite0)[i]?.map lite_of) :=
  ⟨⟨by decide, by decide, by decide, by decide⟩,
    lite_round_trip sample_lite_world sample_lite0 sample_raw_bytes sample_raw_list
      (fun _ => sample_raw_elem) (by decide) (by decide) (by decide) (by decide)⟩

/-! ## Placement of records in the cache file (C3) -/

theorem MPI_File_write_at_hit (fh : cache_file) (pos extent : Nat) (buf : List Nat)
    (hext : 0 < extent) (count : Nat) : ∀ i, i < count →
      (MPI_File_write_at fh pos extent buf count).items (pos + i * extent) =
        some ((buf.drop (i * extent)).take extent) := by
  unfold MPI_File_write_at
  induction count with
  | zero => intro i hi; omega
  | succ n ih =>
    intro i hi
    rw [List.range_succ, List.foldl_append]
    simp only [List.foldl_cons, List.foldl_nil]
    by_cases hin : i = n
    · subst hin; simp
    · have hne : pos + i * extent ≠ pos + n * extent := by
        intro h
        have h2 : i * extent = n * extent := by omega
        exact hin (Nat.eq_of_mul_eq_mul_right hext h2)
      rw [if_neg hne]
      exact ih i (by omega)

theorem MPI_File_write_at_miss (fh : cache_file) (pos extent : Nat) (buf : List Nat)
    (a : Nat) (count : Nat) : (∀ i, i < count → a ≠ pos + i * extent) →
      (MPI_File_write_at fh pos extent buf count).items a = fh.items a := by
  unfold MPI_File_write_at
  induction count with
  | zero => intro _; rfl
  | succ n ih =>
    intro h
    rw [List.range_succ, List.foldl_append]
    simp only [List.foldl_cons, List.foldl_nil]
    rw [if_neg (h n (by omega))]
    exact ih (fun i hi => h i (by omega))

theorem flatten_chunk (extent : Nat) (frames : List (List Nat)) :
    (∀ fr ∈ frames, fr.length = extent) → ∀ (i : Nat) (fr : List Nat), frames[i]? = some fr →
      (frames.flatten.drop (i * extent)).take extent = fr := by
  induction frames with
  | nil => intro _ i fr h; simp at h
  | cons f fs ih =>
    intro hlen i fr h
    have hf : f.length = extent := hlen f (by simp)
    rw [List.flatten_cons]
    cases i with
    | zero =>
      simp only [List.getElem?_cons_zero, Option.some.injEq] at h
      subst h
      simp only [Nat.zero_mul, List.drop_zero]
      exact List.take_left' hf
    | succ j =>
      simp only [List.getElem?_cons_succ] at h
      have hpos : (j + 1) * extent = f.length + j * extent := by rw [Nat.succ_mul, hf]; omega
      rw [hpos, List.drop_append]
      exact ih (fun x hx => hlen x (by simp [hx])) j fr h

theorem write_offset_records_eq (counts : List Nat) (r raw : Nat) :
    write_offset_records counts r raw = (counts.take r).sum := by
  unfold write_offset_records MPI_Exscan_sum
  by_cases h : r = 0
  · subst h; simp
  · simp [h]

theorem sum_take_lengths (shards : List (List (List Nat))) (k : Nat) :
    ((shards.map List.length).take k).sum = (shards.take k).flatten.length := by
  rw [List.length_flatten, List.map_take]

/-- After the participants below `k` have written, the item at record
position `g` is the `g`-th of their packed items in rank order. -/
theorem write_files_prefix (fh : cache_file) (disp extent : Nat)
    (shards : List (List (List Nat))) (raw : Nat) (hext : 0 < extent)
    (hframes : ∀ s ∈ shards, ∀ fr ∈ s, fr.length = extent) (k : Nat) :
    k ≤ shards.length → ∀ (g : Nat) (fr : List Nat),
      ((shards.take k).flatten)[g]? = some fr →
      ((List.range k).foldl
        (fun f r =>
          write_files f disp extent
            (write_offset_records (shards.map List.length) r raw)
            (shards.getD r []).flatten (shards.getD r []).length)
        fh).items (disp + g * extent) = some fr := by
  induction k with
  | zero => intro _ g fr h; simp at h
  | succ k ih =>
    intro hk g fr h
    have hklt : k < shards.length := by omega
    rw [List.range_succ, List.foldl_append]
    simp only [List.foldl_cons, List.foldl_nil]
    rw [write_offset_records_eq, sum_take_lengths]
    have hget : shards.getD k [] = shards[k] := by
      rw [List.getD_eq_getElem?_getD, List.getElem?_eq_getElem hklt]; rfl
    rw [hget]
    have htake : shards.take (k + 1) = shards.take k ++ [shards[k]] := by
      rw [List.take_succ, List.getElem?_eq_getElem hklt]; rfl
    rw [htake, List.flatten_append] at h
    simp only [List.flatten_cons, List.flatten_nil, List.append_nil] at h
    unfold write_files
    simp only
    by_cases hg : g < (shards.take k).flatten.length
    · rw [List.getElem?_append_left hg] at h
      rw [MPI_File_write_at_miss]
      · exact ih (by omega) g fr h
      · intro i _ heq
        have h2 : g * extent = ((shards.take k).flatten.length + i) * extent := by
          rw [Nat.add_mul]; omega
        have := Nat.eq_of_mul_eq_mul_right hext h2
        omega
    · rw [List.getElem?_append_right (by omega)] at h
      have hi : g - (shards.take k).flatten.length < shards[k].length := by
        by_contra hc
        rw [List.getElem?_eq_none (by omega)] at h
        exact absurd h (by simp)
      have hpos : disp + g * extent =
          disp + (shards.take k).flatten.length * extent +
            (g - (shards.take k).flatten.length) * extent := by
        rw [Nat.add_assoc, ← Nat.add_mul]
        congr 2; omega
      rw [hpos, MPI_File_write_at_hit _ _ _ _ hext _ _ hi]
      congr 1
      exact flatten_chunk extent shards[k]
        (hframes _ (List.getElem_mem hklt)) _ fr h

theorem write_files_all_items (fh : cache_file) (disp extent : Nat)
    (shards : List (List (List Nat))) (raw : Nat) (hext : 0 < extent)
    (hframes : ∀ s ∈ shards, ∀ fr ∈ s, fr.length = extent) (g : Nat) (fr : List Nat)
    (h : shards.flatten[g]? = some fr) :
    (write_files_all fh disp extent shards raw).items (disp + g * extent) = some fr := by
  unfold write_files_all
  apply write_files_prefix fh disp extent shards raw hext hframes shards.length (le_refl _)
  rw [List.take_of_length_le (le_refl _)]
  exact h

theorem flatten_getElem_offset (shards : List (List (List Nat))) :
    ∀ (r : Nat) (s : List (List Nat)) (i : Nat) (fr : List Nat),
      shards[r]? = some s → s[i]? = some fr →
      shards.flatten[((shards.map List.length).take r).sum + i]? = some fr := by
  induction shards with
  | nil => intro r s i fr h; simp at h
  | cons x xs ih =>
    intro r s i fr hs hi
    cases r with
    | zero =>
      simp only [List.getElem?_cons_zero, Option.some.injEq] at hs
      subst hs
      have hlt : i < x.length := by
        by_contra hc
        rw [List.getElem?_eq_none (by omega)] at hi
        exact absurd hi (by simp)
      simp only [List.take_zero, List.sum_nil, Nat.zero_add, List.flatten_cons]
      rw [List.getElem?_append_left hlt]; exact hi
    | succ r =>
      simp only [List.getElem?_cons_succ] at hs
      simp only [List.map_cons, List.take_succ_cons, List.sum_cons, List.flatten_cons]
      rw [List.getElem?_append_right (by omega)]
      have : x.length + ((xs.map List.length).take r).sum + i - x.length =
          ((xs.map List.length).take r).sum + i := by omega
      rw [this]
      exact ih r s i fr hs hi

theorem MPI_File_read_at_window (fh : cache_file) (disp extent : Nat) (F : List (List Nat))
    (hF : ∀ (g : Nat) (fr : List Nat), F[g]? = some fr → fh.items (disp + g * extent) = some fr)
    (off cnt : Nat) (hfit : off + cnt ≤ F.length) :
    read_files fh disp extent off cnt = ((F.drop off).take cnt).flatten := by
  unfold read_files MPI_File_read_at
  simp only
  congr 1
  apply List.ext_getElem?
  intro j
  simp only [List.getElem?_map, List.getElem?_take, List.getElem?_drop]
  by_cases hj : j < cnt
  · rw [List.getElem?_range hj, if_pos hj]
    have hlt : off + j < F.length := by omega
    rw [List.getElem?_eq_getElem hlt]
    have hpos : disp + off * extent + j * extent = disp + (off + j) * extent := by
      rw [Nat.add_mul]; omega
    simp only [Option.map_some']
    rw [hpos, hF (off + j) _ (List.getElem?_eq_getElem hlt)]
    rfl
  · rw [if_neg hj, List.getElem?_eq_none (by simp; omega)]
    rfl

theorem split_by_counts {α : Type} (F : List α) (cs : List Nat) (k : Nat) :
    k ≤ cs.length →
    (List.range k).flatMap (fun r => (F.drop (cs.take r).sum).take (cs.getD r 0)) =
      F.take (cs.take k).sum := by
  induction k with
  | zero => intro _; simp
  | succ k ih =>
    intro hk
    have hklt : k < cs.length := by omega
    rw [List.range_succ, List.flatMap_append, ih (by omega)]
    simp only [List.flatMap_cons, List.flatMap_nil, List.append_nil]
    rw [List.sum_take_succ cs k hklt, List.take_add]
    congr 2
    rw [List.getD_eq_getElem?_getD, List.getElem?_eq_getElem hklt]; rfl

theorem flatten_map_flatten {α β : Type} (L : List α) (g : α → List (List β)) :
    (L.map fun x => (g x).flatten).flatten = (L.flatMap g).flatten := by
  induction L with
  | nil => rfl
  | cons x xs ih =>
    simp only [List.map_cons, List.flatten_cons, List.flatMap_cons, List.flatten_append, ih]

theorem read_offset_records_eq (N R r raw : Nat) :
    read_offset_records N R r raw = (((List.range R).map (read_count N R)).take r).sum := by
  unfold read_offset_records MPI_Exscan_sum
  by_cases h : r = 0
  · subst h; simp
  · simp [h]

theorem read_files_all_flatten (fh : cache_file) (disp extent : Nat) (F : List (List Nat))
    (hF : ∀ (g : Nat) (fr : List Nat), F[g]? = some fr → fh.items (disp + g * extent) = some fr)
    (ranks raw : Nat) (hranks : 1 ≤ ranks) :
    (read_files_all fh disp extent F.length ranks raw).flatten = F.flatten := by
  have hsum := read_count_sum F.length ranks hranks
  have hlen : ((List.range ranks).map (read_count F.length ranks)).length = ranks := by simp
  have hwin : ∀ r ∈ List.range ranks,
      read_files fh disp extent (read_offset_records F.length ranks r raw)
        (read_count F.length ranks r) =
      ((F.drop (((List.range ranks).map (read_count F.length ranks)).take r).sum).take
        (((List.range ranks).map (read_count F.length ranks)).getD r 0)).flatten := by
    intro r hr
    have hr' : r < ranks := List.mem_range.mp hr
    have hcnt : ((List.range ranks).map (read_count F.length ranks)).getD r 0 =
        read_count F.length ranks r := by
      rw [List.getD_eq_getElem?_getD, List.getElem?_map, List.getElem?_range hr']; rfl
    rw [hcnt, read_offset_records_eq]
    apply MPI_File_read_at_window fh disp extent F hF
    have h1 := List.sum_take_succ ((List.range ranks).map (read_count F.length ranks)) r
      (by rw [hlen]; exact hr')
    simp only [List.getElem_map, List.getElem_range] at h1
    have h3 : (((List.range ranks).map (read_count F.length ranks)).take (r + 1)).sum ≤
        ((List.range ranks).map (read_count F.length ranks)).sum :=
      List.Sublist.sum_le_sum (List.take_sublist _ _) (fun _ _ => Nat.zero_le _)
    omega
  have htake : ((List.range ranks).map (read_count F.length ranks)).take ranks =
      (List.range ranks).map (read_count F.length ranks) :=
    List.take_of_length_le (by rw [hlen])
  unfold read_files_all
  rw [List.map_congr_left hwin, flatten_map_flatten,
    split_by_counts F _ ranks (by rw [hlen]), htake, hsum,
    List.take_of_length_le (le_refl _)]

/-- Placement of the record accesses alone, with the total that the
readers divide given as the number of items written: writing participant
`r` starts at the record offset that is the sum of the record counts of
the lower ranks, so after the collective write the item at record
position `offset_r + i` is the `i`-th packed record of participant `r`;
the offsets of `ranks ≥ 1` reading participants start at 0, each range
ends where the next begins and the last ends at the total; and the
buffers read, concatenated by rank, are the buffers written, concatenated
by rank. -/
theorem global_order_preserved (fh : cache_file) (disp extent_file : Nat)
    (shards : List (List (List Nat))) (ranks raw : Nat) (hext : 0 < extent_file)
    (hframes : ∀ s ∈ shards, ∀ fr ∈ s, fr.length = extent_file) (hranks : 1 ≤ ranks) :
    (∀ r, write_offset_records (shards.map List.length) r raw =
      ((shards.map List.length).take r).sum) ∧
    (∀ (r i : Nat) (s : List (List Nat)) (fr : List Nat),
      shards[r]? = some s → s[i]? = some fr →
      (write_files_all fh disp extent_file shards raw).items
        (disp + (write_offset_records (shards.map List.length) r raw + i) * extent_file) =
        some fr) ∧
    (read_offset_records (MPI_Allreduce_sum (shards.map List.length)) ranks 0 raw = 0 ∧
      (∀ r, r + 1 < ranks →
        read_offset_records (MPI_Allreduce_sum (shards.map List.length)) ranks (r + 1) raw =
          read_offset_records (MPI_Allreduce_sum (shards.map List.length)) ranks r raw +
            read_count (MPI_Allreduce_sum (shards.map List.length)) ranks r) ∧
      read_offset_records (MPI_Allreduce_sum (shards.map List.length)) ranks (ranks - 1) raw +
        read_count (MPI_Allreduce_sum (shards.map List.length)) ranks (ranks - 1) =
        MPI_Allreduce_sum (shards.map List.length)) ∧
    (read_files_all (write_files_all fh disp extent_file shards raw) disp extent_file
      (MPI_Allreduce_sum (shards.map List.length)) ranks raw).flatten =
      (shards.map List.flatten).flatten := by
  have hN : MPI_Allreduce_sum (shards.map List.length) = shards.flatten.length := by
    rw [List.length_flatten]; rfl
  have hitems := write_files_all_items fh disp extent_file shards raw hext hframes
  refine ⟨fun r => write_offset_records_eq _ r raw, ?_, ⟨?_, ?_, ?_⟩, ?_⟩
  · intro r i s fr hs hi
    rw [write_offset_records_eq]
    exact hitems _ fr (flatten_getElem_offset shards r s i fr hs hi)
  · rw [read_offset_records_eq]; simp
  · intro r hr
    rw [read_offset_records_eq, read_offset_records_eq]
    have h1 := List.sum_take_succ
      ((List.range ranks).map (read_count (MPI_Allreduce_sum (shards.map List.length)) ranks)) r
      (by simp; omega)
    simp only [List.getElem_map, List.getElem_range] at h1
    exact h1
  · rw [read_offset_records_eq]
    have h1 := List.sum_take_succ
      ((List.range ranks).map (read_count (MPI_Allreduce_sum (shards.map List.length)) ranks))
      (ranks - 1) (by simp; omega)
    simp only [List.getElem_map, List.getElem_range] at h1
    rw [← h1]
    have h2 : ranks - 1 + 1 = ranks := by omega
    rw [h2, List.take_of_length_le (by simp)]
    exact read_count_sum _ ranks hranks
  · rw [hN, read_files_all_flatten _ disp extent_file shards.flatten hitems ranks raw hranks]
    have h := flatten_map_flatten shards id
    simp only [List.flatMap_def, List.map_id, id_eq] at h
    exact h.symm

/-- The statement of `global_order_preserved` at a concrete input. -/
theorem global_order_preserved_witness :
    (0 < 3 ∧ (∀ s ∈ sample_frames, ∀ fr ∈ s, fr.length = 3) ∧ 1 ≤ 2) ∧
    ((∀ r, write_offset_records (sample_frames.map List.length) r 99 =
      ((sample_frames.map List.length).take r).sum) ∧
    (∀ (r i : Nat) (s : List (List Nat)) (fr : List Nat),
      sample_frames[r]? = some s → s[i]? = some fr →
      (write_files_all cache_file_empty 72 3 sample_frames 99).items
        (72 + (write_offset_records (sample_frames.map List.length) r 99 + i) * 3) =
        some fr) ∧
    (read_offset_records (MPI_Allreduce_sum (sample_frames.map List.length)) 2 0 99 = 0 ∧
      (∀ r, r + 1 < 2 →
        read_offset_records (MPI_Allreduce_sum (sample_frames.map List.length)) 2 (r + 1) 99 =
          read_offset_records (MPI_Allreduce_sum (sample_frames.map List.length)) 2 r 99 +
            read_count (MPI_Allreduce_sum (sample_frames.map List.length)) 2 r) ∧
      read_offset_records (MPI_Allreduce_sum (sample_frames.map List.length)) 2 (2 - 1) 99 +
        read_count (MPI_Allreduce_sum (sample_frames.map List.length)) 2 (2 - 1) =
        MPI_Allreduce_sum (sample_frames.map List.length)) ∧
    (read_files_all (write_files_all cache_file_empty 72 3 sample_frames 99) 72 3
      (MPI_Allreduce_sum (sample_frames.map List.length)) 2 99).flatten =
      (sample_frames.map List.flatten).flatten) :=
  ⟨⟨by decide, by decide, by decide⟩,
    global_order_preserved cache_file_empty 72 3 sample_frames 2 99 (by decide) (by decide)
      (by decide)⟩

/-! ## Header words -/

theorem MPI_File_write_u64_below (vals : List Nat) :
    ∀ (fh : cache_file) (pos a : Nat), a < pos →
      (MPI_File_write_u64 fh pos vals).words a = fh.words a := by
  induction vals with
  | nil => intro fh pos a _; rfl
  | cons v vs ih =>
    intro fh pos a ha
    simp only [MPI_File_write_u64]
    rw [ih _ (pos + 8) a (by omega)]
    simp only
    rw [if_neg (by omega)]

theorem MPI_File_write_u64_at (vals : List Nat) :
    ∀ (fh : cache_file) (pos i v : Nat), vals[i]? = some v →
      (MPI_File_write_u64 fh pos vals).words (pos + 8 * i) = v := by
  induction vals with
  | nil => intro fh pos i v h; simp at h
  | cons v0 vs ih =>
    intro fh pos i v h
    simp only [MPI_File_write_u64]
    cases i with
    | zero =>
      simp only [List.getElem?_cons_zero, Option.some.injEq] at h
      rw [MPI_File_write_u64_below vs _ (pos + 8) _ (by omega)]
      simp [h]
    | succ j =>
      simp only [List.getElem?_cons_succ] at h
      have hpos : pos + 8 * (j + 1) = pos + 8 + 8 * j := by omega
      rw [hpos]
      exact ih _ (pos + 8) j v h

theorem MPI_File_read_write_u64 (vals : List Nat) (fh : cache_file) (pos : Nat) :
    MPI_File_read_u64 (MPI_File_write_u64 fh pos vals) pos vals.length = vals := by
  unfold MPI_File_read_u64
  apply List.ext_getElem?
  intro i
  rw [List.getElem?_map]
  by_cases hi : i < vals.length
  · rw [List.getElem?_range hi, List.getElem?_eq_getElem hi]
    simp only [Option.map_some', Option.some.injEq]
    exact MPI_File_write_u64_at vals fh pos i _ (List.getElem?_eq_getElem hi)
  · rw [List.getElem?_eq_none (by simp; omega), List.getElem?_eq_none (by omega)]
    rfl

theorem MPI_File_read_u64_congr (f1 f2 : cache_file) (h : f1.words = f2.words)
    (pos count : Nat) : MPI_File_read_u64 f1 pos count = MPI_File_read_u64 f2 pos count := by
  unfold MPI_File_read_u64; rw [h]

theorem MPI_File_write_at_words (fh : cache_file) (pos extent : Nat) (buf : List Nat)
    (count : Nat) : (MPI_File_write_at fh pos extent buf count).words = fh.words := by
  unfold MPI_File_write_at
  induction count with
  | zero => rfl
  | succ n ih =>
    rw [List.range_succ, List.foldl_append]
    simp only [List.foldl_cons, List.foldl_nil]
    exact ih

theorem write_names_words (fh : cache_file) (disp rank : Nat) (items : buf_t) :
    (write_names fh disp rank items).1.words = fh.words := by
  unfold write_names
  cases items.dt with
  | none => rfl
  | some dt =>
    simp only
    split_ifs
    · exact MPI_File_write_at_words _ _ _ _ _
    · rfl

theorem write_cache_readdir_words (walk_start walk_end : Nat) (world : List flist_t)
    (rank : Nat) (flist : flist_t) (raw : Nat → Nat) (raw_offset : Nat) (fh : cache_file) :
    (write_cache_readdir walk_start walk_end world rank flist raw raw_offset fh).words =
      (if rank = 0 then
        MPI_File_write_u64 fh 0
          [2, walk_start, walk_end, flist.total_files, (list_convert_to_dt world flist raw).chars]
       else fh).words := by
  unfold write_cache_readdir
  simp only
  cases (list_convert_to_dt world flist raw).dt with
  | none => rfl
  | some dt => exact MPI_File_write_at_words _ _ _ _ _

theorem write_cache_stat_words (walk_start walk_end : Nat) (world : List flist_t)
    (rank : Nat) (flist : flist_t) (raw : Nat → Nat) (raw_offset : Nat) (fh : cache_file) :
    (write_cache_stat walk_start walk_end world rank flist raw raw_offset fh).words =
      (if rank = 0 then
        MPI_File_write_u64 fh 0
          [3, walk_start, walk_end, flist.users.count, flist.users.chars, flist.groups.count,
            flist.groups.chars, flist.total_files, (list_convert_to_dt world flist raw).chars]
       else fh).words := by
  unfold write_cache_stat
  simp only
  cases (list_convert_to_dt world flist raw).dt with
  | none => simp only [write_names_words]
  | some dt =>
    simp only [write_files]
    rw [MPI_File_write_at_words, write_names_words, write_names_words]

theorem bayer_flist_write_cache_words_other (world : List flist_t) (rank : Nat)
    (hrank : rank ≠ 0) (flist : flist_t) (raw : Nat → Nat) (raw_offset : Nat)
    (fh : cache_file) :
    (bayer_flist_write_cache world rank flist raw raw_offset fh).words = fh.words := by
  unfold bayer_flist_write_cache
  split_ifs
  · rw [write_cache_stat_words, if_neg hrank]
  · rw [write_cache_readdir_words, if_neg hrank]

theorem write_cache_world_words (f0 : flist_t) (rest : List flist_t) (raw : Nat → Nat)
    (raw_offset : Nat) :
    (write_cache_world (f0 :: rest) raw raw_offset).words =
      (bayer_flist_write_cache (f0 :: rest) 0 f0 raw raw_offset cache_file_empty).words := by
  unfold write_cache_world
  rw [List.length_cons, List.range_succ_eq_map, List.foldl_cons]
  simp only [List.getElem?_cons_zero]
  generalize bayer_flist_write_cache (f0 :: rest) 0 f0 raw raw_offset cache_file_empty = fh
  generalize List.range rest.length = rs
  induction rs generalizing fh with
  | nil => rfl
  | cons r rs ih =>
    simp only [List.map_cons, List.foldl_cons]
    rw [ih]
    cases (f0 :: rest)[r + 1]? with
    | none => rfl
    | some f => exact bayer_flist_write_cache_words_other _ _ (by omega) _ _ _ _

/-! ## Writer format and header (C7) -/

/-- C7: `write_cache_readdir` writes the five header words
`[2, walk_start, walk_end, total_files, path_stride]` and
`write_cache_stat` the nine words `[3, walk_start, walk_end, users_count,
users_stride, groups_count, groups_stride, total_files, path_stride]`,
the stride being the one computed by `list_convert_to_dt`;
`bayer_flist_write_cache` calls them with both walk times 0, so the file
written by all participants starts with the version-2 header when the
detail flag of the list is 0 and with the version-3 header otherwise, and
its version word is 2 exactly when the flag is 0 and 3 exactly when it is
not. -/
theorem write_cache_header (f0 : flist_t) (rest : List flist_t) (raw : Nat → Nat)
    (raw_offset walk_start walk_end : Nat) (fh : cache_file) :
    MPI_File_read_u64
        (write_cache_readdir walk_start walk_end (f0 :: rest) 0 f0 raw raw_offset fh) 0 5 =
      [2, walk_start, walk_end, f0.total_files,
        (list_convert_to_dt (f0 :: rest) f0 raw).chars] ∧
    MPI_File_read_u64
        (write_cache_stat walk_start walk_end (f0 :: rest) 0 f0 raw raw_offset fh) 0 9 =
      [3, walk_start, walk_end, f0.users.count, f0.users.chars, f0.groups.count,
        f0.groups.chars, f0.total_files, (list_convert_to_dt (f0 :: rest) f0 raw).chars] ∧
    (f0.detail = 0 →
      MPI_File_read_u64 (write_cache_world (f0 :: rest) raw raw_offset) 0 5 =
        [2, 0, 0, f0.total_files, (list_convert_to_dt (f0 :: rest) f0 raw).chars]) ∧
    (f0.detail ≠ 0 →
      MPI_File_read_u64 (write_cache_world (f0 :: rest) raw raw_offset) 0 9 =
        [3, 0, 0, f0.users.count, f0.users.chars, f0.groups.count, f0.groups.chars,
          f0.total_files, (list_convert_to_dt (f0 :: rest) f0 raw).chars]) ∧
    (cache_version (write_cache_world (f0 :: rest) raw raw_offset) = 2 ↔ f0.detail = 0) ∧
    (cache_version (write_cache_world (f0 :: rest) raw raw_offset) = 3 ↔ f0.detail ≠ 0) := by
  have h2 : ∀ (ws we : Nat) (g : cache_file),
      MPI_File_read_u64 (write_cache_readdir ws we (f0 :: rest) 0 f0 raw raw_offset g) 0 5 =
        [2, ws, we, f0.total_files, (list_convert_to_dt (f0 :: rest) f0 raw).chars] := by
    intro ws we g
    rw [MPI_File_read_u64_congr _ _ (write_cache_readdir_words ws we _ 0 f0 raw raw_offset g)]
    simp only [if_true]
    exact MPI_File_read_write_u64 _ g 0
  have h3 : ∀ (ws we : Nat) (g : cache_file),
      MPI_File_read_u64 (write_cache_stat ws we (f0 :: rest) 0 f0 raw raw_offset g) 0 9 =
        [3, ws, we, f0.users.count, f0.users.chars, f0.groups.count, f0.groups.chars,
          f0.total_files, (list_convert_to_dt (f0 :: rest) f0 raw).chars] := by
    intro ws we g
    rw [MPI_File_read_u64_congr _ _ (write_cache_stat_words ws we _ 0 f0 raw raw_offset g)]
    simp only [if_true]
    exact MPI_File_read_write_u64 _ g 0
  have hw := write_cache_world_words f0 rest raw raw_offset
  have hlite : f0.detail = 0 →
      MPI_File_read_u64 (write_cache_world (f0 :: rest) raw raw_offset) 0 5 =
        [2, 0, 0, f0.total_files, (list_convert_to_dt (f0 :: rest) f0 raw).chars] := by
    intro hd
    rw [MPI_File_read_u64_congr _ _ hw]
    unfold bayer_flist_write_cache
    rw [if_neg (by simp [hd])]
    exact h2 0 0 _
  have hstat : f0.detail ≠ 0 →
      MPI_File_read_u64 (write_cache_world (f0 :: rest) raw raw_offset) 0 9 =
        [3, 0, 0, f0.users.count, f0.users.chars, f0.groups.count, f0.groups.chars,
          f0.total_files, (list_convert_to_dt (f0 :: rest) f0 raw).chars] := by
    intro hd
    rw [MPI_File_read_u64_congr _ _ hw]
    unfold bayer_flist_write_cache
    rw [if_pos hd]
    exact h3 0 0 _
  have hv : ∀ (g : cache_file) (n : Nat) (v : Nat) (vs : List Nat),
      MPI_File_read_u64 g 0 (n + 1) = v :: vs → cache_version g = v := by
    intro g n v vs h
    unfold cache_version
    unfold MPI_File_read_u64 at h ⊢
    rw [List.range_succ_eq_map, List.map_cons] at h
    simp only [List.cons.injEq] at h
    simpa [List.range_succ] using h.1
  refine ⟨h2 walk_start walk_end fh, h3 walk_start walk_end fh, hlite, hstat, ?_, ?_⟩
  · by_cases hd : f0.detail = 0
    · simp [hv _ 4 _ _ (hlite hd), hd]
    · simp [hv _ 8 _ _ (hstat hd), hd]
  · by_cases hd : f0.detail = 0
    · simp [hv _ 4 _ _ (hlite hd), hd]
    · simp [hv _ 8 _ _ (hstat hd), hd]

/-! ## Total count after a walk and after a read (C5) -/

theorem read_v2_insert_total (buf : List Nat) (chars : Nat) (raw : Nat → elem_t) :
    ∀ (count i ptr : Nat) (f : flist_t),
      (read_v2_insert buf chars raw count i ptr f).total_files = f.total_files := by
  intro count
  induction count with
  | zero => intro i ptr f; rfl
  | succ n ih => intro i ptr f; simp only [read_v2_insert]; rw [ih]; rfl

theorem read_v3_insert_total (buf : List Nat) (chars extent : Nat) :
    ∀ (count ptr : Nat) (f : flist_t),
      (read_v3_insert buf chars extent count ptr f).total_files = f.total_files := by
  intro count
  induction count with
  | zero => intro ptr f; rfl
  | succ n ih => intro ptr f; simp only [read_v3_insert]; rw [ih]; rfl

theorem read_cache_v2_total (fh : cache_file) (disp rank ranks raw_offset : Nat)
    (raw_elems : Nat → elem_t) (f : flist_t) :
    (read_cache_v2 fh disp rank ranks raw_offset raw_elems f).1.total_files = f.total_files := by
  unfold read_cache_v2
  simp only
  rw [read_v2_insert_total]

theorem read_cache_v3_total (fh : cache_file) (disp rank ranks raw_offset : Nat)
    (f : flist_t) :
    (read_cache_v3 fh disp rank ranks raw_offset f).1.total_files = f.total_files := by
  unfold read_cache_v3
  simp only
  split_ifs
  · rw [read_v3_insert_total]
  · rfl

/-- No path of `bayer_flist_read_cache` assigns `total_files`: whatever the
file holds, `bayer_flist_global_size` returns 0 on the list read. -/
theorem read_cache_global_size (file : Option cache_file) (rank ranks : Nat)
    (raw_list : flist_t) (raw_offset : Nat) (raw_elems : Nat → elem_t) :
    (bayer_flist_read_cache file rank ranks raw_list raw_offset raw_elems).map
      bayer_flist_global_size = some 0 := by
  unfold bayer_flist_read_cache bayer_flist_global_size
  cases file with
  | none => rfl
  | some fh =>
    simp only
    cases read_cache_select (cache_version fh) with
    | v2 => simp only [Option.map_some', read_cache_v2_total]; rfl
    | v3 => simp only [Option.map_some', read_cache_v3_total]; rfl
    | unknown => rfl

/-- At the end of `bayer_flist_walk_path` the global size of every
participant is the sum of the local sizes. -/
theorem walk_path_global_size (world : List flist_t) (f : flist_t) :
    bayer_flist_global_size (walk_path_finish world f) =
      ((world.map (walk_path_finish world)).map bayer_flist_size).sum := by
  simp only [bayer_flist_global_size, walk_path_finish, MPI_Allreduce_sum, List.map_map]
  rfl

/-- C5: the version-2 cache of the tiny tree has the header
`[2, 0, 0, 4, 8]`; read by three participants, `bayer_flist_size` returns
2, 1 and 1 (4 in total, the `total_files` of the header) while
`bayer_flist_global_size` returns 0 on each of them. -/
theorem read_cache_total_files_unset :
    MPI_File_read_u64 sample_cache_v2 0 5 = [2, 0, 0, 4, 8] ∧
    (List.range 3).map (fun r =>
      (bayer_flist_read_cache (some sample_cache_v2) r 3 sample_raw_list 99
        (fun _ => sample_raw_elem)).map bayer_flist_size) = [some 2, some 1, some 1] ∧
    (List.range 3).map (fun r =>
      (bayer_flist_read_cache (some sample_cache_v2) r 3 sample_raw_list 99
        (fun _ => sample_raw_elem)).map bayer_flist_global_size) = [some 0, some 0, some 0] := by
  refine ⟨by decide, by decide, by decide⟩

/-! ## Version dispatch on read (C6) -/

/-- A cache whose version word is 7: after `bayer_flist_read_cache` the
handle is not the sentinel `BAYER_FLIST_NULL`. -/
theorem read_cache_version7_handle :
    cache_version sample_cache_v7 = 7 ∧
    bayer_flist_read_cache (some sample_cache_v7) 0 1 sample_raw_list 99
      (fun _ => sample_raw_elem) ≠ BAYER_FLIST_NULL := by
  refine ⟨by decide, by decide⟩

/-- C6 (amended): `bayer_flist_read_cache` runs the version-2 reader exactly
when the version word is 2 and the version-3 reader exactly when it is 3;
for every other version it runs neither and the caller's handle is left on
the new empty list made by `bayer_flist_new`; in no case is the handle the
sentinel `BAYER_FLIST_NULL`. -/
theorem read_cache_dispatch (fh : cache_file) (rank ranks : Nat) (raw_list : flist_t)
    (raw_offset : Nat) (raw_elems : Nat → elem_t) :
    (read_cache_select (cache_version fh) = cache_reader.v2 ↔ cache_version fh = 2) ∧
    (read_cache_select (cache_version fh) = cache_reader.v3 ↔ cache_version fh = 3) ∧
    (cache_version fh = 2 →
      bayer_flist_read_cache (some fh) rank ranks raw_list raw_offset raw_elems =
        some (read_cache_v2 fh 8 rank ranks raw_offset raw_elems (bayer_flist_new raw_list)).1) ∧
    (cache_version fh = 3 →
      bayer_flist_read_cache (some fh) rank ranks raw_list raw_offset raw_elems =
        some (read_cache_v3 fh 8 rank ranks raw_offset (bayer_flist_new raw_list)).1) ∧
    (cache_version fh ≠ 2 → cache_version fh ≠ 3 →
      bayer_flist_read_cache (some fh) rank ranks raw_list raw_offset raw_elems =
        some (bayer_flist_new raw_list)) ∧
    bayer_flist_read_cache (some fh) rank ranks raw_list raw_offset raw_elems ≠
      BAYER_FLIST_NULL := by
  have hsel2 : read_cache_select (cache_version fh) = cache_reader.v2 ↔ cache_version fh = 2 := by
    unfold read_cache_select
    split_ifs with h2 h3 <;> simp [h2]
  have hsel3 : read_cache_select (cache_version fh) = cache_reader.v3 ↔ cache_version fh = 3 := by
    unfold read_cache_select
    split_ifs with h2 h3
    · simp [h2]
    · simp [h3]
    · simp [h3]
  refine ⟨hsel2, hsel3, ?_, ?_, ?_, ?_⟩
  · intro h
    simp only [bayer_flist_read_cache, hsel2.mpr h]
  · intro h
    simp only [bayer_flist_read_cache, hsel3.mpr h]
  · intro h2 h3
    have : read_cache_select (cache_version fh) = cache_reader.unknown := by
      unfold read_cache_select; simp [h2, h3]
    simp only [bayer_flist_read_cache, this]
  · unfold bayer_flist_read_cache BAYER_FLIST_NULL
    simp only
    cases read_cache_select (cache_version fh) <;> simp

/-! ## Records in insertion order -/

theorem list_step_unlink (f : flist_t) (op : list_op) :
    (list_step f op).heap.map unlink = f.heap.map unlink ++ (op_elem op).toList := by
  cases op with
  | insert_stat raw fpath mode sb =>
    have h : list_step f (.insert_stat raw fpath mode sb) =
        list_insert_elem f (elem_of_stat raw fpath mode sb) := by
      cases sb <;> rfl
    rw [h, list_insert_elem_unlink]; rfl
  | insert_lite raw fpath type =>
    show (list_insert_elem f (elem_of_lite raw fpath type)).heap.map unlink = _
    rw [list_insert_elem_unlink]; rfl
  | insert_ptr buf ptr chars =>
    show (list_insert_elem f (elem_of_ptr buf ptr chars)).heap.map unlink = _
    rw [list_insert_elem_unlink]; rfl
  | get_elem index =>
    simp [list_step, list_get_elem_heap, op_elem]

/-- The records of a shard, links cleared, are the inserted records in
order of insertion. -/
theorem list_run_unlink (raw : flist_t) (ops : List list_op) :
    (list_run raw ops).heap.map unlink = inserted_elems ops := by
  unfold list_run inserted_elems
  have hgen : ∀ (f : flist_t),
      (ops.foldl list_step f).heap.map unlink =
        f.heap.map unlink ++ ops.filterMap op_elem := by
    induction ops with
    | nil => intro f; simp
    | cons op ops ih =>
      intro f
      rw [List.foldl_cons, ih, list_step_unlink]
      cases hp : op_elem op <;> simp [List.filterMap_cons, hp]
  rw [hgen]
  simp [bayer_flist_new]

/-! ## Type and mode (C11) -/

theorem land_mod_two_pow32 (m : Nat) : m % 2 ^ 32 &&& 61440 = m &&& 61440 := by
  rw [← Nat.and_pow_two_sub_one_eq_mod, Nat.land_assoc]
  rfl

theorem get_bayer_filetype_mod (m : Nat) :
    get_bayer_filetype (m % 2 ^ 32) = get_bayer_filetype m := by
  simp only [get_bayer_filetype, S_ISDIR, S_ISREG, S_ISLNK, land_mod_two_pow32]

theorem op_elem_type_mode (op : list_op) (h : op_mode_of_stat op) (e : elem_t)
    (he : op_elem op = some e) (hd : e.detail ≠ 0) : e.type = get_bayer_filetype e.mode := by
  cases op with
  | insert_stat raw fpath mode sb =>
    cases sb with
    | none =>
      simp only [op_elem, Option.some.injEq] at he
      subst he
      exact absurd rfl hd
    | some st =>
      simp only [op_elem, Option.some.injEq] at he
      subst he
      have hm : mode = st.st_mode := h
      show get_bayer_filetype mode = get_bayer_filetype (st.st_mode % 2 ^ 32)
      rw [get_bayer_filetype_mod, hm]
  | insert_lite raw fpath type =>
    simp only [op_elem, Option.some.injEq] at he
    subst he
    exact absurd rfl hd
  | insert_ptr buf ptr chars =>
    simp only [op_elem, Option.some.injEq] at he
    subst he
    rfl
  | get_elem index => simp [op_elem] at he

/-- C11: in every shard built by insertions in which `list_insert_stat` is
given the mode of its stat record (as at each of its call sites), and by
decoding with `list_insert_ptr`, every record that carries detail has the
type that `get_bayer_filetype` gives for its stored mode field. -/
theorem type_mode_agreement (raw : flist_t) (ops : List list_op)
    (hops : ∀ op ∈ ops, op_mode_of_stat op) :
    ∀ e ∈ list_elems (list_run raw ops), e.detail ≠ 0 → e.type = get_bayer_filetype e.mode := by
  intro e he hd
  rw [list_elems_of_ok _ (list_ok_run raw ops)] at he
  have hu : unlink e ∈ inserted_elems ops := by
    rw [← list_run_unlink raw ops]
    exact List.mem_map.mpr ⟨e, he, rfl⟩
  obtain ⟨op, hop, hoe⟩ := List.mem_filterMap.mp hu
  exact op_elem_type_mode op (hops op hop) (unlink e) hoe hd

/-- The statement of `type_mode_agreement` at a concrete input. -/
theorem type_mode_agreement_witness :
    (∀ op ∈ sample_ops_mixed, op_mode_of_stat op) ∧
    ∀ e ∈ list_elems (list_run sample_raw_list sample_ops_mixed),
      e.detail ≠ 0 → e.type = get_bayer_filetype e.mode :=
  ⟨by decide, type_mode_agreement sample_raw_list sample_ops_mixed (by decide)⟩

/-! ## Lazy index (C12) -/

theorem list_step_insert_index (f : flist_t) (op : list_op) (h : op_elem op ≠ none) :
    (list_step f op).list_index = none := by
  cases op with
  | insert_stat raw fpath mode sb => cases sb <;> rfl
  | insert_lite raw fpath type => rfl
  | insert_ptr buf ptr chars => rfl
  | get_elem index => exact absurd rfl h

/-- C12: in the shard reached by any interleaving of insertions and index
accesses, `list_get_elem` with an index from 0 to `list_count - 1` returns
the element inserted at that position of the insertion order, and no
element for any other index; every insertion drops the index built by an
earlier access. -/
theorem lazy_index_correct (raw : flist_t) (ops : List list_op) (index : Int) :
    (0 ≤ index ∧ index < ((list_run raw ops).list_count : Int) →
      ∃ a e, (list_get_elem (list_run raw ops) index).2 = some a ∧
        (list_get_elem (list_run raw ops) index).1.heap[a]? = some e ∧
        (inserted_elems ops)[index.toNat]? = some (unlink e)) ∧
    (¬ (0 ≤ index ∧ index < ((list_run raw ops).list_count : Int)) →
      (list_get_elem (list_run raw ops) index).2 = none) ∧
    (∀ op, op_elem op ≠ none → (list_step (list_run raw ops) op).list_index = none) := by
  have hok := list_ok_run raw ops
  refine ⟨?_, ?_, fun op h => list_step_insert_index _ op h⟩
  · intro ⟨h0, h1⟩
    obtain ⟨i, rfl⟩ := Int.eq_ofNat_of_zero_le h0
    have hi : i < (list_run raw ops).list_count := by omega
    have hlen : i < (list_run raw ops).heap.length := by rw [← hok.1]; exact hi
    refine ⟨i, (list_run raw ops).heap[i], list_get_elem_of_ok _ hok i hi, ?_, ?_⟩
    · rw [list_get_elem_heap]; exact List.getElem?_eq_getElem hlen
    · rw [← list_run_unlink raw ops, Int.toNat_ofNat, List.getElem?_map,
        List.getElem?_eq_getElem hlen]
      rfl
  · intro h
    simp only [list_get_elem]
    rw [if_neg h]

/-! ## Detail accessors without a record or without detail (C13, C14) -/

theorem list_get_elem_detail (f : flist_t) (i : Int) : (list_get_elem f i).1.detail = f.detail := by
  simp only [list_get_elem]
  split_ifs <;> rfl

theorem list_get_elem_out_of_range (f : flist_t) (i : Int)
    (h : ¬ (0 ≤ i ∧ i < (f.list_count : Int))) : (list_get_elem f i).2 = none := by
  simp only [list_get_elem]
  rw [if_neg h]

theorem bayer_flist_file_mode_absent (f : flist_t) (i : Int)
    (h : f.detail = 0 ∨ ¬ (0 ≤ i ∧ i < (f.list_count : Int))) :
    (bayer_flist_file_mode f i).2 = (-1, none) := by
  unfold bayer_flist_file_mode
  by_cases hd : f.detail > 0
  · rw [if_pos hd]
    rcases h with h | h
    · omega
    · simp only [list_get_elem_out_of_range f i h, Option.none_bind]
  · rw [if_neg hd]

theorem bayer_flist_file_get_uid_absent (f : flist_t) (i : Int)
    (h : f.detail = 0 ∨ ¬ (0 ≤ i ∧ i < (f.list_count : Int))) :
    (bayer_flist_file_get_uid f i).2 = 4294967295 := by
  unfold bayer_flist_file_get_uid
  simp only [list_get_elem_detail]
  rcases h with h | h
  · split <;> simp [h]
  · simp only [list_get_elem_out_of_range f i h, Option.none_bind]; rfl

theorem bayer_flist_file_get_gid_absent (f : flist_t) (i : Int)
    (h : f.detail = 0 ∨ ¬ (0 ≤ i ∧ i < (f.list_count : Int))) :
    (bayer_flist_file_get_gid f i).2 = 4294967295 := by
  unfold bayer_flist_file_get_gid
  simp only [list_get_elem_detail]
  rcases h with h | h
  · split <;> simp [h]
  · simp only [list_get_elem_out_of_range f i h, Option.none_bind]; rfl

theorem bayer_flist_file_get_atime_absent (f : flist_t) (i : Int)
    (h : f.detail = 0 ∨ ¬ (0 ≤ i ∧ i < (f.list_count : Int))) :
    (bayer_flist_file_get_atime f i).2 = 4294967295 := by
  unfold bayer_flist_file_get_atime
  simp only [list_get_elem_detail]
  rcases h with h | h
  · split <;> simp [h]
  · simp only [list_get_elem_out_of_range f i h, Option.none_bind]; rfl

theorem bayer_flist_file_get_mtime_absent (f : flist_t) (i : Int)
    (h : f.detail = 0 ∨ ¬ (0 ≤ i ∧ i < (f.list_count : Int))) :
    (bayer_flist_file_get_mtime f i).2 = 4294967295 := by
  unfold bayer_flist_file_get_mtime
  simp only [list_get_elem_detail]
  rcases h with h | h
  · split <;> simp [h]
  · simp only [list_get_elem_out_of_range f i h, Option.none_bind]; rfl

theorem bayer_flist_file_get_ctime_absent (f : flist_t) (i : Int)
    (h : f.detail = 0 ∨ ¬ (0 ≤ i ∧ i < (f.list_count : Int))) :
    (bayer_flist_file_get_ctime f i).2 = 4294967295 := by
  unfold bayer_flist_file_get_ctime
  simp only [list_get_elem_detail]
  rcases h with h | h
  · split <;> simp [h]
  · simp only [list_get_elem_out_of_range f i h, Option.none_bind]; rfl

theorem bayer_flist_file_get_size_absent (f : flist_t) (i : Int)
    (h : f.detail = 0 ∨ ¬ (0 ≤ i ∧ i < (f.list_count : Int))) :
    (bayer_flist_file_get_size f i).2 = 18446744073709551615 := by
  unfold bayer_flist_file_get_size
  simp only [list_get_elem_detail]
  rcases h with h | h
  · split <;> simp [h]
  · simp only [list_get_elem_out_of_range f i h, Option.none_bind]; rfl

/-- A detailed list of two records asked for index 5 and a detail-less
list asked for index 0: each of the seven detail accessors reports the
same result in both cases. -/
theorem accessor_absent_same_sample :
    (sample_shard0.detail ≠ 0 ∧ sample_shard0.list_count = 2) ∧
    (sample_lite0.detail = 0 ∧ sample_lite0.list_count = 2) ∧
    (bayer_flist_file_mode sample_shard0 5).2 = (bayer_flist_file_mode sample_lite0 0).2 ∧
    (bayer_flist_file_get_uid sample_shard0 5).2 = (bayer_flist_file_get_uid sample_lite0 0).2 ∧
    (bayer_flist_file_get_gid sample_shard0 5).2 = (bayer_flist_file_get_gid sample_lite0 0).2 ∧
    (bayer_flist_file_get_atime sample_shard0 5).2 =
      (bayer_flist_file_get_atime sample_lite0 0).2 ∧
    (bayer_flist_file_get_mtime sample_shard0 5).2 =
      (bayer_flist_file_get_mtime sample_lite0 0).2 ∧
    (bayer_flist_file_get_ctime sample_shard0 5).2 =
      (bayer_flist_file_get_ctime sample_lite0 0).2 ∧
    (bayer_flist_file_get_size sample_shard0 5).2 =
      (bayer_flist_file_get_size sample_lite0 0).2 := by
  decide

/-- C13 (amended): for every list `f` and index `i` outside
`[0, list_count)`, and for every detail-less list `g` and any index `j`,
every detail accessor reports the same result in both cases:
`bayer_flist_file_mode` returns -1 and stores nothing, the uid, gid,
atime, mtime and ctime getters return `0xFFFFFFFF` and the size getter
returns `0xFFFFFFFFFFFFFFFF`. -/
theorem accessor_absent_same (f g : flist_t) (i j : Int)
    (hi : ¬ (0 ≤ i ∧ i < (f.list_count : Int))) (hg : g.detail = 0) :
    ((bayer_flist_file_mode f i).2 = (-1, none) ∧
      (bayer_flist_file_mode g j).2 = (-1, none)) ∧
    ((bayer_flist_file_get_uid f i).2 = 4294967295 ∧
      (bayer_flist_file_get_uid g j).2 = 4294967295) ∧
    ((bayer_flist_file_get_gid f i).2 = 4294967295 ∧
      (bayer_flist_file_get_gid g j).2 = 4294967295) ∧
    ((bayer_flist_file_get_atime f i).2 = 4294967295 ∧
      (bayer_flist_file_get_atime g j).2 = 4294967295) ∧
    ((bayer_flist_file_get_mtime f i).2 = 4294967295 ∧
      (bayer_flist_file_get_mtime g j).2 = 4294967295) ∧
    ((bayer_flist_file_get_ctime f i).2 = 4294967295 ∧
      (bayer_flist_file_get_ctime g j).2 = 4294967295) ∧
    ((bayer_flist_file_get_size f i).2 = 18446744073709551615 ∧
      (bayer_flist_file_get_size g j).2 = 18446744073709551615) :=
  ⟨⟨bayer_flist_file_mode_absent f i (Or.inr hi), bayer_flist_file_mode_absent g j (Or.inl hg)⟩,
    ⟨bayer_flist_file_get_uid_absent f i (Or.inr hi),
      bayer_flist_file_get_uid_absent g j (Or.inl hg)⟩,
    ⟨bayer_flist_file_get_gid_absent f i (Or.inr hi),
      bayer_flist_file_get_gid_absent g j (Or.inl hg)⟩,
    ⟨bayer_flist_file_get_atime_absent f i (Or.inr hi),
      bayer_flist_file_get_atime_absent g j (Or.inl hg)⟩,
    ⟨bayer_flist_file_get_mtime_absent f i (Or.inr hi),
      bayer_flist_file_get_mtime_absent g j (Or.inl hg)⟩,
    ⟨bayer_flist_file_get_ctime_absent f i (Or.inr hi),
      bayer_flist_file_get_ctime_absent g j (Or.inl hg)⟩,
    ⟨bayer_flist_file_get_size_absent f i (Or.inr hi),
      bayer_flist_file_get_size_absent g j (Or.inl hg)⟩⟩

/-- The statement of `accessor_absent_same` at a concrete input. -/
theorem accessor_absent_same_witness :
    (¬ (0 ≤ (5 : Int) ∧ (5 : Int) < (sample_shard0.list_count : Int)) ∧
      sample_lite0.detail = 0) ∧
    (((bayer_flist_file_mode sample_shard0 5).2 = (-1, none) ∧
      (bayer_flist_file_mode sample_lite0 0).2 = (-1, none)) ∧
    ((bayer_flist_file_get_uid sample_shard0 5).2 = 4294967295 ∧
      (bayer_flist_file_get_uid sample_lite0 0).2 = 4294967295) ∧
    ((bayer_flist_file_get_gid sample_shard0 5).2 = 4294967295 ∧
      (bayer_flist_file_get_gid sample_lite0 0).2 = 4294967295) ∧
    ((bayer_flist_file_get_atime sample_shard0 5).2 = 4294967295 ∧
      (bayer_flist_file_get_atime sample_lite0 0).2 = 4294967295) ∧
    ((bayer_flist_file_get_mtime sample_shard0 5).2 = 4294967295 ∧
      (bayer_flist_file_get_mtime sample_lite0 0).2 = 4294967295) ∧
    ((bayer_flist_file_get_ctime sample_shard0 5).2 = 4294967295 ∧
      (bayer_flist_file_get_ctime sample_lite0 0).2 = 4294967295) ∧
    ((bayer_flist_file_get_size sample_shard0 5).2 = 18446744073709551615 ∧
      (bayer_flist_file_get_size sample_lite0 0).2 = 18446744073709551615)) :=
  ⟨⟨by decide, by decide⟩,
    accessor_absent_same sample_shard0 sample_lite0 5 0 (by decide) (by decide)⟩

theorem bayer_flist_file_get_username_no_detail (f : flist_t) (i : Int) (hd : f.detail = 0) :
    bayer_flist_file_get_username f i = (f, none, 0) := by
  unfold bayer_flist_file_get_username
  rw [if_neg (by simp [hd])]

theorem bayer_flist_file_get_groupname_no_detail (f : flist_t) (i : Int) (hd : f.detail = 0) :
    bayer_flist_file_get_groupname f i = (f, none, 0) := by
  unfold bayer_flist_file_get_groupname
  rw [if_neg (by simp [hd])]

theorem list_get_elem_deref (f : flist_t) (h : list_ok f) (i : Nat) (hi : i < f.list_count) :
    ((list_get_elem f (i : Int)).2.bind fun a => (list_get_elem f (i : Int)).1.heap[a]?) =
      f.heap[i]? := by
  rw [list_get_elem_of_ok f h i hi, list_get_elem_heap]
  rfl

/-- C14: on a list whose detail flag is 0, for every index,
`bayer_flist_file_mode` returns -1, stores nothing through `mode` and
leaves the list as it was; the uid, gid, atime, mtime and ctime getters
return `0xFFFFFFFF`; the size getter returns `0xFFFFFFFFFFFFFFFF`; the
username and groupname getters return no name and leave the list, and
with it both id-to-name maps, unchanged. On a well-formed such list the
name, depth and type accessors return 0 for every index in range and
store the path, depth and type of the record at that position. -/
theorem detail_less_getters (f : flist_t) (hd : f.detail = 0) (index : Int) :
    bayer_flist_file_mode f index = (f, -1, none) ∧
    (bayer_flist_file_get_uid f index).2 = 2 ^ 32 - 1 ∧
    (bayer_flist_file_get_gid f index).2 = 2 ^ 32 - 1 ∧
    (bayer_flist_file_get_atime f index).2 = 2 ^ 32 - 1 ∧
    (bayer_flist_file_get_mtime f index).2 = 2 ^ 32 - 1 ∧
    (bayer_flist_file_get_ctime f index).2 = 2 ^ 32 - 1 ∧
    (bayer_flist_file_get_size f index).2 = 2 ^ 64 - 1 ∧
    bayer_flist_file_get_username f index = (f, none, 0) ∧
    bayer_flist_file_get_groupname f index = (f, none, 0) ∧
    (list_ok f → 0 ≤ index → index < (f.list_count : Int) →
      ∃ e, (list_elems f)[index.toNat]? = some e ∧
        (bayer_flist_file_name f index).2 = (0, some e.file) ∧
        (bayer_flist_file_depth f index).2 = (0, some e.depth) ∧
        (bayer_flist_file_type f index).2 = (0, some e.type)) := by
  refine ⟨?_, bayer_flist_file_get_uid_absent f index (Or.inl hd),
    bayer_flist_file_get_gid_absent f index (Or.inl hd),
    bayer_flist_file_get_atime_absent f index (Or.inl hd),
    bayer_flist_file_get_mtime_absent f index (Or.inl hd),
    bayer_flist_file_get_ctime_absent f index (Or.inl hd),
    bayer_flist_file_get_size_absent f index (Or.inl hd),
    bayer_flist_file_get_username_no_detail f index hd,
    bayer_flist_file_get_groupname_no_detail f index hd, ?_⟩
  · unfold bayer_flist_file_mode
    rw [if_neg (by omega)]
  · intro hok h0 h1
    obtain ⟨i, rfl⟩ := Int.eq_ofNat_of_zero_le h0
    have hi : i < f.list_count := by omega
    have hlen : i < f.heap.length := by rw [← hok.1]; exact hi
    have hderef := list_get_elem_deref f hok i hi
    refine ⟨f.heap[i], ?_, ?_, ?_, ?_⟩
    · rw [list_elems_of_ok f hok]
      simp only [Int.toNat_ofNat]
      exact List.getElem?_eq_getElem hlen
    · simp only [bayer_flist_file_name]
      rw [hderef, List.getElem?_eq_getElem hlen]
    · simp only [bayer_flist_file_depth]
      rw [hderef, List.getElem?_eq_getElem hlen]
    · simp only [bayer_flist_file_type]
      rw [hderef, List.getElem?_eq_getElem hlen]

/-- The statement of `detail_less_getters` on a detail-less list of two
records at index 1. -/
theorem detail_less_getters_witness :
    sample_lite0.detail = 0 ∧
    (bayer_flist_file_mode sample_lite0 1 = (sample_lite0, -1, none) ∧
    (bayer_flist_file_get_uid sample_lite0 1).2 = 2 ^ 32 - 1 ∧
    (bayer_flist_file_get_gid sample_lite0 1).2 = 2 ^ 32 - 1 ∧
    (bayer_flist_file_get_atime sample_lite0 1).2 = 2 ^ 32 - 1 ∧
    (bayer_flist_file_get_mtime sample_lite0 1).2 = 2 ^ 32 - 1 ∧
    (bayer_flist_file_get_ctime sample_lite0 1).2 = 2 ^ 32 - 1 ∧
    (bayer_flist_file_get_size sample_lite0 1).2 = 2 ^ 64 - 1 ∧
    bayer_flist_file_get_username sample_lite0 1 = (sample_lite0, none, 0) ∧
    bayer_flist_file_get_groupname sample_lite0 1 = (sample_lite0, none, 0) ∧
    (list_ok sample_lite0 → 0 ≤ (1 : Int) → (1 : Int) < (sample_lite0.list_count : Int) →
      ∃ e, (list_elems sample_lite0)[(1 : Int).toNat]? = some e ∧
        (bayer_flist_file_name sample_lite0 1).2 = (0, some e.file) ∧
        (bayer_flist_file_depth sample_lite0 1).2 = (0, some e.depth) ∧
        (bayer_flist_file_type sample_lite0 1).2 = (0, some e.type))) ∧
    (list_ok sample_lite0 ∧ 0 ≤ (1 : Int) ∧ (1 : Int) < (sample_lite0.list_count : Int)) :=
  ⟨by decide, detail_less_getters sample_lite0 (by decide) 1, by decide, by decide, by decide⟩

/-! ## Names made from ids (C15, C16, C17) -/

theorem map_find_map_set {κ ν : Type} [DecidableEq κ] (m : List (κ × ν)) (k : κ) (v : ν) :
    map_find (map_set m k v) k = some v := by
  simp [map_find, map_set]

/-- A second lookup of an id that the first lookup stored returns the same
name and leaves the map as it is. -/
theorem get_name_from_id_stable (id : Nat) (chars chars2 : Int) (m : List (Nat × List Nat)) :
    get_name_from_id id chars2 (get_name_from_id id chars m).1 =
      ((get_name_from_id id chars m).1, (get_name_from_id id chars m).2.1, 0) := by
  unfold get_name_from_id
  cases hm : map_find m id with
  | some name => simp only [hm]
  | none => simp only [map_find_map_set]

/-- An unknown id below `2 ^ 31` is rendered in decimal, truncated to the
11 characters that fit the scratch array. -/
theorem get_name_from_id_small (id : Nat) (chars : Int) (m : List (Nat × List Nat))
    (hm : map_find m id = none) (hid : id < 2 ^ 31) :
    (get_name_from_id id chars m).2.1 = some ((render_nat id).take 11) := by
  unfold get_name_from_id
  simp only [hm, map_find_map_set]
  have h1 : to_int32 id = (id : Int) := by
    unfold to_int32
    have : id % 2 ^ 32 = id := Nat.mod_eq_of_lt (by omega)
    rw [this, if_pos hid]
  rw [h1]
  unfold render_int
  rw [if_neg (by omega)]
  simp

/-- C15: the unknown id 4294967294, a 32-bit unsigned value, is rendered
through `%d` as the signed number -2: on an empty map, whatever the stride,
`get_name_from_id` stores and returns the two characters `-2`, where the
decimal rendering of the id is `4294967294`; the id 4242 gives `4242`. -/
theorem get_name_from_id_signed :
    (4294967294 < 2 ^ 32 ∧ map_find ([] : List (Nat × List Nat)) 4294967294 = none) ∧
    get_name_from_id 4294967294 12 [] = ([(4294967294, [45, 50])], some [45, 50], 0) ∧
    render_nat 4294967294 = [52, 50, 57, 52, 57, 54, 55, 50, 57, 52] ∧
    (get_name_from_id 4242 12 []).2.1 = some [52, 50, 52, 50] := by
  decide

/-- C16: the rendering of the unknown id 4242 takes four characters; with
a stride of 4 the overflow test fires, yet its branch only prints a line
and the name is stored and returned all the same; with a stride of 0 the
bound `chars - 1` converts to the largest `size_t` and the test does not
fire at all. The username and groupname accessors hand the name on: on a
detailed list with empty tables (stride 0) and on one with a stride of 4,
the name of uid 1000 and of gid 100 is returned. -/
theorem id_render_overflow_returns_name :
    get_name_from_id 4242 4 [] = ([(4242, [52, 50, 52, 50])], some [52, 50, 52, 50], 1) ∧
    get_name_from_id 4242 0 [] = ([(4242, [52, 50, 52, 50])], some [52, 50, 52, 50], 0) ∧
    (sample_shard0.detail = 1 ∧ sample_shard0.users.chars = 0 ∧
      sample_shard0.groups.chars = 0 ∧
      (bayer_flist_file_get_uid sample_shard0 1).2 = 1000 ∧
      (bayer_flist_file_get_gid sample_shard0 1).2 = 100) ∧
    (bayer_flist_file_get_username sample_shard0 1).2 = (some [49, 48, 48, 48], 0) ∧
    (bayer_flist_file_get_groupname sample_shard0 1).2 = (some [49, 48, 48], 0) ∧
    (sample_shard_stride4.detail = 1 ∧ sample_shard_stride4.users.chars = 4 ∧
      sample_shard_stride4.groups.chars = 3 ∧
      map_find sample_shard_stride4.user_id2name 1000 = none ∧
      map_find sample_shard_stride4.group_id2name 100 = none) ∧
    (bayer_flist_file_get_username sample_shard_stride4 1).2 = (some [49, 48, 48, 48], 1) ∧
    (bayer_flist_file_get_groupname sample_shard_stride4 1).2 = (some [49, 48, 48], 1) := by
  decide

/-- C17: on a detailed list of two records, index 5 is out of range; the
username and groupname accessors do not test the index: the uid and gid
getters return `0xFFFFFFFF`, and `get_name_from_id` makes the name `-1`
for it, returns it and stores it in the id-to-name map, which was empty. -/
theorem username_out_of_range_fabricated :
    (sample_shard0.detail = 1 ∧ sample_shard0.list_count = 2 ∧
      sample_shard0.user_id2name = [] ∧ sample_shard0.group_id2name = []) ∧
    (bayer_flist_file_get_uid sample_shard0 5).2 = 4294967295 ∧
    (bayer_flist_file_get_username sample_shard0 5).2.1 = some [45, 49] ∧
    (bayer_flist_file_get_username sample_shard0 5).1.user_id2name =
      [(4294967295, [45, 49])] ∧
    (bayer_flist_file_get_groupname sample_shard0 5).2.1 = some [45, 49] ∧
    (bayer_flist_file_get_groupname sample_shard0 5).1.group_id2name =
      [(4294967295, [45, 49])] ∧
    (bayer_flist_file_name sample_shard0 5).2 = (-1, none) := by
  decide

/-! ## Summary of a list (C18) -/

theorem foldl_max_int_ge (l : List Int) (a : Int) :
    a ≤ l.foldl max a ∧ ∀ x ∈ l, x ≤ l.foldl max a := by
  induction l generalizing a with
  | nil => simp
  | cons y ys ih =>
    simp only [List.foldl_cons, List.mem_cons]
    obtain ⟨h1, h2⟩ := ih (max a y)
    refine ⟨le_trans (le_max_left a y) h1, ?_⟩
    intro x hx
    rcases hx with rfl | hx
    · exact le_trans (le_max_right a x) h1
    · exact h2 x hx

theorem foldl_max_int_mem (l : List Int) (a : Int) :
    l.foldl max a = a ∨ l.foldl max a ∈ l := by
  induction l generalizing a with
  | nil => left; rfl
  | cons y ys ih =>
    simp only [List.foldl_cons, List.mem_cons]
    rcases ih (max a y) with h | h
    · rcases max_choice a y with h2 | h2
      · left; rw [h, h2]
      · right; left; rw [h, h2]
    · right; right; exact h

theorem foldl_min_int_le (l : List Int) (a : Int) :
    l.foldl min a ≤ a ∧ ∀ x ∈ l, l.foldl min a ≤ x := by
  induction l generalizing a with
  | nil => simp
  | cons y ys ih =>
    simp only [List.foldl_cons, List.mem_cons]
    obtain ⟨h1, h2⟩ := ih (min a y)
    refine ⟨le_trans h1 (min_le_left a y), ?_⟩
    intro x hx
    rcases hx with rfl | hx
    · exact le_trans h1 (min_le_right a x)
    · exact h2 x hx

theorem foldl_min_int_mem (l : List Int) (a : Int) :
    l.foldl min a = a ∨ l.foldl min a ∈ l := by
  induction l generalizing a with
  | nil => left; rfl
  | cons y ys ih =>
    simp only [List.foldl_cons, List.mem_cons]
    rcases ih (min a y) with h | h
    · rcases min_choice a y with h2 | h2
      · left; rw [h, h2]
      · right; left; rw [h, h2]
    · right; right; exact h

/-- The MAX all-reduce of a non-empty contribution list is one of the
contributions and bounds them all. -/
theorem MPI_Allreduce_max_int_spec (l : List Int) (hl : l ≠ []) :
    MPI_Allreduce_max_int l ∈ l ∧ ∀ x ∈ l, x ≤ MPI_Allreduce_max_int l := by
  unfold MPI_Allreduce_max_int
  cases l with
  | nil => exact absurd rfl hl
  | cons y ys =>
    refine ⟨?_, (foldl_max_int_ge (y :: ys) _).2⟩
    rcases foldl_max_int_mem (y :: ys) ((y :: ys).headD 0) with h | h
    · rw [h]; simp
    · exact h

/-- The MIN all-reduce of a non-empty contribution list is one of the
contributions and is below them all. -/
theorem MPI_Allreduce_min_int_spec (l : List Int) (hl : l ≠ []) :
    MPI_Allreduce_min_int l ∈ l ∧ ∀ x ∈ l, MPI_Allreduce_min_int l ≤ x := by
  unfold MPI_Allreduce_min_int
  cases l with
  | nil => exact absurd rfl hl
  | cons y ys =>
    refine ⟨?_, (foldl_min_int_le (y :: ys) _).2⟩
    rcases foldl_min_int_mem (y :: ys) ((y :: ys).headD 0) with h | h
    · rw [h]; simp
    · exact h

theorem summary_inv_step (seen : List elem_t) (acc : Int × Int × Nat) (e : elem_t)
    (hseen : ∀ x ∈ seen, 0 ≤ x.depth) (he : 0 ≤ e.depth) (h : summary_inv seen acc) :
    summary_inv (seen ++ [e]) (summary_step acc e) := by
  obtain ⟨h0, h1, h2⟩ := h
  obtain ⟨amin, amax, aname⟩ := acc
  by_cases hs : seen = []
  · subst hs
    have := h0 rfl
    simp only [Prod.mk.injEq] at this
    obtain ⟨rfl, rfl, rfl⟩ := this
    refine ⟨by simp, fun _ => ?_, ?_⟩
    · simp [summary_step]
    · simp [summary_step]
  · obtain ⟨⟨e1, he1, hmin⟩, ⟨e2, he2, hmax⟩, ⟨e3, he3, hname⟩⟩ := h1 hs
    simp only at hmin hmax hname
    have hmin0 : 0 ≤ amin := hmin ▸ hseen e1 he1
    have hmax0 : 0 ≤ amax := hmax ▸ hseen e2 he2
    refine ⟨by simp, fun _ => ⟨?_, ?_, ?_⟩, ?_⟩
    · simp only [summary_step]
      by_cases hc : e.depth < amin ∨ amin = -1
      · rw [if_pos hc]; exact ⟨e, by simp, rfl⟩
      · rw [if_neg hc]; exact ⟨e1, by simp [he1], hmin⟩
    · simp only [summary_step]
      by_cases hc : e.depth > amax ∨ amax = -1
      · rw [if_pos hc]; exact ⟨e, by simp, rfl⟩
      · rw [if_neg hc]; exact ⟨e2, by simp [he2], hmax⟩
    · simp only [summary_step]
      by_cases hc : strlen e.file + 1 > aname
      · rw [if_pos hc]; exact ⟨e, by simp, rfl⟩
      · rw [if_neg hc]; exact ⟨e3, by simp [he3], hname⟩
    · intro x hx
      simp only [List.mem_append, List.mem_singleton] at hx
      simp only [summary_step]
      rcases hx with hx | rfl
      · obtain ⟨ha, hb, hc⟩ := h2 x hx
        simp only at ha hb hc
        refine ⟨?_, ?_, ?_⟩
        · split_ifs <;> omega
        · split_ifs <;> omega
        · split_ifs <;> omega
      · refine ⟨?_, ?_, ?_⟩
        · split_ifs <;> omega
        · split_ifs <;> omega
        · split_ifs <;> omega

theorem summary_inv_foldl (l seen : List elem_t) (acc : Int × Int × Nat)
    (hseen : ∀ x ∈ seen, 0 ≤ x.depth) (hl : ∀ x ∈ l, 0 ≤ x.depth) (h : summary_inv seen acc) :
    summary_inv (seen ++ l) (l.foldl summary_step acc) := by
  induction l generalizing seen acc with
  | nil => simpa using h
  | cons e es ih =>
    have hstep := summary_inv_step seen acc e hseen (hl e (by simp)) h
    have := ih (seen ++ [e]) (summary_step acc e)
      (by
        intro x hx
        simp only [List.mem_append, List.mem_singleton] at hx
        rcases hx with hx | rfl
        · exact hseen x hx
        · exact hl x (by simp))
      (fun x hx => hl x (by simp [hx])) hstep
    simpa using this

theorem summary_local_inv (f : flist_t) (hd : ∀ e ∈ list_elems f, 0 ≤ e.depth) :
    summary_inv (list_elems f) (summary_local f) := by
  have h := summary_inv_foldl (list_elems f) [] (-1, -1, 0) (by simp) hd
    ⟨fun _ => rfl, fun h => absurd rfl h, by simp⟩
  simpa [summary_local] using h

theorem list_count_zero_iff (f : flist_t) (h : list_ok f) :
    f.list_count = 0 ↔ list_elems f = [] := by
  rw [list_elems_of_ok f h, h.1]
  exact List.length_eq_zero

theorem sum_list_count (world : List flist_t) (hok : ∀ f ∈ world, list_ok f) :
    (world.map fun f => f.list_count).sum = (world.flatMap list_elems).length := by
  induction world with
  | nil => rfl
  | cons f fs ih =>
    simp only [List.map_cons, List.sum_cons, List.flatMap_cons, List.length_append]
    rw [ih (fun g hg => hok g (by simp [hg])), list_elems_of_ok f (hok f (by simp)),
      (hok f (by simp)).1]
/-- C18: on well-formed shards whose records have non-negative depth,
`list_compute_summary` sets on every participant `total_files` to the sum
of the shard sizes, which is the number of records of all shards. When
there is at least one record, `max_file_name` is the length plus one of
some record path and bounds that of every record, `max_depth` is the
depth of some record and bounds every depth from above, and `min_depth`
is the depth of some record and bounds every depth from below, shards
without records included in `world`. When every shard is empty all four
fields are 0. -/
theorem summary_reducer (world : List flist_t) (flist : flist_t)
    (hok : ∀ f ∈ world, list_ok f)
    (hdepth : ∀ f ∈ world, ∀ e ∈ list_elems f, 0 ≤ e.depth) :
    (list_compute_summary world flist).total_files = (world.map bayer_flist_size).sum ∧
    (list_compute_summary world flist).total_files = (world.flatMap list_elems).length ∧
    (world.flatMap list_elems ≠ [] →
      ((∃ e ∈ world.flatMap list_elems,
          (list_compute_summary world flist).max_file_name = strlen e.file + 1) ∧
        ∀ e ∈ world.flatMap list_elems,
          strlen e.file + 1 ≤ (list_compute_summary world flist).max_file_name) ∧
      ((∃ e ∈ world.flatMap list_elems,
          (list_compute_summary world flist).max_depth = e.depth) ∧
        ∀ e ∈ world.flatMap list_elems,
          e.depth ≤ (list_compute_summary world flist).max_depth) ∧
      ((∃ e ∈ world.flatMap list_elems,
          (list_compute_summary world flist).min_depth = e.depth) ∧
        ∀ e ∈ world.flatMap list_elems,
          (list_compute_summary world flist).min_depth ≤ e.depth)) ∧
    (world.flatMap list_elems = [] →
      (list_compute_summary world flist).total_files = 0 ∧
      (list_compute_summary world flist).max_file_name = 0 ∧
      (list_compute_summary world flist).max_depth = 0 ∧
      (list_compute_summary world flist).min_depth = 0) := by
  have hsum := sum_list_count world hok
  have htotal : (list_compute_summary world flist).total_files =
      (world.map fun f => f.list_count).sum := by
    simp only [list_compute_summary, MPI_Allreduce_sum]
    split_ifs <;> rfl
  refine ⟨htotal, htotal.trans hsum, ?_, ?_⟩
  · intro hne
    have hpos : ¬ MPI_Allreduce_sum (world.map fun f => f.list_count) ≤ 0 := by
      unfold MPI_Allreduce_sum
      rw [hsum]
      have := List.length_pos.mpr hne
      omega
    obtain ⟨e0, he0⟩ := List.exists_mem_of_ne_nil _ hne
    obtain ⟨f0, hf0, he0f⟩ := List.mem_flatMap.mp he0
    have hw : world ≠ [] := List.ne_nil_of_mem hf0
    have hinv0 := summary_local_inv f0 (hdepth f0 hf0)
    -- the global maximum depth
    have hmaxspec := MPI_Allreduce_max_int_spec (world.map fun f => (summary_local f).2.1)
      (by simpa using hw)
    generalize hG : MPI_Allreduce_max_int (world.map fun f => (summary_local f).2.1) = G
      at hmaxspec
    obtain ⟨hGmem, hGge⟩ := hmaxspec
    have hG0 : e0.depth ≤ G :=
      le_trans (hinv0.2.2 e0 he0f).2.1 (hGge _ (List.mem_map.mpr ⟨f0, hf0, rfl⟩))
    have hGatt : ∃ e ∈ world.flatMap list_elems, G = e.depth := by
      obtain ⟨f, hf, hfG⟩ := List.mem_map.mp hGmem
      have hinv := summary_local_inv f (hdepth f hf)
      by_cases hemp : list_elems f = []
      · have := hinv.1 hemp
        rw [this] at hfG
        simp only at hfG
        have := hdepth f0 hf0 e0 he0f
        omega
      · obtain ⟨_, ⟨e, he, hee⟩, _⟩ := hinv.2.1 hemp
        exact ⟨e, List.mem_flatMap.mpr ⟨f, hf, he⟩, by rw [← hfG, hee]⟩
    have hGall : ∀ e ∈ world.flatMap list_elems, e.depth ≤ G := by
      intro e he
      obtain ⟨f, hf, hef⟩ := List.mem_flatMap.mp he
      exact le_trans ((summary_local_inv f (hdepth f hf)).2.2 e hef).2.1
        (hGge _ (List.mem_map.mpr ⟨f, hf, rfl⟩))
    -- the global minimum depth
    have hminspec := MPI_Allreduce_min_int_spec
      (world.map fun f => if f.list_count = 0 then G else (summary_local f).1)
      (by simpa using hw)
    generalize hg : MPI_Allreduce_min_int
      (world.map fun f => if f.list_count = 0 then G else (summary_local f).1) = g at hminspec
    obtain ⟨hgmem, hgle⟩ := hminspec
    have hgatt : ∃ e ∈ world.flatMap list_elems, g = e.depth := by
      obtain ⟨f, hf, hfg⟩ := List.mem_map.mp hgmem
      by_cases hc : f.list_count = 0
      · rw [if_pos hc] at hfg
        obtain ⟨e, he, hee⟩ := hGatt
        exact ⟨e, he, by rw [← hfg, hee]⟩
      · rw [if_neg hc] at hfg
        have hemp : list_elems f ≠ [] := fun h => hc ((list_count_zero_iff f (hok f hf)).mpr h)
        obtain ⟨⟨e, he, hee⟩, _, _⟩ := (summary_local_inv f (hdepth f hf)).2.1 hemp
        exact ⟨e, List.mem_flatMap.mpr ⟨f, hf, he⟩, by rw [← hfg, hee]⟩
    have hgall : ∀ e ∈ world.flatMap list_elems, g ≤ e.depth := by
      intro e he
      obtain ⟨f, hf, hef⟩ := List.mem_flatMap.mp he
      have hc : f.list_count ≠ 0 := fun h =>
        List.ne_nil_of_mem hef ((list_count_zero_iff f (hok f hf)).mp h)
      have := hgle _ (List.mem_map.mpr ⟨f, hf, rfl⟩)
      simp only [if_neg hc] at this
      exact le_trans this ((summary_local_inv f (hdepth f hf)).2.2 e hef).1
    -- the global maximum name length
    have hNall : ∀ e ∈ world.flatMap list_elems,
        strlen e.file + 1 ≤ MPI_Allreduce_max (world.map fun f => (summary_local f).2.2) := by
      intro e he
      obtain ⟨f, hf, hef⟩ := List.mem_flatMap.mp he
      rw [MPI_Allreduce_max_eq]
      exact le_trans ((summary_local_inv f (hdepth f hf)).2.2 e hef).2.2
        (le_foldr_max _ _ (List.mem_map.mpr ⟨f, hf, rfl⟩))
    have hNatt : ∃ e ∈ world.flatMap list_elems,
        MPI_Allreduce_max (world.map fun f => (summary_local f).2.2) = strlen e.file + 1 := by
      have h1 := hNall e0 he0
      rw [MPI_Allreduce_max_eq] at h1 ⊢
      rcases foldr_max_mem (world.map fun f => (summary_local f).2.2) with h | h
      · omega
      · obtain ⟨f, hf, hfN⟩ := List.mem_map.mp h
        have hinv := summary_local_inv f (hdepth f hf)
        by_cases hemp : list_elems f = []
        · have := hinv.1 hemp
          rw [this] at hfN
          simp only at hfN
          omega
        · obtain ⟨_, _, ⟨e, he, hee⟩⟩ := hinv.2.1 hemp
          exact ⟨e, List.mem_flatMap.mpr ⟨f, hf, he⟩, by rw [← hfN, hee]⟩
    have hres : list_compute_summary world flist =
        { flist with
          total_files := MPI_Allreduce_sum (world.map fun f => f.list_count)
          max_file_name := MPI_Allreduce_max (world.map fun f => (summary_local f).2.2)
          min_depth := g
          max_depth := G } := by
      simp only [list_compute_summary]
      rw [if_neg hpos, hG, hg]
    rw [hres]
    exact ⟨⟨hNatt, hNall⟩, ⟨hGatt, hGall⟩, ⟨hgatt, hgall⟩⟩
  · intro hempty
    have hz : MPI_Allreduce_sum (world.map fun f => f.list_count) ≤ 0 := by
      unfold MPI_Allreduce_sum
      rw [hsum, hempty]
      simp
    have hres : list_compute_summary world flist =
        { flist with
          max_file_name := 0, min_depth := 0, max_depth := 0
          total_files := MPI_Allreduce_sum (world.map fun f => f.list_count) } := by
      simp only [list_compute_summary]
      rw [if_pos hz]
    rw [hres]
    refine ⟨?_, rfl, rfl, rfl⟩
    show MPI_Allreduce_sum (world.map fun f => f.list_count) = 0
    omega

/-- The statement of `summary_reducer` on three participants, the middle
one without records, seen from the empty participant. -/
theorem summary_reducer_witness :
    ((∀ f ∈ sample_world_gap, list_ok f) ∧
      ∀ f ∈ sample_world_gap, ∀ e ∈ list_elems f, 0 ≤ e.depth) ∧
    sample_world_gap.flatMap list_elems ≠ [] ∧
    ((list_compute_summary sample_world_gap (bayer_flist_new sample_raw_list)).total_files =
      (sample_world_gap.map bayer_flist_size).sum ∧
    (list_compute_summary sample_world_gap (bayer_flist_new sample_raw_list)).total_files =
      (sample_world_gap.flatMap list_elems).length ∧
    (sample_world_gap.flatMap list_elems ≠ [] →
      ((∃ e ∈ sample_world_gap.flatMap list_elems,
          (list_compute_summary sample_world_gap
            (bayer_flist_new sample_raw_list)).max_file_name = strlen e.file + 1) ∧
        ∀ e ∈ sample_world_gap.flatMap list_elems,
          strlen e.file + 1 ≤ (list_compute_summary sample_world_gap
            (bayer_flist_new sample_raw_list)).max_file_name) ∧
      ((∃ e ∈ sample_world_gap.flatMap list_elems,
          (list_compute_summary sample_world_gap
            (bayer_flist_new sample_raw_list)).max_depth = e.depth) ∧
        ∀ e ∈ sample_world_gap.flatMap list_elems,
          e.depth ≤ (list_compute_summary sample_world_gap
            (bayer_flist_new sample_raw_list)).max_depth) ∧
      ((∃ e ∈ sample_world_gap.flatMap list_elems,
          (list_compute_summary sample_world_gap
            (bayer_flist_new sample_raw_list)).min_depth = e.depth) ∧
        ∀ e ∈ sample_world_gap.flatMap list_elems,
          (list_compute_summary sample_world_gap
            (bayer_flist_new sample_raw_list)).min_depth ≤ e.depth)) ∧
    (sample_world_gap.flatMap list_elems = [] →
      (list_compute_summary sample_world_gap (bayer_flist_new sample_raw_list)).total_files = 0 ∧
      (list_compute_summary sample_world_gap
        (bayer_flist_new sample_raw_list)).max_file_name = 0 ∧
      (list_compute_summary sample_world_gap (bayer_flist_new sample_raw_list)).max_depth = 0 ∧
      (list_compute_summary sample_world_gap
        (bayer_flist_new sample_raw_list)).min_depth = 0)) :=
  ⟨⟨by decide, by decide⟩, by decide,
    summary_reducer sample_world_gap (bayer_flist_new sample_raw_list) (by decide) (by decide)⟩

/-- The summary of the three sample participants, computed: 4 records,
longest path of 6 bytes, depths from 1 to 3. -/
theorem summary_reducer_sample :
    (list_compute_summary sample_world_gap (bayer_flist_new sample_raw_list)).total_files = 4 ∧
    (list_compute_summary sample_world_gap (bayer_flist_new sample_raw_list)).max_file_name = 7 ∧
    (list_compute_summary sample_world_gap (bayer_flist_new sample_raw_list)).min_depth = 1 ∧
    (list_compute_summary sample_world_gap (bayer_flist_new sample_raw_list)).max_depth = 3 := by
  decide

/-! ## Skipping the entries `.` and `..` (C20) -/

theorem strncmp_succ (s1 s2 : List Nat) (n : Nat) :
    strncmp s1 s2 (n + 1) =
      if s1.headD 0 ≠ s2.headD 0 then (s1.headD 0 : Int) - (s2.headD 0 : Int)
      else if s1.headD 0 = 0 then 0
      else strncmp s1.tail s2.tail n := by
  rw [strncmp]

/-- Comparing with a NUL-free string over one byte more than its length
gives 0 exactly for the strings equal to it. -/
theorem strncmp_eq_zero_iff (pat : List Nat) (hpat : ∀ c ∈ pat, c ≠ 0) (name : List Nat) :
    strncmp name pat (pat.length + 1) = 0 ↔ bayer_strdup name = pat := by
  induction pat generalizing name with
  | nil =>
    cases name with
    | nil => simp [strncmp, bayer_strdup]
    | cons c cs =>
      by_cases hc : c = 0
      · subst hc; simp [strncmp, bayer_strdup]
      · simp only [strncmp, bayer_strdup, List.headD_cons, List.headD_nil, hc, if_false]
        simp only [ne_eq, hc, not_false_eq_true, if_true]
        constructor
        · intro h; omega
        · intro h; simp at h
  | cons p ps ih =>
    have hp : p ≠ 0 := hpat p (by simp)
    have hps : ∀ c ∈ ps, c ≠ 0 := fun c hc => hpat c (by simp [hc])
    cases name with
    | nil =>
      rw [List.length_cons, strncmp_succ]
      simp only [bayer_strdup, List.headD_nil, List.headD_cons]
      rw [if_pos (fun h => hp h.symm)]
      constructor
      · intro h; omega
      · intro h; simp at h
    | cons c cs =>
      rw [List.length_cons, strncmp_succ]
      simp only [List.headD_cons, List.tail_cons]
      by_cases hcp : c = p
      · subst hcp
        simp only [ne_eq, not_true_eq_false, if_false, hp, bayer_strdup]
        rw [ih hps cs]
        simp
      · rw [if_pos hcp]
        constructor
        · intro h; omega
        · intro h
          exfalso
          simp only [bayer_strdup] at h
          by_cases hc0 : c = 0
          · simp [hc0] at h
          · simp [hc0] at h
            exact hcp h.1

theorem skip_test_iff (name : List Nat) :
    (strncmp name [46] 2 ≠ 0 ∧ strncmp name [46, 46] 3 ≠ 0) ↔
      is_dot_name (bayer_strdup name) = false := by
  have h1 := strncmp_eq_zero_iff [46] (by simp) name
  have h2 := strncmp_eq_zero_iff [46, 46] (by simp) name
  simp only [List.length_cons, List.length_nil] at h1 h2
  simp only [is_dot_name, ne_eq, h1, h2]
  simp

theorem strcat_newpath (dir name : List Nat) :
    strcat (strcat (bayer_strdup dir) [47]) name =
      bayer_strdup dir ++ [47] ++ bayer_strdup name := by
  have h1 : bayer_strdup (bayer_strdup dir) = bayer_strdup dir :=
    bayer_strdup_of_no_nul _ (bayer_strdup_no_nul dir)
  have h2 : bayer_strdup [47] = [47] := by simp [bayer_strdup]
  have h3 : bayer_strdup (bayer_strdup dir ++ [47]) = bayer_strdup dir ++ [47] := by
    apply bayer_strdup_of_no_nul
    intro c hc
    simp only [List.mem_append, List.mem_singleton] at hc
    rcases hc with hc | rfl
    · exact bayer_strdup_no_nul dir c hc
    · omega
  unfold strcat
  rw [h1, h2, h3]

theorem last_component_append (d name : List Nat) (h : 47 ∉ name) :
    last_component (d ++ [47] ++ name) = name := by
  unfold last_component
  simp only [List.reverse_append, List.reverse_cons, List.reverse_nil, List.nil_append,
    List.append_assoc, List.singleton_append]
  have h1 : ∀ c ∈ name.reverse, (fun c => decide (c ≠ 47)) c = true := by
    intro c hc
    have : c ≠ 47 := fun h2 => h (h2 ▸ List.mem_reverse.mp hc)
    simpa using this
  rw [List.takeWhile_append_of_pos h1]
  simp [List.takeWhile]

theorem list_insert_stat_files (f : flist_t) (raw : elem_t) (fpath : List Nat) (mode : Nat)
    (sb : Option stat_t) :
    (list_insert_stat f raw fpath mode sb).heap.map (fun e => e.file) =
      f.heap.map (fun e => e.file) ++ [bayer_strdup fpath] := by
  have h : list_insert_stat f raw fpath mode sb =
      list_insert_elem f (elem_of_stat raw fpath mode sb) := by
    cases sb <;> rfl
  rw [h, list_insert_elem_map (fun e => e.file) (fun e => rfl)]
  cases sb <;> rfl

theorem entry_path_no_nul (dir : List Nat) (entry : dirent) :
    bayer_strdup (entry_path dir entry) = entry_path dir entry := by
  apply bayer_strdup_of_no_nul
  intro c hc
  simp only [entry_path, List.mem_append, List.mem_singleton] at hc
  rcases hc with (hc | rfl) | hc
  · exact bayer_strdup_no_nul dir c hc
  · omega
  · exact bayer_strdup_no_nul _ c hc

/-- What one entry adds in stat mode. -/
theorem walk_stat_process_entry_cases (dir : List Nat) (queue : List (List Nat))
    (entry : dirent) :
    (walk_stat_process_entry dir queue entry = queue) ∨
    (is_dot_name (bayer_strdup entry.d_name) = false ∧
      walk_stat_process_entry dir queue entry = queue ++ [entry_path dir entry]) := by
  unfold walk_stat_process_entry
  by_cases h : strncmp entry.d_name [46] 2 ≠ 0 ∧ strncmp entry.d_name [46, 46] 3 ≠ 0
  · rw [if_pos h]
    by_cases hl : strlen dir + 1 + strlen entry.d_name + 1 < CIRCLE_MAX_STRING_LEN
    · right
      simp only [hl, if_true, strcat_newpath]
      exact ⟨(skip_test_iff _).mp h, rfl⟩
    · left; simp only [hl, if_false]
  · left; rw [if_neg h]

/-- What one entry adds in readdir mode: nothing, or a record for its
path, with or without the path queued. -/
theorem walk_readdir_process_entry_cases (fs : fs_t) (raw : elem_t) (dir : List Nat)
    (state : flist_t × List (List Nat)) (entry : dirent) :
    (walk_readdir_process_entry fs raw dir state entry = state) ∨
    (is_dot_name (bayer_strdup entry.d_name) = false ∧
      (walk_readdir_process_entry fs raw dir state entry).1.heap.map (fun e => e.file) =
        state.1.heap.map (fun e => e.file) ++ [entry_path dir entry] ∧
      ((walk_readdir_process_entry fs raw dir state entry).2 = state.2 ∨
        (walk_readdir_process_entry fs raw dir state entry).2 =
          state.2 ++ [entry_path dir entry])) := by
  unfold walk_readdir_process_entry
  by_cases h : strncmp entry.d_name [46] 2 ≠ 0 ∧ strncmp entry.d_name [46, 46] 3 ≠ 0
  · rw [if_pos h]
    have hdot := (skip_test_iff _).mp h
    by_cases hl : strlen dir + 1 + strlen entry.d_name + 1 < CIRCLE_MAX_STRING_LEN
    · simp only [hl, if_true, strcat_newpath]
      have hp : bayer_strdup dir ++ [47] ++ bayer_strdup entry.d_name = entry_path dir entry :=
        rfl
      rw [hp]
      by_cases ht : entry.d_type ≠ DT_UNKNOWN
      · rw [if_pos ht]
        right
        refine ⟨hdot, ?_, ?_⟩
        · split_ifs <;> simp only [list_insert_stat_files, entry_path_no_nul]
        · split_ifs
          · right; rfl
          · left; rfl
      · rw [if_neg ht]
        cases hst : bayer_lstat fs (entry_path dir entry) with
        | none => left; rfl
        | some st =>
          right
          refine ⟨hdot, ?_, ?_⟩
          · simp only
            split_ifs <;> simp only [list_insert_stat_files, entry_path_no_nul]
          · simp only
            split_ifs
            · right; rfl
            · left; rfl
    · left; simp only [hl, if_false]
  · left; rw [if_neg h]

theorem walk_stat_entries_built (dir : List Nat) (entries : List dirent)
    (queue : List (List Nat)) :
    ∀ p ∈ entries.foldl (walk_stat_process_entry dir) queue,
      p ∈ queue ∨ built_from_entry dir entries p := by
  induction entries using List.reverseRecOn with
  | nil => intro p hp; left; simpa using hp
  | append_singleton es e ih =>
    intro p hp
    rw [List.foldl_append, List.foldl_cons, List.foldl_nil] at hp
    have hmono : ∀ q, built_from_entry dir es q → built_from_entry dir (es ++ [e]) q := by
      rintro q ⟨x, hx, hx2⟩
      exact ⟨x, by simp [hx], hx2⟩
    rcases walk_stat_process_entry_cases dir (es.foldl (walk_stat_process_entry dir) queue) e
      with h | ⟨hdot, h⟩
    · rw [h] at hp
      rcases ih p hp with h1 | h1
      · left; exact h1
      · right; exact hmono p h1
    · rw [h] at hp
      simp only [List.mem_append, List.mem_singleton] at hp
      rcases hp with hp | rfl
      · rcases ih p hp with h1 | h1
        · left; exact h1
        · right; exact hmono p h1
      · right; exact ⟨e, by simp, hdot, rfl⟩

theorem walk_readdir_entries_built (fs : fs_t) (raw : elem_t) (dir : List Nat)
    (entries : List dirent) (state : flist_t × List (List Nat)) :
    (∀ p ∈ (entries.foldl (walk_readdir_process_entry fs raw dir) state).2,
      p ∈ state.2 ∨ built_from_entry dir entries p) ∧
    (∀ p ∈ (entries.foldl (walk_readdir_process_entry fs raw dir) state).1.heap.map
        (fun e => e.file),
      p ∈ state.1.heap.map (fun e => e.file) ∨ built_from_entry dir entries p) := by
  induction entries using List.reverseRecOn with
  | nil => exact ⟨fun p hp => Or.inl (by simpa using hp), fun p hp => Or.inl (by simpa using hp)⟩
  | append_singleton es e ih =>
    rw [List.foldl_append, List.foldl_cons, List.foldl_nil]
    have hmono : ∀ q, built_from_entry dir es q → built_from_entry dir (es ++ [e]) q := by
      rintro q ⟨x, hx, hx2⟩
      exact ⟨x, by simp [hx], hx2⟩
    have hnew : ∀ hd : is_dot_name (bayer_strdup e.d_name) = false,
        built_from_entry dir (es ++ [e]) (entry_path dir e) :=
      fun hd => ⟨e, by simp, hd, rfl⟩
    obtain ⟨ihq, ihf⟩ := ih
    rcases walk_readdir_process_entry_cases fs raw dir
      (es.foldl (walk_readdir_process_entry fs raw dir) state) e with h | ⟨hdot, hf, hq⟩
    · rw [h]
      exact ⟨fun p hp => (ihq p hp).imp id (hmono p), fun p hp => (ihf p hp).imp id (hmono p)⟩
    · constructor
      · intro p hp
        rcases hq with hq | hq
        · rw [hq] at hp; exact (ihq p hp).imp id (hmono p)
        · rw [hq] at hp
          simp only [List.mem_append, List.mem_singleton] at hp
          rcases hp with hp | rfl
          · exact (ihq p hp).imp id (hmono p)
          · right; exact hnew hdot
      · intro p hp
        rw [hf] at hp
        simp only [List.mem_append, List.mem_singleton] at hp
        rcases hp with hp | rfl
        · exact (ihf p (by simpa using hp)).imp id (hmono p)
        · right; exact hnew hdot

theorem built_last_component (dir : List Nat) (entries : List dirent) (p : List Nat)
    (hb : built_from_entry dir entries p)
    (hslash : ∀ entry ∈ entries, 47 ∉ bayer_strdup entry.d_name) :
    last_component p ≠ [46] ∧ last_component p ≠ [46, 46] := by
  obtain ⟨entry, he, hdot, rfl⟩ := hb
  unfold entry_path
  rw [last_component_append _ _ (hslash entry he)]
  simp only [is_dot_name, Bool.decide_or, Bool.or_eq_false_iff, decide_eq_false_iff_not] at hdot
  exact hdot

/-- C20: in both walk modes the test on an entry name lets the entry
through exactly when the name is neither `.` nor `..`; an entry with one
of these names changes neither the list nor the queue; an entry with any
other name whose path passes the length test is queued in stat mode and,
in readdir mode with a known type, recorded. Every path that reading a
directory adds to the queue (both modes) or to the list (readdir mode) is
the path of an entry whose name is neither `.` nor `..`, and, entry names
holding no `'/'`, its last component is neither `.` nor `..`. -/
theorem skip_dots (fs : fs_t) (raw : elem_t) (dir : List Nat) (flist : flist_t)
    (queue : List (List Nat)) (entry : dirent) :
    ((strncmp entry.d_name [46] 2 ≠ 0 ∧ strncmp entry.d_name [46, 46] 3 ≠ 0) ↔
      ¬ (bayer_strdup entry.d_name = [46] ∨ bayer_strdup entry.d_name = [46, 46])) ∧
    ((bayer_strdup entry.d_name = [46] ∨ bayer_strdup entry.d_name = [46, 46]) →
      walk_stat_process_entry dir queue entry = queue ∧
      walk_readdir_process_entry fs raw dir (flist, queue) entry = (flist, queue)) ∧
    (¬ (bayer_strdup entry.d_name = [46] ∨ bayer_strdup entry.d_name = [46, 46]) →
      strlen dir + 1 + strlen entry.d_name + 1 < CIRCLE_MAX_STRING_LEN →
      walk_stat_process_entry dir queue entry = queue ++ [entry_path dir entry] ∧
      (entry.d_type ≠ DT_UNKNOWN →
        (walk_readdir_process_entry fs raw dir (flist, queue) entry).1 =
          list_insert_stat flist raw (entry_path dir entry) (DTTOIF entry.d_type) none)) ∧
    (∀ p ∈ walk_stat_process_dir fs dir queue,
      p ∈ queue ∨ built_from_entry dir ((bayer_opendir fs dir).getD []) p) ∧
    (∀ p ∈ (walk_readdir_process_dir fs raw dir (flist, queue)).2,
      p ∈ queue ∨ built_from_entry dir ((bayer_opendir fs dir).getD []) p) ∧
    (∀ e ∈ (walk_readdir_process_dir fs raw dir (flist, queue)).1.heap,
      e.file ∈ flist.heap.map (fun x => x.file) ∨
        built_from_entry dir ((bayer_opendir fs dir).getD []) e.file) ∧
    ((∀ x ∈ (bayer_opendir fs dir).getD [], 47 ∉ bayer_strdup x.d_name) →
      ∀ p, built_from_entry dir ((bayer_opendir fs dir).getD []) p →
        last_component p ≠ [46] ∧ last_component p ≠ [46, 46]) := by
  have htest := skip_test_iff entry.d_name
  have hdotiff : is_dot_name (bayer_strdup entry.d_name) = false ↔
      ¬ (bayer_strdup entry.d_name = [46] ∨ bayer_strdup entry.d_name = [46, 46]) := by
    simp [is_dot_name]
  refine ⟨htest.trans hdotiff, ?_, ?_, ?_, ?_, ?_, ?_⟩
  · intro hdot
    have hno : ¬ (strncmp entry.d_name [46] 2 ≠ 0 ∧ strncmp entry.d_name [46, 46] 3 ≠ 0) :=
      fun h => (htest.trans hdotiff).mp h hdot
    constructor
    · unfold walk_stat_process_entry; rw [if_neg hno]
    · unfold walk_readdir_process_entry; rw [if_neg hno]
  · intro hdot hfit
    have hyes := (htest.trans hdotiff).mpr hdot
    constructor
    · unfold walk_stat_process_entry
      rw [if_pos hyes]
      simp only [hfit, if_true, strcat_newpath]
      rfl
    · intro ht
      unfold walk_readdir_process_entry
      rw [if_pos hyes]
      simp only [hfit, if_true, strcat_newpath]
      rw [if_pos ht]
      split_ifs <;> rfl
  · intro p hp
    unfold walk_stat_process_dir at hp
    cases ho : bayer_opendir fs dir with
    | none => rw [ho] at hp; left; exact hp
    | some entries =>
      rw [ho] at hp
      exact walk_stat_entries_built dir entries queue p hp
  · intro p hp
    unfold walk_readdir_process_dir at hp
    cases ho : bayer_opendir fs dir with
    | none => rw [ho] at hp; left; exact hp
    | some entries =>
      rw [ho] at hp
      exact (walk_readdir_entries_built fs raw dir entries (flist, queue)).1 p hp
  · intro e he
    unfold walk_readdir_process_dir at he
    cases ho : bayer_opendir fs dir with
    | none => rw [ho] at he; left; exact List.mem_map_of_mem _ he
    | some entries =>
      rw [ho] at he
      exact (walk_readdir_entries_built fs raw dir entries (flist, queue)).2 e.file
        (List.mem_map_of_mem (fun x => x.file) he)
  · intro hslash p hb
    exact built_last_component dir _ p hb hslash

/-- The statement of `skip_dots` for the entry `.a` of the directory
`/t` of the tiny tree. -/
theorem skip_dots_witness :
    (¬ (bayer_strdup [46, 97] = [46] ∨ bayer_strdup [46, 97] = [46, 46]) ∧
      strlen path_t + 1 + strlen [46, 97] + 1 < CIRCLE_MAX_STRING_LEN ∧
      (∀ x ∈ (bayer_opendir sample_fs path_t).getD [], 47 ∉ bayer_strdup x.d_name)) ∧
    (((strncmp [46, 97] [46] 2 ≠ 0 ∧ strncmp [46, 97] [46, 46] 3 ≠ 0) ↔
      ¬ (bayer_strdup [46, 97] = [46] ∨ bayer_strdup [46, 97] = [46, 46])) ∧
    ((bayer_strdup [46, 97] = [46] ∨ bayer_strdup [46, 97] = [46, 46]) →
      walk_stat_process_entry path_t [] ⟨[46, 97], 8⟩ = [] ∧
      walk_readdir_process_entry sample_fs sample_raw_elem path_t
        (bayer_flist_new sample_raw_list, []) ⟨[46, 97], 8⟩ =
          (bayer_flist_new sample_raw_list, [])) ∧
    (¬ (bayer_strdup [46, 97] = [46] ∨ bayer_strdup [46, 97] = [46, 46]) →
      strlen path_t + 1 + strlen [46, 97] + 1 < CIRCLE_MAX_STRING_LEN →
      walk_stat_process_entry path_t [] ⟨[46, 97], 8⟩ =
        [] ++ [entry_path path_t ⟨[46, 97], 8⟩] ∧
      ((8 : Nat) ≠ DT_UNKNOWN →
        (walk_readdir_process_entry sample_fs sample_raw_elem path_t
          (bayer_flist_new sample_raw_list, []) ⟨[46, 97], 8⟩).1 =
          list_insert_stat (bayer_flist_new sample_raw_list) sample_raw_elem
            (entry_path path_t ⟨[46, 97], 8⟩) (DTTOIF 8) none)) ∧
    (∀ p ∈ walk_stat_process_dir sample_fs path_t [],
      p ∈ ([] : List (List Nat)) ∨
        built_from_entry path_t ((bayer_opendir sample_fs path_t).getD []) p) ∧
    (∀ p ∈ (walk_readdir_process_dir sample_fs sample_raw_elem path_t
        (bayer_flist_new sample_raw_list, [])).2,
      p ∈ ([] : List (List Nat)) ∨
        built_from_entry path_t ((bayer_opendir sample_fs path_t).getD []) p) ∧
    (∀ e ∈ (walk_readdir_process_dir sample_fs sample_raw_elem path_t
        (bayer_flist_new sample_raw_list, [])).1.heap,
      e.file ∈ (bayer_flist_new sample_raw_list).heap.map (fun x => x.file) ∨
        built_from_entry path_t ((bayer_opendir sample_fs path_t).getD []) e.file) ∧
    ((∀ x ∈ (bayer_opendir sample_fs path_t).getD [], 47 ∉ bayer_strdup x.d_name) →
      ∀ p, built_from_entry path_t ((bayer_opendir sample_fs path_t).getD []) p →
        last_component p ≠ [46] ∧ last_component p ≠ [46, 46])) :=
  ⟨⟨by decide, by decide, by decide⟩,
    skip_dots sample_fs sample_raw_elem path_t (bayer_flist_new sample_raw_list) []
      ⟨[46, 97], 8⟩⟩

/-- The names `.a`, `...` and `..x` pass the test and are queued; `.` and
`..` are not, also when bytes follow their NUL in the name array; reading
`/t` of the tiny tree queues `/t/a` and `/t/b` in stat mode and queues
`/t/b` in readdir mode. -/
theorem skip_dots_sample :
    walk_stat_process_entry path_t [] ⟨[46, 97], 8⟩ = [[47, 116, 47, 46, 97]] ∧
    walk_stat_process_entry path_t [] ⟨[46, 46, 46], 8⟩ = [[47, 116, 47, 46, 46, 46]] ∧
    walk_stat_process_entry path_t [] ⟨[46, 46, 120], 8⟩ = [[47, 116, 47, 46, 46, 120]] ∧
    walk_stat_process_entry path_t [] ⟨[46], 4⟩ = [] ∧
    walk_stat_process_entry path_t [] ⟨[46, 46], 4⟩ = [] ∧
    walk_stat_process_entry path_t [] ⟨[46, 0, 97], 4⟩ = [] ∧
    walk_stat_process_dir sample_fs path_t [] = [path_t_a, path_t_b] ∧
    (walk_readdir_process_dir sample_fs sample_raw_elem path_t
      (bayer_flist_new sample_raw_list, [])).2 = [path_t_b] ∧
    (walk_readdir_process_dir sample_fs sample_raw_elem path_t
      (bayer_flist_new sample_raw_list, [])).1.heap.map (fun e => e.file) =
        [path_t_a, path_t_b] := by
  decide

/-! ## The stat-mode walk (C19) -/

theorem list_insert_stat_eq (f : flist_t) (raw : elem_t) (fpath : List Nat) (mode : Nat)
    (sb : Option stat_t) :
    list_insert_stat f raw fpath mode sb = list_insert_elem f (elem_of_stat raw fpath mode sb) := by
  cases sb <;> rfl

theorem tree_ok_children (fs : fs_t) (n : Nat) (p : List Nat) (h : tree_ok fs (n + 1) p = true) :
    ∀ c ∈ tree_children fs p, c.length + 1 < CIRCLE_MAX_STRING_LEN ∧ tree_ok fs n c = true := by
  intro c hc
  unfold tree_ok at h
  cases hst : fs.lstat p with
  | none => rw [hst] at h; simp at h
  | some st =>
    rw [hst] at h
    by_cases hd : S_ISDIR st.st_mode = true
    · simp only [hd, Bool.not_true, Bool.false_or, Bool.and_eq_true, List.all_eq_true,
        decide_eq_true_eq] at h
      exact h.2 c hc
    · unfold tree_children at hc
      rw [hst] at hc
      simp only [hd] at hc
      simp at hc

theorem tree_ok_lstat (fs : fs_t) (n : Nat) (p : List Nat) (h : tree_ok fs n p = true) :
    ∃ st, fs.lstat p = some st := by
  cases n with
  | zero => simp [tree_ok] at h
  | succ n =>
    unfold tree_ok at h
    cases hst : fs.lstat p with
    | none => rw [hst] at h; simp at h
    | some st => exact ⟨st, rfl⟩

theorem tree_ok_opendir (fs : fs_t) (n : Nat) (p : List Nat) (h : tree_ok fs n p = true)
    (st : stat_t) (hst : fs.lstat p = some st) (hd : S_ISDIR st.st_mode = true) :
    ∃ entries, fs.opendir p = some entries := by
  cases n with
  | zero => simp [tree_ok] at h
  | succ n =>
    unfold tree_ok at h
    rw [hst] at h
    simp only [hd, Bool.not_true, Bool.false_or, Bool.and_eq_true] at h
    exact Option.isSome_iff_exists.mp h.1

theorem tree_ok_succ (fs : fs_t) (n : Nat) :
    ∀ p, tree_ok fs n p = true → tree_ok fs (n + 1) p = true := by
  induction n with
  | zero => intro p h; simp [tree_ok] at h
  | succ n ih =>
    intro p h
    have hch := tree_ok_children fs n p h
    obtain ⟨st, hst⟩ := tree_ok_lstat fs _ p h
    unfold tree_ok
    rw [hst]
    by_cases hd : S_ISDIR st.st_mode = true
    · obtain ⟨entries, ho⟩ := tree_ok_opendir fs _ p h st hst hd
      simp only [hd, Bool.not_true, Bool.false_or, Bool.and_eq_true, List.all_eq_true,
        decide_eq_true_eq, ho, Option.isSome_some, true_and]
      intro c hc
      exact ⟨(hch c hc).1, ih c (hch c hc).2⟩
    · simp [hd]

theorem flatMap_congr_mem {α β : Type} (l : List α) (f g : α → List β)
    (h : ∀ a ∈ l, f a = g a) : l.flatMap f = l.flatMap g := by
  induction l with
  | nil => rfl
  | cons a as ih =>
    simp only [List.flatMap_cons]
    rw [h a (by simp), ih (fun b hb => h b (by simp [hb]))]

theorem tree_objects_succ (fs : fs_t) (n : Nat) :
    ∀ p, tree_ok fs n p = true → tree_objects fs (n + 1) p = tree_objects fs n p := by
  induction n with
  | zero => intro p h; simp [tree_ok] at h
  | succ n ih =>
    intro p h
    have hch := tree_ok_children fs n p h
    rw [tree_objects, tree_objects]
    congr 1
    exact flatMap_congr_mem _ _ _ (fun c hc => ih c (hch c hc).2)

theorem tree_objects_ne_nil (fs : fs_t) (n : Nat) (p : List Nat) (h : tree_ok fs n p = true) :
    tree_objects fs n p ≠ [] := by
  cases n with
  | zero => simp [tree_ok] at h
  | succ n => simp [tree_objects]

/-- The entries of a directory whose children all pass the length test
are queued one by one, the entries `.` and `..` left out. -/
theorem walk_stat_foldl_children (p : List Nat) (hp : ∀ c ∈ p, c ≠ 0) (entries : List dirent)
    (hfit : ∀ entry ∈ entries, is_dot_name (bayer_strdup entry.d_name) = false →
      (p ++ [47] ++ bayer_strdup entry.d_name).length + 1 < CIRCLE_MAX_STRING_LEN)
    (queue : List (List Nat)) :
    entries.foldl (walk_stat_process_entry p) queue =
      queue ++ entries.filterMap fun entry =>
        if is_dot_name (bayer_strdup entry.d_name) then none
        else some (p ++ [47] ++ bayer_strdup entry.d_name) := by
  induction entries generalizing queue with
  | nil => simp
  | cons e es ih =>
    rw [List.foldl_cons, ih (fun x hx => hfit x (by simp [hx]))]
    have hpd : bayer_strdup p = p := bayer_strdup_of_no_nul p hp
    by_cases hdot : is_dot_name (bayer_strdup e.d_name) = true
    · have hno : ¬ (strncmp e.d_name [46] 2 ≠ 0 ∧ strncmp e.d_name [46, 46] 3 ≠ 0) := by
        intro h
        have := (skip_test_iff _).mp h
        rw [this] at hdot
        exact Bool.noConfusion hdot
      simp only [walk_stat_process_entry, if_neg hno, List.filterMap_cons, hdot, if_true]
    · have hdot2 : is_dot_name (bayer_strdup e.d_name) = false := by simpa using hdot
      have hyes := (skip_test_iff _).mpr hdot2
      have hlen : strlen p + 1 + strlen e.d_name + 1 < CIRCLE_MAX_STRING_LEN := by
        have := hfit e (by simp) hdot2
        simp only [List.length_append, List.length_singleton] at this
        unfold strlen
        rw [hpd]
        omega
      have hnew : strcat (strcat (bayer_strdup p) [47]) e.d_name =
          p ++ [47] ++ bayer_strdup e.d_name := by
        rw [strcat_newpath, hpd]
      simp only [walk_stat_process_entry, if_pos hyes, hlen, if_true, hnew,
        List.filterMap_cons, hdot2, Bool.false_eq_true, if_false, List.append_assoc,
        List.singleton_append, List.cons_append, List.nil_append]

theorem tree_children_no_nul (fs : fs_t) (p : List Nat) (hp : ∀ c ∈ p, c ≠ 0) :
    ∀ q ∈ tree_children fs p, ∀ c ∈ q, c ≠ 0 := by
  intro q hq c hc
  unfold tree_children at hq
  cases hst : fs.lstat p with
  | none => rw [hst] at hq; simp at hq
  | some st =>
    rw [hst] at hq
    by_cases hd : S_ISDIR st.st_mode = true
    · simp only [hd, if_true, List.mem_filterMap] at hq
      obtain ⟨entry, _, he⟩ := hq
      by_cases hdot : is_dot_name (bayer_strdup entry.d_name) = true
      · simp [hdot] at he
      · simp only [hdot, Bool.false_eq_true, if_false, Option.some.injEq] at he
        subst he
        simp only [List.mem_append, List.mem_singleton] at hc
        rcases hc with (hc | rfl) | hc
        · exact hp c hc
        · omega
        · exact bayer_strdup_no_nul _ c hc
    · simp [hd] at hq

/-- One call of `walk_stat_process` on a path of a well-behaved tree: the
path is recorded with its stat data and its children are queued. -/
theorem walk_stat_process_ok (fs : fs_t) (raw : elem_t) (f : flist_t) (q : List Nat)
    (rest : List (List Nat)) (n : Nat) (hok : tree_ok fs (n + 1) q = true)
    (hq : ∀ c ∈ q, c ≠ 0) :
    ∃ st, fs.lstat q = some st ∧
      walk_stat_process fs raw f (q :: rest) =
        (list_insert_stat f raw q st.st_mode (some st), rest ++ tree_children fs q) := by
  obtain ⟨st, hst⟩ := tree_ok_lstat fs _ q hok
  have hqd : bayer_strdup q = q := bayer_strdup_of_no_nul q hq
  refine ⟨st, hst, ?_⟩
  have hl : bayer_lstat fs q = some st := by unfold bayer_lstat; rw [hqd, hst]
  simp only [walk_stat_process, hl]
  by_cases hd : S_ISDIR st.st_mode = true
  · obtain ⟨entries, ho⟩ := tree_ok_opendir fs _ q hok st hst hd
    have hch := tree_ok_children fs n q hok
    have htc : tree_children fs q = entries.filterMap fun entry =>
        if is_dot_name (bayer_strdup entry.d_name) then none
        else some (q ++ [47] ++ bayer_strdup entry.d_name) := by
      unfold tree_children
      rw [hst]
      simp only [hd, if_true, ho, Option.getD_some]
    have hfit : ∀ entry ∈ entries, is_dot_name (bayer_strdup entry.d_name) = false →
        (q ++ [47] ++ bayer_strdup entry.d_name).length + 1 < CIRCLE_MAX_STRING_LEN := by
      intro entry he hdot
      apply (hch _ _).1
      rw [htc]
      exact List.mem_filterMap.mpr ⟨entry, he, by simp [hdot]⟩
    have ho2 : bayer_opendir fs q = some entries := by unfold bayer_opendir; rw [hqd, ho]
    simp only [hd, if_true, walk_stat_process_dir, ho2]
    rw [walk_stat_foldl_children q hq entries hfit rest, htc]
  · have htc : tree_children fs q = [] := by
      unfold tree_children
      rw [hst]
      simp [hd]
    simp only [hd, htc, List.append_nil]
    simp


theorem perm_cons_eraseIdx {α : Type} (l : List α) (i : Nat) (x : α) (h : l[i]? = some x) :
    List.Perm l (x :: l.eraseIdx i) := by
  induction l generalizing i with
  | nil => simp at h
  | cons a as ih =>
    cases i with
    | zero =>
      simp only [List.getElem?_cons_zero, Option.some.injEq] at h
      subst h
      simp
    | succ i =>
      simp only [List.getElem?_cons_succ] at h
      simp only [List.eraseIdx_cons_succ]
      exact ((ih i h).cons a).trans (List.Perm.swap x a _)

theorem perm_flatMap_set {α β : Type} (g : α → List β) (l : List α) (r : Nat) (f f2 : α)
    (x : β) (h : l[r]? = some f) (hg : g f2 = g f ++ [x]) :
    List.Perm ((l.set r f2).flatMap g) (l.flatMap g ++ [x]) := by
  induction l generalizing r with
  | nil => simp at h
  | cons a as ih =>
    cases r with
    | zero =>
      simp only [List.getElem?_cons_zero, Option.some.injEq] at h
      subst h
      simp only [List.set_cons_zero, List.flatMap_cons, hg, List.append_assoc]
      exact List.Perm.append_left _ List.perm_append_comm
    | succ r =>
      simp only [List.getElem?_cons_succ] at h
      simp only [List.set_cons_succ, List.flatMap_cons, List.append_assoc]
      exact List.Perm.append_left _ (ih r h)

theorem stat_record_congr (fs : fs_t) (raw : elem_t) (e e2 : elem_t)
    (h : unlink e = unlink e2) (h2 : stat_record fs raw e2) : stat_record fs raw e := by
  have hfile : e.file = e2.file := congrArg (fun x => x.file) h
  have hdetail : e.detail = e2.detail := congrArg (fun x => x.detail) h
  obtain ⟨hd, st, hst, hu⟩ := h2
  exact ⟨hdetail.trans hd, st, hfile ▸ hst, by rw [h, hfile, hu]⟩

theorem stat_record_new (fs : fs_t) (raw : elem_t) (q : List Nat) (hq : ∀ c ∈ q, c ≠ 0)
    (st : stat_t) (hst : fs.lstat q = some st) :
    stat_record fs raw (elem_of_stat raw q st.st_mode (some st)) := by
  have hfile : (elem_of_stat raw q st.st_mode (some st)).file = q :=
    bayer_strdup_of_no_nul q hq
  refine ⟨rfl, st, ?_, ?_⟩
  · rw [hfile, hst]
  · rw [hfile]

/-- One step of the work queue keeps `walk_stat_inv`, keeps the number of
participants, records one more path when a path is queued, and changes
nothing when none is. -/
theorem walk_stat_step (fs : fs_t) (raw : elem_t) (n : Nat) (root : List Nat) (s : walk_state)
    (choice : Nat × Nat) (hinv : walk_stat_inv fs raw n root s) (hl : s.lists ≠ []) :
    walk_stat_inv fs raw n root (CIRCLE_step (walk_stat_process fs raw) s choice) ∧
    (CIRCLE_step (walk_stat_process fs raw) s choice).lists.length = s.lists.length ∧
    (s.queue ≠ [] →
      (walk_files (CIRCLE_step (walk_stat_process fs raw) s choice)).length =
        (walk_files s).length + 1) ∧
    (s.queue = [] → CIRCLE_step (walk_stat_process fs raw) s choice = s) := by
  obtain ⟨hq, hperm, hlists⟩ := hinv
  by_cases hqe : s.queue = []
  · have hstep : CIRCLE_step (walk_stat_process fs raw) s choice = s := by
      unfold CIRCLE_step
      rw [hqe]
      simp
    rw [hstep]
    exact ⟨⟨hq, hperm, hlists⟩, rfl, fun h => absurd hqe h, fun _ => rfl⟩
  · have hqlen : 0 < s.queue.length := List.length_pos.mpr hqe
    have hllen : 0 < s.lists.length := List.length_pos.mpr hl
    have hi : choice.2 % s.queue.length < s.queue.length := Nat.mod_lt _ hqlen
    have hr : choice.1 % s.lists.length < s.lists.length := Nat.mod_lt _ hllen
    generalize hi2 : choice.2 % s.queue.length = i at hi
    generalize hr2 : choice.1 % s.lists.length = r at hr
    obtain ⟨q, hqi⟩ : ∃ q, s.queue[i]? = some q := ⟨_, List.getElem?_eq_getElem hi⟩
    obtain ⟨f, hlr⟩ : ∃ f, s.lists[r]? = some f := ⟨_, List.getElem?_eq_getElem hr⟩
    have hqmem : q ∈ s.queue := List.mem_iff_getElem?.mpr ⟨i, hqi⟩
    have hfmem : f ∈ s.lists := List.mem_iff_getElem?.mpr ⟨r, hlr⟩
    obtain ⟨hqok, hqnul⟩ := hq q hqmem
    obtain ⟨m, rfl⟩ : ∃ m, n = m + 1 := by
      cases n with
      | zero => simp [tree_ok] at hqok
      | succ m => exact ⟨m, rfl⟩
    obtain ⟨st, hst, hproc⟩ :=
      walk_stat_process_ok fs raw f q (s.queue.eraseIdx i) m hqok hqnul
    have hstep : CIRCLE_step (walk_stat_process fs raw) s choice =
        { lists := s.lists.set r (list_insert_stat f raw q st.st_mode (some st)),
          queue := s.queue.eraseIdx i ++ tree_children fs q } := by
      unfold CIRCLE_step
      simp only [hi2, hr2, hqi, hlr, hproc]
    rw [hstep]
    have hch := tree_ok_children fs m q hqok
    have hfiles : (list_insert_stat f raw q st.st_mode (some st)).heap.map (fun e => e.file) =
        f.heap.map (fun e => e.file) ++ [q] := by
      rw [list_insert_stat_files, bayer_strdup_of_no_nul q hqnul]
    have hwf : List.Perm
        (walk_files { lists := s.lists.set r (list_insert_stat f raw q st.st_mode (some st)),
                      queue := s.queue.eraseIdx i ++ tree_children fs q })
        (walk_files s ++ [q]) := by
      unfold walk_files
      exact perm_flatMap_set (fun f => f.heap.map fun e => e.file) s.lists r f _ q hlr hfiles
    refine ⟨⟨?_, ?_, ?_⟩, ?_, ?_, ?_⟩
    · intro q2 hq2
      simp only [List.mem_append] at hq2
      rcases hq2 with hq2 | hq2
      · exact hq q2 (List.mem_of_mem_eraseIdx hq2)
      · exact ⟨tree_ok_succ fs m q2 (hch q2 hq2).2, tree_children_no_nul fs q hqnul q2 hq2⟩
    · have hT : tree_objects fs (m + 1) q =
          q :: (tree_children fs q).flatMap (tree_objects fs (m + 1)) := by
        rw [tree_objects]
        congr 1
        exact flatMap_congr_mem _ _ _
          (fun c hc => (tree_objects_succ fs m c (hch c hc).2).symm)
      have hqueue : List.Perm (s.queue.flatMap (tree_objects fs (m + 1)))
          (tree_objects fs (m + 1) q ++
            (s.queue.eraseIdx i).flatMap (tree_objects fs (m + 1))) := by
        have := List.Perm.flatMap_right (tree_objects fs (m + 1))
          (perm_cons_eraseIdx s.queue i q hqi)
        simpa only [List.flatMap_cons] using this
      refine List.Perm.trans ?_ hperm
      refine List.Perm.trans (List.Perm.append_right _ hwf) ?_
      refine List.Perm.trans ?_ (List.Perm.append_left _ hqueue.symm)
      simp only [List.flatMap_append, hT, List.append_assoc, List.singleton_append,
        List.cons_append, List.nil_append]
      refine List.Perm.append_left _ (List.Perm.cons q ?_)
      exact List.perm_append_comm
    · intro f2 hf2
      rcases List.mem_or_eq_of_mem_set hf2 with h | h
      · exact hlists f2 h
      · subst h
        obtain ⟨hok, hdet, hrec⟩ := hlists f hfmem
        rw [list_insert_stat_eq]
        refine ⟨list_ok_insert f _ hok, ?_, ?_⟩
        · have : (list_insert_elem f (elem_of_stat raw q st.st_mode (some st))).detail =
              f.detail := by
            unfold list_insert_elem
            split <;> rfl
          rw [this, hdet]
        · intro e he
          have hmem : unlink e ∈
              (list_insert_elem f (elem_of_stat raw q st.st_mode (some st))).heap.map unlink :=
            List.mem_map_of_mem unlink he
          rw [list_insert_elem_unlink] at hmem
          simp only [List.mem_append, List.mem_map, List.mem_singleton] at hmem
          rcases hmem with ⟨e0, he0, heq⟩ | heq
          · exact stat_record_congr fs raw e e0 heq.symm (hrec e0 he0)
          · exact stat_record_congr fs raw e _ heq (stat_record_new fs raw q hqnul st hst)
    · simp
    · intro _
      rw [hwf.length_eq]
      simp
    · intro h; exact absurd h hqe


theorem CIRCLE_step_empty (process : flist_t → List (List Nat) → flist_t × List (List Nat))
    (s : walk_state) (choice : Nat × Nat) (h : s.queue = []) : CIRCLE_step process s choice = s := by
  unfold CIRCLE_step
  rw [h]
  simp

theorem CIRCLE_run_empty (process : flist_t → List (List Nat) → flist_t × List (List Nat))
    (schedule : List (Nat × Nat)) (s : walk_state) (h : s.queue = []) :
    schedule.foldl (CIRCLE_step process) s = s := by
  induction schedule with
  | nil => rfl
  | cons c cs ih => rw [List.foldl_cons, CIRCLE_step_empty process s c h, ih]

/-- A run of the work queue keeps `walk_stat_inv` and the number of
participants, and either empties the queue or records one path per step. -/
theorem walk_stat_run (fs : fs_t) (raw : elem_t) (n : Nat) (root : List Nat)
    (schedule : List (Nat × Nat)) (s : walk_state) (hinv : walk_stat_inv fs raw n root s)
    (hl : s.lists ≠ []) :
    walk_stat_inv fs raw n root (schedule.foldl (CIRCLE_step (walk_stat_process fs raw)) s) ∧
    (schedule.foldl (CIRCLE_step (walk_stat_process fs raw)) s).lists.length = s.lists.length ∧
    ((schedule.foldl (CIRCLE_step (walk_stat_process fs raw)) s).queue = [] ∨
      (walk_files (schedule.foldl (CIRCLE_step (walk_stat_process fs raw)) s)).length =
        (walk_files s).length + schedule.length) := by
  induction schedule generalizing s with
  | nil => exact ⟨hinv, rfl, Or.inr rfl⟩
  | cons c cs ih =>
    rw [List.foldl_cons]
    obtain ⟨hinv2, hlen2, hrec, hsame⟩ := walk_stat_step fs raw n root s c hinv hl
    have hl2 : (CIRCLE_step (walk_stat_process fs raw) s c).lists ≠ [] := by
      intro h
      rw [h] at hlen2
      exact hl (List.length_eq_zero.mp hlen2.symm)
    obtain ⟨h1, h2, h3⟩ := ih _ hinv2 hl2
    refine ⟨h1, h2.trans hlen2, ?_⟩
    by_cases hq : s.queue = []
    · left
      rw [hsame hq, CIRCLE_run_empty _ cs s hq]
      exact hq
    · rcases h3 with h3 | h3
      · left; exact h3
      · right
        rw [h3, hrec hq, List.length_cons]
        omega

theorem walk_stat_inv_drained (fs : fs_t) (raw : elem_t) (n : Nat) (root : List Nat)
    (s : walk_state) (hinv : walk_stat_inv fs raw n root s)
    (h : (tree_objects fs n root).length ≤ (walk_files s).length) : s.queue = [] := by
  obtain ⟨hq, hperm, _⟩ := hinv
  have hlen := hperm.length_eq
  rw [List.length_append] at hlen
  cases hs : s.queue with
  | nil => rfl
  | cons q rest =>
    exfalso
    rw [hs] at hlen
    have hne := tree_objects_ne_nil fs n q (hq q (by rw [hs]; simp)).1
    have : 0 < (tree_objects fs n q).length := List.length_pos.mpr hne
    simp only [List.flatMap_cons, List.length_append] at hlen
    omega

theorem list_elems_walk_path_finish (world : List flist_t) (f : flist_t) :
    list_elems (walk_path_finish world f) = list_elems f := rfl

/-- The stat-mode walk of a well-behaved tree returns, and the paths of
its records are the objects of the tree. -/
theorem walk_stat_world (fs : fs_t) (raw : flist_t) (raw_elem : elem_t) (users groups : buf_t)
    (dirpath : List Nat) (use_stat : Int) (ranks : Nat) (schedule : List (Nat × Nat)) (n : Nat)
    (huse : use_stat ≠ 0) (hranks : 0 < ranks) (hnul : ∀ c ∈ dirpath, c ≠ 0)
    (hlen : dirpath.length < PATH_MAX) (hok : tree_ok fs n dirpath = true)
    (hsched : (tree_objects fs n dirpath).length ≤ schedule.length) :
    ∃ world,
      bayer_flist_walk_path fs raw raw_elem users groups dirpath use_stat ranks schedule =
        some world ∧
      world.length = ranks ∧
      List.Perm ((world.flatMap list_elems).map fun e => e.file) (tree_objects fs n dirpath) ∧
      (∀ f ∈ world, bayer_flist_have_detail f = 1 ∧
        f.total_files = (tree_objects fs n dirpath).length) ∧
      (∀ e ∈ world.flatMap list_elems, stat_record fs raw_elem e) := by
  obtain ⟨k, rfl⟩ : ∃ k, ranks = k + 1 := ⟨ranks - 1, by omega⟩
  have hcd : strncpy dirpath PATH_MAX = dirpath := by
    unfold strncpy
    rw [bayer_strdup_of_no_nul dirpath hnul]
    exact List.take_of_length_le (by omega)
  unfold bayer_flist_walk_path
  simp only [hcd, huse, ne_eq, not_false_eq_true, if_true]
  have hheap0 : (walk_path_setup raw users groups use_stat).heap = [] := by
    unfold walk_path_setup
    simp only [huse, ne_eq, not_false_eq_true, if_true]
    rfl
  have hdet0 : (walk_path_setup raw users groups use_stat).detail = 1 := by
    unfold walk_path_setup
    simp only [huse, ne_eq, not_false_eq_true, if_true]
  have hok0 : list_ok (walk_path_setup raw users groups use_stat) := by
    unfold walk_path_setup
    simp only [huse, ne_eq, not_false_eq_true, if_true]
    simp [list_ok, bayer_flist_new]
  generalize walk_path_setup raw users groups use_stat = flist0 at hheap0 hdet0 hok0
  unfold CIRCLE_begin
  simp only [List.replicate_succ, walk_stat_create, List.nil_append]
  generalize hstart : ({ lists := flist0 :: List.replicate k flist0, queue := [dirpath] } :
    walk_state) = start
  have hmem0 : ∀ f ∈ start.lists, f = flist0 := by
    intro f hf
    rw [← hstart] at hf
    simp only [List.mem_cons, List.mem_replicate] at hf
    rcases hf with h | ⟨_, h⟩ <;> exact h
  have hwf0 : walk_files start = [] := by
    unfold walk_files
    rw [List.flatMap_eq_nil_iff]
    intro f hf
    rw [hmem0 f hf, hheap0]
    rfl
  have hinv0 : walk_stat_inv fs raw_elem n dirpath start := by
    refine ⟨?_, ?_, ?_⟩
    · intro q hq
      rw [← hstart] at hq
      simp only [List.mem_singleton] at hq
      subst hq
      exact ⟨hok, hnul⟩
    · rw [hwf0, ← hstart]
      simp
    · intro f hf
      rw [hmem0 f hf]
      refine ⟨hok0, hdet0, ?_⟩
      intro e he
      rw [hheap0] at he
      simp at he
  have hl0 : start.lists ≠ [] := by rw [← hstart]; simp
  obtain ⟨hinv, hlenl, hprog⟩ := walk_stat_run fs raw_elem n dirpath schedule start hinv0 hl0
  generalize schedule.foldl (CIRCLE_step (walk_stat_process fs raw_elem)) start = final
    at hinv hlenl hprog
  have hdrained : final.queue = [] := by
    rcases hprog with h | h
    · exact h
    · apply walk_stat_inv_drained fs raw_elem n dirpath final hinv
      rw [h, hwf0]
      simpa using hsched
  obtain ⟨_, hperm, hlists⟩ := hinv
  rw [hdrained] at hperm
  simp only [List.flatMap_nil, List.append_nil] at hperm
  have helems : (final.lists.map (walk_path_finish final.lists)).flatMap list_elems =
      final.lists.flatMap fun f => f.heap := by
    rw [List.flatMap_map]
    apply flatMap_congr_mem
    intro f hf
    rw [list_elems_walk_path_finish, list_elems_of_ok f (hlists f hf).1]
  have hfiles : ((final.lists.flatMap fun f => f.heap).map fun e => e.file) =
      walk_files final := by
    unfold walk_files
    rw [List.map_flatMap]
  have hcount : (final.lists.map fun f => f.list_count).sum =
      (tree_objects fs n dirpath).length := by
    rw [sum_list_count final.lists (fun f hf => (hlists f hf).1), ← hperm.length_eq]
    have : final.lists.flatMap list_elems = final.lists.flatMap fun f => f.heap :=
      flatMap_congr_mem _ _ _ (fun f hf => list_elems_of_ok f (hlists f hf).1)
    rw [this, ← hfiles, List.length_map]
  refine ⟨final.lists.map (walk_path_finish final.lists), ?_, ?_, ?_, ?_, ?_⟩
  · simp [hdrained]
  · rw [List.length_map, hlenl, ← hstart]
    simp
  · rw [helems, hfiles]
    exact hperm
  · intro f hf
    obtain ⟨f0, hf0m, rfl⟩ := List.mem_map.mp hf
    refine ⟨(hlists f0 hf0m).2.1, ?_⟩
    simp only [walk_path_finish, MPI_Allreduce_sum]
    exact hcount
  · intro e he
    rw [helems] at he
    obtain ⟨f, hf, hef⟩ := List.mem_flatMap.mp he
    exact (hlists f hf).2.2 e hef


/-- An entry whose path fails the length test adds nothing in stat mode. -/
theorem walk_stat_entry_too_long (dir : List Nat) (queue : List (List Nat)) (name : List Nat)
    (t : Nat) (h : ¬ (strlen dir + 1 + strlen name + 1 < CIRCLE_MAX_STRING_LEN)) :
    walk_stat_process_entry dir queue ⟨name, t⟩ = queue := by
  unfold walk_stat_process_entry
  simp only [h, if_false]
  split_ifs <;> rfl

/-- A call of `walk_stat_process` on a directory that can be opened. -/
theorem walk_stat_process_dir_step (fs : fs_t) (raw : elem_t) (f : flist_t) (q : List Nat)
    (rest : List (List Nat)) (st : stat_t) (entries : List dirent)
    (h1 : bayer_lstat fs q = some st) (h2 : S_ISDIR st.st_mode = true)
    (h3 : bayer_opendir fs q = some entries) :
    walk_stat_process fs raw f (q :: rest) =
      (list_insert_stat f raw q st.st_mode (some st),
        entries.foldl (walk_stat_process_entry q) rest) := by
  simp only [walk_stat_process, h1, h2, if_true, walk_stat_process_dir, h3]

/-- A traversal on one participant whose only step empties the queue. -/
theorem CIRCLE_begin_one (create process : flist_t → List (List Nat) → flist_t × List (List Nat))
    (f f2 : flist_t) (q : List Nat) (hc : create f [] = (f, [q]))
    (hp : process f [q] = (f2, [])) :
    CIRCLE_begin create process [f] [(0, 0)] = some { lists := [f2], queue := [] } := by
  unfold CIRCLE_begin
  simp only [hc, List.foldl_cons, List.foldl_nil]
  unfold CIRCLE_step
  simp [hp]

theorem bayer_flist_walk_path_stat (fs : fs_t) (raw : flist_t) (raw_elem : elem_t)
    (users groups : buf_t) (dirpath : List Nat) (use_stat : Int) (ranks : Nat)
    (schedule : List (Nat × Nat)) (h : use_stat ≠ 0) :
    bayer_flist_walk_path fs raw raw_elem users groups dirpath use_stat ranks schedule =
      (CIRCLE_begin (walk_stat_create (strncpy dirpath PATH_MAX))
        (walk_stat_process fs raw_elem)
        (List.replicate ranks (walk_path_setup raw users groups use_stat)) schedule).map
        fun s => s.lists.map (walk_path_finish s.lists) := by
  unfold bayer_flist_walk_path
  simp only [h, ne_eq, not_false_eq_true, if_true]

theorem strlen_replicate (k : Nat) : strlen (List.replicate k 97) = k := by
  rw [strlen_of_no_nul _ (by intro c hc; rw [List.mem_replicate] at hc; omega)]
  exact List.length_replicate k 97

theorem bayer_strdup_replicate (k : Nat) :
    bayer_strdup (List.replicate k 97) = List.replicate k 97 :=
  bayer_strdup_of_no_nul _ (by intro c hc; rw [List.mem_replicate] at hc; omega)

theorem is_dot_name_cons_a (l : List Nat) : is_dot_name (97 :: l) = false := by
  simp [is_dot_name]

theorem strlen_long_name : strlen long_name = 4092 := strlen_replicate 4092

theorem bayer_strdup_long_name : bayer_strdup long_name = long_name :=
  bayer_strdup_replicate 4092

theorem long_name_not_dot : is_dot_name long_name = false :=
  is_dot_name_cons_a (List.replicate 4091 97)

theorem long_entry_dropped (queue : List (List Nat)) :
    walk_stat_process_entry path_t queue ⟨long_name, 8⟩ = queue := by
  have hlen : ¬ (strlen path_t + 1 + strlen long_name + 1 < CIRCLE_MAX_STRING_LEN) := by
    rw [strlen_long_name]
    decide
  exact walk_stat_entry_too_long path_t queue long_name 8 hlen

theorem long_opendir : bayer_opendir sample_fs_long path_t = some [⟨long_name, 8⟩] := by
  show (if bayer_strdup path_t = path_t then some [(⟨long_name, 8⟩ : dirent)] else none) =
    some [⟨long_name, 8⟩]
  exact if_pos (by decide)

theorem long_walk_stat_process (f : flist_t) :
    walk_stat_process sample_fs_long sample_raw_elem f [path_t] =
      (list_insert_stat f sample_raw_elem path_t 16877 (some sample_stat_dir), []) := by
  rw [walk_stat_process_dir_step sample_fs_long sample_raw_elem f path_t [] sample_stat_dir
    [⟨long_name, 8⟩] (by decide) (by decide) long_opendir]
  rw [List.foldl_cons, List.foldl_nil, long_entry_dropped]
  rfl

theorem long_walk_result :
    bayer_flist_walk_path sample_fs_long sample_raw_list sample_raw_elem sample_shard0.users
      sample_shard0.groups path_t 1 1 [(0, 0)] =
    some [walk_path_finish
      [list_insert_stat (walk_path_setup sample_raw_list sample_shard0.users
        sample_shard0.groups 1) sample_raw_elem path_t 16877 (some sample_stat_dir)]
      (list_insert_stat (walk_path_setup sample_raw_list sample_shard0.users
        sample_shard0.groups 1) sample_raw_elem path_t 16877 (some sample_stat_dir))] := by
  have hcd : strncpy path_t PATH_MAX = path_t := by decide
  rw [bayer_flist_walk_path_stat _ _ _ _ _ _ _ _ _ (by decide), hcd]
  have hrep : List.replicate 1
      (walk_path_setup sample_raw_list sample_shard0.users sample_shard0.groups 1) =
      [walk_path_setup sample_raw_list sample_shard0.users sample_shard0.groups 1] := rfl
  rw [hrep, CIRCLE_begin_one _ _ _ _ path_t rfl (long_walk_stat_process _)]
  rfl

/-- C19: a finite tree in which every no-follow stat and every open
succeeds and every path fits the scratch array: the directory `/t` with
one regular file whose path takes, with its NUL, exactly the
`CIRCLE_MAX_STRING_LEN` bytes of the array. The length test of
`walk_stat_process_dir` is strict (`len < sizeof(newpath)`), so the file
is dropped: the walk on one participant returns with a record for `/t`
only, where the tree has two objects. -/
theorem walk_stat_boundary_drop :
    strlen path_t + 1 + strlen long_name + 1 = CIRCLE_MAX_STRING_LEN ∧
    (∀ p, (bayer_lstat sample_fs_long p).isSome = true) ∧
    (bayer_opendir sample_fs_long path_t).isSome = true ∧
    tree_children sample_fs_long path_t = [path_t ++ [47] ++ long_name] ∧
    (bayer_flist_walk_path sample_fs_long sample_raw_list sample_raw_elem sample_shard0.users
      sample_shard0.groups path_t 1 1 [(0, 0)]).map
        (fun w => w.map fun f => (list_elems f).map fun e => e.file) = some [[path_t]] := by
  refine ⟨?_, ?_, ?_, ?_, ?_⟩
  · rw [strlen_long_name]; decide
  · intro p
    by_cases hp : bayer_strdup p = path_t
    · exact congrArg Option.isSome (if_pos hp)
    · exact congrArg Option.isSome (if_neg hp)
  · rw [long_opendir]; rfl
  · have h1 : sample_fs_long.lstat path_t = some sample_stat_dir := by decide
    have h2 : S_ISDIR sample_stat_dir.st_mode = true := by decide
    have h3 : sample_fs_long.opendir path_t = some [⟨long_name, 8⟩] := by
      show (if path_t = path_t then some [(⟨long_name, 8⟩ : dirent)] else none) =
        some [⟨long_name, 8⟩]
      exact if_pos rfl
    unfold tree_children
    rw [h1]
    simp only [h2, if_true]
    rw [h3, Option.getD_some, List.filterMap_cons, List.filterMap_nil]
    simp only [bayer_strdup_long_name, long_name_not_dot, Bool.false_eq_true, if_false]
  · rw [long_walk_result]
    decide


theorem stat_record_depth (fs : fs_t) (raw : elem_t) (e : elem_t) (h : stat_record fs raw e) :
    e.depth = get_depth e.file := by
  obtain ⟨_, st, _, hu⟩ := h
  have := congrArg (fun x => x.depth) hu
  simpa [unlink, elem_of_stat] using this

theorem map_depth_of_stat_records (fs : fs_t) (raw : elem_t) (l : List elem_t)
    (h : ∀ e ∈ l, stat_record fs raw e) :
    l.map (fun e => e.depth) = (l.map fun e => e.file).map get_depth := by
  rw [List.map_map]
  apply List.map_congr_left
  intro e he
  exact stat_record_depth fs raw e (h e he)

/-- Completeness of the stat-mode walk away from the length limit (the
part of C19 that the code keeps): take a finite file tree in which every
no-follow stat and every open of a directory succeeds and every path below
the root takes, with its NUL, fewer than `CIRCLE_MAX_STRING_LEN` bytes
(`tree_ok`). A
stat-mode walk from the root, on any positive number of participants and
along any schedule with at least one step per object, returns; the paths
of the records of all participants are, up to order, the root and every
object reachable from it through directories that the no-follow stat
reports as such, each once; every list has the detail flag set and the
total count; every record is detailed and holds the no-follow stat of its
path. For the tree `/t`, `/t/a`, `/t/b`, `/t/b/c` these are 4 records of
depths 1, 2, 2, 3. For `/t` with a file `a` and a link `l` to a directory
they are `/t`, `/t/a`, `/t/l`: nothing below the link is recorded. -/
theorem walk_stat_complete :
    (∀ (fs : fs_t) (raw : flist_t) (raw_elem : elem_t) (users groups : buf_t)
      (dirpath : List Nat) (use_stat : Int) (ranks : Nat) (schedule : List (Nat × Nat))
      (n : Nat),
      use_stat ≠ 0 → 0 < ranks → (∀ c ∈ dirpath, c ≠ 0) → dirpath.length < PATH_MAX →
      tree_ok fs n dirpath = true → (tree_objects fs n dirpath).length ≤ schedule.length →
      ∃ world,
        bayer_flist_walk_path fs raw raw_elem users groups dirpath use_stat ranks schedule =
          some world ∧
        world.length = ranks ∧
        List.Perm ((world.flatMap list_elems).map fun e => e.file)
          (tree_objects fs n dirpath) ∧
        (∀ f ∈ world, bayer_flist_have_detail f = 1 ∧
          bayer_flist_global_size f = (tree_objects fs n dirpath).length) ∧
        (∀ e ∈ world.flatMap list_elems, e.detail = 1 ∧
          ∃ st, fs.lstat e.file = some st ∧
            unlink e = unlink (elem_of_stat raw_elem e.file st.st_mode (some st)))) ∧
    (∀ (raw : flist_t) (raw_elem : elem_t) (users groups : buf_t) (ranks : Nat)
      (schedule : List (Nat × Nat)), 0 < ranks → 4 ≤ schedule.length →
      ∃ world,
        bayer_flist_walk_path sample_fs raw raw_elem users groups path_t 1 ranks schedule =
          some world ∧
        (world.flatMap list_elems).length = 4 ∧
        List.Perm ((world.flatMap list_elems).map fun e => e.file)
          [path_t, path_t_a, path_t_b, path_t_b_c] ∧
        List.Perm ((world.flatMap list_elems).map fun e => e.depth) [1, 2, 2, 3] ∧
        (∀ f ∈ world, bayer_flist_have_detail f = 1)) ∧
    (∀ (raw : flist_t) (raw_elem : elem_t) (users groups : buf_t) (ranks : Nat)
      (schedule : List (Nat × Nat)), 0 < ranks → 3 ≤ schedule.length →
      (sample_fs_link.lstat path_t_l).map (fun st => S_ISLNK st.st_mode) = some true ∧
      (sample_fs_link.opendir path_t_l).isSome = true ∧
      ∃ world,
        bayer_flist_walk_path sample_fs_link raw raw_elem users groups path_t 1 ranks
          schedule = some world ∧
        List.Perm ((world.flatMap list_elems).map fun e => e.file)
          [path_t, path_t_a, path_t_l]) := by
  refine ⟨?_, ?_, ?_⟩
  · intro fs raw raw_elem users groups dirpath use_stat ranks schedule n huse hranks hnul hlen
      hok hsched
    obtain ⟨world, h1, h2, h3, h4, h5⟩ := walk_stat_world fs raw raw_elem users groups dirpath
      use_stat ranks schedule n huse hranks hnul hlen hok hsched
    exact ⟨world, h1, h2, h3, h4, h5⟩
  · intro raw raw_elem users groups ranks schedule hranks hsched
    have hobj : tree_objects sample_fs 3 path_t = [path_t, path_t_a, path_t_b, path_t_b_c] := by
      decide
    obtain ⟨world, h1, _, h3, h4, h5⟩ := walk_stat_world sample_fs raw raw_elem users groups
      path_t 1 ranks schedule 3 (by decide) hranks (by decide) (by decide) (by decide)
      (by rw [hobj]; exact hsched)
    rw [hobj] at h3
    refine ⟨world, h1, ?_, h3, ?_, fun f hf => (h4 f hf).1⟩
    · have := h3.length_eq
      simpa using this
    · rw [map_depth_of_stat_records sample_fs raw_elem _ h5]
      have h6 := h3.map get_depth
      have h7 : [path_t, path_t_a, path_t_b, path_t_b_c].map get_depth = [1, 2, 2, 3] := by
        decide
      rw [h7] at h6
      exact h6
  · intro raw raw_elem users groups ranks schedule hranks hsched
    have hobj : tree_objects sample_fs_link 2 path_t = [path_t, path_t_a, path_t_l] := by
      decide
    obtain ⟨world, h1, _, h3, _, _⟩ := walk_stat_world sample_fs_link raw raw_elem users groups
      path_t 1 ranks schedule 2 (by decide) hranks (by decide) (by decide) (by decide)
      (by rw [hobj]; exact hsched)
    rw [hobj] at h3
    exact ⟨by decide, by decide, world, h1, h3⟩

/-- The statement of `walk_stat_complete` for the tiny tree on two
participants, with the lists that the sample schedule gives. -/
theorem walk_stat_complete_witness :
    (((1 : Int) ≠ 0 ∧ 0 < 2 ∧ (∀ c ∈ path_t, c ≠ 0) ∧ path_t.length < PATH_MAX ∧
      tree_ok sample_fs 3 path_t = true ∧
      (tree_objects sample_fs 3 path_t).length ≤ sample_schedule.length) ∧
    ∃ world,
      bayer_flist_walk_path sample_fs sample_raw_list sample_raw_elem sample_shard0.users
        sample_shard0.groups path_t 1 2 sample_schedule = some world ∧
      world.length = 2 ∧
      List.Perm ((world.flatMap list_elems).map fun e => e.file)
        (tree_objects sample_fs 3 path_t) ∧
      (∀ f ∈ world, bayer_flist_have_detail f = 1 ∧
        bayer_flist_global_size f = (tree_objects sample_fs 3 path_t).length) ∧
      (∀ e ∈ world.flatMap list_elems, e.detail = 1 ∧
        ∃ st, sample_fs.lstat e.file = some st ∧
          unlink e = unlink (elem_of_stat sample_raw_elem e.file st.st_mode (some st)))) ∧
    (∃ world,
      bayer_flist_walk_path sample_fs sample_raw_list sample_raw_elem sample_shard0.users
        sample_shard0.groups path_t 1 2 sample_schedule = some world ∧
      (world.flatMap list_elems).length = 4 ∧
      List.Perm ((world.flatMap list_elems).map fun e => e.file)
        [path_t, path_t_a, path_t_b, path_t_b_c] ∧
      List.Perm ((world.flatMap list_elems).map fun e => e.depth) [1, 2, 2, 3] ∧
      (∀ f ∈ world, bayer_flist_have_detail f = 1)) ∧
    ((sample_fs_link.lstat path_t_l).map (fun st => S_ISLNK st.st_mode) = some true ∧
      (sample_fs_link.opendir path_t_l).isSome = true ∧
      ∃ world,
        bayer_flist_walk_path sample_fs_link sample_raw_list sample_raw_elem
          sample_shard0.users sample_shard0.groups path_t 1 2 sample_schedule = some world ∧
        List.Perm ((world.flatMap list_elems).map fun e => e.file)
          [path_t, path_t_a, path_t_l]) :=
  ⟨⟨⟨by decide, by decide, by decide, by decide, by decide, by decide⟩,
      walk_stat_complete.1 sample_fs sample_raw_list sample_raw_elem sample_shard0.users
        sample_shard0.groups path_t 1 2 sample_schedule 3 (by decide) (by decide) (by decide)
        (by decide) (by decide) (by decide)⟩,
    walk_stat_complete.2.1 sample_raw_list sample_raw_elem sample_shard0.users
      sample_shard0.groups 2 sample_schedule (by decide) (by decide),
    walk_stat_complete.2.2 sample_raw_list sample_raw_elem sample_shard0.users
      sample_shard0.groups 2 sample_schedule (by decide) (by decide)⟩

/-- The stat-mode walk of the tiny tree on two participants along the
sample schedule, computed: the paths and depths held by each participant,
the detail flag and the total count. -/
theorem walk_stat_sample :
    (bayer_flist_walk_path sample_fs sample_raw_list sample_raw_elem sample_shard0.users
      sample_shard0.groups path_t 1 2 sample_schedule).map
        (fun w => w.map fun f => (list_elems f).map fun e => e.file) =
      some [[path_t, path_t_b], [path_t_a, path_t_b_c]] ∧
    (bayer_flist_walk_path sample_fs sample_raw_list sample_raw_elem sample_shard0.users
      sample_shard0.groups path_t 1 2 sample_schedule).map
        (fun w => w.map fun f => (list_elems f).map fun e => e.depth) =
      some [[1, 2], [2, 3]] ∧
    (bayer_flist_walk_path sample_fs sample_raw_list sample_raw_elem sample_shard0.users
      sample_shard0.groups path_t 1 2 sample_schedule).map
        (fun w => w.map fun f => (list_elems f).map fun e => e.detail) =
      some [[1, 1], [1, 1]] ∧
    (bayer_flist_walk_path sample_fs sample_raw_list sample_raw_elem sample_shard0.users
      sample_shard0.groups path_t 1 2 sample_schedule).map
        (fun w => w.map bayer_flist_have_detail) = some [1, 1] ∧
    (bayer_flist_walk_path sample_fs sample_raw_list sample_raw_elem sample_shard0.users
      sample_shard0.groups path_t 1 2 sample_schedule).map
        (fun w => w.map bayer_flist_global_size) = some [4, 4] := by
  decide

/-! ## Structural invariant of a shard (C26) -/

theorem list_ok_delete (f : flist_t) : list_ok (list_delete f) := by
  simp [list_ok, list_delete]

theorem shard_step_ok (f : flist_t) (op : shard_op) (h : list_ok f) :
    list_ok (shard_step f op) := by
  cases op with
  | list op => exact list_step_ok f op h
  | delete => exact list_ok_delete f

/-- Every shard reached from a new list, deletions included, is well
formed. -/
theorem list_ok_shard_run (raw : flist_t) (ops : List shard_op) :
    list_ok (shard_run raw ops) := by
  unfold shard_run
  generalize hf : bayer_flist_new raw = f
  have h0 : list_ok f := hf ▸ list_ok_new raw
  clear hf
  induction ops generalizing f with
  | nil => exact h0
  | cons op ops ih => exact ih _ (shard_step_ok f op h0)

theorem list_addrs_none (heap : List elem_t) (fuel : Nat) : list_addrs heap fuel none = [] := by
  cases fuel <;> rfl

theorem list_addrs_of_chain (heap : List elem_t)
    (hn : ∀ i, i < heap.length →
      heap[i]?.map (fun e => e.next) = some (if i + 1 < heap.length then some (i + 1) else none))
    (fuel : Nat) : ∀ a, a < heap.length → heap.length - a ≤ fuel →
      list_addrs heap fuel (some a) = List.range' a (heap.length - a) := by
  induction fuel with
  | zero => intro a h1 h2; omega
  | succ fuel ih =>
    intro a h1 h2
    have hstep := hn a h1
    have hx : heap[a]? = some heap[a] := List.getElem?_eq_getElem h1
    rw [hx] at hstep
    simp only [Option.map_some', Option.some.injEq] at hstep
    obtain ⟨k, hk⟩ : ∃ k, heap.length - a = k + 1 := ⟨heap.length - a - 1, by omega⟩
    rw [hk, List.range'_succ]
    simp only [list_addrs, hx, Option.some_bind, hstep]
    by_cases hlast : a + 1 < heap.length
    · rw [if_pos hlast, ih (a + 1) hlast (by omega)]
      have : heap.length - (a + 1) = k := by omega
      rw [this]
    · rw [if_neg hlast, list_addrs_none]
      have : k = 0 := by omega
      rw [this]
      rfl

/-- The records reachable from the head of a well-formed shard are those
at the addresses `0` to `list_count - 1`, whatever fuel at least
`list_count` the traversal is given. -/
theorem list_addrs_of_ok (f : flist_t) (h : list_ok f) (fuel : Nat) (hf : f.list_count ≤ fuel) :
    list_addrs f.heap fuel f.list_head = List.range f.list_count := by
  obtain ⟨hc, hh, _, hn, _⟩ := h
  rw [hh, hc]
  by_cases h0 : f.heap.length = 0
  · rw [if_pos h0, list_addrs_none, h0]
    rfl
  · rw [if_neg h0, list_addrs_of_chain f.heap hn fuel 0 (by omega) (by omega),
      List.range_eq_range']
    rfl

/-- C26: after every sequence of `list_insert_stat`, `list_insert_lite`,
`list_insert_ptr`, `list_get_elem` and `list_delete` on a new list, and
for every fuel of at least `list_count` steps given to the traversal of
the `next` links from `list_head`: the traversal ends within the fuel and
reaches `list_count` records; `list_head` is `NULL` exactly when
`list_count` is 0; `list_tail` is the last record reached (none for an
empty list); `list_index` is `NULL` or lists exactly the records reached,
in order; the records that `list_elems` sees are as many. A `list_delete`
then leaves count 0, no head, no tail and no index, like `bayer_flist_new`. -/
theorem shard_invariant (raw : flist_t) (ops : List shard_op) (fuel : Nat)
    (hfuel : (shard_run raw ops).list_count ≤ fuel) :
    list_addrs (shard_run raw ops).heap fuel (shard_run raw ops).list_head =
      list_addrs (shard_run raw ops).heap (fuel + 1) (shard_run raw ops).list_head ∧
    (list_addrs (shard_run raw ops).heap fuel (shard_run raw ops).list_head).length =
      (shard_run raw ops).list_count ∧
    (∀ a ∈ list_addrs (shard_run raw ops).heap fuel (shard_run raw ops).list_head,
      (shard_run raw ops).heap[a]? ≠ none) ∧
    ((shard_run raw ops).list_head = none ↔ (shard_run raw ops).list_count = 0) ∧
    (shard_run raw ops).list_tail =
      (list_addrs (shard_run raw ops).heap fuel (shard_run raw ops).list_head).getLast? ∧
    ((shard_run raw ops).list_index = none ∨
      (shard_run raw ops).list_index =
        some (list_addrs (shard_run raw ops).heap fuel (shard_run raw ops).list_head)) ∧
    (list_elems (shard_run raw ops)).length = (shard_run raw ops).list_count ∧
    ((list_delete (shard_run raw ops)).list_count = 0 ∧
      (list_delete (shard_run raw ops)).list_head = none ∧
      (list_delete (shard_run raw ops)).list_tail = none ∧
      (list_delete (shard_run raw ops)).list_index = none ∧
      list_elems (list_delete (shard_run raw ops)) = [] ∧
      (list_delete (shard_run raw ops)).list_count = (bayer_flist_new raw).list_count ∧
      (list_delete (shard_run raw ops)).list_head = (bayer_flist_new raw).list_head ∧
      (list_delete (shard_run raw ops)).list_tail = (bayer_flist_new raw).list_tail ∧
      (list_delete (shard_run raw ops)).list_index = (bayer_flist_new raw).list_index) := by
  have hok := list_ok_shard_run raw ops
  generalize shard_run raw ops = f at hok hfuel
  have haddr := list_addrs_of_ok f hok fuel hfuel
  have haddr1 := list_addrs_of_ok f hok (fuel + 1) (by omega)
  have helems := list_elems_of_ok f hok
  obtain ⟨hc, hh, ht, hn, hi⟩ := hok
  refine ⟨by rw [haddr, haddr1], by rw [haddr]; simp, ?_, ?_, ?_, ?_, ?_, ?_⟩
  · intro a ha
    rw [haddr, List.mem_range, hc] at ha
    rw [List.getElem?_eq_getElem ha]
    simp
  · rw [hh, hc]
    by_cases h0 : f.heap.length = 0
    · simp [h0]
    · simp [h0]
  · rw [haddr, ht, hc]
    by_cases h0 : f.heap.length = 0
    · simp [h0]
    · obtain ⟨k, hk⟩ : ∃ k, f.heap.length = k + 1 := ⟨f.heap.length - 1, by omega⟩
      rw [if_neg h0, hk, List.range_succ]
      simp
  · rw [haddr, hc]
    exact hi
  · rw [helems, hc]
  · exact ⟨rfl, rfl, rfl, rfl, rfl, rfl, rfl, rfl, rfl⟩

/-- The statement of `shard_invariant` for a sample sequence with a
deletion in its middle, with a fuel of 5. -/
theorem shard_invariant_witness :
    (shard_run sample_raw_list sample_shard_ops).list_count ≤ 5 ∧
    (shard_run sample_raw_list sample_shard_ops).list_count = 2 ∧
    (list_addrs (shard_run sample_raw_list sample_shard_ops).heap 5
        (shard_run sample_raw_list sample_shard_ops).list_head =
      list_addrs (shard_run sample_raw_list sample_shard_ops).heap (5 + 1)
        (shard_run sample_raw_list sample_shard_ops).list_head ∧
    (list_addrs (shard_run sample_raw_list sample_shard_ops).heap 5
        (shard_run sample_raw_list sample_shard_ops).list_head).length =
      (shard_run sample_raw_list sample_shard_ops).list_count ∧
    (∀ a ∈ list_addrs (shard_run sample_raw_list sample_shard_ops).heap 5
        (shard_run sample_raw_list sample_shard_ops).list_head,
      (shard_run sample_raw_list sample_shard_ops).heap[a]? ≠ none) ∧
    ((shard_run sample_raw_list sample_shard_ops).list_head = none ↔
      (shard_run sample_raw_list sample_shard_ops).list_count = 0) ∧
    (shard_run sample_raw_list sample_shard_ops).list_tail =
      (list_addrs (shard_run sample_raw_list sample_shard_ops).heap 5
        (shard_run sample_raw_list sample_shard_ops).list_head).getLast? ∧
    ((shard_run sample_raw_list sample_shard_ops).list_index = none ∨
      (shard_run sample_raw_list sample_shard_ops).list_index =
        some (list_addrs (shard_run sample_raw_list sample_shard_ops).heap 5
          (shard_run sample_raw_list sample_shard_ops).list_head)) ∧
    (list_elems (shard_run sample_raw_list sample_shard_ops)).length =
      (shard_run sample_raw_list sample_shard_ops).list_count ∧
    ((list_delete (shard_run sample_raw_list sample_shard_ops)).list_count = 0 ∧
      (list_delete (shard_run sample_raw_list sample_shard_ops)).list_head = none ∧
      (list_delete (shard_run sample_raw_list sample_shard_ops)).list_tail = none ∧
      (list_delete (shard_run sample_raw_list sample_shard_ops)).list_index = none ∧
      list_elems (list_delete (shard_run sample_raw_list sample_shard_ops)) = [] ∧
      (list_delete (shard_run sample_raw_list sample_shard_ops)).list_count =
        (bayer_flist_new sample_raw_list).list_count ∧
      (list_delete (shard_run sample_raw_list sample_shard_ops)).list_head =
        (bayer_flist_new sample_raw_list).list_head ∧
      (list_delete (shard_run sample_raw_list sample_shard_ops)).list_tail =
        (bayer_flist_new sample_raw_list).list_tail ∧
      (list_delete (shard_run sample_raw_list sample_shard_ops)).list_index =
        (bayer_flist_new sample_raw_list).list_index)) :=
  ⟨by decide, by decide, shard_invariant sample_raw_list sample_shard_ops 5 (by decide)⟩

/-! ## Failing metadata calls during a walk (C22) -/

theorem walk_stat_process_lstat_fail (fs : fs_t) (raw : elem_t) (flist : flist_t)
    (path : List Nat) (rest : List (List Nat)) (h : bayer_lstat fs path = none) :
    walk_stat_process fs raw flist (path :: rest) = (flist, rest) := by
  simp only [walk_stat_process, h]

theorem walk_readdir_entry_lstat_fail (fs : fs_t) (raw : elem_t) (dir : List Nat)
    (state : flist_t × List (List Nat)) (entry : dirent) (ht : entry.d_type = DT_UNKNOWN)
    (h : bayer_lstat fs (entry_path dir entry) = none) :
    walk_readdir_process_entry fs raw dir state entry = state := by
  unfold walk_readdir_process_entry
  have hp : bayer_strdup dir ++ [47] ++ bayer_strdup entry.d_name = entry_path dir entry := rfl
  simp only [strcat_newpath, hp, h, ht, ne_eq, not_true_eq_false, if_false]
  split_ifs <;> rfl

theorem set_of_getElem? {α : Type} (l : List α) (r : Nat) (x : α) (h : l[r]? = some x) :
    l.set r x = l := by
  induction l generalizing r with
  | nil => rfl
  | cons a as ih =>
    cases r with
    | zero =>
      simp only [List.getElem?_cons_zero, Option.some.injEq] at h
      rw [List.set_cons_zero, h]
    | succ r =>
      simp only [List.getElem?_cons_succ] at h
      rw [List.set_cons_succ, ih r h]

/-- C22 (amended): when the no-follow stat of a path taken off the queue
fails, `walk_stat_process` inserts no record and leaves the rest of the
queue as it is, so that a step of the work queue changes no list and only
takes the path off; in readdir mode, for an entry of unknown type whose
fallback stat fails, `walk_readdir_process_dir` inserts no record for the
entry and does not queue it, and goes on with the entries after it. -/
theorem metadata_failed (fs : fs_t) (raw : elem_t) :
    (∀ (flist : flist_t) (path : List Nat) (rest : List (List Nat)),
      bayer_lstat fs path = none →
      walk_stat_process fs raw flist (path :: rest) = (flist, rest)) ∧
    (∀ (s : walk_state) (choice : Nat × Nat) (path : List Nat), s.lists ≠ [] →
      s.queue[choice.2 % s.queue.length]? = some path → bayer_lstat fs path = none →
      (CIRCLE_step (walk_stat_process fs raw) s choice).lists = s.lists ∧
      (CIRCLE_step (walk_stat_process fs raw) s choice).queue =
        s.queue.eraseIdx (choice.2 % s.queue.length)) ∧
    (∀ (dir : List Nat) (state : flist_t × List (List Nat)) (entry : dirent),
      entry.d_type = DT_UNKNOWN → bayer_lstat fs (entry_path dir entry) = none →
      walk_readdir_process_entry fs raw dir state entry = state) ∧
    (∀ (dir : List Nat) (state : flist_t × List (List Nat)) (pre post : List dirent)
      (entry : dirent), bayer_opendir fs dir = some (pre ++ entry :: post) →
      entry.d_type = DT_UNKNOWN → bayer_lstat fs (entry_path dir entry) = none →
      walk_readdir_process_dir fs raw dir state =
        post.foldl (walk_readdir_process_entry fs raw dir)
          (pre.foldl (walk_readdir_process_entry fs raw dir) state)) := by
  refine ⟨?_, ?_, ?_, ?_⟩
  · intro flist path rest h
    exact walk_stat_process_lstat_fail fs raw flist path rest h
  · intro s choice path hl hq h
    have hllen : 0 < s.lists.length := List.length_pos.mpr hl
    have hr : choice.1 % s.lists.length < s.lists.length := Nat.mod_lt _ hllen
    obtain ⟨f, hlr⟩ : ∃ f, s.lists[choice.1 % s.lists.length]? = some f :=
      ⟨_, List.getElem?_eq_getElem hr⟩
    unfold CIRCLE_step
    simp only [hq, hlr, walk_stat_process_lstat_fail fs raw f path _ h]
    exact ⟨set_of_getElem? _ _ _ hlr, trivial⟩
  · intro dir state entry ht h
    exact walk_readdir_entry_lstat_fail fs raw dir state entry ht h
  · intro dir state pre post entry ho ht h
    unfold walk_readdir_process_dir
    rw [ho]
    simp only [List.foldl_append, List.foldl_cons]
    rw [walk_readdir_entry_lstat_fail fs raw dir _ entry ht h]

/-- The statement of `metadata_failed` for the directory `/t` with an
entry `x` of unknown type whose stat fails. -/
theorem metadata_failed_witness :
    (bayer_lstat sample_fs_unknown path_t_x = none ∧
      bayer_lstat sample_fs_unknown (entry_path path_t ⟨[120], 0⟩) = none ∧
      (⟨[120], 0⟩ : dirent).d_type = DT_UNKNOWN ∧
      bayer_opendir sample_fs_unknown path_t =
        some ([⟨[46], 4⟩] ++ (⟨[120], 0⟩ : dirent) :: [⟨[97], 8⟩])) ∧
    ((∀ (flist : flist_t) (path : List Nat) (rest : List (List Nat)),
      bayer_lstat sample_fs_unknown path = none →
      walk_stat_process sample_fs_unknown sample_raw_elem flist (path :: rest) =
        (flist, rest)) ∧
    (∀ (s : walk_state) (choice : Nat × Nat) (path : List Nat), s.lists ≠ [] →
      s.queue[choice.2 % s.queue.length]? = some path →
      bayer_lstat sample_fs_unknown path = none →
      (CIRCLE_step (walk_stat_process sample_fs_unknown sample_raw_elem) s choice).lists =
        s.lists ∧
      (CIRCLE_step (walk_stat_process sample_fs_unknown sample_raw_elem) s choice).queue =
        s.queue.eraseIdx (choice.2 % s.queue.length)) ∧
    (∀ (dir : List Nat) (state : flist_t × List (List Nat)) (entry : dirent),
      entry.d_type = DT_UNKNOWN →
      bayer_lstat sample_fs_unknown (entry_path dir entry) = none →
      walk_readdir_process_entry sample_fs_unknown sample_raw_elem dir state entry = state) ∧
    (∀ (dir : List Nat) (state : flist_t × List (List Nat)) (pre post : List dirent)
      (entry : dirent), bayer_opendir sample_fs_unknown dir = some (pre ++ entry :: post) →
      entry.d_type = DT_UNKNOWN →
      bayer_lstat sample_fs_unknown (entry_path dir entry) = none →
      walk_readdir_process_dir sample_fs_unknown sample_raw_elem dir state =
        post.foldl (walk_readdir_process_entry sample_fs_unknown sample_raw_elem dir)
          (pre.foldl (walk_readdir_process_entry sample_fs_unknown sample_raw_elem dir)
            state))) :=
  ⟨⟨by decide, by decide, by decide, by decide⟩,
    metadata_failed sample_fs_unknown sample_raw_elem⟩

/-- C22 (as stated): the directory `/t` lists an entry `x` of unknown
type whose fallback stat fails, then the file `a`. In readdir mode the
entry changes neither the list nor the queue, and reading `/t` records
`/t/a` alone: no record of type UNKNOWN is inserted for `/t/x`. In stat
mode the failing path `/t/x` is dropped and the next path is still
processed. -/
theorem readdir_lstat_fail_no_record :
    (⟨[120], 0⟩ : dirent).d_type = DT_UNKNOWN ∧
    bayer_lstat sample_fs_unknown path_t_x = none ∧
    walk_readdir_process_entry sample_fs_unknown sample_raw_elem path_t
      (bayer_flist_new sample_raw_list, []) ⟨[120], 0⟩ =
        (bayer_flist_new sample_raw_list, []) ∧
    (walk_readdir_process_dir sample_fs_unknown sample_raw_elem path_t
      (bayer_flist_new sample_raw_list, [])).1.heap.map (fun e => (e.file, e.type)) =
        [(path_t_a, TYPE_FILE)] ∧
    (walk_readdir_process_dir sample_fs_unknown sample_raw_elem path_t
      (bayer_flist_new sample_raw_list, [])).2 = [] ∧
    walk_stat_process sample_fs_unknown sample_raw_elem (bayer_flist_new sample_raw_list)
      [path_t_x, path_t_a] = (bayer_flist_new sample_raw_list, [path_t_a]) ∧
    (walk_stat_process sample_fs_unknown sample_raw_elem (bayer_flist_new sample_raw_list)
      [path_t_a]).1.heap.map (fun e => e.file) = [path_t_a] := by
  decide

/-! ## Paths that do not pass the length test (C23) -/

/-- An entry whose path fails the length test adds nothing in readdir
mode. -/
theorem walk_readdir_entry_too_long (fs : fs_t) (raw : elem_t) (dir : List Nat)
    (state : flist_t × List (List Nat)) (name : List Nat) (t : Nat)
    (h : ¬ (strlen dir + 1 + strlen name + 1 < CIRCLE_MAX_STRING_LEN)) :
    walk_readdir_process_entry fs raw dir state ⟨name, t⟩ = state := by
  unfold walk_readdir_process_entry
  simp only [h, if_false]
  split_ifs <;> rfl

/-- An entry other than `.` and `..` whose path passes the length test is
queued in stat mode under the path directory, `'/'`, name. -/
theorem walk_stat_entry_fits (dir : List Nat) (queue : List (List Nat)) (entry : dirent)
    (hdot : is_dot_name (bayer_strdup entry.d_name) = false)
    (hfit : strlen dir + 1 + strlen entry.d_name + 1 < CIRCLE_MAX_STRING_LEN) :
    walk_stat_process_entry dir queue entry = queue ++ [entry_path dir entry] := by
  unfold walk_stat_process_entry
  rw [if_pos ((skip_test_iff _).mpr hdot)]
  simp only [hfit, if_true, strcat_newpath]
  rfl

/-- An entry of known type other than `.` and `..` whose path passes the
length test is recorded in readdir mode under the path directory, `'/'`,
name, and queued when its type is that of a directory. -/
theorem walk_readdir_entry_fits (fs : fs_t) (raw : elem_t) (dir : List Nat)
    (state : flist_t × List (List Nat)) (entry : dirent)
    (hdot : is_dot_name (bayer_strdup entry.d_name) = false)
    (hfit : strlen dir + 1 + strlen entry.d_name + 1 < CIRCLE_MAX_STRING_LEN)
    (ht : entry.d_type ≠ DT_UNKNOWN) :
    walk_readdir_process_entry fs raw dir state entry =
      (list_insert_stat state.1 raw (entry_path dir entry) (DTTOIF entry.d_type) none,
        if S_ISDIR (DTTOIF entry.d_type) then state.2 ++ [entry_path dir entry]
        else state.2) := by
  unfold walk_readdir_process_entry
  rw [if_pos ((skip_test_iff _).mpr hdot)]
  have hp : bayer_strdup dir ++ [47] ++ bayer_strdup entry.d_name = entry_path dir entry := rfl
  simp only [hfit, if_true, strcat_newpath, hp]
  rw [if_pos ht]
  split_ifs <;> rfl

/-- The length test and what follows from it, in both walk modes: an
entry for which `strlen(dir) + 1 + strlen(name) + 1` is not below
`CIRCLE_MAX_STRING_LEN` is neither recorded nor queued, and the entries
after it in the listing are processed; an entry other than `.` and `..`
for which it is below is queued (stat mode) or, with a known type,
recorded (readdir mode) under exactly directory, `'/'`, name. -/
theorem path_too_long_rule (fs : fs_t) (raw : elem_t) (dir : List Nat) :
    (∀ (queue : List (List Nat)) (name : List Nat) (t : Nat),
      ¬ (strlen dir + 1 + strlen name + 1 < CIRCLE_MAX_STRING_LEN) →
      walk_stat_process_entry dir queue ⟨name, t⟩ = queue) ∧
    (∀ (state : flist_t × List (List Nat)) (name : List Nat) (t : Nat),
      ¬ (strlen dir + 1 + strlen name + 1 < CIRCLE_MAX_STRING_LEN) →
      walk_readdir_process_entry fs raw dir state ⟨name, t⟩ = state) ∧
    (∀ (queue : List (List Nat)) (entry : dirent),
      is_dot_name (bayer_strdup entry.d_name) = false →
      strlen dir + 1 + strlen entry.d_name + 1 < CIRCLE_MAX_STRING_LEN →
      walk_stat_process_entry dir queue entry =
        queue ++ [bayer_strdup dir ++ [47] ++ bayer_strdup entry.d_name]) ∧
    (∀ (state : flist_t × List (List Nat)) (entry : dirent),
      is_dot_name (bayer_strdup entry.d_name) = false →
      strlen dir + 1 + strlen entry.d_name + 1 < CIRCLE_MAX_STRING_LEN →
      entry.d_type ≠ DT_UNKNOWN →
      (walk_readdir_process_entry fs raw dir state entry).1.heap.map (fun e => e.file) =
        state.1.heap.map (fun e => e.file) ++
          [bayer_strdup dir ++ [47] ++ bayer_strdup entry.d_name]) ∧
    (∀ (queue : List (List Nat)) (pre post : List dirent) (name : List Nat) (t : Nat),
      bayer_opendir fs dir = some (pre ++ ⟨name, t⟩ :: post) →
      ¬ (strlen dir + 1 + strlen name + 1 < CIRCLE_MAX_STRING_LEN) →
      walk_stat_process_dir fs dir queue =
        post.foldl (walk_stat_process_entry dir)
          (pre.foldl (walk_stat_process_entry dir) queue)) ∧
    (∀ (state : flist_t × List (List Nat)) (pre post : List dirent) (name : List Nat)
      (t : Nat), bayer_opendir fs dir = some (pre ++ ⟨name, t⟩ :: post) →
      ¬ (strlen dir + 1 + strlen name + 1 < CIRCLE_MAX_STRING_LEN) →
      walk_readdir_process_dir fs raw dir state =
        post.foldl (walk_readdir_process_entry fs raw dir)
          (pre.foldl (walk_readdir_process_entry fs raw dir) state)) := by
  refine ⟨?_, ?_, ?_, ?_, ?_, ?_⟩
  · intro queue name t h
    exact walk_stat_entry_too_long dir queue name t h
  · intro state name t h
    exact walk_readdir_entry_too_long fs raw dir state name t h
  · intro queue entry hdot hfit
    exact walk_stat_entry_fits dir queue entry hdot hfit
  · intro state entry hdot hfit ht
    rw [walk_readdir_entry_fits fs raw dir state entry hdot hfit ht]
    simp only [list_insert_stat_files, entry_path_no_nul]
    rfl
  · intro queue pre post name t ho h
    unfold walk_stat_process_dir
    rw [ho]
    simp only [List.foldl_append, List.foldl_cons]
    rw [walk_stat_entry_too_long dir _ name t h]
  · intro state pre post name t ho h
    unfold walk_readdir_process_dir
    rw [ho]
    simp only [List.foldl_append, List.foldl_cons]
    rw [walk_readdir_entry_too_long fs raw dir _ name t h]

theorem flatten_replicate_length {α : Type} (n : Nat) (x : List α) :
    (List.replicate n x).flatten.length = n * x.length := by
  induction n with
  | zero => simp
  | succ n ih =>
    rw [List.replicate_succ, List.flatten_cons, List.length_append, ih]
    rw [Nat.succ_mul]
    omega

theorem deep_dir_length : deep_dir.length = 3839 := by
  unfold deep_dir
  rw [List.length_append, flatten_replicate_length, List.length_cons, List.length_cons,
    List.length_replicate, List.length_replicate]

theorem deep_dir_no_nul : ∀ c ∈ deep_dir, c ≠ 0 := by
  intro c hc
  unfold deep_dir at hc
  rw [List.mem_append, List.mem_flatten] at hc
  rcases hc with ⟨l, hl, hcl⟩ | hc
  · rw [List.mem_replicate] at hl
    rw [hl.2, List.mem_cons, List.mem_replicate] at hcl
    omega
  · rw [List.mem_cons, List.mem_replicate] at hc
    omega

theorem strlen_deep_dir : strlen deep_dir = 3839 := by
  rw [strlen_of_no_nul deep_dir deep_dir_no_nul, deep_dir_length]

theorem strlen_full_name : strlen full_name = 255 := strlen_replicate 255

theorem deep_entry_len :
    strlen deep_dir + 1 + strlen full_name + 1 = CIRCLE_MAX_STRING_LEN := by
  rw [strlen_deep_dir, strlen_full_name]
  rfl

/-- C23: for the directory path `deep_dir` of 3839 bytes and the entry
name `full_name` of 255 bytes the child path takes 4095 bytes and, with
its NUL, exactly the `CIRCLE_MAX_STRING_LEN` = 4096 bytes of the scratch
array: it fits and does not exceed it. The test `len < sizeof(newpath)`
fails all the same, and in both walk modes the entry is neither recorded
nor queued. -/
theorem path_too_long_boundary :
    strlen deep_dir + 1 + strlen full_name + 1 = CIRCLE_MAX_STRING_LEN ∧
    CIRCLE_MAX_STRING_LEN = 4096 ∧
    walk_stat_process_entry deep_dir [] ⟨full_name, 8⟩ = [] ∧
    walk_readdir_process_entry sample_fs_deep sample_raw_elem deep_dir
      (bayer_flist_new sample_raw_list, []) ⟨full_name, 8⟩ =
        (bayer_flist_new sample_raw_list, []) := by
  have hlen : ¬ (strlen deep_dir + 1 + strlen full_name + 1 < CIRCLE_MAX_STRING_LEN) := by
    rw [deep_entry_len]
    exact Nat.lt_irrefl _
  exact ⟨deep_entry_len, rfl, walk_stat_entry_too_long deep_dir [] full_name 8 hlen,
    walk_readdir_entry_too_long sample_fs_deep sample_raw_elem deep_dir _ full_name 8 hlen⟩


theorem walk_path_setup_ok (raw : flist_t) (users groups : buf_t) (use_stat : Int) :
    list_ok (walk_path_setup raw users groups use_stat) ∧
    (walk_path_setup raw users groups use_stat).heap = [] := by
  unfold walk_path_setup
  by_cases h : use_stat = 0
  · simp only [h, ne_eq, not_true_eq_false, if_false]
    exact ⟨by simp [list_ok, bayer_flist_new], rfl⟩
  · simp only [h, ne_eq, not_false_eq_true, if_true]
    exact ⟨by simp [list_ok, bayer_flist_new], rfl⟩

/-- The stat-mode walk of a directory whose only entry fails the length
test, on one participant: it returns with a record for the directory
alone. -/
theorem boundary_walk (raw : flist_t) (raw_elem : elem_t) (users groups : buf_t)
    (dir name : List Nat) (hdir : ∀ c ∈ dir, c ≠ 0) (hdl : dir.length < PATH_MAX)
    (hlen : ¬ (strlen dir + 1 + strlen name + 1 < CIRCLE_MAX_STRING_LEN)) :
    (bayer_flist_walk_path (boundary_fs dir name) raw raw_elem users groups dir 1 1
      [(0, 0)]).map (fun w => w.map fun f => (list_elems f).map fun e => e.file) =
      some [[dir]] := by
  have hd : bayer_strdup dir = dir := bayer_strdup_of_no_nul dir hdir
  have hcd : strncpy dir PATH_MAX = dir := by
    unfold strncpy
    rw [hd]
    exact List.take_of_length_le (by omega)
  have h1 : bayer_lstat (boundary_fs dir name) dir = some sample_stat_dir := by
    show (if bayer_strdup dir = dir then some sample_stat_dir else some sample_stat_file) = _
    rw [if_pos hd]
  have h3 : bayer_opendir (boundary_fs dir name) dir = some [⟨name, 8⟩] := by
    show (if bayer_strdup dir = dir then some [(⟨name, 8⟩ : dirent)] else none) = _
    rw [if_pos hd]
  have hproc : ∀ f, walk_stat_process (boundary_fs dir name) raw_elem f [dir] =
      (list_insert_stat f raw_elem dir sample_stat_dir.st_mode (some sample_stat_dir), []) := by
    intro f
    rw [walk_stat_process_dir_step (boundary_fs dir name) raw_elem f dir [] sample_stat_dir
      [⟨name, 8⟩] h1 (by decide) h3]
    rw [List.foldl_cons, List.foldl_nil, walk_stat_entry_too_long dir [] name 8 hlen]
  rw [bayer_flist_walk_path_stat _ _ _ _ _ _ _ _ _ (by decide), hcd]
  have hrep : List.replicate 1 (walk_path_setup raw users groups 1) =
      [walk_path_setup raw users groups 1] := rfl
  rw [hrep, CIRCLE_begin_one _ _ _ _ dir rfl (hproc _)]
  obtain ⟨hok, hheap⟩ := walk_path_setup_ok raw users groups 1
  have hok2 : list_ok (list_insert_stat (walk_path_setup raw users groups 1) raw_elem dir
      sample_stat_dir.st_mode (some sample_stat_dir)) := by
    rw [list_insert_stat_eq]
    exact list_ok_insert _ _ hok
  simp only [Option.map_some', List.map_cons, List.map_nil, list_elems_walk_path_finish]
  rw [list_elems_of_ok _ hok2, list_insert_stat_files, hheap, hd]
  rfl

theorem boundary_fs_lstat (dir name p : List Nat) :
    (bayer_lstat (boundary_fs dir name) p).isSome = true := by
  by_cases hp : bayer_strdup p = dir
  · exact congrArg Option.isSome (if_pos hp)
  · exact congrArg Option.isSome (if_neg hp)

theorem boundary_fs_opendir (dir name : List Nat) (hd : bayer_strdup dir = dir) :
    bayer_opendir (boundary_fs dir name) dir = some [⟨name, 8⟩] := by
  show (if bayer_strdup dir = dir then some [(⟨name, 8⟩ : dirent)] else none) = _
  rw [if_pos hd]

theorem boundary_fs_children (dir name : List Nat)
    (hdot : is_dot_name (bayer_strdup name) = false) :
    tree_children (boundary_fs dir name) dir = [dir ++ [47] ++ bayer_strdup name] := by
  have h1 : (boundary_fs dir name).lstat dir = some sample_stat_dir := by
    show (if dir = dir then some sample_stat_dir else some sample_stat_file) = _
    exact if_pos rfl
  have h2 : S_ISDIR sample_stat_dir.st_mode = true := by decide
  have h3 : (boundary_fs dir name).opendir dir = some [⟨name, 8⟩] := by
    show (if dir = dir then some [(⟨name, 8⟩ : dirent)] else none) = _
    exact if_pos rfl
  unfold tree_children
  rw [h1]
  simp only [h2, if_true]
  rw [h3, Option.getD_some, List.filterMap_cons, List.filterMap_nil]
  simp only [hdot, Bool.false_eq_true, if_false]

theorem full_name_not_dot : is_dot_name (bayer_strdup full_name) = false := by
  have h : bayer_strdup full_name = 97 :: List.replicate 254 97 := bayer_strdup_replicate 255
  rw [h]
  exact is_dot_name_cons_a _

/-- The case of `walk_stat_boundary_drop` with names of at most 255 bytes
(C19, C23): the directory `deep_dir` holds one regular file `full_name`
whose path takes, with its NUL, exactly `CIRCLE_MAX_STRING_LEN` bytes;
every no-follow stat succeeds and the directory can be opened; the walk
in stat mode returns with a record for the directory alone. -/
theorem walk_stat_deep_drop :
    strlen deep_dir + 1 + strlen full_name + 1 = CIRCLE_MAX_STRING_LEN ∧
    deep_dir.length < PATH_MAX ∧
    (∀ p, (bayer_lstat sample_fs_deep p).isSome = true) ∧
    (bayer_opendir sample_fs_deep deep_dir).isSome = true ∧
    tree_children sample_fs_deep deep_dir = [deep_dir ++ [47] ++ bayer_strdup full_name] ∧
    (bayer_flist_walk_path sample_fs_deep sample_raw_list sample_raw_elem sample_shard0.users
      sample_shard0.groups deep_dir 1 1 [(0, 0)]).map
        (fun w => w.map fun f => (list_elems f).map fun e => e.file) = some [[deep_dir]] := by
  have hlen : ¬ (strlen deep_dir + 1 + strlen full_name + 1 < CIRCLE_MAX_STRING_LEN) := by
    rw [deep_entry_len]
    exact Nat.lt_irrefl _
  have hdl : deep_dir.length < PATH_MAX := by
    rw [deep_dir_length]
    decide
  have hd : bayer_strdup deep_dir = deep_dir := bayer_strdup_of_no_nul _ deep_dir_no_nul
  refine ⟨deep_entry_len, hdl, ?_, ?_, ?_, ?_⟩
  · intro p
    exact boundary_fs_lstat deep_dir full_name p
  · have := boundary_fs_opendir deep_dir full_name hd
    exact congrArg Option.isSome this
  · exact boundary_fs_children deep_dir full_name full_name_not_dot
  · exact boundary_walk sample_raw_list sample_raw_elem sample_shard0.users
      sample_shard0.groups deep_dir full_name deep_dir_no_nul hdl hlen

/-! ## Retries while enumerating users and groups (C24) -/

/-- The loop of `get_groups` follows the retry rule of the specification:
it inserts the entries that `enum_spec` lists, in order, and makes as many
lookups. -/
theorem get_groups_loop_spec (script : List getent_result) :
    ∀ (attempts : Nat) (st : strid_list × Nat), 1 ≤ attempts →
      get_groups_loop script (attempts : Int) st =
        ((enum_spec script attempts).1.foldl
            (fun l p => strid_insert p.1 (p.2 % 2 ^ 32) l) st.1,
          st.2 + (enum_spec script attempts).2) := by
  induction script with
  | nil => intro attempts st _; rfl
  | cons r rest ih =>
    intro attempts st hat
    cases r with
    | entry name id =>
      simp only [get_groups_loop, enum_spec, List.foldl_cons]
      have := ih 3 (strid_insert name (id % 2 ^ 32) st.1, st.2 + 1) (by omega)
      simp only [Nat.cast_ofNat] at this
      rw [this]
      simp only [Prod.mk.injEq, true_and]
      omega
    | null errno =>
      simp only [get_groups_loop, enum_spec, transient_error, Bool.or_eq_true,
        decide_eq_true_eq]
      by_cases ht : errno = EIO ∨ errno = EINTR
      · rw [if_pos ht]
        by_cases h1 : 1 < attempts
        · rw [if_pos (by omega), if_pos ⟨ht, h1⟩]
          have := ih (attempts - 1) (st.1, st.2 + 1) (by omega)
          have hc : ((attempts - 1 : Nat) : Int) = (attempts : Int) - 1 := by omega
          rw [hc] at this
          rw [this]
          simp only [Prod.mk.injEq, true_and]
          omega
        · rw [if_neg (by omega), if_neg (by intro h; exact h1 h.2)]
          rfl
      · rw [if_neg ht, if_neg (by omega), if_neg (by intro h; exact ht h.1)]
        rfl

/-- The loop of `get_users` follows the same rule as long as no lookup
fails with `EINTR`. -/
theorem get_users_loop_spec (script : List getent_result)
    (hno : getent_result.null EINTR ∉ script) :
    ∀ (attempts : Nat) (st : strid_list × Nat), 1 ≤ attempts →
      get_users_loop script (attempts : Int) st =
        ((enum_spec script attempts).1.foldl
            (fun l p => strid_insert p.1 (p.2 % 2 ^ 32) l) st.1,
          st.2 + (enum_spec script attempts).2) := by
  induction script with
  | nil => intro attempts st _; rfl
  | cons r rest ih =>
    have hno2 : getent_result.null EINTR ∉ rest := fun h => hno (List.mem_cons_of_mem _ h)
    intro attempts st hat
    cases r with
    | entry name id =>
      simp only [get_users_loop, enum_spec, List.foldl_cons]
      have := ih hno2 3 (strid_insert name (id % 2 ^ 32) st.1, st.2 + 1) (by omega)
      simp only [Nat.cast_ofNat] at this
      rw [this]
      simp only [Prod.mk.injEq, true_and]
      omega
    | null errno =>
      have hne : errno ≠ EINTR := by
        intro h
        apply hno
        rw [h]
        exact List.mem_cons_self _ _
      simp only [get_users_loop, enum_spec, transient_error, Bool.or_eq_true,
        decide_eq_true_eq]
      by_cases ht : errno = EIO
      · rw [if_pos ht]
        by_cases h1 : 1 < attempts
        · rw [if_pos (by omega), if_pos ⟨Or.inl ht, h1⟩]
          have := ih hno2 (attempts - 1) (st.1, st.2 + 1) (by omega)
          have hc : ((attempts - 1 : Nat) : Int) = (attempts : Int) - 1 := by omega
          rw [hc] at this
          rw [this]
          simp only [Prod.mk.injEq, true_and]
          omega
        · rw [if_neg (by omega), if_neg (by intro h; exact h1 h.2)]
          rfl
      · rw [if_neg ht, if_neg (by omega),
          if_neg (by intro h; rcases h.1 with h2 | h2; exact ht h2; exact hne h2)]
        rfl

/-- C24: the first lookup fails with `EINTR`, the second would return the
entry `bob`. `get_users` tests `errno == EIO` alone: it makes one lookup
and builds an empty table, where `get_groups`, which tests
`errno == EIO || errno == EINTR`, and the retry rule of the specification
make the second lookup and hold the entry. With I/O errors both loops
retry: two failures are passed, the third in a row ends the enumeration
with the entries returned so far, in order. -/
theorem get_users_eintr_no_retry :
    get_users_loop sample_script_eintr 3 (strid_empty, 0) = (strid_empty, 1) ∧
    (get_users sample_script_eintr (fun _ => 0)).count = 0 ∧
    get_groups_loop sample_script_eintr 3 (strid_empty, 0) =
      ({ elems := [([98, 111, 98], 7)], count := 1, maxchars := 4 }, 3) ∧
    (get_groups sample_script_eintr (fun _ => 0)).count = 1 ∧
    enum_spec sample_script_eintr 3 = ([([98, 111, 98], 7)], 3) ∧
    (get_users_loop sample_script_eio 3 (strid_empty, 0)).1.elems =
      [([98, 111, 98], 7), ([104, 114], 8)] ∧
    (get_users_loop sample_script_eio 3 (strid_empty, 0)).2 = 7 ∧
    get_groups_loop sample_script_eio 3 (strid_empty, 0) =
      get_users_loop sample_script_eio 3 (strid_empty, 0) ∧
    get_users_loop [.null 13, .entry [98, 111, 98] 7] 3 (strid_empty, 0) = (strid_empty, 1) ∧
    get_groups_loop [.null 13, .entry [98, 111, 98] 7] 3 (strid_empty, 0) =
      (strid_empty, 1) := by
  decide

/-! ## Start of the file records for reader and writer (C21) -/

theorem read_cache_v2_disp_eq (fh : cache_file) (disp rank ranks raw_offset : Nat)
    (raw_elems : Nat → elem_t) (flist : flist_t) :
    (read_cache_v2 fh disp rank ranks raw_offset raw_elems flist).2.1 =
      if (MPI_File_read_u64 fh disp 4).getD 2 0 > 0 ∧ (MPI_File_read_u64 fh disp 4).getD 3 0 > 0
      then read_cache_v2_files_disp disp + (MPI_File_read_u64 fh disp 4).getD 2 0 *
        MPI_Type_get_extent (create_stattype 0 ((MPI_File_read_u64 fh disp 4).getD 3 0))
      else read_cache_v2_files_disp disp := rfl

theorem read_cache_v3_disp_eq (fh : cache_file) (disp rank ranks raw_offset : Nat)
    (flist : flist_t) :
    (read_cache_v3 fh disp rank ranks raw_offset flist).2.1 =
      if (MPI_File_read_u64 fh disp 8).getD 6 0 > 0 ∧ (MPI_File_read_u64 fh disp 8).getD 7 0 > 0
      then read_cache_v3_files_disp fh disp flist + (MPI_File_read_u64 fh disp 8).getD 6 0 *
        MPI_Type_get_extent (create_stattype 1 ((MPI_File_read_u64 fh disp 8).getD 7 0))
      else read_cache_v3_files_disp fh disp flist := rfl

theorem write_cache_readdir_disp_eq (walk_start walk_end : Nat) (world : List flist_t)
    (rank : Nat) (flist : flist_t) (raw : Nat → Nat) (raw_offset : Nat) (fh : cache_file) :
    write_cache_readdir walk_start walk_end world rank flist raw raw_offset fh =
      match (list_convert_to_dt world flist raw).dt with
      | some dt =>
        write_files
          (if rank = 0 then MPI_File_write_u64 fh 0
            [2, walk_start, walk_end, flist.total_files, (list_convert_to_dt world flist raw).chars]
           else fh)
          write_cache_readdir_files_disp (MPI_Type_get_extent dt)
          (write_offset_records (world.map fun f => (list_convert_to_dt world f raw).count)
            rank raw_offset)
          ((list_convert_to_dt world flist raw).buf.getD [])
          (list_convert_to_dt world flist raw).count
      | none =>
        if rank = 0 then MPI_File_write_u64 fh 0
          [2, walk_start, walk_end, flist.total_files, (list_convert_to_dt world flist raw).chars]
        else fh := rfl

theorem write_names_disp (fh : cache_file) (disp rank : Nat) (items : buf_t) :
    (write_names fh disp rank items).2 =
      match items.dt with
      | some dt => disp + items.count * MPI_Type_get_extent dt
      | none => disp := by
  unfold write_names
  cases items.dt <;> rfl

theorem write_cache_stat_disp_eq (walk_start walk_end : Nat) (world : List flist_t)
    (rank : Nat) (flist : flist_t) (raw : Nat → Nat) (raw_offset : Nat) (fh : cache_file) :
    ∃ fh2 : cache_file,
      write_cache_stat walk_start walk_end world rank flist raw raw_offset fh =
        match (list_convert_to_dt world flist raw).dt with
        | some dt =>
          write_files fh2
            (write_cache_stat_files_disp rank flist
              (if rank = 0 then MPI_File_write_u64 fh 0
                [3, walk_start, walk_end, flist.users.count, flist.users.chars,
                  flist.groups.count, flist.groups.chars, flist.total_files,
                  (list_convert_to_dt world flist raw).chars]
               else fh))
            (MPI_Type_get_extent dt)
            (write_offset_records (world.map fun f => (list_convert_to_dt world f raw).count)
              rank raw_offset)
            ((list_convert_to_dt world flist raw).buf.getD [])
            (list_convert_to_dt world flist raw).count
        | none => fh2 :=
  ⟨_, rfl⟩

/-- The displacement after a name table, for reader and writer alike: the
table's count times the extent of its frame, nothing for an empty table. -/
theorem names_disp_agree (fh fh2 : cache_file) (disp rank : Nat) (items header : buf_t)
    (hok : table_ok items) (hc : header.count = items.count) (hs : header.chars = items.chars) :
    (read_names fh disp header).2 = (write_names fh2 disp rank items).2 ∧
    (write_names fh2 disp rank items).2 =
      disp + items.count * MPI_Type_get_extent (create_stridtype items.chars) := by
  rw [write_names_disp]
  unfold read_names
  rw [hc, hs]
  by_cases h0 : items.count > 0
  · obtain ⟨h1, h2⟩ := hok h0
    rw [if_pos ⟨h0, h1⟩, h2]
    exact ⟨rfl, rfl⟩
  · have hz : items.count = 0 := by omega
    rw [if_neg (by omega), hz]
    cases items.dt <;> simp

theorem MPI_File_read_u64_tail (fh : cache_file) (pos v : Nat) (vs : List Nat) :
    MPI_File_read_u64 (MPI_File_write_u64 fh pos (v :: vs)) (pos + 8) vs.length = vs :=
  MPI_File_read_write_u64 vs _ (pos + 8)

/-- The header that a reader finds after the version word of a cache
written from detailed lists. -/
theorem read_header_v3_of_world (f0 : flist_t) (rest : List flist_t) (raw : Nat → Nat)
    (raw_offset : Nat) (hd : f0.detail ≠ 0) :
    MPI_File_read_u64 (write_cache_world (f0 :: rest) raw raw_offset) read_cache_start 8 =
      [0, 0, f0.users.count, f0.users.chars, f0.groups.count, f0.groups.chars,
        f0.total_files, (list_convert_to_dt (f0 :: rest) f0 raw).chars] := by
  have hw := write_cache_world_words f0 rest raw raw_offset
  unfold bayer_flist_write_cache at hw
  rw [if_pos hd, write_cache_stat_words, if_pos rfl] at hw
  rw [MPI_File_read_u64_congr _ _ hw]
  exact MPI_File_read_u64_tail cache_file_empty 0 3 _

/-- C21: the reader and the writer come to the file records at the same
displacement. Version 2: 8 bytes of version and 4 header words on the
reading side, 5 header words on the writing side, 40 either way. Version
3, for a cache written from detailed lists whose name tables are as
`get_users` and `get_groups` make them (a positive stride and the
datatype of that stride whenever the count is positive; empty tables
included): the reader, from the header it finds in the file, and the
writer, from its tables, both come to 72 plus the users count times the
extent of the user frame plus the groups count times the extent of the
group frame. -/
theorem records_start_agree (f0 : flist_t) (rest : List flist_t) (raw : Nat → Nat)
    (raw_offset : Nat) (flist : flist_t) (fh : cache_file) (rank : Nat)
    (hd : f0.detail ≠ 0) (hu : table_ok f0.users) (hg : table_ok f0.groups) :
    (read_cache_v2_files_disp read_cache_start = write_cache_readdir_files_disp ∧
      write_cache_readdir_files_disp = 5 * 8) ∧
    (read_cache_v3_files_disp (write_cache_world (f0 :: rest) raw raw_offset)
        read_cache_start flist = write_cache_stat_files_disp rank f0 fh ∧
      write_cache_stat_files_disp rank f0 fh =
        9 * 8 + f0.users.count * MPI_Type_get_extent (create_stridtype f0.users.chars) +
          f0.groups.count * MPI_Type_get_extent (create_stridtype f0.groups.chars)) := by
  refine ⟨⟨rfl, rfl⟩, ?_⟩
  have hhead := read_header_v3_of_world f0 rest raw raw_offset hd
  unfold read_cache_v3_files_disp write_cache_stat_files_disp
  simp only [hhead, List.getD_cons_zero, List.getD_cons_succ]
  generalize write_cache_world (f0 :: rest) raw raw_offset = fw
  have h1 := names_disp_agree fw fh (read_cache_start + 8 * 8) rank f0.users
    { buf := flist.users.buf, count := f0.users.count, chars := f0.users.chars,
      dt := flist.users.dt } hu rfl rfl
  have e1 : (write_names fh (read_cache_start + 8 * 8) rank f0.users) =
      (write_names fh (0 + 9 * 8) rank f0.users) := rfl
  rw [e1] at h1
  rw [h1.1]
  have h2 := names_disp_agree fw (write_names fh (0 + 9 * 8) rank f0.users).1
    (write_names fh (0 + 9 * 8) rank f0.users).2 rank f0.groups
    { buf := flist.groups.buf, count := f0.groups.count, chars := f0.groups.chars,
      dt := flist.groups.dt } hg rfl rfl
  rw [h2.1, h2.2, h1.2]
  exact ⟨rfl, rfl⟩

/-- The statement of `records_start_agree` for a cache written from two
detailed lists with a user table of stride 4 and a group table of
stride 3, one entry each. -/
theorem records_start_agree_witness :
    (sample_shard_stride4.detail ≠ 0 ∧ table_ok sample_shard_stride4.users ∧
      table_ok sample_shard_stride4.groups ∧ sample_shard_stride4.users.count = 1) ∧
    ((read_cache_v2_files_disp read_cache_start = write_cache_readdir_files_disp ∧
      write_cache_readdir_files_disp = 5 * 8) ∧
    (read_cache_v3_files_disp
        (write_cache_world (sample_shard_stride4 :: [sample_shard1]) sample_raw_bytes 99)
        read_cache_start (bayer_flist_new sample_raw_list) =
          write_cache_stat_files_disp 0 sample_shard_stride4 cache_file_empty ∧
      write_cache_stat_files_disp 0 sample_shard_stride4 cache_file_empty =
        9 * 8 + sample_shard_stride4.users.count *
            MPI_Type_get_extent (create_stridtype sample_shard_stride4.users.chars) +
          sample_shard_stride4.groups.count *
            MPI_Type_get_extent (create_stridtype sample_shard_stride4.groups.chars))) :=
  ⟨⟨by decide, by decide, by decide, by decide⟩,
    records_start_agree sample_shard_stride4 [sample_shard1] sample_raw_bytes 99
      (bayer_flist_new sample_raw_list) cache_file_empty 0 (by decide) (by decide)
      (by decide)⟩

/-- The displacements of the sample cache, computed: the file records
start at byte 87 = 72 + 1 * 8 + 1 * 7. -/
theorem records_start_sample :
    read_cache_v3_files_disp
      (write_cache_world (sample_shard_stride4 :: [sample_shard1]) sample_raw_bytes 99)
      read_cache_start (bayer_flist_new sample_raw_list) = 87 ∧
    write_cache_stat_files_disp 0 sample_shard_stride4 cache_file_empty = 87 := by
  decide

theorem strid_insert_inv (name : List Nat) (id : Nat) (l : strid_list)
    (h : (l.count = 0 ∧ l.maxchars = 0) ∨ (0 < l.count ∧ 4 ≤ l.maxchars)) :
    0 < (strid_insert name id l).count ∧ 4 ≤ (strid_insert name id l).maxchars := by
  simp only [strid_insert]
  generalize strlen name = s
  constructor
  · rcases h with h | h <;> omega
  · split_ifs <;> push_cast <;> omega

theorem get_users_loop_inv (script : List getent_result) :
    ∀ (retries : Int) (st : strid_list × Nat),
      (st.1.count = 0 ∧ st.1.maxchars = 0) ∨ (0 < st.1.count ∧ 4 ≤ st.1.maxchars) →
      ((get_users_loop script retries st).1.count = 0 ∧
        (get_users_loop script retries st).1.maxchars = 0) ∨
      (0 < (get_users_loop script retries st).1.count ∧
        4 ≤ (get_users_loop script retries st).1.maxchars) := by
  induction script with
  | nil => intro retries st h; exact h
  | cons r rest ih =>
    intro retries st h
    cases r with
    | entry name id =>
      simp only [get_users_loop]
      exact ih 3 _ (Or.inr (strid_insert_inv name _ st.1 h))
    | null errno =>
      simp only [get_users_loop]
      split_ifs <;> first | exact ih _ _ h | exact h

theorem get_groups_loop_inv (script : List getent_result) :
    ∀ (retries : Int) (st : strid_list × Nat),
      (st.1.count = 0 ∧ st.1.maxchars = 0) ∨ (0 < st.1.count ∧ 4 ≤ st.1.maxchars) →
      ((get_groups_loop script retries st).1.count = 0 ∧
        (get_groups_loop script retries st).1.maxchars = 0) ∨
      (0 < (get_groups_loop script retries st).1.count ∧
        4 ≤ (get_groups_loop script retries st).1.maxchars) := by
  induction script with
  | nil => intro retries st h; exact h
  | cons r rest ih =>
    intro retries st h
    cases r with
    | entry name id =>
      simp only [get_groups_loop]
      exact ih 3 _ (Or.inr (strid_insert_inv name _ st.1 h))
    | null errno =>
      simp only [get_groups_loop]
      split_ifs <;> first | exact ih _ _ h | exact h

theorem strid_table_ok (l : strid_list)
    (h : (l.count = 0 ∧ l.maxchars = 0) ∨ (0 < l.count ∧ 4 ≤ l.maxchars)) (raw : Nat → Nat) :
    table_ok (strid_table l raw) ∧
    ((strid_table l raw).count > 0 → 4 ≤ (strid_table l raw).chars) := by
  unfold table_ok strid_table
  simp only
  refine ⟨fun hc => ⟨?_, trivial⟩, fun hc => ?_⟩
  · rcases h with h | h <;> omega
  · rcases h with h | h <;> omega

/-- The tables that `get_users` and `get_groups` make meet `table_ok`,
with a stride of at least 4 whenever the count is positive. -/
theorem get_users_table_ok (script : List getent_result) (raw : Nat → Nat) :
    (table_ok (get_users script raw) ∧
      ((get_users script raw).count > 0 → 4 ≤ (get_users script raw).chars)) ∧
    (table_ok (get_groups script raw) ∧
      ((get_groups script raw).count > 0 → 4 ≤ (get_groups script raw).chars)) :=
  ⟨strid_table_ok _ (get_users_loop_inv script 3 (strid_empty, 0) (Or.inl ⟨rfl, rfl⟩)) raw,
    strid_table_ok _ (get_groups_loop_inv script 3 (strid_empty, 0) (Or.inl ⟨rfl, rfl⟩)) raw⟩

/-! ## Name tables packed and rebuilt (C25) -/

theorem map_find_map_set_ne {κ ν : Type} [DecidableEq κ] (m : List (κ × ν)) (k key : κ) (v : ν)
    (h : k ≠ key) : map_find (map_set m k v) key = map_find m key := by
  unfold map_find map_set
  rw [List.find?_cons_of_neg _ (by simpa using h)]
  congr 1
  induction m with
  | nil => rfl
  | cons p ps ih =>
    by_cases hp : p.1 = k
    · rw [List.filter_cons_of_neg (by simpa using hp)]
      rw [ih, List.find?_cons_of_neg _ (by simp [hp, h])]
    · rw [List.filter_cons_of_pos (by simpa using hp)]
      by_cases hk : p.1 = key
      · rw [List.find?_cons_of_pos _ (by simpa using hk),
          List.find?_cons_of_pos _ (by simpa using hk)]
      · rw [List.find?_cons_of_neg _ (by simpa using hk),
          List.find?_cons_of_neg _ (by simpa using hk), ih]

/-- Successive assignments to a map: a key reads as the value of the last
pair that assigned it, or as before when none did. -/
theorem map_find_foldl {α κ ν : Type} [DecidableEq κ] (key_of : α → κ) (val_of : α → ν)
    (pairs : List α) : ∀ (m : List (κ × ν)) (key : κ),
      map_find (pairs.foldl (fun m p => map_set m (key_of p) (val_of p)) m) key =
        match pairs.reverse.find? (fun p => key_of p = key) with
        | some p => some (val_of p)
        | none => map_find m key := by
  induction pairs with
  | nil => intro m key; rfl
  | cons p ps ih =>
    intro m key
    rw [List.foldl_cons, ih, List.reverse_cons, List.find?_append]
    cases hps : ps.reverse.find? (fun p => key_of p = key) with
    | some q => rfl
    | none =>
      simp only [Option.none_or]
      by_cases hk : key_of p = key
      · rw [List.find?_cons_of_pos _ (by simpa using hk), ← hk, map_find_map_set]
      · rw [List.find?_cons_of_neg _ (by simpa using hk), List.find?_nil,
          map_find_map_set_ne _ _ _ _ hk]

theorem create_maps_loop_eq (buf : List Nat) (chars : Nat) :
    ∀ (count ptr : Nat) (maps : List (List Nat × Nat) × List (Nat × List Nat)),
      create_maps_loop buf chars count ptr maps =
        ((List.range count).map fun i => decode_lite buf (ptr + i * (chars + 4)) chars).foldl
          (fun m p => (map_set m.1 p.1 p.2, map_set m.2 p.2 p.1)) maps := by
  intro count
  induction count with
  | zero => intro ptr maps; rfl
  | succ n ih =>
    intro ptr maps
    rw [List.range_succ_eq_map, List.map_cons, List.foldl_cons, List.map_map]
    simp only [create_maps_loop]
    rw [ih]
    have h0 : decode_lite buf (ptr + 0 * (chars + 4)) chars =
        (bayer_strdup (buf.drop ptr), load_u32 buf (ptr + chars)) := by
      simp [decode_lite]
    rw [h0]
    congr 1
    apply List.map_congr_left
    intro i _
    simp only [Function.comp_apply]
    have : ptr + chars + 4 + i * (chars + 4) = ptr + (i + 1) * (chars + 4) := by
      rw [Nat.succ_mul]; omega
    rw [this]

theorem foldl_pair_maps (pairs : List (List Nat × Nat)) :
    ∀ (m : List (List Nat × Nat) × List (Nat × List Nat)),
      pairs.foldl (fun m p => (map_set m.1 p.1 p.2, map_set m.2 p.2 p.1)) m =
        (pairs.foldl (fun m p => map_set m p.1 p.2) m.1,
          pairs.foldl (fun m p => map_set m p.2 p.1) m.2) := by
  induction pairs with
  | nil => intro m; rfl
  | cons p ps ih => intro m; rw [List.foldl_cons, ih]; rfl

theorem strid_serialize_eq (elems : List (List Nat × Nat)) (chars : Nat) (buf : List Nat) :
    strid_serialize elems chars buf =
      ((elems.map strid_elem).foldl (convert_elem 0 chars) (buf, 0)).1 := by
  unfold strid_serialize
  rw [List.foldl_map]
  rfl

theorem strid_insert_all_elems (pairs : List (List Nat × Nat)) :
    ∀ (l : strid_list),
      (pairs.foldl (fun l p => strid_insert p.1 p.2 l) l).elems =
        l.elems ++ pairs.map (fun p => (bayer_strdup p.1, p.2)) ∧
      (pairs.foldl (fun l p => strid_insert p.1 p.2 l) l).count = l.count + pairs.length := by
  induction pairs with
  | nil => intro l; simp
  | cons p ps ih =>
    intro l
    rw [List.foldl_cons]
    obtain ⟨h1, h2⟩ := ih (strid_insert p.1 p.2 l)
    rw [h1, h2]
    simp only [strid_insert, List.append_assoc, List.singleton_append, List.map_cons,
      List.length_cons, Nat.cast_add, Nat.cast_one]
    exact ⟨trivial, by omega⟩

theorem strid_insert_all_fits (p : List Nat × Nat) (ps : List (List Nat × Nat)) :
    ∀ q ∈ p :: ps, ((strlen q.1 : Nat) : Int) + 1 ≤ (strid_insert_all (p :: ps)).maxchars := by
  have h1 := strid_insert_maxchars p.1 p.2 strid_empty 0 (Or.inl ⟨rfl, rfl⟩)
  have h2 := strid_foldl_maxchars ps _ _ h1
  have hL : (List.map (fun p => strlen p.1) ps).foldl max (max 0 (strlen p.1)) =
      longest_name (p :: ps) := by
    rw [foldl_max_eq_foldr]
    simp [longest_name]
  rw [hL] at h2
  have hrun : strid_insert_all (p :: ps) =
      ps.foldl (fun l p => strid_insert p.1 p.2 l) (strid_insert p.1 p.2 strid_empty) := rfl
  rw [hrun]
  intro q hq
  have hle : strlen q.1 ≤ longest_name (p :: ps) :=
    le_foldr_max _ _ (List.mem_map.mpr ⟨q, hq, rfl⟩)
  have := h2.2.1
  omega

theorem stridtype_extent (chars : Nat) :
    MPI_Type_get_extent (create_stridtype chars) = chars + 4 := by
  simp [MPI_Type_get_extent, create_stridtype]

/-- The table packed from a sequence of pairs decodes, frame by frame, to
the pairs. -/
theorem strid_table_decode (pairs : List (List Nat × Nat)) (raw : Nat → Nat)
    (hnul : ∀ p ∈ pairs, ∀ c ∈ p.1, c ≠ 0) (hid : ∀ p ∈ pairs, p.2 < 2 ^ 32) :
    (strid_table (strid_insert_all pairs) raw).count = pairs.length ∧
    (List.range pairs.length).map
      (fun i => decode_lite ((strid_table (strid_insert_all pairs) raw).buf.getD [])
        (0 + i * ((strid_table (strid_insert_all pairs) raw).chars + 4))
        (strid_table (strid_insert_all pairs) raw).chars) = pairs := by
  have helems := strid_insert_all_elems pairs strid_empty
  have hstr : pairs.map (fun p => (bayer_strdup p.1, p.2)) = pairs := by
    conv_rhs => rw [← List.map_id pairs]
    apply List.map_congr_left
    intro p hp
    simp only [id, bayer_strdup_of_no_nul p.1 (hnul p hp)]
  have he : (strid_insert_all pairs).elems = pairs := by
    unfold strid_insert_all
    rw [helems.1, hstr]
    rfl
  have hc : (strid_insert_all pairs).count = (pairs.length : Int) := by
    unfold strid_insert_all
    rw [helems.2]
    simp [strid_empty]
  cases pairs with
  | nil => exact ⟨rfl, rfl⟩
  | cons p ps =>
    have hfits := strid_insert_all_fits p ps
    generalize hl : strid_insert_all (p :: ps) = l at he hc hfits
    generalize hq : p :: ps = pairs at he hc hfits hnul hid
    have hcount : l.count.toNat = pairs.length := by omega
    unfold strid_table
    simp only [hcount, stridtype_extent, he]
    refine ⟨trivial, ?_⟩
    have hpos : pairs.length * (l.maxchars.toNat + 4) > 0 := by
      have : 0 < pairs.length := by rw [← hq]; simp
      exact Nat.mul_pos this (by omega)
    rw [if_pos hpos, Option.getD_some, strid_serialize_eq]
    have hgood : ∀ e ∈ pairs.map strid_elem,
        (e.file.length + 1 ≤ l.maxchars.toNat ∧ ∀ c ∈ e.file, c ≠ 0) ∧ e.type < 2 ^ 32 := by
      intro e hemem
      obtain ⟨q, hqm, rfl⟩ := List.mem_map.mp hemem
      have h1 := hfits q hqm
      rw [strlen_of_no_nul q.1 (hnul q hqm)] at h1
      refine ⟨⟨?_, hnul q hqm⟩, hid q hqm⟩
      show q.1.length + 1 ≤ l.maxchars.toNat
      omega
    have hconv := convert_foldl 0 l.maxchars.toNat (l.maxchars.toNat + 4)
      (fun b p => decode_lite b p l.maxchars.toNat) lite_of
      (fun e => (e.file.length + 1 ≤ l.maxchars.toNat ∧ ∀ c ∈ e.file, c ≠ 0) ∧ e.type < 2 ^ 32)
      (fun b p e hfit hg => convert_elem_lite l.maxchars.toNat b p e hfit hg)
      (pairs.map strid_elem)
      ((List.range (pairs.length * (l.maxchars.toNat + 4))).map raw) 0
      (by simp only [List.length_map, List.length_range]; rw [Nat.mul_comm]; omega) hgood
    have h3 := hconv.2.2
    rw [List.length_map] at h3
    rw [h3, List.map_map]
    conv_rhs => rw [← List.map_id pairs]
    apply List.map_congr_left
    intro q _
    rfl

/-- The maps rebuilt from a sequence of pairs are those that assigning
the pairs in order gives. -/
theorem strid_rebuild_eq (pairs : List (List Nat × Nat)) (raw : Nat → Nat)
    (hnul : ∀ p ∈ pairs, ∀ c ∈ p.1, c ≠ 0) (hid : ∀ p ∈ pairs, p.2 < 2 ^ 32) :
    strid_rebuild pairs raw =
      (pairs.foldl (fun m p => map_set m p.1 p.2) [],
        pairs.foldl (fun m p => map_set m p.2 p.1) []) := by
  obtain ⟨hc, hdec⟩ := strid_table_decode pairs raw hnul hid
  unfold strid_rebuild create_maps
  rw [create_maps_loop_eq, hc, hdec, foldl_pair_maps]

theorem find?_last_of_split {α : Type} (pre post : List α) (p : α) (f : α → Bool)
    (hp : f p = true) (hpost : ∀ q ∈ post, f q = false) :
    (pre ++ p :: post).reverse.find? f = some p := by
  rw [List.reverse_append, List.reverse_cons, List.append_assoc, List.find?_append,
    List.find?_append]
  have h1 : post.reverse.find? f = none := by
    rw [List.find?_eq_none]
    intro q hq
    rw [hpost q (List.mem_reverse.mp hq)]
    simp
  rw [h1]
  simp [hp]

/-- C25: take name/id pairs with NUL-free names and 32-bit ids, insert
them in order with `strid_insert`, pack the list with `strid_serialize`
at the stride reached and rebuild the maps with `create_maps`. Every id
then maps to the name of the last pair with that id, and every name to
the id of the last pair with that name, and to nothing when there is no
such pair; in particular a pair whose id (name) is not repeated later is
found under its id (name). For such an id `get_name_from_id` returns the
name and leaves the map as it is. -/
theorem name_table_round_trip (pairs : List (List Nat × Nat)) (raw : Nat → Nat)
    (hnul : ∀ p ∈ pairs, ∀ c ∈ p.1, c ≠ 0) (hid : ∀ p ∈ pairs, p.2 < 2 ^ 32) :
    (∀ id, map_find (strid_rebuild pairs raw).2 id =
      (pairs.reverse.find? (fun p => p.2 = id)).map (fun p => p.1)) ∧
    (∀ name, map_find (strid_rebuild pairs raw).1 name =
      (pairs.reverse.find? (fun p => p.1 = name)).map (fun p => p.2)) ∧
    (∀ (pre post : List (List Nat × Nat)) (p : List Nat × Nat), pairs = pre ++ p :: post →
      ((∀ q ∈ post, q.2 ≠ p.2) →
        map_find (strid_rebuild pairs raw).2 p.2 = some p.1 ∧
        ∀ chars, get_name_from_id p.2 chars (strid_rebuild pairs raw).2 =
          ((strid_rebuild pairs raw).2, some p.1, 0)) ∧
      ((∀ q ∈ post, q.1 ≠ p.1) →
        map_find (strid_rebuild pairs raw).1 p.1 = some p.2)) := by
  have heq := strid_rebuild_eq pairs raw hnul hid
  have hids : ∀ id, map_find (strid_rebuild pairs raw).2 id =
      (pairs.reverse.find? (fun p => p.2 = id)).map (fun p => p.1) := by
    intro id
    rw [heq]
    show map_find (pairs.foldl (fun m p => map_set m p.2 p.1) []) id = _
    rw [map_find_foldl (fun p : List Nat × Nat => p.2) (fun p => p.1) pairs [] id]
    cases pairs.reverse.find? (fun p => decide (p.2 = id)) <;> rfl
  have hnames : ∀ name, map_find (strid_rebuild pairs raw).1 name =
      (pairs.reverse.find? (fun p => p.1 = name)).map (fun p => p.2) := by
    intro name
    rw [heq]
    show map_find (pairs.foldl (fun m p => map_set m p.1 p.2) []) name = _
    rw [map_find_foldl (fun p : List Nat × Nat => p.1) (fun p => p.2) pairs [] name]
    cases pairs.reverse.find? (fun p => decide (p.1 = name)) <;> rfl
  refine ⟨hids, hnames, ?_⟩
  intro pre post p hsplit
  constructor
  · intro hlater
    have hfound : map_find (strid_rebuild pairs raw).2 p.2 = some p.1 := by
      rw [hids, hsplit, find?_last_of_split pre post p _ (by simp)
        (fun q hq => by simpa using hlater q hq)]
      rfl
    refine ⟨hfound, ?_⟩
    intro chars
    unfold get_name_from_id
    rw [hfound]
  · intro hlater
    rw [hnames, hsplit, find?_last_of_split pre post p _ (by simp)
      (fun q hq => by simpa using hlater q hq)]
    rfl

/-- The statement of `name_table_round_trip` for four pairs with a
repeated id and a repeated name. -/
theorem name_table_round_trip_witness :
    ((∀ p ∈ sample_pairs, ∀ c ∈ p.1, c ≠ 0) ∧ (∀ p ∈ sample_pairs, p.2 < 2 ^ 32) ∧
      sample_pairs = [([98, 111, 98], 7)] ++ ([104, 114], 8) ::
        [([97, 108], 7), ([98, 111, 98], 9)] ∧
      (∀ q ∈ [(([97, 108], 7) : List Nat × Nat), ([98, 111, 98], 9)], q.2 ≠ 8) ∧
      (∀ q ∈ [(([97, 108], 7) : List Nat × Nat), ([98, 111, 98], 9)], q.1 ≠ [104, 114])) ∧
    ((∀ id, map_find (strid_rebuild sample_pairs (fun _ => 170)).2 id =
      (sample_pairs.reverse.find? (fun p => p.2 = id)).map (fun p => p.1)) ∧
    (∀ name, map_find (strid_rebuild sample_pairs (fun _ => 170)).1 name =
      (sample_pairs.reverse.find? (fun p => p.1 = name)).map (fun p => p.2)) ∧
    (∀ (pre post : List (List Nat × Nat)) (p : List Nat × Nat),
      sample_pairs = pre ++ p :: post →
      ((∀ q ∈ post, q.2 ≠ p.2) →
        map_find (strid_rebuild sample_pairs (fun _ => 170)).2 p.2 = some p.1 ∧
        ∀ chars, get_name_from_id p.2 chars (strid_rebuild sample_pairs (fun _ => 170)).2 =
          ((strid_rebuild sample_pairs (fun _ => 170)).2, some p.1, 0)) ∧
      ((∀ q ∈ post, q.1 ≠ p.1) →
        map_find (strid_rebuild sample_pairs (fun _ => 170)).1 p.1 = some p.2))) :=
  ⟨⟨by decide, by decide, by decide, by decide, by decide⟩,
    name_table_round_trip sample_pairs (fun _ => 170) (by decide) (by decide)⟩

/-- The maps rebuilt from the sample pairs, computed: id 7 names `al`, the
later of its two pairs, and `bob` has id 9. -/
theorem name_table_sample :
    strid_rebuild sample_pairs (fun _ => 170) =
      ([([98, 111, 98], 9), ([97, 108], 7), ([104, 114], 8)],
        [(9, [98, 111, 98]), (7, [97, 108]), (8, [104, 114])]) ∧
    get_name_from_id 7 4 (strid_rebuild sample_pairs (fun _ => 170)).2 =
      ((strid_rebuild sample_pairs (fun _ => 170)).2, some [97, 108], 0) := by
  decide

/-! ## A cache written from lists that carry their total, read back -/

theorem peek_drop (buf : List Nat) (p k : Nat) : peek (buf.drop p) k = peek buf (p + k) := by
  unfold peek
  rw [List.getElem?_drop]

theorem load_u32_drop (buf : List Nat) (p k : Nat) :
    load_u32 (buf.drop p) k = load_u32 buf (p + k) := by
  unfold load_u32
  simp only [peek_drop, Nat.add_assoc]

theorem load_u64_drop (buf : List Nat) (p k : Nat) :
    load_u64 (buf.drop p) k = load_u64 buf (p + k) := by
  unfold load_u64
  simp only [load_u32_drop, Nat.add_assoc]

/-- Decoding at `ptr` reads the buffer from `ptr` on only. -/
theorem decode_detail_drop (buf : List Nat) (ptr chars : Nat) :
    decode_detail buf ptr chars = decode_detail (buf.drop ptr) 0 chars := by
  unfold decode_detail
  simp only [load_u32_drop, load_u64_drop, List.drop_drop, Nat.add_zero, Nat.zero_add,
    Nat.add_assoc]

theorem decode_lite_drop (buf : List Nat) (ptr chars : Nat) :
    decode_lite buf ptr chars = decode_lite (buf.drop ptr) 0 chars := by
  unfold decode_lite
  simp only [load_u32_drop, List.drop_drop, Nat.add_zero, Nat.zero_add]

theorem bayer_strdup_append (s t : List Nat) (h : (bayer_strdup s).length < s.length) :
    bayer_strdup (s ++ t) = bayer_strdup s := by
  induction s with
  | nil => simp at h
  | cons c cs ih =>
    simp only [List.cons_append, bayer_strdup]
    by_cases hc : c = 0
    · simp [hc]
    · simp only [hc, if_false, List.cons.injEq, true_and]
      apply ih
      simp only [bayer_strdup, hc, if_false, List.length_cons] at h
      omega

/-- A packed detailed item followed by other bytes decodes as the item
alone, when the path in it ends within the item. -/
theorem decode_detail_append (fr rest : List Nat) (chars : Nat)
    (hlen : fr.length = chars + 32) (hnul : (bayer_strdup fr).length < fr.length) :
    decode_detail (fr ++ rest) 0 chars = decode_detail fr 0 chars := by
  have hget : ∀ a, a < fr.length → (fr ++ rest)[a]? = fr[a]? := fun a ha =>
    List.getElem?_append_left ha
  unfold decode_detail
  simp only [List.drop_zero, Nat.zero_add]
  rw [bayer_strdup_append fr rest hnul,
    load_u32_congr (fr ++ rest) fr chars (fun a _ h2 => hget a (by omega)),
    load_u32_congr (fr ++ rest) fr (chars + 4) (fun a _ h2 => hget a (by omega)),
    load_u32_congr (fr ++ rest) fr (chars + 8) (fun a _ h2 => hget a (by omega)),
    load_u32_congr (fr ++ rest) fr (chars + 12) (fun a _ h2 => hget a (by omega)),
    load_u32_congr (fr ++ rest) fr (chars + 16) (fun a _ h2 => hget a (by omega)),
    load_u32_congr (fr ++ rest) fr (chars + 20) (fun a _ h2 => hget a (by omega)),
    load_u64_congr (fr ++ rest) fr (chars + 24) (fun a _ h2 => hget a (by omega))]

theorem decode_lite_append (fr rest : List Nat) (chars : Nat)
    (hlen : fr.length = chars + 4) (hnul : (bayer_strdup fr).length < fr.length) :
    decode_lite (fr ++ rest) 0 chars = decode_lite fr 0 chars := by
  have hget : ∀ a, a < fr.length → (fr ++ rest)[a]? = fr[a]? := fun a ha =>
    List.getElem?_append_left ha
  unfold decode_lite
  simp only [List.drop_zero, Nat.zero_add]
  rw [bayer_strdup_append fr rest hnul,
    load_u32_congr (fr ++ rest) fr chars (fun a _ h2 => hget a (by omega))]

/-- Cutting a buffer of `n` items into its items and joining them gives
the buffer. -/
theorem chunks_flatten (ext : Nat) : ∀ (n : Nat) (B : List Nat), B.length = n * ext →
    ((List.range n).map fun i => (B.drop (i * ext)).take ext).flatten = B := by
  intro n
  induction n with
  | zero =>
    intro B h
    have : B = [] := List.length_eq_zero.mp (by simpa using h)
    simp [this]
  | succ n ih =>
    intro B h
    rw [List.range_succ_eq_map, List.map_cons, List.map_map, List.flatten_cons]
    have hfun : ((fun i => (B.drop (i * ext)).take ext) ∘ Nat.succ) =
        fun i => ((B.drop ext).drop (i * ext)).take ext := by
      funext i
      simp only [Function.comp_apply, List.drop_drop]
      congr 2
      rw [Nat.succ_mul]; omega
    rw [hfun, ih (B.drop ext) (by rw [List.length_drop, h, Nat.succ_mul]; omega)]
    simp

theorem chunk_length (ext n : Nat) (B : List Nat) (h : B.length = n * ext) (i : Nat)
    (hi : i < n) : ((B.drop (i * ext)).take ext).length = ext := by
  rw [List.length_take, List.length_drop, h]
  have : (i + 1) * ext ≤ n * ext := Nat.mul_le_mul_right ext hi
  rw [Nat.succ_mul] at this
  omega

/-- The bytes of a run of items from item `i` on start with item `i`. -/
theorem flatten_drop_item (ext : Nat) (W : List (List Nat)) :
    (∀ fr ∈ W, fr.length = ext) → ∀ (i : Nat) (fr : List Nat), W[i]? = some fr →
      W.flatten.drop (i * ext) = fr ++ (W.drop (i + 1)).flatten := by
  induction W with
  | nil => intro _ i fr h; simp at h
  | cons f fs ih =>
    intro hlen i fr h
    have hf : f.length = ext := hlen f (by simp)
    rw [List.flatten_cons]
    cases i with
    | zero =>
      simp only [List.getElem?_cons_zero, Option.some.injEq] at h
      subst h
      simp
    | succ j =>
      simp only [List.getElem?_cons_succ] at h
      have hpos : (j + 1) * ext = f.length + j * ext := by rw [Nat.succ_mul, hf]; omega
      rw [hpos, List.drop_append]
      simpa using ih (fun x hx => hlen x (by simp [hx])) j fr h

/-- Decoding the `i`-th item of a buffer made of whole items gives what
the item alone decodes to. -/
theorem decode_detail_window (chars : Nat) (W : List (List Nat))
    (hW : ∀ fr ∈ W, fr.length = chars + 32 ∧ (bayer_strdup fr).length < fr.length) :
    (List.range W.length).map (fun i => decode_detail W.flatten (i * (chars + 32)) chars) =
      W.map (fun fr => decode_detail fr 0 chars) := by
  apply List.ext_getElem?
  intro i
  rw [List.getElem?_map, List.getElem?_map]
  by_cases hi : i < W.length
  · rw [List.getElem?_range hi, List.getElem?_eq_getElem hi]
    simp only [Option.map_some', Option.some.injEq]
    rw [decode_detail_drop,
      flatten_drop_item (chars + 32) W (fun fr h => (hW fr h).1) i _ (List.getElem?_eq_getElem hi)]
    exact decode_detail_append _ _ chars (hW _ (List.getElem_mem hi)).1
      (hW _ (List.getElem_mem hi)).2
  · rw [List.getElem?_eq_none (by simp; omega), List.getElem?_eq_none (by omega)]
    rfl

theorem decode_lite_window (chars : Nat) (W : List (List Nat))
    (hW : ∀ fr ∈ W, fr.length = chars + 4 ∧ (bayer_strdup fr).length < fr.length) :
    (List.range W.length).map (fun i => decode_lite W.flatten (i * (chars + 4)) chars) =
      W.map (fun fr => decode_lite fr 0 chars) := by
  apply List.ext_getElem?
  intro i
  rw [List.getElem?_map, List.getElem?_map]
  by_cases hi : i < W.length
  · rw [List.getElem?_range hi, List.getElem?_eq_getElem hi]
    simp only [Option.map_some', Option.some.injEq]
    rw [decode_lite_drop,
      flatten_drop_item (chars + 4) W (fun fr h => (hW fr h).1) i _ (List.getElem?_eq_getElem hi)]
    exact decode_lite_append _ _ chars (hW _ (List.getElem_mem hi)).1
      (hW _ (List.getElem_mem hi)).2
  · rw [List.getElem?_eq_none (by simp; omega), List.getElem?_eq_none (by omega)]
    rfl

theorem convert_chars (world : List flist_t) (flist : flist_t) (raw : Nat → Nat) :
    (list_convert_to_dt world flist raw).chars = MPI_Allreduce_max (world.map list_local_max8) ∧
    (list_convert_to_dt world flist raw).count =
      if MPI_Allreduce_max (world.map list_local_max8) ≤ 0 then 0
      else (list_elems flist).length := by
  unfold list_convert_to_dt
  simp only
  by_cases h : MPI_Allreduce_max (world.map list_local_max8) ≤ 0
  · rw [if_pos h, if_pos h]
    exact ⟨by simp only; omega, rfl⟩
  · rw [if_neg h, if_neg h]
    exact ⟨rfl, rfl⟩

/-- The buffer that `list_convert_to_dt` packs for a detailed shard holds
one item of `chars + 32` bytes per record, and each item alone decodes to
its record. -/
theorem packed_detail_items (world : List flist_t) (flist : flist_t) (raw : Nat → Nat)
    (hmem : flist ∈ world) (hdetail : flist.detail ≠ 0)
    (hnul : ∀ e ∈ list_elems flist, ∀ c ∈ e.file, c ≠ 0)
    (hrange : ∀ e ∈ list_elems flist, fields_in_range e)
    (hA : 0 < MPI_Allreduce_max (world.map list_local_max8)) :
    (list_convert_to_dt world flist raw).dt =
      some (create_stattype flist.detail (MPI_Allreduce_max (world.map list_local_max8))) ∧
    (list_convert_to_dt world flist raw).count = (list_elems flist).length ∧
    ((list_convert_to_dt world flist raw).buf.getD []).length =
      (list_elems flist).length * (MPI_Allreduce_max (world.map list_local_max8) + 32) ∧
    (List.range (list_elems flist).length).map
      (fun i => decode_detail
        ((((list_convert_to_dt world flist raw).buf.getD []).drop
          (i * (MPI_Allreduce_max (world.map list_local_max8) + 32))).take
          (MPI_Allreduce_max (world.map list_local_max8) + 32)) 0
        (MPI_Allreduce_max (world.map list_local_max8))) =
      (list_elems flist).map detail_of := by
  have hgood := shard_fits world flist hmem _ hnul hrange
  unfold list_convert_to_dt
  simp only
  generalize MPI_Allreduce_max (world.map list_local_max8) = A at hgood hA ⊢
  rw [if_neg (by omega)]
  simp only
  rw [stattype_extent_detail flist.detail hdetail]
  refine ⟨trivial, trivial, ?_⟩
  by_cases h0 : bayer_malloc_null ((A + 32) * (list_elems flist).length)
  · have hnil : list_elems flist = [] := by
      have : (list_elems flist).length = 0 := by
        rcases Nat.mul_eq_zero.mp (show _ = 0 from h0) with h | h
        · omega
        · exact h
      exact List.length_eq_zero.mp this
    simp [hnil, bayer_malloc_null]
  · rw [if_neg h0]
    simp only [Option.getD_some]
    have hfold := convert_foldl flist.detail A (A + 32)
      (fun b p => decode_detail ((b.drop p).take (A + 32)) 0 A) detail_of
      (fun e => (e.file.length + 1 ≤ A ∧ ∀ c ∈ e.file, c ≠ 0) ∧ fields_in_range e)
      (fun b p e hfit hg => by
        obtain ⟨h1, h2, h3, h4⟩ := convert_elem_detail flist.detail hdetail A b p e hfit hg
        refine ⟨h1, h2, h3, ?_⟩
        intro b' hb'
        have hd := h4 (List.replicate p 0 ++ (b'.drop p).take (A + 32)) (by
          intro a ha1 ha2
          rw [List.getElem?_append_right (by simp; omega)]
          simp only [List.length_replicate]
          rw [List.getElem?_take_of_lt (by omega), List.getElem?_drop, ← hb' a ha1 ha2]
          congr 1; omega)
        rw [decode_detail_drop] at hd
        rw [← hd]
        rw [List.drop_append_of_le_length (by simp)]
        simp)
      (list_elems flist)
      (List.map raw (List.range ((A + 32) * (list_elems flist).length))) 0
      (by simp) hgood
    simp only [Nat.zero_add] at hfold
    refine ⟨?_, hfold.2.2⟩
    rw [hfold.1]
    simp [Nat.mul_comm]

/-- The packed items of a detailed shard: one per record, each of
`chars + 32` bytes with the end of its path inside, joined they are the
packed buffer, and each decodes to its record. -/
theorem packed_items_detail (world : List flist_t) (flist : flist_t) (raw : Nat → Nat)
    (hmem : flist ∈ world) (hdetail : flist.detail ≠ 0)
    (hnul : ∀ e ∈ list_elems flist, ∀ c ∈ e.file, c ≠ 0)
    (hrange : ∀ e ∈ list_elems flist, fields_in_range e)
    (hA : 0 < MPI_Allreduce_max (world.map list_local_max8)) :
    (packed_items world flist raw).length = (list_elems flist).length ∧
    (packed_items world flist raw).flatten = (list_convert_to_dt world flist raw).buf.getD [] ∧
    (∀ fr ∈ packed_items world flist raw,
      fr.length = MPI_Allreduce_max (world.map list_local_max8) + 32 ∧
        (bayer_strdup fr).length < fr.length) ∧
    (packed_items world flist raw).map
      (fun fr => decode_detail fr 0 (MPI_Allreduce_max (world.map list_local_max8))) =
      (list_elems flist).map detail_of := by
  obtain ⟨_, hcount, hlen, hdec⟩ :=
    packed_detail_items world flist raw hmem hdetail hnul hrange hA
  have hchars := (convert_chars world flist raw).1
  have hgood := shard_fits world flist hmem _ hnul hrange
  unfold packed_items
  simp only
  rw [hchars, hcount, stattype_extent_detail flist.detail hdetail]
  generalize MPI_Allreduce_max (world.map list_local_max8) = A at *
  generalize (list_convert_to_dt world flist raw).buf.getD [] = B at *
  have hmap : ((List.range (list_elems flist).length).map
      fun i => (B.drop (i * (A + 32))).take (A + 32)).map (fun fr => decode_detail fr 0 A) =
      (list_elems flist).map detail_of := by
    rw [List.map_map]
    exact hdec
  refine ⟨by simp, chunks_flatten (A + 32) _ B hlen, ?_, hmap⟩
  intro fr hfr
  obtain ⟨i, hi, rfl⟩ := List.mem_map.mp hfr
  have hi' : i < (list_elems flist).length := List.mem_range.mp hi
  have hl := chunk_length (A + 32) _ B hlen i hi'
  refine ⟨hl, ?_⟩
  have h1 := congrArg (fun l => l[i]?) hdec
  simp only [List.getElem?_map, List.getElem?_range hi', List.getElem?_eq_getElem hi',
    Option.map_some', Option.some.injEq] at h1
  have h2 := congrArg Prod.fst h1
  simp only [decode_detail, detail_of, List.drop_zero] at h2
  rw [h2, hl]
  have := (hgood _ (List.getElem_mem hi')).1.1
  omega

theorem write_names_other (fh : cache_file) (disp rank : Nat) (hrank : rank ≠ 0)
    (items : buf_t) : (write_names fh disp rank items).1 = fh := by
  unfold write_names
  cases items.dt with
  | none => rfl
  | some dt => simp only [if_neg hrank]

/-- The displacement at which `write_cache_stat` comes to the file records
depends on the name tables alone. -/
theorem stat_files_disp_indep (r1 r2 : Nat) (f1 f2 : flist_t) (fh1 fh2 : cache_file)
    (hu : f1.users = f2.users) (hg : f1.groups = f2.groups) :
    write_cache_stat_files_disp r1 f1 fh1 = write_cache_stat_files_disp r2 f2 fh2 := by
  unfold write_cache_stat_files_disp
  simp only [write_names_disp]
  rw [hu, hg]

/-- What `bayer_flist_write_cache` does to the file on a participant
holding a detailed list: the write of its packed records at its record
offset, on rank 0 after the header and the name tables. -/
theorem write_cache_stat_step (world : List flist_t) (rank : Nat) (flist : flist_t)
    (raw : Nat → Nat) (raw_offset : Nat) (fh : cache_file) (dt : MPI_Datatype)
    (hdetail : flist.detail ≠ 0) (hdt : (list_convert_to_dt world flist raw).dt = some dt) :
    ∃ fh2 : cache_file, (rank ≠ 0 → fh2 = fh) ∧
      bayer_flist_write_cache world rank flist raw raw_offset fh =
        write_files fh2 (write_cache_stat_files_disp 0 flist cache_file_empty)
          (MPI_Type_get_extent dt)
          (write_offset_records (world.map fun f => (list_convert_to_dt world f raw).count)
            rank raw_offset)
          ((list_convert_to_dt world flist raw).buf.getD [])
          (list_convert_to_dt world flist raw).count := by
  unfold bayer_flist_write_cache
  rw [if_pos hdetail]
  refine ⟨(write_names
      (write_names
        (if rank = 0 then MPI_File_write_u64 fh 0
          [3, 0, 0, flist.users.count, flist.users.chars, flist.groups.count,
            flist.groups.chars, flist.total_files, (list_convert_to_dt world flist raw).chars]
         else fh) (0 + 9 * 8) rank flist.users).1
      (write_names
        (if rank = 0 then MPI_File_write_u64 fh 0
          [3, 0, 0, flist.users.count, flist.users.chars, flist.groups.count,
            flist.groups.chars, flist.total_files, (list_convert_to_dt world flist raw).chars]
         else fh) (0 + 9 * 8) rank flist.users).2 rank flist.groups).1, ?_, ?_⟩
  · intro hrank
    rw [write_names_other _ _ _ hrank, write_names_other _ _ _ hrank, if_neg hrank]
  · rw [stat_files_disp_indep 0 rank flist flist cache_file_empty
      (if rank = 0 then MPI_File_write_u64 fh 0
          [3, 0, 0, flist.users.count, flist.users.chars, flist.groups.count,
            flist.groups.chars, flist.total_files, (list_convert_to_dt world flist raw).chars]
         else fh) rfl rfl]
    unfold write_cache_stat write_cache_stat_files_disp
    simp only [hdt]

theorem foldl_steps_eq {α : Type} (G W : α → Nat → α) (l : List Nat)
    (h : ∀ r ∈ l, ∀ a, G a r = W a r) (a : α) : l.foldl G a = l.foldl W a := by
  induction l generalizing a with
  | nil => rfl
  | cons r rs ih =>
    simp only [List.foldl_cons]
    rw [h r (by simp) a]
    exact ih (fun x hx => h x (by simp [hx])) _

/-- The cache file that the participants holding detailed lists write
with `bayer_flist_write_cache` is, after what rank 0 writes before its
records, the collective write of their packed items at the record offsets
of the writers. -/
theorem write_cache_world_stat (f0 : flist_t) (rest : List flist_t) (raw : Nat → Nat)
    (raw_offset : Nat)
    (hdetail : ∀ f ∈ f0 :: rest, f.detail ≠ 0)
    (hnul : ∀ f ∈ f0 :: rest, ∀ e ∈ list_elems f, ∀ c ∈ e.file, c ≠ 0)
    (hrange : ∀ f ∈ f0 :: rest, ∀ e ∈ list_elems f, fields_in_range e)
    (htables : ∀ f ∈ rest, f.users = f0.users ∧ f.groups = f0.groups)
    (hA : 0 < MPI_Allreduce_max ((f0 :: rest).map list_local_max8)) :
    ∃ fh0 : cache_file,
      write_cache_world (f0 :: rest) raw raw_offset =
        write_files_all fh0 (write_cache_stat_files_disp 0 f0 cache_file_empty)
          (MPI_Allreduce_max ((f0 :: rest).map list_local_max8) + 32)
          ((f0 :: rest).map fun f => packed_items (f0 :: rest) f raw) raw_offset := by
  have hcounts : ((f0 :: rest).map fun f => (list_convert_to_dt (f0 :: rest) f raw).count) =
      ((f0 :: rest).map fun f => packed_items (f0 :: rest) f raw).map List.length := by
    rw [List.map_map]
    apply List.map_congr_left
    intro f hf
    obtain ⟨_, hc, _, _⟩ := packed_detail_items (f0 :: rest) f raw hf (hdetail f hf)
      (hnul f hf) (hrange f hf) hA
    obtain ⟨hl, _, _, _⟩ := packed_items_detail (f0 :: rest) f raw hf (hdetail f hf)
      (hnul f hf) (hrange f hf) hA
    simp only [Function.comp_apply]
    rw [hc, hl]
  have hstep : ∀ (r : Nat) (f : flist_t), (f0 :: rest)[r]? = some f → ∀ fh : cache_file,
      ∃ fh2 : cache_file, (r ≠ 0 → fh2 = fh) ∧
        bayer_flist_write_cache (f0 :: rest) r f raw raw_offset fh =
        write_files fh2 (write_cache_stat_files_disp 0 f0 cache_file_empty)
          (MPI_Allreduce_max ((f0 :: rest).map list_local_max8) + 32)
          (write_offset_records
            (((f0 :: rest).map fun f => packed_items (f0 :: rest) f raw).map List.length)
            r raw_offset)
          (((f0 :: rest).map fun f => packed_items (f0 :: rest) f raw).getD r []).flatten
          (((f0 :: rest).map fun f => packed_items (f0 :: rest) f raw).getD r []).length := by
    intro r f hr fh
    have hf : f ∈ f0 :: rest := List.mem_iff_getElem?.mpr ⟨r, hr⟩
    obtain ⟨hdt, hc, _, _⟩ := packed_detail_items (f0 :: rest) f raw hf (hdetail f hf)
      (hnul f hf) (hrange f hf) hA
    obtain ⟨hl, hfl, _, _⟩ := packed_items_detail (f0 :: rest) f raw hf (hdetail f hf)
      (hnul f hf) (hrange f hf) hA
    obtain ⟨fh2, h1, h2⟩ := write_cache_stat_step (f0 :: rest) r f raw raw_offset fh _
      (hdetail f hf) hdt
    refine ⟨fh2, h1, ?_⟩
    have hget : ((f0 :: rest).map fun f => packed_items (f0 :: rest) f raw).getD r [] =
        packed_items (f0 :: rest) f raw := by
      rw [List.getD_eq_getElem?_getD, List.getElem?_map, hr]; rfl
    have hD : write_cache_stat_files_disp 0 f cache_file_empty =
        write_cache_stat_files_disp 0 f0 cache_file_empty := by
      rcases List.mem_cons.mp hf with h | h
      · rw [h]
      · exact stat_files_disp_indep 0 0 f f0 _ _ (htables f h).1 (htables f h).2
    rw [hget, hfl, hl, ← hcounts, ← hD, ← hc,
      ← stattype_extent_detail f.detail (hdetail f hf)]
    exact h2
  obtain ⟨fh0, _, h0⟩ := hstep 0 f0 List.getElem?_cons_zero cache_file_empty
  refine ⟨fh0, ?_⟩
  unfold write_cache_world write_files_all
  rw [List.length_map, List.length_cons, List.range_succ_eq_map, List.foldl_cons,
    List.foldl_cons]
  simp only [List.getElem?_cons_zero]
  rw [h0]
  apply foldl_steps_eq
  intro r hr fh
  obtain ⟨k, hk, rfl⟩ := List.mem_map.mp hr
  have hk' : k < rest.length := List.mem_range.mp hk
  have hget : (f0 :: rest)[k + 1]? = some rest[k] := by
    rw [List.getElem?_cons_succ, List.getElem?_eq_getElem hk']
  obtain ⟨fh2, h1, h2⟩ := hstep (k + 1) rest[k] hget fh
  rw [h1 (by omega)] at h2
  simp only [Nat.succ_eq_add_one, hget]
  exact h2

theorem cache_version_stat (f0 : flist_t) (rest : List flist_t) (raw : Nat → Nat)
    (raw_offset : Nat) (hd : f0.detail ≠ 0) :
    cache_version (write_cache_world (f0 :: rest) raw raw_offset) = 3 := by
  have hw := write_cache_world_words f0 rest raw raw_offset
  unfold bayer_flist_write_cache at hw
  rw [if_pos hd, write_cache_stat_words, if_pos rfl] at hw
  unfold cache_version
  rw [MPI_File_read_u64_congr _ _ hw]
  rfl

/-- The reader of a cache written from detailed lists comes to the file
records where the writers put them. -/
theorem files_disp_of_world (f0 : flist_t) (rest : List flist_t) (raw : Nat → Nat)
    (raw_offset : Nat) (flist : flist_t) (hd : f0.detail ≠ 0) (hu : table_ok f0.users)
    (hg : table_ok f0.groups) :
    read_cache_v3_files_disp (write_cache_world (f0 :: rest) raw raw_offset)
      read_cache_start flist = write_cache_stat_files_disp 0 f0 cache_file_empty := by
  have hhead := read_header_v3_of_world f0 rest raw raw_offset hd
  unfold read_cache_v3_files_disp write_cache_stat_files_disp
  simp only [hhead, List.getD_cons_zero, List.getD_cons_succ]
  generalize write_cache_world (f0 :: rest) raw raw_offset = fw
  have h1 := names_disp_agree fw cache_file_empty (read_cache_start + 8 * 8) 0 f0.users
    { buf := flist.users.buf, count := f0.users.count, chars := f0.users.chars,
      dt := flist.users.dt } hu rfl rfl
  have e1 : (write_names cache_file_empty (read_cache_start + 8 * 8) 0 f0.users) =
      (write_names cache_file_empty (0 + 9 * 8) 0 f0.users) := rfl
  rw [e1] at h1
  rw [h1.1]
  have h2 := names_disp_agree fw (write_names cache_file_empty (0 + 9 * 8) 0 f0.users).1
    (write_names cache_file_empty (0 + 9 * 8) 0 f0.users).2 0 f0.groups
    { buf := flist.groups.buf, count := f0.groups.count, chars := f0.groups.chars,
      dt := flist.groups.dt } hg rfl rfl
  rw [h2.1]

theorem list_elems_congr (f g : flist_t) (h1 : f.heap = g.heap)
    (h2 : f.list_head = g.list_head) : list_elems f = list_elems g := by
  unfold list_elems
  rw [h1, h2]

/-- The records that `read_cache_v3` leaves in a new list: those decoded
from the buffer it reads at its record offset, none when the header has
no record or no stride. -/
theorem read_cache_v3_elems (fh : cache_file) (disp rank ranks raw_offset : Nat)
    (raw_list : flist_t) :
    (list_elems (read_cache_v3 fh disp rank ranks raw_offset (bayer_flist_new raw_list)).1).map
        detail_of =
      if (MPI_File_read_u64 fh disp 8).getD 6 0 > 0 ∧ (MPI_File_read_u64 fh disp 8).getD 7 0 > 0
      then
        (List.range (read_count ((MPI_File_read_u64 fh disp 8).getD 6 0) ranks rank)).map
          (fun i => decode_detail
            (read_files fh (read_cache_v3_files_disp fh disp (bayer_flist_new raw_list))
              ((MPI_File_read_u64 fh disp 8).getD 7 0 + 32)
              (read_offset_records ((MPI_File_read_u64 fh disp 8).getD 6 0) ranks rank raw_offset)
              (read_count ((MPI_File_read_u64 fh disp 8).getD 6 0) ranks rank))
            (i * ((MPI_File_read_u64 fh disp 8).getD 7 0 + 32))
            ((MPI_File_read_u64 fh disp 8).getD 7 0))
      else [] := by
  have hext := stattype_extent_detail 1 (by decide) ((MPI_File_read_u64 fh disp 8).getD 7 0)
  have key : list_elems
      (read_cache_v3 fh disp rank ranks raw_offset (bayer_flist_new raw_list)).1 =
      list_elems
        (if (MPI_File_read_u64 fh disp 8).getD 6 0 > 0 ∧
            (MPI_File_read_u64 fh disp 8).getD 7 0 > 0 then
          read_v3_insert
            (read_files fh (read_cache_v3_files_disp fh disp (bayer_flist_new raw_list))
              (MPI_Type_get_extent (create_stattype 1 ((MPI_File_read_u64 fh disp 8).getD 7 0)))
              (read_offset_records ((MPI_File_read_u64 fh disp 8).getD 6 0) ranks rank
                raw_offset)
              (read_count ((MPI_File_read_u64 fh disp 8).getD 6 0) ranks rank))
            ((MPI_File_read_u64 fh disp 8).getD 7 0)
            (MPI_Type_get_extent (create_stattype 1 ((MPI_File_read_u64 fh disp 8).getD 7 0)))
            (read_count ((MPI_File_read_u64 fh disp 8).getD 6 0) ranks rank) 0
            { bayer_flist_new raw_list with
              detail := 1
              users := (read_names fh (disp + 8 * 8)
                { (bayer_flist_new raw_list).users with
                  count := (MPI_File_read_u64 fh disp 8).getD 2 0
                  chars := (MPI_File_read_u64 fh disp 8).getD 3 0 }).1
              groups := (read_names fh
                (read_names fh (disp + 8 * 8)
                  { (bayer_flist_new raw_list).users with
                    count := (MPI_File_read_u64 fh disp 8).getD 2 0
                    chars := (MPI_File_read_u64 fh disp 8).getD 3 0 }).2
                { (bayer_flist_new raw_list).groups with
                  count := (MPI_File_read_u64 fh disp 8).getD 4 0
                  chars := (MPI_File_read_u64 fh disp 8).getD 5 0 }).1 }
         else bayer_flist_new raw_list) := by
    apply list_elems_congr
    · unfold read_cache_v3
      simp only
      split_ifs <;> rfl
    · unfold read_cache_v3
      simp only
      split_ifs <;> rfl
  rw [key, hext]
  by_cases hc : (MPI_File_read_u64 fh disp 8).getD 6 0 > 0 ∧
      (MPI_File_read_u64 fh disp 8).getD 7 0 > 0
  · rw [if_pos hc, if_pos hc]
    obtain ⟨hok, hmap⟩ := read_v3_insert_spec
      (read_files fh (read_cache_v3_files_disp fh disp (bayer_flist_new raw_list))
        ((MPI_File_read_u64 fh disp 8).getD 7 0 + 32)
        (read_offset_records ((MPI_File_read_u64 fh disp 8).getD 6 0) ranks rank raw_offset)
        (read_count ((MPI_File_read_u64 fh disp 8).getD 6 0) ranks rank))
      ((MPI_File_read_u64 fh disp 8).getD 7 0)
      ((MPI_File_read_u64 fh disp 8).getD 7 0 + 32)
      (read_count ((MPI_File_read_u64 fh disp 8).getD 6 0) ranks rank) 0
      { bayer_flist_new raw_list with
        detail := 1
        users := (read_names fh (disp + 8 * 8)
          { (bayer_flist_new raw_list).users with
            count := (MPI_File_read_u64 fh disp 8).getD 2 0
            chars := (MPI_File_read_u64 fh disp 8).getD 3 0 }).1
        groups := (read_names fh
          (read_names fh (disp + 8 * 8)
            { (bayer_flist_new raw_list).users with
              count := (MPI_File_read_u64 fh disp 8).getD 2 0
              chars := (MPI_File_read_u64 fh disp 8).getD 3 0 }).2
          { (bayer_flist_new raw_list).groups with
            count := (MPI_File_read_u64 fh disp 8).getD 4 0
            chars := (MPI_File_read_u64 fh disp 8).getD 5 0 }).1 }
      (list_ok_new raw_list)
    rw [list_elems_of_ok _ hok]
    simp only [Nat.zero_add] at hmap
    exact hmap
  · rw [if_neg hc, if_neg hc, list_elems_new]
    rfl

theorem read_count_zero (ranks rank : Nat) : read_count 0 ranks rank = 0 := by
  unfold read_count
  simp

/-- The record range of a reading participant lies within the total. -/
theorem read_range_fits (N ranks r raw : Nat) (hranks : 1 ≤ ranks) (hr : r < ranks) :
    read_offset_records N ranks r raw + read_count N ranks r ≤ N := by
  rw [read_offset_records_eq]
  have hlen : ((List.range ranks).map (read_count N ranks)).length = ranks := by simp
  have h1 := List.sum_take_succ ((List.range ranks).map (read_count N ranks)) r
    (by rw [hlen]; exact hr)
  simp only [List.getElem_map, List.getElem_range] at h1
  have h3 : (((List.range ranks).map (read_count N ranks)).take (r + 1)).sum ≤
      ((List.range ranks).map (read_count N ranks)).sum :=
    List.Sublist.sum_le_sum (List.take_sublist _ _) (fun _ _ => Nat.zero_le _)
  rw [read_count_sum N ranks hranks] at h3
  omega

theorem world_elems_length (world : List flist_t) (hok : ∀ f ∈ world, list_ok f) :
    (world.flatMap list_elems).length = MPI_Allreduce_sum (world.map bayer_flist_size) := by
  unfold MPI_Allreduce_sum
  induction world with
  | nil => rfl
  | cons f fs ih =>
    rw [List.flatMap_cons, List.length_append, List.map_cons, List.sum_cons,
      ih (fun x hx => hok x (by simp [hx])), list_elems_of_ok f (hok f (by simp))]
    have := (hok f (by simp)).1
    unfold bayer_flist_size
    omega

theorem world_elems_nil (world : List flist_t)
    (hA : MPI_Allreduce_max (world.map list_local_max8) = 0) :
    world.flatMap list_elems = [] := by
  rw [List.flatMap_eq_nil_iff]
  intro f hf
  cases hl : list_elems f with
  | nil => rfl
  | cons e es =>
    have := stride_fits world f hf e (by rw [hl]; simp)
    omega

/-- The packed items of all participants of a world of detailed lists, in
rank order: each has `chars + 32` bytes with the end of its path inside,
and decoded one by one they are the records of the world in rank order. -/
theorem world_items_detail (world : List flist_t) (raw : Nat → Nat)
    (hdetail : ∀ f ∈ world, f.detail ≠ 0)
    (hnul : ∀ f ∈ world, ∀ e ∈ list_elems f, ∀ c ∈ e.file, c ≠ 0)
    (hrange : ∀ f ∈ world, ∀ e ∈ list_elems f, fields_in_range e)
    (hA : 0 < MPI_Allreduce_max (world.map list_local_max8)) :
    (∀ s ∈ world.map (fun f => packed_items world f raw), ∀ fr ∈ s,
      fr.length = MPI_Allreduce_max (world.map list_local_max8) + 32 ∧
        (bayer_strdup fr).length < fr.length) ∧
    (world.map fun f => packed_items world f raw).flatten.map
      (fun fr => decode_detail fr 0 (MPI_Allreduce_max (world.map list_local_max8))) =
      (world.flatMap list_elems).map detail_of := by
  constructor
  · intro s hs fr hfr
    obtain ⟨f, hf, rfl⟩ := List.mem_map.mp hs
    exact (packed_items_detail world f raw hf (hdetail f hf) (hnul f hf) (hrange f hf) hA).2.2.1
      fr hfr
  · rw [List.flatMap_def, List.map_flatten, List.map_flatten, List.map_map, List.map_map]
    congr 1
    apply List.map_congr_left
    intro f hf
    exact (packed_items_detail world f raw hf (hdetail f hf) (hnul f hf) (hrange f hf) hA).2.2.2

/-- A cache written from detailed lists that carry their total, read by
participant `r` of `ranks`: the participant holds the records of its
range of the global sequence, in order. -/
theorem stat_cache_read_rank (f0 : flist_t) (rest : List flist_t) (raw : Nat → Nat)
    (raw_offset ranks r read_raw_offset : Nat) (raw_list : flist_t) (raw_elems : Nat → elem_t)
    (hranks : 1 ≤ ranks) (hr : r < ranks)
    (hdetail : ∀ f ∈ f0 :: rest, f.detail ≠ 0)
    (hok : ∀ f ∈ f0 :: rest, list_ok f)
    (hnul : ∀ f ∈ f0 :: rest, ∀ e ∈ list_elems f, ∀ c ∈ e.file, c ≠ 0)
    (hrange : ∀ f ∈ f0 :: rest, ∀ e ∈ list_elems f, fields_in_range e)
    (htables : ∀ f ∈ rest, f.users = f0.users ∧ f.groups = f0.groups)
    (hu : table_ok f0.users) (hg : table_ok f0.groups)
    (htotal : f0.total_files = MPI_Allreduce_sum ((f0 :: rest).map bayer_flist_size)) :
    bayer_flist_read_cache (some (write_cache_world (f0 :: rest) raw raw_offset)) r ranks
        raw_list read_raw_offset raw_elems =
      some (read_cache_v3 (write_cache_world (f0 :: rest) raw raw_offset) read_cache_start r
        ranks read_raw_offset (bayer_flist_new raw_list)).1 ∧
    (list_elems (read_cache_v3 (write_cache_world (f0 :: rest) raw raw_offset) read_cache_start
        r ranks read_raw_offset (bayer_flist_new raw_list)).1).map detail_of =
      ((((f0 :: rest).flatMap list_elems).map detail_of).drop
        (read_offset_records (MPI_Allreduce_sum ((f0 :: rest).map bayer_flist_size)) ranks r
          read_raw_offset)).take
        (read_count (MPI_Allreduce_sum ((f0 :: rest).map bayer_flist_size)) ranks r) := by
  have hd0 : f0.detail ≠ 0 := hdetail f0 (by simp)
  constructor
  · unfold bayer_flist_read_cache
    simp only [cache_version_stat f0 rest raw raw_offset hd0]
    rfl
  · rw [read_cache_v3_elems, read_header_v3_of_world f0 rest raw raw_offset hd0]
    simp only [List.getD_cons_zero, List.getD_cons_succ]
    rw [(convert_chars (f0 :: rest) f0 raw).1, htotal,
      files_disp_of_world f0 rest raw raw_offset _ hd0 hu hg]
    have hlenE := world_elems_length (f0 :: rest) hok
    generalize hN : MPI_Allreduce_sum ((f0 :: rest).map bayer_flist_size) = N at hlenE ⊢
    by_cases hc : N > 0 ∧ MPI_Allreduce_max ((f0 :: rest).map list_local_max8) > 0
    · rw [if_pos hc]
      obtain ⟨fh0, hw⟩ := write_cache_world_stat f0 rest raw raw_offset hdetail hnul hrange
        htables hc.2
      obtain ⟨hW, hFE⟩ := world_items_detail (f0 :: rest) raw hdetail hnul hrange hc.2
      rw [hw]
      generalize MPI_Allreduce_max ((f0 :: rest).map list_local_max8) = A at hc hW hFE ⊢
      generalize ((f0 :: rest).map fun f => packed_items (f0 :: rest) f raw) = shards
        at hW hFE ⊢
      have hF := write_files_all_items fh0 (write_cache_stat_files_disp 0 f0 cache_file_empty)
        (A + 32) shards raw_offset (by omega) (fun s hs fr hfr => (hW s hs fr hfr).1)
      have hlenF : shards.flatten.length = N := by
        have := congrArg List.length hFE
        simp only [List.length_map] at this
        omega
      have hfit := read_range_fits N ranks r read_raw_offset hranks hr
      rw [MPI_File_read_at_window _ _ (A + 32) shards.flatten hF _ _ (by omega)]
      have hWlen : ((shards.flatten.drop (read_offset_records N ranks r read_raw_offset)).take
          (read_count N ranks r)).length = read_count N ranks r := by
        rw [List.length_take, List.length_drop]
        omega
      have hwin := decode_detail_window A
        ((shards.flatten.drop (read_offset_records N ranks r read_raw_offset)).take
          (read_count N ranks r))
        (fun fr hfr => by
          have h1 := List.mem_of_mem_drop (List.mem_of_mem_take hfr)
          obtain ⟨s, hs, hfs⟩ := List.mem_flatten.mp h1
          exact hW s hs fr hfs)
      rw [hWlen] at hwin
      rw [hwin, List.map_take, List.map_drop, hFE]
    · rw [if_neg hc]
      by_cases hN0 : N = 0
      · rw [hN0, read_count_zero, List.take_zero]
      · have hA : MPI_Allreduce_max ((f0 :: rest).map list_local_max8) = 0 := by omega
        rw [world_elems_nil _ hA]
        simp

/-- Writing and reading back, for detailed lists that carry their total as
a walk leaves it (`total_files` the sum of the record counts), uniform
name tables as `get_users` and `get_groups` make them, and NUL-free paths:
`bayer_flist_read_cache` on every one of `ranks ≥ 1` participants returns
a list, and the records of these lists, concatenated by rank, are the
records of the lists written with `bayer_flist_write_cache`, concatenated
by rank. -/
theorem stat_cache_read_back (f0 : flist_t) (rest : List flist_t) (raw : Nat → Nat)
    (raw_offset ranks read_raw_offset : Nat) (raw_list : flist_t) (raw_elems : Nat → elem_t)
    (hranks : 1 ≤ ranks)
    (hdetail : ∀ f ∈ f0 :: rest, f.detail ≠ 0)
    (hok : ∀ f ∈ f0 :: rest, list_ok f)
    (hnul : ∀ f ∈ f0 :: rest, ∀ e ∈ list_elems f, ∀ c ∈ e.file, c ≠ 0)
    (hrange : ∀ f ∈ f0 :: rest, ∀ e ∈ list_elems f, fields_in_range e)
    (htables : ∀ f ∈ rest, f.users = f0.users ∧ f.groups = f0.groups)
    (hu : table_ok f0.users) (hg : table_ok f0.groups)
    (htotal : f0.total_files = MPI_Allreduce_sum ((f0 :: rest).map bayer_flist_size)) :
    ((List.range ranks).filterMap fun r =>
      bayer_flist_read_cache (some (write_cache_world (f0 :: rest) raw raw_offset)) r ranks
        raw_list read_raw_offset raw_elems).length = ranks ∧
    (((List.range ranks).filterMap fun r =>
      bayer_flist_read_cache (some (write_cache_world (f0 :: rest) raw raw_offset)) r ranks
        raw_list read_raw_offset raw_elems).flatMap fun fl => (list_elems fl).map detail_of) =
      ((f0 :: rest).flatMap list_elems).map detail_of := by
  have hrank := fun r hr => stat_cache_read_rank f0 rest raw raw_offset ranks r read_raw_offset
    raw_list raw_elems hranks hr hdetail hok hnul hrange htables hu hg htotal
  have hfm : ((List.range ranks).filterMap fun r =>
      bayer_flist_read_cache (some (write_cache_world (f0 :: rest) raw raw_offset)) r ranks
        raw_list read_raw_offset raw_elems) =
      (List.range ranks).map fun r =>
        (read_cache_v3 (write_cache_world (f0 :: rest) raw raw_offset) read_cache_start r
          ranks read_raw_offset (bayer_flist_new raw_list)).1 := by
    rw [← List.filterMap_eq_map]
    apply List.filterMap_congr
    intro r hr
    exact (hrank r (List.mem_range.mp hr)).1
  rw [hfm]
  refine ⟨by simp, ?_⟩
  have hlenE := world_elems_length (f0 :: rest) hok
  generalize MPI_Allreduce_sum ((f0 :: rest).map bayer_flist_size) = N at hrank hlenE
  rw [List.flatMap_def, List.map_map]
  have hwin : ∀ r ∈ List.range ranks,
      ((fun fl => (list_elems fl).map detail_of) ∘ fun r =>
        (read_cache_v3 (write_cache_world (f0 :: rest) raw raw_offset) read_cache_start r
          ranks read_raw_offset (bayer_flist_new raw_list)).1) r =
      ((((f0 :: rest).flatMap list_elems).map detail_of).drop
        (((List.range ranks).map (read_count N ranks)).take r).sum).take
        (((List.range ranks).map (read_count N ranks)).getD r 0) := by
    intro r hr
    have hr' : r < ranks := List.mem_range.mp hr
    have hcnt : ((List.range ranks).map (read_count N ranks)).getD r 0 =
        read_count N ranks r := by
      rw [List.getD_eq_getElem?_getD, List.getElem?_map, List.getElem?_range hr']; rfl
    rw [hcnt, ← read_offset_records_eq N ranks r read_raw_offset]
    exact (hrank r hr').2
  have htake : ((List.range ranks).map (read_count N ranks)).take ranks =
      (List.range ranks).map (read_count N ranks) :=
    List.take_of_length_le (by simp)
  rw [List.map_congr_left hwin, ← List.flatMap_def,
    split_by_counts _ _ ranks (by simp), htake, read_count_sum N ranks hranks,
    List.take_of_length_le (by rw [List.length_map, hlenE])]

/-- The statement of `stat_cache_read_back` for the tiny tree held by two
participants with a user and a group table, read by three. -/
theorem stat_cache_read_back_witness :
    (1 ≤ 3 ∧
      (∀ f ∈ sample_shard_stride4 :: [sample_shard1_stride4], f.detail ≠ 0) ∧
      (∀ f ∈ sample_shard_stride4 :: [sample_shard1_stride4], list_ok f) ∧
      (∀ f ∈ sample_shard_stride4 :: [sample_shard1_stride4],
        ∀ e ∈ list_elems f, ∀ c ∈ e.file, c ≠ 0) ∧
      (∀ f ∈ sample_shard_stride4 :: [sample_shard1_stride4],
        ∀ e ∈ list_elems f, fields_in_range e) ∧
      (∀ f ∈ [sample_shard1_stride4],
        f.users = sample_shard_stride4.users ∧ f.groups = sample_shard_stride4.groups) ∧
      table_ok sample_shard_stride4.users ∧ table_ok sample_shard_stride4.groups ∧
      sample_shard_stride4.total_files =
        MPI_Allreduce_sum
          ((sample_shard_stride4 :: [sample_shard1_stride4]).map bayer_flist_size)) ∧
    (((List.range 3).filterMap fun r =>
      bayer_flist_read_cache
        (some (write_cache_world (sample_shard_stride4 :: [sample_shard1_stride4])
          sample_raw_bytes 99)) r 3 sample_raw_list 77 (fun _ => sample_raw_elem)).length = 3 ∧
    (((List.range 3).filterMap fun r =>
      bayer_flist_read_cache
        (some (write_cache_world (sample_shard_stride4 :: [sample_shard1_stride4])
          sample_raw_bytes 99)) r 3 sample_raw_list 77 (fun _ => sample_raw_elem)).flatMap
        fun fl => (list_elems fl).map detail_of) =
      ((sample_shard_stride4 :: [sample_shard1_stride4]).flatMap list_elems).map detail_of) :=
  ⟨⟨by decide, by decide, by decide, by decide, by decide, by decide, by decide, by decide,
      by decide⟩,
    stat_cache_read_back sample_shard_stride4 [sample_shard1_stride4] sample_raw_bytes 99 3 77
      sample_raw_list (fun _ => sample_raw_elem) (by decide) (by decide) (by decide)
      (by decide) (by decide) (by decide) (by decide) (by decide) (by decide)⟩

/-- The records that the three readers of that cache hold, computed: 2, 1
and 1 of the 4 records, in the order of the writers. -/
theorem stat_cache_read_back_sample :
    ((List.range 3).map fun r =>
      (bayer_flist_read_cache
        (some (write_cache_world (sample_shard_stride4 :: [sample_shard1_stride4])
          sample_raw_bytes 99)) r 3 sample_raw_list 77 (fun _ => sample_raw_elem)).map
        fun fl => (list_elems fl).map fun e => e.file) =
      [some [path_t, path_t_a], some [path_t_b], some [path_t_b_c]] := by
  decide

/-! ## A list that was read, written again (C3) -/

/-- C3: two participants write the four records of the tiny tree from
lists whose total is 4, as a walk leaves it; three participants read the
cache and hold the records in the global order, 2, 1 and 1 of them, with
a global size of 0 each. They write their lists again, at the record
offsets 0, 2 and 3: the file holds the four records at the record
positions 0 to 3 in rank order, under a header whose total is 0, and two
participants reading that cache get no record at all, so the
concatenation of the shards read is not that of the shards written. -/
theorem write_after_read_loses_records :
    MPI_File_read_u64 sample_cache_v3 0 9 = [3, 0, 0, 0, 0, 0, 0, 4, 8] ∧
    sample_world_read.map (fun f => (list_elems f).map fun e => e.file) =
      [[path_t, path_t_a], [path_t_b], [path_t_b_c]] ∧
    (sample_world_read.flatMap list_elems).map record_fields =
      (sample_world.flatMap list_elems).map record_fields ∧
    sample_world_read.map bayer_flist_size = [2, 1, 1] ∧
    sample_world_read.map bayer_flist_global_size = [0, 0, 0] ∧
    (List.range 3).map (fun r =>
      write_offset_records (sample_world_read.map bayer_flist_size) r 99) = [0, 2, 3] ∧
    MPI_File_read_u64 sample_cache_rewritten 0 9 = [3, 0, 0, 0, 0, 0, 0, 0, 8] ∧
    (List.range 4).map (fun g =>
      (sample_cache_rewritten.items (72 + g * 40)).map fun fr =>
        record_fields (elem_of_ptr fr 0 8)) =
        (sample_world_read.flatMap list_elems).map (fun e => some (record_fields e)) ∧
    (List.range 2).map (fun r =>
      (bayer_flist_read_cache (some sample_cache_rewritten) r 2 sample_raw_list 99
        (fun _ => sample_raw_elem)).map fun f => (list_elems f).map record_fields) =
      [some [], some []] := by
  refine ⟨by decide, by decide, by decide, by decide, by decide, by decide, by decide,
    by decide, by decide⟩

end BayerFlist
